import Mathlib

/-!
# min-cat: the cat behaviour engine

A shallow embedding of `src/utilities/actionfactory.js`, of the action-queue
runtime, the planner, the observer and schemas of `src/entities/cat.js`, of
`src/utilities/vector.js`, `projectile.js`, `rectangle.js` and `bresenham.js`,
and of `physics(dt)` of `src/world.js`, followed by the properties proved
about them.

Conventions of the embedding

* JavaScript numbers are elements of a linearly ordered field `K` (exact
  arithmetic, no NaN); every definition is computable when `K` is, e.g. `K = ℚ`.
* A JavaScript function value is first-order data (`Fn`): a function
  expression of the source (its code) wrapped in the `bind` calls applied to it.
  What a code does when called is given by an environment (`Env.sem`).
* A method that can throw returns a `Res`: the value or the error, and in both
  cases the state of the cat at that point.
* A loop whose end is not plain from its shape takes a bound `fuel` on its
  passes and yields `none` when the bound is reached.
-/

namespace MinCat

set_option linter.unusedSectionVars false

/-! ## JavaScript values -/

/-- A JavaScript error object, identified by its `name` property. -/
structure JsError where
  name : String
  deriving DecidableEq, Repr

/-- The error thrown by the runtime when a property of `undefined` or `null` is
read, or when something that is not a function is called. -/
def JsError.typeError : JsError := ⟨"TypeError"⟩

/-- A function value: `raw code` is a function expression of the source,
`bound target thisArg args` is the value of `target.bind(thisArg, ...args)`.
The `thisArg` is `none` for `null`. -/
inductive Fn (F A V : Type) where
  | raw (code : F)
  | bound (target : Fn F A V) (thisArg : Option A) (args : List V)
  deriving DecidableEq, Repr

/-- A call that reaches a function expression: the code that runs, its `this`
and its argument list. -/
structure Call (F A V : Type) where
  code : F
  this : Option A
  args : List V
  deriving DecidableEq, Repr

namespace Fn

variable {F A V : Type}

/-- The value of `f.bind(thisArg, ...args)`. -/
def bind (f : Fn F A V) (thisArg : Option A) (args : List V) : Fn F A V :=
  .bound f thisArg args

/-- Calling a function value with a `this` and arguments: a bound function
ignores the caller's `this` and puts its bound arguments first. -/
def call : Fn F A V → Option A → List V → Call F A V
  | .raw c, t, xs => ⟨c, t, xs⟩
  | .bound f t as, _, xs => call f t (as ++ xs)

end Fn

/-! ## Action (`src/utilities/actionfactory.js`) -/

/-- An `Action` object. Its fields `condition` and `update` may hold `null`
(`none`). The constructor `Action.mk label execute condition update` takes its
arguments in the order of the JavaScript constructor. -/
structure Action (F A V : Type) where
  label : String
  execute : Fn F A V
  condition : Option (Fn F A V)
  update : Option (Fn F A V)
  deriving DecidableEq, Repr

namespace Action

variable {F A V : Type}

/-- Method `args_execute(args)`: `this.execute = this.execute.bind(null, ...args)`. -/
def args_execute (a : Action F A V) (args : List V) : Action F A V :=
  { a with execute := a.execute.bind none args }

/-- Method `args_condition(args)`: throws when `this.condition` is `null`. -/
def args_condition (a : Action F A V) (args : List V) : Except JsError (Action F A V) :=
  match a.condition with
  | some c => .ok { a with condition := some (c.bind none args) }
  | none => .error JsError.typeError

/-- Method `args_update(args)`: throws when `this.update` is `null`. -/
def args_update (a : Action F A V) (args : List V) : Except JsError (Action F A V) :=
  match a.update with
  | some u => .ok { a with update := some (u.bind none args) }
  | none => .error JsError.typeError

/-- Method `copy()`: `new Action(this.label, this.execute, this.update, this.condition)`. -/
def copy (a : Action F A V) : Action F A V :=
  Action.mk a.label a.execute a.update a.condition

end Action

/-! ## ActionFactory, by value -/

/-- What reading `this.schemas[label]` yields: nothing, a property inherited
from `Object.prototype` (the container is created by the literal for an empty
object), or a stored schema. -/
inductive Slot (α : Type) where
  | undefined
  | inherited
  | own (a : α)
  deriving DecidableEq, Repr

/-- The property names every object literal inherits from `Object.prototype`. -/
def objectPrototypeKeys : List String :=
  ["constructor", "__defineGetter__", "__defineSetter__", "hasOwnProperty",
   "__lookupGetter__", "__lookupSetter__", "isPrototypeOf", "propertyIsEnumerable",
   "toString", "valueOf", "__proto__", "toLocaleString"]

/-- Own property lookup in a container kept as a list of key and value pairs. -/
def ownProperty {α : Type} (label : String) : List (String × α) → Option α
  | [] => none
  | (k, v) :: rest => if k = label then some v else ownProperty label rest

/-- Property read `container[label]`. -/
def readProperty {α : Type} (props : List (String × α)) (label : String) : Slot α :=
  match ownProperty label props with
  | some a => .own a
  | none => if label ∈ objectPrototypeKeys then .inherited else .undefined

/-- Statement `delete container[label]`. -/
def deleteProperty {α : Type} (props : List (String × α)) (label : String) :
    List (String × α) :=
  props.filter (fun p => decide (p.1 ≠ label))

/-- An `ActionFactory`: its schema container, the stored schemas as values. -/
structure ActionFactory (F A V : Type) where
  schemas : List (String × Action F A V)
  deriving DecidableEq, Repr

namespace ActionFactory

variable {F A V : Type}

/-- The constructor: `this.schemas = {}`. -/
def new : ActionFactory F A V := ⟨[]⟩

/-- Method `register(self, label, execute, condition, update = null)`. The
three functions are bound to `self`; the schema is stored only when
`this.schemas[label]` is `undefined` (operator `??=`). The source passes the
bound update as the constructor's third argument and the bound condition as
its fourth. -/
def register (f : ActionFactory F A V) (self : A) (label : String)
    (execute condition : Fn F A V) (update : Option (Fn F A V)) : ActionFactory F A V :=
  let bound_execute := execute.bind (some self) []
  let bound_condition := condition.bind (some self) []
  let bound_update := update.map (fun u => u.bind (some self) [])
  match readProperty f.schemas label with
  | .undefined =>
      ⟨f.schemas ++ [(label, Action.mk label bound_execute bound_update (some bound_condition))]⟩
  | _ => f

/-- Method `deregister(label)`. -/
def deregister (f : ActionFactory F A V) (label : String) : ActionFactory F A V :=
  ⟨deleteProperty f.schemas label⟩

/-- Method `generate(label, args_execute = null, args_condition = null,
args_update = null)`; an argument `none` is `null`. Reading `copy` from
`undefined`, or calling the missing `copy` of an inherited property, throws a
`TypeError`. -/
def generate (f : ActionFactory F A V) (label : String)
    (args_execute args_condition args_update : Option (List V)) :
    Except JsError (Action F A V) :=
  match readProperty f.schemas label with
  | .own schema =>
      let action := schema.copy
      let action :=
        match args_execute with
        | some args => action.args_execute args
        | none => action
      match (match args_condition with
             | some args => action.args_condition args
             | none => .ok action) with
      | .error e => .error e
      | .ok action =>
          match args_update, action.update with
          | some args, some _ => action.args_update args
          | _, _ => .ok action
  | _ => .error JsError.typeError

end ActionFactory

/-! ## ActionFactory, by reference

The same three methods with object identity kept: every `Action` object lives
at an address of a heap, the schema container holds addresses, and the
`args_*` methods overwrite a field of the object at an address. Here a
mutation of a stored schema through a generated action is expressible. -/

/-- The objects of one factory: `heap` lists every `Action` object created so
far (an address is a position in it), `schemas` maps a label to an address. -/
structure Store (F A V : Type) where
  heap : List (Action F A V)
  schemas : List (String × Nat)
  deriving DecidableEq, Repr

namespace Store

variable {F A V : Type}

/-- Expression `new Action(...)`: a fresh object, at the next free address. -/
def alloc (s : Store F A V) (a : Action F A V) : Store F A V × Nat :=
  (⟨s.heap ++ [a], s.schemas⟩, s.heap.length)

/-- A method call that overwrites fields of the object at `addr`. -/
def mutate (s : Store F A V) (addr : Nat)
    (method : Action F A V → Except JsError (Action F A V)) : Except JsError (Store F A V) :=
  match s.heap[addr]? with
  | none => .error JsError.typeError
  | some a =>
      match method a with
      | .ok b => .ok ⟨s.heap.set addr b, s.schemas⟩
      | .error e => .error e

/-- The constructor: `this.schemas = {}`, nothing allocated. -/
def new : Store F A V := ⟨[], []⟩

/-- Method `register`, storing the address of the schema it creates. -/
def register (s : Store F A V) (self : A) (label : String)
    (execute condition : Fn F A V) (update : Option (Fn F A V)) : Store F A V :=
  let bound_execute := execute.bind (some self) []
  let bound_condition := condition.bind (some self) []
  let bound_update := update.map (fun u => u.bind (some self) [])
  match readProperty s.schemas label with
  | .undefined =>
      let r := s.alloc (Action.mk label bound_execute bound_update (some bound_condition))
      ⟨r.1.heap, r.1.schemas ++ [(label, r.2)]⟩
  | _ => s

/-- Method `deregister`. -/
def deregister (s : Store F A V) (label : String) : Store F A V :=
  ⟨s.heap, deleteProperty s.schemas label⟩

/-- Method `generate`: `copy()` allocates the new action, the `args_*` calls
then overwrite the fields of the object at that address; the address of the
action is returned. -/
def generate (s : Store F A V) (label : String)
    (args_execute args_condition args_update : Option (List V)) :
    Except JsError (Store F A V × Nat) :=
  match readProperty s.schemas label with
  | .own schemaAddr =>
      match s.heap[schemaAddr]? with
      | none => .error JsError.typeError
      | some schema =>
          let r := s.alloc schema.copy
          let action := r.2
          match (match args_execute with
                 | some args => r.1.mutate action (fun a => .ok (a.args_execute args))
                 | none => .ok r.1) with
          | .error e => .error e
          | .ok s2 =>
              match (match args_condition with
                     | some args => s2.mutate action (fun a => a.args_condition args)
                     | none => .ok s2) with
              | .error e => .error e
              | .ok s3 =>
                  match args_update, (s3.heap[action]?).bind (fun a => a.update) with
                  | some args, some _ =>
                      match s3.mutate action (fun a => a.args_update args) with
                      | .ok s4 => .ok (s4, action)
                      | .error e => .error e
                  | _, _ => .ok (s3, action)
  | _ => .error JsError.typeError

/-- The factory by value that a store represents: each label with the current
contents of its schema object. -/
def view (s : Store F A V) : ActionFactory F A V :=
  ⟨s.schemas.filterMap (fun p => (s.heap[p.2]?).map (fun a => (p.1, a)))⟩

end Store

/-! ## State and results of the cat (`src/entities/cat.js`) -/

/-- Outcome of a method on a mutable state: it returned `val`, or it threw
`err`; `state` is the state of the object at that point in both cases. -/
inductive Res (σ α : Type) where
  | ok (val : α) (state : σ)
  | threw (err : JsError) (state : σ)

/-- The state in which a method left the object. -/
def Res.state {σ α : Type} : Res σ α → σ
  | .ok _ s => s
  | .threw _ s => s

/-- A method body: a function from the state before to the outcome. -/
def Js (σ α : Type) : Type := σ → Res σ α

/-- Sequencing of statements: a throw ends the sequence. -/
def Js.andThen {σ α β : Type} (m : Js σ α) (f : α → Js σ β) : Js σ β :=
  fun s =>
    match m s with
    | .ok a t => f a t
    | .threw e t => .threw e t

instance jsMonad {σ : Type} : Monad (Js σ) where
  pure a := fun s => .ok a s
  bind m f := Js.andThen m f

/-- A two dimensional vector. -/
structure Vec (K : Type) where
  x : K
  y : K

/-- The info objects `observe.player` and `observe.predict`. -/
structure Target (K : Type) where
  toy : String
  pos : Vec K
  rel : Vec K
  abs : Vec K
  dis : K
  vel : Vec K

/-- The info object of one wall, `observe.boundary.left` and so on. -/
structure Wall (K : Type) where
  id : String
  pos : Vec K
  rel : Vec K
  abs : Vec K
  dis : K
  hit : Bool

/-- The object `observe.self`: how many labels of the history contain each keyword. -/
structure Counts where
  sit : Nat
  idle : Nat
  walk : Nat
  run : Nat
  sneak : Nat
  attack : Nat
  wait : Nat
  crouch : Nat
  jump : Nat
  land : Nat
  hang : Nat
  climb : Nat

/-- The object `observe.boundary`. -/
structure Boundary (K : Type) where
  left : Wall K
  right : Wall K
  top : Wall K
  bottom : Wall K

/-- The observation snapshot as `look()` leaves it. -/
structure Observe (K : Type) where
  self : Counts
  player : Target K
  predict : Target K
  boundary : Boundary K

/-- A reference to one of the info objects of the snapshot; actions hold such
references, and read the object afresh at every call. -/
inductive Ref where
  | player
  | predict
  | left
  | right
  | top
  | bottom
  deriving DecidableEq, Repr

/-- Field `pos` of the info object a reference points to. -/
def Observe.pos {K : Type} (o : Observe K) : Ref → Vec K
  | .player => o.player.pos
  | .predict => o.predict.pos
  | .left => o.boundary.left.pos
  | .right => o.boundary.right.pos
  | .top => o.boundary.top.pos
  | .bottom => o.boundary.bottom.pos

/-- Field `abs` of the info object a reference points to. -/
def Observe.abs {K : Type} (o : Observe K) : Ref → Vec K
  | .player => o.player.abs
  | .predict => o.predict.abs
  | .left => o.boundary.left.abs
  | .right => o.boundary.right.abs
  | .top => o.boundary.top.abs
  | .bottom => o.boundary.bottom.abs

/-- The values passed to actions as arguments. -/
inductive Val (K : Type) where
  | undefined
  | info (r : Ref)
  | num (x : K)
  | str (s : String)
  | bool (b : Bool)

/-- Which of the three functions of a schema. -/
inductive Part where
  | execute
  | condition
  | update
  deriving DecidableEq, Repr

/-- A function expression of `register_actions`: the one registered under
`label` as its execute, condition or update. Other labels name stub functions. -/
structure Code where
  label : String
  part : Part
  deriving DecidableEq, Repr

/-- The object the schemas are bound to: the cat. -/
inductive Agent where
  | cat
  deriving DecidableEq, Repr

/-- An action of the cat. -/
abbrev Act (K : Type) : Type := Action Code Agent (Val K)

/-- The object `speeds`. -/
structure Speeds (K : Type) where
  run : K
  walk : K
  sneak : K
  jump : K
  min : K
  climb : K

/-- The entry `INITIAL` of the cat's configuration. -/
structure Initial (K : Type) where
  state : String
  action : String
  position : Vec K
  velocity : Vec K
  acceleration : Vec K

/-- The entry `CONFIG.CAT`. -/
structure Config (K : Type) where
  RUN_SPEED : K
  WALK_SPEED : K
  SNEAK_SPEED : K
  JUMP_SPEED : K
  CLIMB_SPEED : K
  INITIAL : Initial K

/-- The cat. `queue`, `history`, `elapsed` and `factory` are the fields of
`this.actions`; a queue slot `none` holds `undefined`. `own_elapsed` is the
property `this.elapsed` of the cat itself (`none` while it is not set).
`world` is everything else the cat reaches: the physics, sprite and audio of
its `Entity` part and the player. -/
structure Cat (K W : Type) where
  difficulty : ℤ
  observe : Observe K
  speeds : Speeds K
  factory : ActionFactory Code Agent (Val K)
  queue : List (Option (Act K))
  history : List String
  elapsed : K
  own_elapsed : Option K
  world : W

/-- A reference that is `null`, `undefined` or an object. -/
inductive JsRef (α : Type) where
  | null
  | undefined
  | obj (a : α)

/-- What the cat calls but `cat.js` does not define: the meaning of the
function expressions held by actions (`sem` gives the truthiness of the value
returned and the state left), `Observe.look` as a function of the cat, and the
setters of the `Entity` part. -/
structure Env (K W : Type) where
  sem : Call Code Agent (Val K) → Js (Cat K W) Bool
  look : Cat K W → Observe K
  set_state : String → W → W
  set_position : Vec K → W → W
  set_velocity : Vec K → W → W
  set_acceleration : Vec K → W → W

/-- A call the runtime makes itself during one `logic(dt)`. -/
inductive Ev (K : Type) where
  | look
  | plan
  | condition (a : Act K)
  | execute (a : Act K)
  | update (a : Act K)

/-- The loop `while (this.actions.history.length > 7) this.actions.history.pop()`. -/
def evict (history : List String) : List String :=
  if 7 < history.length then evict history.dropLast else history
termination_by history.length
decreasing_by
  simp_wf
  omega

namespace Cat

variable {K W : Type} [LinearOrderedField K]

/-- One call `this.actions.factory.register(this, label, function, function
[, function])` of `register_actions`; `hasUpdate` tells whether the call gives
an update function. -/
def register_schema (label : String) (hasUpdate : Bool)
    (f : ActionFactory Code Agent (Val K)) : ActionFactory Code Agent (Val K) :=
  f.register Agent.cat label (Fn.raw ⟨label, Part.execute⟩) (Fn.raw ⟨label, Part.condition⟩)
    (if hasUpdate then some (Fn.raw ⟨label, Part.update⟩) else none)

/-- Method `register_actions()`: the fifteen calls of `register`, in order. -/
def register_actions (f : ActionFactory Code Agent (Val K)) :
    ActionFactory Code Agent (Val K) :=
  let f := register_schema "sit" false f
  let f := register_schema "idle" false f
  let f := register_schema "wait" true f
  let f := register_schema "attack" false f
  let f := register_schema "walk" true f
  let f := register_schema "run" true f
  let f := register_schema "run-to" false f
  let f := register_schema "sneak" true f
  let f := register_schema "crouch" false f
  let f := register_schema "jump" true f
  let f := register_schema "wall-jump" true f
  let f := register_schema "land" false f
  let f := register_schema "hang" false f
  let f := register_schema "climb" true f
  register_schema "climb-to" false f

/-- The constructor. The `Entity` part (`world`) and the snapshot objects,
which the source leaves empty until the first `look()`, are given. -/
def new (config : Config K) (observe : Observe K) (world : W) : Cat K W :=
  { difficulty := 0
    observe := observe
    speeds := ⟨config.RUN_SPEED, config.WALK_SPEED, config.SNEAK_SPEED, config.JUMP_SPEED,
      config.JUMP_SPEED / 10, config.CLIMB_SPEED⟩
    factory := register_actions ActionFactory.new
    queue := []
    history := [config.INITIAL.action]
    elapsed := 0
    own_elapsed := none
    world := world }

/-- Method `set_difficulty(level)`: `Math.min(2, Math.max(0, level))`. -/
def set_difficulty (level : ℤ) (c : Cat K W) : Cat K W :=
  { c with difficulty := min 2 (max 0 level) }

/-- Method `current_action()`: `queue[0]` when the queue has a slot, else `null`. -/
def current_action (c : Cat K W) : JsRef (Act K) :=
  match c.queue with
  | [] => .null
  | none :: _ => .undefined
  | some a :: _ => .obj a

/-- Method `next_action()`. On an empty queue `shift()` yields `undefined` and
reading its `label` throws; a slot holding `undefined` is shifted out before
the throw. -/
def next_action : Js (Cat K W) (JsRef (Act K)) := fun c =>
  match c.queue with
  | [] => .threw JsError.typeError c
  | none :: rest => .threw JsError.typeError { c with queue := rest }
  | some action_previous :: rest =>
      let c1 := { c with queue := rest, history := evict (action_previous.label :: c.history) }
      .ok c1.current_action c1

/-- Method `enqueue_action(label, args_execute, args_condition, args_update)`. -/
def enqueue_action (label : String) (args_execute args_condition args_update :
    Option (List (Val K))) : Js (Cat K W) Unit := fun c =>
  match c.factory.generate label args_execute args_condition args_update with
  | .ok action => .ok () { c with queue := c.queue ++ [some action] }
  | .error e => .threw e c

/-- Calling a function held by an action, as in `action.execute()`: no
arguments, and a `this` that is not the agent. -/
def invoke (env : Env K W) (f : Fn Code Agent (Val K)) : Js (Cat K W) Bool :=
  env.sem (f.call none [])

/-- Assignment `this.actions.queue[0] = action`. -/
def set_first (action : Act K) : List (Option (Act K)) → List (Option (Act K))
  | [] => [some action]
  | _ :: rest => some action :: rest

/-- Method `change_current_action(label, args_execute, args_condition, args_update)`. -/
def change_current_action (env : Env K W) (label : String)
    (args_execute args_condition args_update : Option (List (Val K))) :
    Js (Cat K W) Unit := fun c =>
  match c.factory.generate label args_execute args_condition args_update with
  | .error e => .threw e c
  | .ok action =>
      match invoke env action.execute { c with queue := set_first action c.queue } with
      | .ok _ s => .ok () s
      | .threw e s => .threw e s

/-- Method `clear_future_actions()`: `this.actions.queue = [this.actions.queue[0]]`. -/
def clear_future_actions (c : Cat K W) : Cat K W :=
  { c with queue := [c.queue.head?.join] }

/-- Method `reset()`, that is `reset(config.INITIAL)`. It writes `this.elapsed`. -/
def reset (env : Env K W) (initial : Initial K) (c : Cat K W) : Cat K W :=
  { c with
    difficulty := 0
    queue := []
    history := [initial.action]
    own_elapsed := some 0
    world := env.set_acceleration initial.acceleration
      (env.set_velocity initial.velocity
        (env.set_position initial.position (env.set_state initial.state c.world))) }

end Cat

/-! ## Behaviours and planner -/

/-- Subtraction of numbers, `none` being NaN. -/
def jsSub {K : Type} [Sub K] : Option K → Option K → Option K
  | some a, some b => some (a - b)
  | _, _ => none

/-- Function `Math.abs`, `none` being NaN. -/
def jsAbs {K : Type} [Neg K] [Max K] : Option K → Option K
  | some a => some (max a (-a))
  | none => none

/-- Comparison `<` of numbers: false when a side is NaN. -/
def jsLt {K : Type} [LT K] [DecidableRel (fun a b : K => a < b)] : Option K → Option K → Bool
  | some a, some b => decide (a < b)
  | _, _ => false

/-- One call `this.do_...(...)` of `plan()`, with its arguments. The last
argument of `aerial` is `none` where the call leaves it out. -/
inductive Behaviour where
  | relax (target : Ref)
  | chase (target : Ref)
  | pounce (target : Ref) (skip : Bool) (flag : String) (bool : Bool)
  | trick (target : Ref) (flag : String) (bool : Bool)
  | suspense (target : Ref) (flag : String) (bool : Bool)
  | attack (target : Ref)
  | sneak (target : Ref)
  | hang (target : Ref) (flag : String)
  | bounce (target : Ref) (flag : String)
  | climb (target : Ref)
  | aerial (target : Ref) (flag : String) (bool : Option Bool)
  | hops (target : Ref) (skip : Bool) (flag_0 flag_1 flag_2 : String)
  deriving DecidableEq, Repr

namespace Cat

variable {K W : Type} [LinearOrderedField K]

/-- Behaviour `do_relax(target)`. -/
def do_relax (target : Ref) : Js (Cat K W) Unit := fun c =>
  if !c.observe.boundary.bottom.hit &&
      (c.observe.boundary.left.hit || c.observe.boundary.right.hit) then
    enqueue_action "hang" none (some [.info target, .num 1000, .num 0, .num 0]) none c
  else
    (do
      enqueue_action "sit" (some [.info target])
        (some [.info target, .num 1000, .num 500, .num 100]) none
      enqueue_action "idle" (some [.info target])
        (some [.info target, .num 1000, .num 500, .num 100]) none) c

/-- Behaviour `do_sit(target)`. -/
def do_sit (target : Ref) : Js (Cat K W) Unit :=
  enqueue_action "sit" (some [.info target])
    (some [.info target, .num 3000, .num 2000, .num 40]) none

/-- Behaviour `do_chase(target)`. -/
def do_chase (target : Ref) : Js (Cat K W) Unit := do
  enqueue_action "run" (some [.info target])
    (some [.info target, .num 6000, .num 30]) (some [.info target])
  enqueue_action "walk" (some [.info target])
    (some [.info target, .num 6000, .num 0, .num 10, .num 30]) (some [.info target])

/-- Behaviour `do_pounce(target, skip, flag, bool)`. -/
def do_pounce (target : Ref) (skip : Bool) (flag : String) (bool : Bool) :
    Js (Cat K W) Unit := do
  if !skip then
    enqueue_action "crouch" (some [.info target]) none none
  enqueue_action "jump" (some [.info target, .str flag]) (some [.bool bool]) none
  enqueue_action "land" none none none

/-- Behaviour `do_trick(target, flag, bool)`; `r` is the value drawn by
`Math.random()`. -/
def do_trick (r : K) (target : Ref) (flag : String) (bool : Bool) : Js (Cat K W) Unit := do
  let delay := r * 2500
  enqueue_action "crouch" (some [.info target]) none none
  enqueue_action "wait" (some [.info target]) (some [.num delay]) (some [.info target])
  enqueue_action "sit" (some [.info Ref.player])
    (some [.info Ref.player, .num 2000, .num 1500, .num 50]) none
  enqueue_action "jump" (some [.info target, .str flag]) (some [.bool bool]) none
  enqueue_action "land" none none none

/-- Behaviour `do_suspense(target, flag, bool)`; `r` is the value drawn by
`Math.random()`. -/
def do_suspense (r : K) (target : Ref) (flag : String) (bool : Bool) :
    Js (Cat K W) Unit := do
  let delay := r * 5000
  enqueue_action "crouch" (some [.info target]) none none
  enqueue_action "wait" (some [.info target]) (some [.num delay]) (some [.info target])
  enqueue_action "jump" (some [.info target, .str flag]) (some [.bool bool]) none
  enqueue_action "land" none none none

/-- Behaviour `do_attack(target)`. -/
def do_attack (target : Ref) : Js (Cat K W) Unit := do
  enqueue_action "run" (some [.info target])
    (some [.info target, .num 10000, .num 15]) (some [.info target])
  enqueue_action "attack" (some [.info target]) none none

/-- Behaviour `do_sneak(target)`. -/
def do_sneak (target : Ref) : Js (Cat K W) Unit :=
  enqueue_action "sneak" (some [.info target])
    (some [.info target, .num 6000, .num 4000, .num 15, .num 40]) (some [.info target])

/-- Behaviour `do_hang(target, flag)`. -/
def do_hang (target : Ref) (flag : String) : Js (Cat K W) Unit := fun c =>
  let relative_left := |(c.observe.pos target).x - c.observe.boundary.left.pos.x|
  let relative_right := |(c.observe.pos target).x - c.observe.boundary.right.pos.x|
  let wall := if relative_left < relative_right then Ref.left else Ref.right
  let x :=
    if relative_left < relative_right then c.observe.boundary.left.pos.x + 50
    else c.observe.boundary.right.pos.x - 50
  (do
    enqueue_action "run-to" (some [.num x]) (some [.num x, .num 6000, .num 5]) none
    enqueue_action "crouch" (some [.info wall]) none none
    enqueue_action "jump" (some [.info wall, .str flag]) (some [.bool true]) none
    enqueue_action "land" none none none) c

/-- Behaviour `do_bounce(target, flag)`. The source reads
`this.observe.boundary.left.x` and `this.observe.boundary.right.x`; a wall
object has no property `x`, so both are `undefined` and the two differences
are NaN. -/
def do_bounce (target : Ref) (flag : String) : Js (Cat K W) Unit := fun c =>
  let relative_left := jsAbs (jsSub (some (c.observe.pos target).x) none)
  let relative_right := jsAbs (jsSub (some (c.observe.pos target).x) none)
  let wall := if jsLt relative_left relative_right then Ref.left else Ref.right
  let x :=
    if jsLt relative_left relative_right then c.observe.boundary.left.pos.x + 50
    else c.observe.boundary.right.pos.x - 50
  (do
    enqueue_action "run-to" (some [.num x]) (some [.num x, .num 6000, .num 5]) none
    enqueue_action "crouch" (some [.info wall]) none none
    enqueue_action "jump" (some [.info wall, .str flag]) (some [.bool false]) none
    enqueue_action "land" none none none) c

/-- Behaviour `do_climb(target)`. -/
def do_climb (target : Ref) : Js (Cat K W) Unit :=
  enqueue_action "climb" (some [.info target])
    (some [.info target, .num 6000, .num 10]) (some [.info target])

/-- Behaviour `do_aerial(target, flag, bool)`; `bool` is `none` when the
caller leaves it out. -/
def do_aerial (target : Ref) (flag : String) (bool : Option Bool) : Js (Cat K W) Unit := do
  if bool = some true then
    enqueue_action "hang" none (some [.info target, .num 500, .num 0, .num 0]) none
  enqueue_action "wall-jump" (some [.info target, .str flag]) none none
  enqueue_action "land" none none none

/-- Behaviour `do_hops(target, skip, flag_0, flag_1, flag_2)`. -/
def do_hops (target : Ref) (skip : Bool) (flag_0 flag_1 flag_2 : String) :
    Js (Cat K W) Unit := do
  do_pounce target skip flag_0 false
  do_pounce target false flag_1 false
  do_pounce target false flag_2 false

/-- Running the call a `Behaviour` stands for; `r` is what `Math.random()`
yields inside `do_trick` and `do_suspense`. -/
def do_behaviour (r : K) : Behaviour → Js (Cat K W) Unit
  | .relax t => do_relax t
  | .chase t => do_chase t
  | .pounce t skip flag bool => do_pounce t skip flag bool
  | .trick t flag bool => do_trick r t flag bool
  | .suspense t flag bool => do_suspense r t flag bool
  | .attack t => do_attack t
  | .sneak t => do_sneak t
  | .hang t flag => do_hang t flag
  | .bounce t flag => do_bounce t flag
  | .climb t => do_climb t
  | .aerial t flag bool => do_aerial t flag bool
  | .hops t skip f0 f1 f2 => do_hops t skip f0 f1 f2

end Cat

/-- Statement `switch (this.difficulty)` with its arms `case 0`, `case 1`,
`case 2` and `default`. -/
def switch_difficulty {α : Type} (difficulty : ℤ) (case_0 case_1 case_2 default : α) : α :=
  if difficulty = 0 then case_0
  else if difficulty = 1 then case_1
  else if difficulty = 2 then case_2
  else default

/-- The three zones of a difficulty arm: `if (rel.y < 20) ... else if
(rel.y < 70) ... else ...`. -/
def zones {K α : Type} [LinearOrderedField K] (rel : Vec K) (zone_1 zone_2 zone_3 : α) : α :=
  if rel.y < 20 then zone_1 else if rel.y < 70 then zone_2 else zone_3

namespace Cat

variable {K W : Type} [LinearOrderedField K]

/-- Arm `case "sit": case "idle":` of `plan()`. -/
def plan_sit_idle (chance : K) (c : Cat K W) : Behaviour :=
  let player := c.observe.player
  let predict := c.observe.predict
  switch_difficulty c.difficulty
    (zones player.rel
      (if player.rel.x < 75 then .attack .player else .chase .player)
      (if player.rel.x < 100 then .pounce .player false "low" false else .chase .player)
      (if player.rel.x < 100 then .pounce .player false "low" false else .chase .player))
    (zones predict.rel
      (if predict.rel.x < 125 then
        (if c.observe.self.wait = 0 then .trick .player "low" false else .attack .player)
       else .chase .player)
      (if chance < 7 / 10 then .hang .player "low"
       else if predict.rel.x < 100 then .suspense .player "low" true
       else .bounce .player "low")
      (if predict.rel.x < 100 then .pounce .player false "low" false else .chase .player))
    (zones predict.rel
      (if predict.rel.x < 75 then .attack .predict else .chase .predict)
      (if chance < 7 / 10 then .bounce .predict "low"
       else if predict.rel.x < 100 then .suspense .predict "min" false
       else .chase .predict)
      (if predict.rel.x < 100 then .pounce .predict false "low" false
       else .hops .predict false "low" "low" "low"))
    (.hops .predict false "low" "low" "low")

/-- Arm `case "walk": case "run":` of `plan()`. -/
def plan_walk_run (chance : K) (c : Cat K W) : Behaviour :=
  let player := c.observe.player
  let predict := c.observe.predict
  switch_difficulty c.difficulty
    (zones player.rel
      (if player.rel.x < 50 then .sneak .player else .chase .player)
      (if chance < 7 / 10 then .hang .player "low"
       else if player.rel.x < 50 then .sneak .player
       else .pounce .player false "low" true)
      (if player.rel.x < 100 then .pounce .player false "low" false
       else .bounce .player "low"))
    (zones predict.rel
      (if predict.rel.x < 75 then .attack .player else .chase .player)
      (if chance < 7 / 10 then .hang .player "low"
       else if predict.rel.x < 50 then .sneak .player
       else .suspense .player "low" true)
      (if predict.rel.x < 100 then .trick .player "low" true
       else .hops .player false "low" "low" "low"))
    (zones predict.rel
      (if predict.rel.x < 50 then .sneak .predict else .chase .predict)
      (if chance < 7 / 10 then .hang .predict "low"
       else if predict.rel.x < 100 then .pounce .predict false "low" false
       else .trick .predict "low" false)
      (if predict.rel.x < 100 then .suspense .predict "min" false
       else .hops .predict false "low" "low" "low"))
    (.hops .predict false "low" "low" "low")

/-- Arm `case "sneak": case "attack":` of `plan()`. -/
def plan_sneak_attack (chance : K) (c : Cat K W) : Behaviour :=
  let player := c.observe.player
  let predict := c.observe.predict
  switch_difficulty c.difficulty
    (zones player.rel
      (if player.rel.x < 80 then .pounce .player true "low" true else .chase .player)
      (if chance < 7 / 10 then .hang .player "low"
       else if player.rel.x < 100 then .pounce .player true "low" true
       else .bounce .player "low")
      (if player.rel.x < 100 then .pounce .player true "low" false else .chase .player))
    (zones predict.rel
      (if predict.rel.x < 75 then .relax .player else .bounce .player "low")
      (if chance < 7 / 10 then .hops .player true "low" "low" "low"
       else if predict.rel.x < 100 then .pounce .player true "low" true
       else .suspense .player "low" true)
      (if predict.rel.x < 100 then .pounce .player true "low" false else .chase .player))
    (zones predict.rel
      (if predict.rel.x < 100 then .suspense .predict "low" false else .chase .predict)
      (if chance < 7 / 10 then .hang .predict "low"
       else if predict.rel.x < 100 then .pounce .predict true "low" true
       else .hops .predict true "low" "low" "low")
      (if predict.rel.x < 100 then .trick .predict "min" false
       else .pounce .predict true "low" false))
    (.relax .player)

/-- Arm `case "land":` of `plan()`. -/
def plan_land (c : Cat K W) : Behaviour :=
  let player := c.observe.player
  let predict := c.observe.predict
  switch_difficulty c.difficulty
    (zones player.rel
      (if player.rel.x < 100 then .relax .player else .chase .player)
      (if player.rel.x < 100 then
        (if c.observe.self.hang = 0 then .hang .player "low"
         else .pounce .player false "low" false)
       else .chase .player)
      (if player.rel.x < 100 then .pounce .player false "low" false else .chase .player))
    (zones predict.rel
      (if predict.rel.x < 50 then .sneak .player else .chase .player)
      (if predict.rel.x < 100 then
        (if c.observe.self.hang = 0 then .hang .player "low"
         else .pounce .player false "low" false)
       else .chase .player)
      (if predict.rel.x < 100 then .pounce .player false "low" false
       else .hops .player false "low" "low" "low"))
    (zones predict.rel
      (if predict.rel.x < 75 then .attack .predict else .relax .predict)
      (if predict.rel.x < 100 then
        (if c.observe.self.hang = 0 then .hang .predict "low"
         else .pounce .predict false "low" false)
       else .chase .predict)
      (if predict.rel.x < 100 then .pounce .predict false "low" false
       else .hops .predict false "low" "low" "low"))
    (.hops .predict false "low" "low" "low")

/-- Arm `case "hang":` of `plan()`. -/
def plan_hang (chance : K) (c : Cat K W) : Behaviour :=
  let player := c.observe.player
  switch_difficulty c.difficulty
    (if player.toy = "mouse" ∧ chance < 7 / 10 then .aerial .player "low" (some false)
     else if player.abs.y < 20 then .aerial .player "low" (some false)
     else .climb .player)
    (if player.toy = "mouse" ∧ chance < 8 / 10 then .aerial .player "low" (some false)
     else if player.abs.y < 20 then .aerial .player "low" (some false)
     else .climb .player)
    (if player.toy = "mouse" ∧ chance < 9 / 10 then .aerial .predict "min" (some false)
     else if player.abs.y < 20 then .aerial .predict "low" (some false)
     else .climb .predict)
    (.aerial .predict "low" none)

/-- Arm `case "climb":` of `plan()`. -/
def plan_climb (c : Cat K W) : Behaviour :=
  switch_difficulty c.difficulty
    (.aerial .player "low" (some true))
    (.aerial .predict "low" (some true))
    (.aerial .predict "low" (some true))
    (.aerial .predict "low" (some true))

/-- Expression `this.actions.history[0] || "none"`. -/
def recent_action (c : Cat K W) : String :=
  match c.history with
  | [] => "none"
  | label :: _ => if label = "" then "none" else label

/-- The decision table of `plan()`: the behaviour it calls, given the value
`chance` drawn by `Math.random()`. -/
def plan_behaviour (chance : K) (c : Cat K W) : Behaviour :=
  match recent_action c with
  | "sit" => plan_sit_idle chance c
  | "idle" => plan_sit_idle chance c
  | "walk" => plan_walk_run chance c
  | "run" => plan_walk_run chance c
  | "sneak" => plan_sneak_attack chance c
  | "attack" => plan_sneak_attack chance c
  | "wait" => .hops .predict false "low" "low" "low"
  | "crouch" => .hops .predict false "low" "low" "low"
  | "jump" => .relax .player
  | "land" => plan_land c
  | "hang" => plan_hang chance c
  | "climb" => plan_climb c
  | _ => .relax .player

/-- Method `plan()`; `chance` and `r` are the values `Math.random()` yields,
first in `plan()` itself, then in the behaviour called (if it draws one). -/
def plan (chance r : K) : Js (Cat K W) Unit := fun c =>
  do_behaviour r (plan_behaviour chance c) c

/-- Condition of the schema `run`: `function (target, max_t, min_x)` returning
`this.actions.elapsed >= max_t || target.abs.x <= min_x`. -/
def run_condition (c : Cat K W) (target : Ref) (max_t min_x : K) : Bool :=
  decide (max_t ≤ c.elapsed) || decide ((c.observe.abs target).x ≤ min_x)

/-- What a call that reaches a function expression of `register_actions` does,
for the expressions embedded so far and arguments of the types their bodies
expect (further arguments are ignored); `none` elsewhere. -/
def schema_sem (call : Call Code Agent (Val K)) (c : Cat K W) : Option (Res (Cat K W) Bool) :=
  match call.code.label, call.code.part, call.this, call.args with
  | "run", .condition, some .cat, .info target :: .num max_t :: .num min_x :: _ =>
      some (.ok (run_condition c target max_t min_x) c)
  | _, _, _, _ => none

/-- Statements `this.plan(); this.actions.queue[0].execute();` of `logic`,
with the calls made. -/
def plan_execute (env : Env K W) (chance r : K) (c : Cat K W) :
    List (Ev K) × Res (Cat K W) Unit :=
  match plan chance r c with
  | .threw e s => ([Ev.plan], .threw e s)
  | .ok _ s =>
      match s.queue with
      | some first :: _ =>
          ([Ev.plan, Ev.execute first],
            match invoke env first.execute s with
            | .ok _ t => .ok () t
            | .threw e t => .threw e t)
      | _ => ([Ev.plan], .threw JsError.typeError s)

/-- The first two statements of `logic(dt)`: `this.actions.elapsed += dt;
this.observe.look();`. -/
def tick (env : Env K W) (dt : K) (c : Cat K W) : Cat K W :=
  let c1 := { c with elapsed := c.elapsed + dt }
  { c1 with observe := env.look c1 }

/-- Method `logic(dt)`, with the calls it makes itself, in order; `chance` and
`r` are the values `Math.random()` yields if `plan()` is reached. -/
def logic (env : Env K W) (dt chance r : K) (c : Cat K W) :
    List (Ev K) × Res (Cat K W) Unit :=
  let c2 := tick env dt c
  match current_action c2 with
  | .null =>
      let p := plan_execute env chance r c2
      (Ev.look :: p.1, p.2)
  | .undefined => ([Ev.look], .threw JsError.typeError c2)
  | .obj action =>
      match action.condition with
      | none => ([Ev.look], .threw JsError.typeError c2)
      | some condition =>
          match invoke env condition c2 with
          | .threw e s => ([Ev.look, Ev.condition action], .threw e s)
          | .ok true s =>
              match next_action { s with elapsed := 0 } with
              | .threw e t => ([Ev.look, Ev.condition action], .threw e t)
              | .ok .null t =>
                  let p := plan_execute env chance r t
                  (Ev.look :: Ev.condition action :: p.1, p.2)
              | .ok .undefined t =>
                  ([Ev.look, Ev.condition action], .threw JsError.typeError t)
              | .ok (.obj next) t =>
                  ([Ev.look, Ev.condition action, Ev.execute next],
                    match invoke env next.execute t with
                    | .ok _ u => .ok () u
                    | .threw e u => .threw e u)
          | .ok false s =>
              match action.update with
              | some update =>
                  ([Ev.look, Ev.condition action, Ev.update action],
                    match invoke env update s with
                    | .ok _ t => .ok () t
                    | .threw e t => .threw e t)
              | none => ([Ev.look, Ev.condition action], .ok () s)

end Cat

/-- The factories a program can build: `new ActionFactory()` followed by calls
of `register` and `deregister`. -/
inductive ActionFactory.Built {F A V : Type} : ActionFactory F A V → Prop where
  | new : Built ActionFactory.new
  | register {f : ActionFactory F A V} (self : A) (label : String)
      (execute condition : Fn F A V) (update : Option (Fn F A V)) :
      Built f → Built (f.register self label execute condition update)
  | deregister {f : ActionFactory F A V} (label : String) :
      Built f → Built (f.deregister label)

/-- A small factory for examples: one schema `sit` without update, its
functions named by strings. -/
def Example.sitFactory : ActionFactory String Unit Nat :=
  ActionFactory.new.register () "sit" (Fn.raw "sit_execute") (Fn.raw "sit_condition") none

/-- A small store for examples: one schema `sit` without update, at address 0. -/
def Example.sitStore : Store String Unit Nat :=
  Store.new.register () "sit" (Fn.raw "sit_execute") (Fn.raw "sit_condition") none

/-- A method that, on a cat holding the schemas of `register_actions`, returns
normally and does nothing but push generated actions on the queue, at least
`lo` and at most `hi` of them. -/
def Cat.Appends {K W : Type} [LinearOrderedField K] (m : Js (Cat K W) Unit) (lo hi : ℕ) : Prop :=
  ∀ c : Cat K W, c.factory = Cat.register_actions ActionFactory.new →
    ∃ acts : List (Act K), lo ≤ acts.length ∧ acts.length ≤ hi ∧
      m c = .ok () { c with queue := c.queue ++ acts.map some }

/-- The labels registered by `register_actions`, each with whether its schema
has an update function. -/
def Cat.registered_labels : List (String × Bool) :=
  [("sit", false), ("idle", false), ("wait", true), ("attack", false), ("walk", true),
   ("run", true), ("run-to", false), ("sneak", true), ("crouch", false), ("jump", true),
   ("wall-jump", true), ("land", false), ("hang", false), ("climb", true),
   ("climb-to", false)]

/-- The entry `register_actions` stores for a label: the schema with its three
functions bound to the cat (the bound condition sits in the field `update`). -/
def Cat.schema_entry (K : Type) (p : String × Bool) : String × Act K :=
  (p.1, Action.mk p.1 (Fn.bound (Fn.raw ⟨p.1, Part.execute⟩) (some Agent.cat) [])
    (if p.2 then some (Fn.bound (Fn.raw ⟨p.1, Part.update⟩) (some Agent.cat) []) else none)
    (some (Fn.bound (Fn.raw ⟨p.1, Part.condition⟩) (some Agent.cat) [])))

/-- The function expressions of the environment never write `actions.history`. -/
def Env.KeepsHistory {K W : Type} (env : Env K W) : Prop :=
  ∀ call c, (env.sem call c).state.history = c.history

/-- The function expressions of the environment never write `difficulty`. -/
def Env.KeepsDifficulty {K W : Type} (env : Env K W) : Prop :=
  ∀ call c, (env.sem call c).state.difficulty = c.difficulty

/-- Calling the function `f` of an action in state `s` returns normally, with
a value of truthiness `result`, and leaves the queue, the history and the
elapsed time of `this.actions` as they are. -/
def Env.Untouched {K W : Type} [LinearOrderedField K] (env : Env K W)
    (f : Fn Code Agent (Val K)) (s : Cat K W) (result : Bool) : Prop :=
  ∃ t, Cat.invoke env f s = .ok result t ∧
    t.queue = s.queue ∧ t.history = s.history ∧ t.elapsed = s.elapsed

/-- The states of a cat built from `config`: the constructor, then any calls
of `logic`, `next_action`, `reset` and `set_difficulty`, whether they return
or throw. -/
inductive Cat.Reachable {K W : Type} [LinearOrderedField K] (env : Env K W) (config : Config K) :
    Cat K W → Prop where
  | new (observe : Observe K) (world : W) : Reachable env config (Cat.new config observe world)
  | logic {c : Cat K W} (dt chance r : K) :
      Reachable env config c → Reachable env config (Cat.logic env dt chance r c).2.state
  | next_action {c : Cat K W} :
      Reachable env config c → Reachable env config (Cat.next_action c).state
  | reset {c : Cat K W} :
      Reachable env config c → Reachable env config (Cat.reset env config.INITIAL c)
  | set_difficulty {c : Cat K W} (level : ℤ) :
      Reachable env config c → Reachable env config (Cat.set_difficulty level c)

/-- A method changes nothing of the cat but its queue, whether it returns or
throws. -/
def Cat.QueueOnly {K W α : Type} (m : Js (Cat K W) α) : Prop :=
  ∀ c, (m c).state = { c with queue := (m c).state.queue }

/-- The function registered under `label` as `part`, bound to the cat by
`register` and then to `args` by `generate`. -/
def Cat.bound_fn {K : Type} (label : String) (part : Part) (args : List (Val K)) :
    Fn Code Agent (Val K) :=
  Fn.bound (Fn.bound (Fn.raw ⟨label, part⟩) (some Agent.cat) []) none args

/-- A configuration for examples: the values of `CONFIG.CAT`. -/
def Example.config : Config ℚ :=
  { RUN_SPEED := 1 / 10
    WALK_SPEED := 1 / 20
    SNEAK_SPEED := 1 / 50
    JUMP_SPEED := 33 / 100
    CLIMB_SPEED := 3 / 100
    INITIAL := ⟨"sit-right", "sit", ⟨100, 1⟩, ⟨0, 0⟩, ⟨0, 0⟩⟩ }

/-- A wall info object for examples. -/
def Example.wall (id : String) (x y : ℚ) (hit : Bool) : Wall ℚ :=
  ⟨id, ⟨x, y⟩, ⟨x - 100, y - 1⟩, ⟨|x - 100|, |y - 1|⟩, |x - 100| + |y - 1|, hit⟩

/-- A snapshot for examples: a laser with `player.rel = (40, 10)`, the cat on
the floor away from the walls. -/
def Example.observe : Observe ℚ :=
  { self := ⟨1, 0, 0, 0, 0, 0, 0, 0, 0, 0, 0, 0⟩
    player := ⟨"laser", ⟨140, 11⟩, ⟨40, 10⟩, ⟨40, 10⟩, 4123 / 100, ⟨0, 0⟩⟩
    predict := ⟨"laser", ⟨140, 11⟩, ⟨40, 10⟩, ⟨40, 10⟩, 4123 / 100, ⟨0, 0⟩⟩
    boundary := ⟨Example.wall "left" 0 50 false, Example.wall "right" 367 50 false,
      Example.wall "top" 184 100 false, Example.wall "bottom" 184 1 true⟩ }

/-- A cat for examples, as its constructor leaves it. -/
def Example.cat : Cat ℚ Unit :=
  Cat.new Example.config Example.observe ()

/-- An environment for examples: every function held by an action is a stub
that returns `result` and touches nothing, `look()` leaves the snapshot as it
is, and the `Entity` part is empty. -/
def Example.env (result : Bool) : Env ℚ Unit :=
  { sem := fun _ c => .ok result c
    look := fun c => c.observe
    set_state := fun _ w => w
    set_position := fun _ w => w
    set_velocity := fun _ w => w
    set_acceleration := fun _ w => w }

/-! ## Vector (`src/utilities/vector.js`) -/

/-- The functions of `Math` the geometry uses: `Math.sqrt`, `Math.atan2`
(arguments in the order `y`, `x`), `Math.cos` and `Math.sin`. -/
structure MathOps (K : Type) where
  sqrt : K → K
  atan2 : K → K → K
  cos : K → K
  sin : K → K

/-- The functions of `Math` on the real numbers: the square root, the argument
of the point `(x, y)` in `(-π, π]`, cosine and sine. -/
def MathOps.IsReal (M : MathOps ℝ) : Prop :=
  M.sqrt = Real.sqrt ∧ M.atan2 = (fun y x => Complex.arg ⟨x, y⟩) ∧
    M.cos = Real.cos ∧ M.sin = Real.sin

namespace Vec

variable {K : Type} [LinearOrderedField K]

/-- Static `Vector.add(v0, v1)` with a vector `v1`. -/
def add (v0 v1 : Vec K) : Vec K := ⟨v0.x + v1.x, v0.y + v1.y⟩

/-- Static `Vector.subtract(v0, v1)` with a vector `v1`. -/
def subtract (v0 v1 : Vec K) : Vec K := ⟨v0.x - v1.x, v0.y - v1.y⟩

/-- Static `Vector.multiply(v0, v1)` with a number `v1`. -/
def multiply (v0 : Vec K) (v1 : K) : Vec K := ⟨v0.x * v1, v0.y * v1⟩

/-- Static `Vector.divide(v0, v1)` and method `divide(v)` with a number. -/
def divide (v0 : Vec K) (v1 : K) : Vec K := ⟨v0.x / v1, v0.y / v1⟩

/-- Method `dot(v)`. -/
def dot (v0 v1 : Vec K) : K := v0.x * v1.x + v0.y * v1.y

/-- Method `length()`: `Math.sqrt(this.dot(this))`. -/
def length (M : MathOps K) (v : Vec K) : K := M.sqrt (v.dot v)

/-- Method `relative(v0, v1)`: the side of the line from `v0` to `v1` on which
this point lies. -/
def relative (self v0 v1 : Vec K) : K :=
  (v1.x - v0.x) * (self.y - v0.y) - (v1.y - v0.y) * (self.x - v0.x)

end Vec

/-! ## Projectile (`src/utilities/projectile.js`) -/

namespace Projectile

variable {K : Type} [LinearOrderedField K]

/-- Function `Projectile.has_solution(p_0, p_t, s, a)`. -/
def has_solution (p_0 p_t : Vec K) (s : K) (a : Vec K) : Bool :=
  let d := Vec.subtract p_t p_0
  let b := d.dot a + s * s
  let dscrm := b * b - a.dot a * d.dot d
  if dscrm < 0 then false else true

/-- The local `t` of `min_launch_velocity`: the flight time it uses. -/
def min_time (M : MathOps K) (p_0 p_t : Vec K) (s_max : K) (a : Vec K) : K :=
  let d := Vec.subtract p_t p_0
  let b := d.dot a + s_max * s_max
  let dscrm := b * b - a.dot a * d.dot d
  M.sqrt (2 * (b - M.sqrt dscrm) / a.dot a)

/-- The local `v` of `min_launch_velocity` before it is readjusted. -/
def min_velocity (M : MathOps K) (p_0 p_t : Vec K) (s_max : K) (a : Vec K) : Vec K :=
  let d := Vec.subtract p_t p_0
  let t := min_time M p_0 p_t s_max a
  let v_d := Vec.divide d t
  let v_a := Vec.divide (Vec.multiply a t) 2
  Vec.subtract v_d v_a

/-- Function `Projectile.min_launch_velocity(p_0, p_t, s_max, s_min, a)`;
`none` is `null`. -/
def min_launch_velocity (M : MathOps K) (p_0 p_t : Vec K) (s_max s_min : K) (a : Vec K) :
    Option (Vec K) :=
  let d := Vec.subtract p_t p_0
  let b := d.dot a + s_max * s_max
  let dscrm := b * b - a.dot a * d.dot d
  if dscrm < 0 then none
  else
    let t := M.sqrt (2 * (b - M.sqrt dscrm) / a.dot a)
    let v_d := Vec.divide d t
    let v_a := Vec.divide (Vec.multiply a t) 2
    let v := Vec.subtract v_d v_a
    if v.length M > s_max then
      let theta := M.atan2 v.y v.x
      some ⟨s_max * M.cos theta, s_max * M.sin theta⟩
    else if v.length M < s_min then
      let theta := M.atan2 v.y v.x
      some ⟨s_min * M.cos theta, s_min * M.sin theta⟩
    else some v

/-- The local `t` of `low_launch_velocity`. -/
def low_time (M : MathOps K) (p_0 p_t : Vec K) (a : Vec K) : K :=
  let d := Vec.subtract p_t p_0
  M.sqrt (M.sqrt (4 * d.dot d / a.dot a))

/-- The local `v` of `low_launch_velocity` before it is readjusted. -/
def low_velocity (M : MathOps K) (p_0 p_t : Vec K) (a : Vec K) : Vec K :=
  let d := Vec.subtract p_t p_0
  let t := low_time M p_0 p_t a
  let v_d := Vec.divide d t
  let v_a := Vec.divide (Vec.multiply a t) 2
  Vec.subtract v_d v_a

/-- Function `Projectile.low_launch_velocity(p_0, p_t, s_max, s_min, a)`;
`none` is `null`. -/
def low_launch_velocity (M : MathOps K) (p_0 p_t : Vec K) (s_max s_min : K) (a : Vec K) :
    Option (Vec K) :=
  let d := Vec.subtract p_t p_0
  let b := d.dot a + s_max * s_max
  let dscrm := b * b - a.dot a * d.dot d
  if dscrm < 0 then none
  else
    let t := M.sqrt (M.sqrt (4 * d.dot d / a.dot a))
    let v_d := Vec.divide d t
    let v_a := Vec.divide (Vec.multiply a t) 2
    let v := Vec.subtract v_d v_a
    if v.length M > s_max then
      let theta := M.atan2 v.y v.x
      some ⟨s_max * M.cos theta, s_max * M.sin theta⟩
    else if v.length M < s_min then
      let theta := M.atan2 v.y v.x
      some ⟨s_min * M.cos theta, s_min * M.sin theta⟩
    else some v

/-- Function `Projectile.get_point(p_0, v_0, a, t)`. -/
def get_point (p_0 v_0 a : Vec K) (t : K) : Vec K :=
  let d_0 := Vec.multiply v_0 t
  let d_1 := Vec.divide (Vec.multiply a (t * t)) 2
  Vec.add (Vec.add p_0 d_0) d_1

/-- Function `Projectile.time_of_flight(py_0, py_t, vy_0, g)`. -/
def time_of_flight (M : MathOps K) (py_0 py_t vy_0 g : K) : K :=
  let dy_0 := -(vy_0 / g)
  let dy_t := -M.sqrt (vy_0 * vy_0 - 2 * g * (py_0 - py_t)) / g
  dy_0 + dy_t

end Projectile

/-! ## Rectangle (`src/utilities/rectangle.js`) -/

/-- A rectangle: `position` is its upper-left corner, `dimensions` its width
and height; `y` grows upwards. -/
structure Rectangle (K : Type) where
  position : Vec K
  dimensions : Vec K

/-- The object `points()` returns: the four corners, counter-clockwise from
the upper-left one. -/
structure Points (K : Type) where
  a : Vec K
  b : Vec K
  c : Vec K
  d : Vec K

/-- What a method of a rectangle is given: a `Rectangle`, a `Vector`, or a
value that is neither. -/
inductive Shape (K : Type) where
  | rectangle (r : Rectangle K)
  | vector (v : Vec K)
  | other

namespace Rectangle

variable {K : Type} [LinearOrderedField K]

/-- Method `points()`. -/
def points (self : Rectangle K) : Points K :=
  { a := ⟨self.position.x, self.position.y⟩
    b := ⟨self.position.x, self.position.y - self.dimensions.y⟩
    c := ⟨self.position.x + self.dimensions.x, self.position.y - self.dimensions.y⟩
    d := ⟨self.position.x + self.dimensions.x, self.position.y⟩ }

/-- Method `contains(r)`: containment of a rectangle, or of a point when a
vector is passed. -/
def contains (self : Rectangle K) : Shape K → Bool
  | .rectangle r =>
      decide (self.position.x ≤ r.position.x) &&
      decide (self.position.x + self.dimensions.x ≥ r.position.x + r.dimensions.x) &&
      decide (self.position.y ≥ r.position.y) &&
      decide (self.position.y - self.dimensions.y ≤ r.position.y - r.dimensions.y)
  | .vector r =>
      let points := self.points
      if r.relative points.a points.b < 0 then false
      else if r.relative points.b points.c < 0 then false
      else if r.relative points.c points.d < 0 then false
      else if r.relative points.d points.a < 0 then false
      else true
  | .other => false

end Rectangle

namespace Rectangle

variable {K : Type} [LinearOrderedField K]

/-- Method `translate(t)`: `this.position.add(t)`; the rectangle afterwards. -/
def translate (self : Rectangle K) (t : Vec K) : Rectangle K :=
  ⟨Vec.add self.position t, self.dimensions⟩

/-- Method `midpoint()`. -/
def midpoint (self : Rectangle K) : Vec K :=
  ⟨self.position.x + self.dimensions.x / 2, self.position.y - self.dimensions.y / 2⟩

/-- Method `collides(r)`. -/
def collides (self r : Rectangle K) : Bool :=
  !(decide (self.position.x > r.position.x + r.dimensions.x) ||
    decide (self.position.x + self.dimensions.x < r.position.x) ||
    decide (self.position.y < r.position.y - r.dimensions.y) ||
    decide (self.position.y - self.dimensions.y > r.position.y))

/-- Method `contained(r)`. -/
def contained (self r : Rectangle K) : Bool :=
  decide (self.position.x ≥ r.position.x) &&
  decide (self.position.x + self.dimensions.x ≤ r.position.x + r.dimensions.x) &&
  decide (self.position.y ≤ r.position.y) &&
  decide (self.position.y - self.dimensions.y ≥ r.position.y - r.dimensions.y)

/-- Method `difference(r)`; `none` is `undefined`, the value of the call when
no case of the `switch` applies. -/
def difference (self r : Rectangle K) : Option (Vec K) :=
  if self.contained r then some ⟨0, 0⟩
  else
    let points := self.points
    let points_other := r.points
    let flag_a := !r.contains (.vector points.a)
    let flag_b := !r.contains (.vector points.b)
    let flag_c := !r.contains (.vector points.c)
    let flag_d := !r.contains (.vector points.d)
    if flag_a && flag_b && !flag_c && !flag_d then
      some ⟨points_other.a.x - points.a.x, 0⟩
    else if !flag_a && flag_b && flag_c && !flag_d then
      some ⟨0, points_other.b.y - points.b.y⟩
    else if !flag_a && !flag_b && flag_c && flag_d then
      some ⟨points_other.c.x - points.c.x, 0⟩
    else if flag_a && !flag_b && !flag_c && flag_d then
      some ⟨0, points_other.d.y - points.d.y⟩
    else if flag_a && flag_b && flag_c && !flag_d then
      some (Vec.subtract points_other.b points.b)
    else if !flag_a && flag_b && flag_c && flag_d then
      some (Vec.subtract points_other.c points.c)
    else if flag_a && !flag_b && flag_c && flag_d then
      some (Vec.subtract points_other.d points.d)
    else if flag_a && flag_b && !flag_c && flag_d then
      some (Vec.subtract points_other.a points.a)
    else if flag_a && flag_b && flag_c && flag_d then
      let x :=
        if points.b.x < points_other.b.x then points_other.b.x - points.b.x
        else if points.d.x > points_other.d.x then points_other.d.x - points.d.x
        else 0
      let y :=
        if points.a.y > points_other.a.y then points_other.a.y - points.a.y
        else if points.c.y < points_other.c.y then points_other.c.y - points.c.y
        else 0
      some ⟨x, y⟩
    else none

/-- Static `Rectangle.collides(r0, r1)`. -/
def static.collides (r0 r1 : Rectangle K) : Bool :=
  !(decide (r0.position.x > r1.position.x + r1.dimensions.x) ||
    decide (r0.position.x + r0.dimensions.x < r1.position.x) ||
    decide (r0.position.y < r1.position.y - r1.dimensions.y) ||
    decide (r0.position.y - r0.dimensions.y > r1.position.y))

/-- Static `Rectangle.relative(r0, r1)`: the midpoint of `r0` minus the
midpoint of `r1`. -/
def static.relative (r0 r1 : Rectangle K) : Vec K :=
  let c0 : Vec K := ⟨r0.position.x + r0.dimensions.x / 2, r0.position.y - r0.dimensions.y / 2⟩
  let c1 : Vec K := ⟨r1.position.x + r1.dimensions.x / 2, r1.position.y - r1.dimensions.y / 2⟩
  Vec.subtract c0 c1

end Rectangle

/-! ## Observe (`src/entities/cat.js`) -/

namespace Vec

variable {K : Type} [LinearOrderedField K]

/-- Static `Vector.abs(v)`. -/
def abs (v : Vec K) : Vec K := ⟨|v.x|, |v.y|⟩

/-- Method `limit(min_x, max_x, min_y, max_y)`: the vector afterwards. -/
def limit (v : Vec K) (min_x max_x min_y max_y : K) : Vec K :=
  ⟨min (max v.x min_x) max_x, min (max v.y min_y) max_y⟩

/-- Static `Vector.reflect_x(v)`. -/
def reflect_x (v : Vec K) : Vec K := ⟨-v.x, v.y⟩

end Vec

/-- Function `Math.sign` on numbers. -/
def jsSign {K : Type} [LinearOrderedField K] (x : K) : K :=
  if 0 < x then 1 else if x < 0 then -1 else 0

/-- Method `label.includes(keyword)` of strings: `keyword` occurs in `label`
at some index. -/
def includes (label keyword : String) : Bool :=
  label.data.tails.any (fun rest => keyword.data.isPrefixOf rest)

/-- What `look()` reads from the `Entity` parts of the cat (`self._physics`)
and of the player (`this._player`), which `src/` does not define:
`hitbox_points()`, `boundary_points()`, `midpoint` and `hitbox` of the cat,
`hitbox`, `midpoint` and `trajectory` of the player, and the player's `toy`. -/
structure Sight (K : Type) where
  hitbox_points : Points K
  boundary_points : Points K
  midpoint : Vec K
  hitbox : Rectangle K
  player_hitbox : Rectangle K
  player_midpoint : Vec K
  player_trajectory : Vec K
  player_toy : String

/-- Method `look()` of `Observe`: the snapshot it leaves, given what it reads
(`s`), the queue and the history of the cat, and the snapshot `o` of the
previous call, of which it reads `player.vel`. Before the first call the
source has no `player.vel` yet (the sum is then NaN); `o` stands for the
snapshot of a call already made. -/
def Observe.look {K : Type} [LinearOrderedField K] (M : MathOps K) (s : Sight K)
    (queue : List (Option (Act K))) (history : List String) (o : Observe K) : Observe K :=
  let points_self := s.hitbox_points
  let points := s.boundary_points
  let pos_left := Vec.divide (Vec.add points.a points.b) 2
  let pos_right := Vec.divide (Vec.add points.c points.d) 2
  let pos_top := Vec.divide (Vec.add points.d points.a) 2
  let pos_bottom := Vec.divide (Vec.add points.b points.c) 2
  let pos_right : Vec K := ⟨pos_right.x - 1, pos_right.y⟩
  let pos_bottom : Vec K := ⟨pos_bottom.x, pos_bottom.y + 1⟩
  let rel_left := Vec.subtract pos_left s.midpoint
  let rel_right := Vec.subtract pos_right s.midpoint
  let rel_top := Vec.subtract pos_top s.midpoint
  let rel_bottom := Vec.subtract pos_bottom s.midpoint
  let hit_top := decide (points_self.a.y ≥ pos_top.y)
  let hit_left := decide (points_self.b.x ≤ pos_left.x)
  let hit_right := decide (points_self.d.x ≥ pos_right.x)
  let hit_bottom := decide (points_self.c.y ≤ pos_bottom.y) ||
    (match queue.head? with
      | some (some action) => includes action.label "run"
      | _ => false)
  let rel_player := Rectangle.static.relative s.player_hitbox s.hitbox
  let vel_player := s.player_trajectory
  let vel_predict := Vec.add vel_player o.player.vel
  let pos_predict := Vec.limit (Vec.add s.player_midpoint vel_predict)
    points.a.x points.c.x points.b.y points.d.y
  let rel_predict := Vec.subtract pos_predict s.midpoint
  { self :=
      { sit := (history.filter (fun action => includes action "sit")).length
        idle := (history.filter (fun action => includes action "idle")).length
        walk := (history.filter (fun action => includes action "walk")).length
        run := (history.filter (fun action => includes action "run")).length
        sneak := (history.filter (fun action => includes action "sneak")).length
        attack := (history.filter (fun action => includes action "attack")).length
        wait := (history.filter (fun action => includes action "wait")).length
        crouch := (history.filter (fun action => includes action "crouch")).length
        jump := (history.filter (fun action => includes action "jump")).length
        land := (history.filter (fun action => includes action "land")).length
        hang := (history.filter (fun action => includes action "hang")).length
        climb := (history.filter (fun action => includes action "climb")).length }
    boundary :=
      { left := ⟨"left", pos_left, rel_left, Vec.abs rel_left, rel_left.length M, hit_left⟩
        right := ⟨"right", pos_right, rel_right, Vec.abs rel_right, rel_right.length M,
          hit_right⟩
        top := ⟨"top", pos_top, rel_top, Vec.abs rel_top, rel_top.length M, hit_top⟩
        bottom := ⟨"bottom", pos_bottom, rel_bottom, Vec.abs rel_bottom, rel_bottom.length M,
          hit_bottom⟩ }
    player := ⟨s.player_toy, s.player_midpoint, rel_player, Vec.abs rel_player,
      rel_player.length M, vel_player⟩
    predict := ⟨s.player_toy, pos_predict, rel_predict, Vec.abs rel_predict,
      rel_predict.length M, vel_predict⟩ }

/-- The call `this.observe.look()` made by the cat: `sight` gives what `look()`
reads from the `Entity` parts. -/
def Cat.look {K W : Type} [LinearOrderedField K] (M : MathOps K) (sight : W → Sight K)
    (c : Cat K W) : Observe K :=
  Observe.look M (sight c.world) c.queue c.history c.observe

/-- A sight for examples: a world 367 wide and 100 high, the cat in the air at
`(100, 31)` with a hitbox of 20 by 10, the player at `(140, 11)` moving by
`(2, 0)`. -/
def Example.sight : Sight ℚ :=
  { hitbox_points := ⟨⟨90, 36⟩, ⟨90, 26⟩, ⟨110, 26⟩, ⟨110, 36⟩⟩
    boundary_points := ⟨⟨0, 100⟩, ⟨0, 0⟩, ⟨367, 0⟩, ⟨367, 100⟩⟩
    midpoint := ⟨100, 31⟩
    hitbox := ⟨⟨90, 36⟩, ⟨20, 10⟩⟩
    player_hitbox := ⟨⟨135, 16⟩, ⟨10, 10⟩⟩
    player_midpoint := ⟨140, 11⟩
    player_trajectory := ⟨2, 0⟩
    player_toy := "laser" }

/-- Functions of `Math` on the rationals for examples in which no root and no
angle is taken: the square root is only right on 0 and 1. -/
def Example.math : MathOps ℚ := ⟨fun x => x, fun _ _ => 0, fun _ => 1, fun _ => 0⟩

/-- The action `run` as `do_chase` enqueues it on the player. -/
def Example.run : Act ℚ :=
  Action.mk "run" (Cat.bound_fn "run" Part.execute [.info .player])
    (some (Cat.bound_fn "run" Part.condition [.info .player, .num 6000, .num 30]))
    (some (Cat.bound_fn "run" Part.update [.info .player]))

/-! ## The schemas of `register_actions` (`src/entities/cat.js`) -/

/-- A call of a method of the cat's `Entity` part, which `src/` does not
define: `set_state` and `switch_state` of the entity, `set_repeat` and
`set_frame_duration` of its sprite, the setters, `jump` and `land` of its
physics, and `play` of its audio. An argument `none` is `null` or left out. -/
inductive Effect (K : Type) where
  | set_state (state : String)
  | switch_state (state : String)
  | set_repeat (flag : Bool)
  | set_frame_duration (duration : K)
  | set_position_components (x : K) (y : Option K)
  | set_velocity_components (x : Option K) (y : K)
  | set_acceleration_components (x y : K)
  | set_velocity (v : Vec K)
  | jump (v : Vec K)
  | land
  | play (sound : String)

/-- What the schemas read of the `Entity` part in a state `E` of it, and how a
call changes that state: `midpoint`, `position`, `velocity`, `gravity`,
`hitbox` and `_boundary` of the physics, `get_frame_count()` and
`is_finished()` of the sprite. -/
structure EntityOps (K E : Type) where
  midpoint : E → Vec K
  position : E → Vec K
  velocity : E → Vec K
  gravity : E → Vec K
  hitbox : E → Rectangle K
  boundary : E → Rectangle K
  get_frame_count : E → K
  is_finished : E → Bool
  perform : Effect K → E → E

/-- The `Entity` part of the cat: its state and the calls made on it so far,
the oldest first. -/
structure Entity (K E : Type) where
  state : E
  calls : List (Effect K)

/-- The object `direction(point, facing)` returns. -/
structure Direction (K : Type) where
  facing : String
  sign : K

/-- Field `rel` of the info object a reference points to. -/
def Observe.rel {K : Type} (o : Observe K) : Ref → Vec K
  | .player => o.player.rel
  | .predict => o.predict.rel
  | .left => o.boundary.left.rel
  | .right => o.boundary.right.rel
  | .top => o.boundary.top.rel
  | .bottom => o.boundary.bottom.rel

/-- Expression `wall.id` in a string concatenation: the info objects of the
player have no `id`. -/
def Observe.id {K : Type} (o : Observe K) : Ref → String
  | .player => "undefined"
  | .predict => "undefined"
  | .left => o.boundary.left.id
  | .right => o.boundary.right.id
  | .top => o.boundary.top.id
  | .bottom => o.boundary.bottom.id

/-- A returned `undefined` as the environment sees it: a value that is not
truthy. -/
def Res.undefined {σ : Type} : Res σ Unit → Res σ Bool
  | .ok _ s => .ok false s
  | .threw e s => .threw e s

namespace Cat

variable {K E : Type} [LinearOrderedField K]

/-- A call of a method of the `Entity` part: its state moves on and the call
is recorded. The methods are taken to return normally. -/
def call (ops : EntityOps K E) (e : Effect K) (c : Cat K (Entity K E)) : Cat K (Entity K E) :=
  { c with world := ⟨ops.perform e c.world.state, c.world.calls ++ [e]⟩ }

/-- Method `direction(point, facing)`. -/
def direction (ops : EntityOps K E) (point : Vec K) (facing : Bool)
    (c : Cat K (Entity K E)) : Direction K :=
  let relative := Vec.subtract point (ops.midpoint c.world.state)
  if facing && decide (relative.x ≥ 0) then ⟨"right", 1⟩
  else if facing && decide (relative.x < 0) then ⟨"left", -1⟩
  else if !facing && decide (relative.x ≥ 0) then ⟨"left", 1⟩
  else if !facing && decide (relative.x < 0) then ⟨"right", -1⟩
  else ⟨"right", 1⟩

/-- Execute of the schema `walk`: `function (target)`. -/
def walk_execute (ops : EntityOps K E) (target : Ref) : Js (Cat K (Entity K E)) Unit := fun c =>
  let direction := direction ops (c.observe.pos target) true c
  let c := call ops (.set_state ("walk-" ++ direction.facing)) c
  let velocity_x := direction.sign * (c.speeds.walk + 3 / 100 * (c.difficulty : K))
  let c := call ops (.set_velocity_components (some velocity_x) 0) c
  .ok () (call ops (.set_acceleration_components 0 0) c)

/-- Execute of the schema `run`: `function (target)`. -/
def run_execute (ops : EntityOps K E) (target : Ref) : Js (Cat K (Entity K E)) Unit := fun c =>
  let direction := direction ops (c.observe.pos target) true c
  let c := call ops (.set_state ("run-" ++ direction.facing)) c
  let velocity_x := direction.sign * (c.speeds.run + 3 / 100 * (c.difficulty : K))
  let c := call ops (.set_velocity_components (some velocity_x) 0) c
  .ok () (call ops (.set_acceleration_components 0 0) c)

/-- Execute of the schema `run-to`: `function (x)`. -/
def run_to_execute (ops : EntityOps K E) (x : K) : Js (Cat K (Entity K E)) Unit := fun c =>
  let sign := jsSign (x - (ops.midpoint c.world.state).x)
  let facing := if sign ≥ 0 then "right" else "left"
  let c := call ops (.set_state ("run-" ++ facing)) c
  let velocity_x := sign * (c.speeds.run + 3 / 100 * (c.difficulty : K))
  let c := call ops (.set_velocity_components (some velocity_x) 0) c
  .ok () (call ops (.set_acceleration_components 0 0) c)

/-- Execute of the schema `sneak`: `function (target)`. -/
def sneak_execute (ops : EntityOps K E) (target : Ref) : Js (Cat K (Entity K E)) Unit := fun c =>
  let direction := direction ops (c.observe.pos target) true c
  let c := call ops (.set_state ("sneak-" ++ direction.facing)) c
  let velocity_x := direction.sign * (c.speeds.sneak + 3 / 100 * (c.difficulty : K))
  let c := call ops (.set_velocity_components (some velocity_x) 0) c
  .ok () (call ops (.set_acceleration_components 0 0) c)

/-- The local `target_position` of the execute of `jump`. -/
def jump_target (target : Ref) (c : Cat K (Entity K E)) : Vec K :=
  let target_position := c.observe.pos target
  if (c.observe.abs target).x < 20 ∧ (c.observe.abs target).y < 20 then
    let signs : Vec K := ⟨jsSign c.observe.player.rel.x, 1⟩
    Vec.add (Vec.multiply signs 20) target_position
  else target_position

/-- The local `velocity` of the executes of `jump` and `wall-jump`: the value
of `Projectile[flag + "_launch_velocity"](this._physics.midpoint,
target_position, speed_max, this.speeds.min, this._physics.gravity)`, the flag
being `low` unless it is `min`. -/
def launch_velocity (M : MathOps K) (ops : EntityOps K E) (target_position : Vec K)
    (flag : String) (c : Cat K (Entity K E)) : Option (Vec K) :=
  let flag := if flag ≠ "low" ∧ flag ≠ "min" then "low" else flag
  let speed_max := c.speeds.jump + 2 / 1000 * (c.difficulty : K)
  if flag = "min" then
    Projectile.min_launch_velocity M (ops.midpoint c.world.state) target_position speed_max
      c.speeds.min (ops.gravity c.world.state)
  else
    Projectile.low_launch_velocity M (ops.midpoint c.world.state) target_position speed_max
      c.speeds.min (ops.gravity c.world.state)

/-- The end shared by the executes of `jump` and `wall-jump`, from
`Projectile.time_of_flight` on. -/
def take_off (M : MathOps K) (ops : EntityOps K E) (velocity : Vec K)
    (c : Cat K (Entity K E)) : Cat K (Entity K E) :=
  let flight_time := Projectile.time_of_flight M (ops.midpoint c.world.state).y 0 velocity.y
    (ops.gravity c.world.state).y
  let c := call ops (.jump velocity) c
  let frame_count := ops.get_frame_count c.world.state
  let frame_duration := flight_time / frame_count
  let c := call ops (.set_frame_duration frame_duration) c
  call ops (.play "jump_1") c

/-- Execute of the schema `jump`: `function (target, flag)`; `env` gives the
meaning of the execute that `change_current_action` calls. -/
def jump_execute (M : MathOps K) (ops : EntityOps K E) (env : Env K (Entity K E))
    (target : Ref) (flag : String) : Js (Cat K (Entity K E)) Unit := fun c =>
  let target_position := jump_target target c
  let direction := direction ops target_position true c
  let c := call ops (.set_state ("jump-" ++ direction.facing)) c
  let c := call ops (.set_repeat false) c
  match launch_velocity M ops target_position flag c with
  | none =>
      change_current_action env "run" (some [.info target])
        (some [.info target, .num 6000, .num 30]) (some [.info target])
        (clear_future_actions c)
  | some velocity => .ok () (take_off M ops velocity c)

/-- Condition of the schema `jump`: `function (bool)`. -/
def jump_condition (ops : EntityOps K E) (bool : Bool) : Js (Cat K (Entity K E)) Bool := fun c =>
  if !c.observe.boundary.left.hit && !c.observe.boundary.right.hit &&
      !c.observe.boundary.bottom.hit then
    .ok false c
  else if c.observe.boundary.bottom.hit then
    .ok true c
  else if c.observe.boundary.left.hit || c.observe.boundary.right.hit then
    if !bool || decide (c.observe.boundary.top.abs.y < 20) ||
        decide (c.observe.boundary.bottom.abs.y < 20) then
      let velocity := Vec.reflect_x (ops.velocity c.world.state)
      let c := call ops (.set_velocity velocity) c
      let facing := if velocity.x < 0 then "left" else "right"
      let c := call ops (.switch_state ("jump-" ++ facing)) c
      .ok false (call ops (.play "land") c)
    else
      let wall := if c.observe.boundary.left.hit then Ref.left else Ref.right
      let c := call ops (.set_position_components (c.observe.pos wall).x
        (some (ops.hitbox c.world.state).points.b.y)) c
      match enqueue_action "hang" (some [.info wall])
          (some [.num 6000, .num 1000, .num 150]) none (clear_future_actions c) with
      | .ok _ s => .ok true s
      | .threw e s => .threw e s
  else .ok false c

/-- The local `target_position` of the execute of `wall-jump`. -/
def wall_jump_target (ops : EntityOps K E) (target : Ref) (c : Cat K (Entity K E)) : Vec K :=
  let target_position := c.observe.pos target
  if (c.observe.abs target).x < 10 then
    let difference := Vec.subtract (ops.boundary c.world.state).midpoint
      (ops.midpoint c.world.state)
    let signs : Vec K := ⟨jsSign difference.x, jsSign difference.y⟩
    Vec.add (Vec.multiply signs 20) (ops.midpoint c.world.state)
  else target_position

/-- Execute of the schema `wall-jump`: `function (target, flag)`. When the
second call of the solver yields `null` too, reading `velocity.y` throws. -/
def wall_jump_execute (M : MathOps K) (ops : EntityOps K E) (target : Ref) (flag : String) :
    Js (Cat K (Entity K E)) Unit := fun c =>
  let target_position := wall_jump_target ops target c
  let direction := direction ops target_position true c
  let c := call ops (.set_state ("jump-" ++ direction.facing)) c
  let c := call ops (.set_repeat false) c
  match launch_velocity M ops target_position flag c with
  | some velocity => .ok () (take_off M ops velocity c)
  | none =>
      let difference := Vec.subtract (ops.boundary c.world.state).midpoint
        (ops.position c.world.state)
      let signs : Vec K := ⟨jsSign difference.x, jsSign difference.y⟩
      let target_position := Vec.add (Vec.multiply signs 20) (ops.position c.world.state)
      match launch_velocity M ops target_position flag c with
      | some velocity => .ok () (take_off M ops velocity c)
      | none => .threw JsError.typeError c

/-- The wall of the executes of `climb` and `climb-to`: the argument, or with
`null` the left wall when it is hit and else the right one. -/
def climb_wall (wall : Option Ref) (c : Cat K (Entity K E)) : Ref :=
  match wall with
  | some wall => wall
  | none => if c.observe.boundary.left.hit then Ref.left else Ref.right

/-- Execute of the schema `climb`: `function (target, wall = null)`. -/
def climb_execute (ops : EntityOps K E) (target : Ref) (wall : Option Ref) :
    Js (Cat K (Entity K E)) Unit := fun c =>
  let wall := climb_wall wall c
  let sign := jsSign (c.observe.rel target).y
  let direction := if sign < 0 then "down" else "up"
  let c := call ops (.set_state ("climb" ++ "-" ++ c.observe.id wall ++ "-" ++ direction)) c
  let velocity_y := sign * (c.speeds.climb + 15 / 1000 * (c.difficulty : K))
  let c := call ops (.set_velocity_components (some 0) velocity_y) c
  .ok () (call ops (.set_acceleration_components 0 0) c)

/-- Execute of the schema `climb-to`: `function (y, wall = null)`. -/
def climb_to_execute (ops : EntityOps K E) (y : K) (wall : Option Ref) :
    Js (Cat K (Entity K E)) Unit := fun c =>
  let wall := climb_wall wall c
  let sign := jsSign (y - (ops.midpoint c.world.state).y)
  let direction := if sign < 0 then "down" else "up"
  let c := call ops (.set_state ("climb" ++ "-" ++ c.observe.id wall ++ "-" ++ direction)) c
  let velocity_y := sign * (c.speeds.climb + 15 / 1000 * (c.difficulty : K))
  let c := call ops (.set_velocity_components (some 0) velocity_y) c
  .ok () (call ops (.set_acceleration_components 0 0) c)

/-- What a call that reaches a function expression of `register_actions` does
on a cat with an `Entity` part, for the expressions embedded so far and
arguments of the types their bodies expect (further arguments are ignored);
`none` elsewhere. -/
def schema_body (M : MathOps K) (ops : EntityOps K E) (env : Env K (Entity K E))
    (call : Call Code Agent (Val K)) (c : Cat K (Entity K E)) :
    Option (Res (Cat K (Entity K E)) Bool) :=
  match call.code.label, call.code.part, call.this, call.args with
  | "walk", .execute, some .cat, .info target :: _ =>
      some (walk_execute ops target c).undefined
  | "run", .execute, some .cat, .info target :: _ =>
      some (run_execute ops target c).undefined
  | "run", .condition, some .cat, .info target :: .num max_t :: .num min_x :: _ =>
      some (.ok (run_condition c target max_t min_x) c)
  | "run-to", .execute, some .cat, .num x :: _ =>
      some (run_to_execute ops x c).undefined
  | "sneak", .execute, some .cat, .info target :: _ =>
      some (sneak_execute ops target c).undefined
  | "jump", .execute, some .cat, .info target :: .str flag :: _ =>
      some (jump_execute M ops env target flag c).undefined
  | "jump", .condition, some .cat, .bool bool :: _ =>
      some (jump_condition ops bool c)
  | "wall-jump", .execute, some .cat, .info target :: .str flag :: _ =>
      some (wall_jump_execute M ops target flag c).undefined
  | "climb", .execute, some .cat, .info target :: .info wall :: _ =>
      some (climb_execute ops target (some wall) c).undefined
  | "climb", .execute, some .cat, [.info target] =>
      some (climb_execute ops target none c).undefined
  | "climb-to", .execute, some .cat, .num y :: .info wall :: _ =>
      some (climb_to_execute ops y (some wall) c).undefined
  | "climb-to", .execute, some .cat, [.num y] =>
      some (climb_to_execute ops y none c).undefined
  | _, _, _, _ => none

/-- The environment `env` with the embedded bodies in place of its stubs. -/
def schema_env (M : MathOps K) (ops : EntityOps K E) (env : Env K (Entity K E)) :
    Env K (Entity K E) :=
  { env with sem := fun call c => (schema_body M ops env call c).getD (env.sem call c) }

end Cat

/-- The `Entity` part for examples: the cat stands at `(100, 1)` under
gravity `(0, -1/1000)`, and no call changes what is read. -/
def Example.ops : EntityOps ℚ Unit :=
  { midpoint := fun _ => ⟨100, 1⟩
    position := fun _ => ⟨90, 6⟩
    velocity := fun _ => ⟨1 / 10, 0⟩
    gravity := fun _ => ⟨0, -1 / 1000⟩
    hitbox := fun _ => ⟨⟨90, 6⟩, ⟨20, 10⟩⟩
    boundary := fun _ => ⟨⟨0, 100⟩, ⟨367, 100⟩⟩
    get_frame_count := fun _ => 4
    is_finished := fun _ => true
    perform := fun _ _ => () }

/-- A cat with an `Entity` part for examples, as its constructor leaves it. -/
def Example.entityCat : Cat ℚ (Entity ℚ Unit) :=
  Cat.new Example.config Example.observe ⟨(), []⟩

/-- An environment for examples on a cat with an `Entity` part: the embedded
bodies, and stubs that return `false` elsewhere. -/
def Example.entityEnv : Env ℚ (Entity ℚ Unit) :=
  Cat.schema_env Example.math Example.ops
    { sem := fun _ c => .ok false c
      look := fun c => c.observe
      set_state := fun _ w => w
      set_position := fun _ w => w
      set_velocity := fun _ w => w
      set_acceleration := fun _ w => w }

/-! ## Further schemas and the static containment test -/

/-- Static `Rectangle.contained(r0, r1)`. -/
def Rectangle.static.contained {K : Type} [LinearOrderedField K] (r0 r1 : Rectangle K) : Bool :=
  decide (r0.position.x > r1.position.x) &&
  decide (r0.position.x + r0.dimensions.x < r1.position.x + r1.dimensions.x) &&
  decide (r0.position.y < r1.position.y) &&
  decide (r0.position.y - r0.dimensions.y > r1.position.y - r1.dimensions.y)

/-- Comparison `a >= b` of two values that are numbers or `undefined`
(`none`): false when either is `undefined`. -/
def jsGe {K : Type} [LE K] [DecidableRel (fun a b : K => a ≤ b)] : Option K → Option K → Bool
  | some a, some b => decide (b ≤ a)
  | _, _ => false

/-- Comparison `a <= b` of two values that are numbers or `undefined`
(`none`): false when either is `undefined`. -/
def jsLe {K : Type} [LE K] [DecidableRel (fun a b : K => a ≤ b)] : Option K → Option K → Bool
  | some a, some b => decide (a ≤ b)
  | _, _ => false

/-- Field `dis` of the info object a reference points to. -/
def Observe.dis {K : Type} (o : Observe K) : Ref → K
  | .player => o.player.dis
  | .predict => o.predict.dis
  | .left => o.boundary.left.dis
  | .right => o.boundary.right.dis
  | .top => o.boundary.top.dis
  | .bottom => o.boundary.bottom.dis

namespace Cat

variable {K E : Type} [LinearOrderedField K]

/-- Condition of the schema `walk`: `function (target, max_t, min_t, min_x,
max_x)`. Its first comparison reads `this.action_elapsed`, a property that
nothing in the source writes: the value read is `undefined`. -/
def walk_condition {W : Type} (c : Cat K W) (target : Ref) (max_t min_t min_x max_x : K) :
    Bool :=
  jsGe (none : Option K) (some max_t) || decide ((c.observe.abs target).x ≤ min_x) ||
    (decide (c.elapsed ≥ min_t) && decide ((c.observe.abs target).x ≥ max_x))

/-- Condition of the schema `sneak`: `function (target, max_t, min_t, min_x,
max_x)`. Its first comparison reads `this.action_elapsed`, a property that
nothing in the source writes: the value read is `undefined`. -/
def sneak_condition {W : Type} (c : Cat K W) (target : Ref) (max_t min_t min_x max_x : K) :
    Bool :=
  jsGe (none : Option K) (some max_t) || decide ((c.observe.abs target).x ≤ min_x) ||
    (decide (c.elapsed ≥ min_t) && decide ((c.observe.abs target).x ≥ max_x))

/-- Condition of the schema `hang`: `function (target, max_t, min_t, min_d)`.
`dis` is the value of `target.dis` and `min_d` the fourth argument, each
`none` when it is `undefined`. -/
def hang_condition {W : Type} (c : Cat K W) (dis : Option K) (max_t min_t : K)
    (min_d : Option K) : Bool :=
  decide (c.elapsed ≥ max_t) || (decide (c.elapsed ≥ min_t) && jsLe dis min_d)

/-- Execute of the schema `attack`: `function (target)`; `env` gives the
meaning of the execute that `change_current_action` calls. -/
def attack_execute (ops : EntityOps K E) (env : Env K (Entity K E)) (target : Ref) :
    Js (Cat K (Entity K E)) Unit := fun c =>
  if (c.observe.abs target).y > 30 then
    (do
      change_current_action env "crouch" (some [.info target]) none none
      enqueue_action "jump" (some [.info target, .str "low"]) (some [.bool true]) none
      enqueue_action "land" none none none) (clear_future_actions c)
  else
    let direction := direction ops (c.observe.pos target) true c
    let c := call ops (.set_state ("attack-" ++ direction.facing)) c
    let c := call ops (.set_repeat false) c
    let c := call ops (.set_velocity_components (some 0) 0) c
    let c := call ops (.set_acceleration_components 0 0) c
    .ok () (call ops (.play "attack") c)

/-- What a call that reaches one of the conditions of `walk`, `sneak` and
`hang` or the execute of `attack` does, for arguments of the types their
bodies expect, and for the condition of `hang` also when three numbers are
passed (the first parameter is then a number, which has no property `dis`,
and the fourth is `undefined`); `none` elsewhere. -/
def schema_more (ops : EntityOps K E) (env : Env K (Entity K E))
    (call : Call Code Agent (Val K)) (c : Cat K (Entity K E)) :
    Option (Res (Cat K (Entity K E)) Bool) :=
  match call.code.label, call.code.part, call.this, call.args with
  | "walk", .condition, some .cat,
      .info target :: .num max_t :: .num min_t :: .num min_x :: .num max_x :: _ =>
      some (.ok (walk_condition c target max_t min_t min_x max_x) c)
  | "sneak", .condition, some .cat,
      .info target :: .num max_t :: .num min_t :: .num min_x :: .num max_x :: _ =>
      some (.ok (sneak_condition c target max_t min_t min_x max_x) c)
  | "hang", .condition, some .cat,
      .info target :: .num max_t :: .num min_t :: .num min_d :: _ =>
      some (.ok (hang_condition c (some (c.observe.dis target)) max_t min_t (some min_d)) c)
  | "hang", .condition, some .cat, [.num _, .num max_t, .num min_t] =>
      some (.ok (hang_condition c none max_t min_t none) c)
  | "attack", .execute, some .cat, .info target :: _ =>
      some (attack_execute ops env target c).undefined
  | _, _, _, _ => none

end Cat

/-- A snapshot for examples: the cat in the air at the left wall, away from
the floor and the ceiling; the wall info has `dis = 179`. -/
def Example.atWall : Observe ℚ :=
  { Example.observe with
    boundary := ⟨Example.wall "left" 0 80 true, Example.wall "right" 367 50 false,
      Example.wall "top" 184 100 false, Example.wall "bottom" 184 (-30) false⟩ }

/-- A snapshot for examples: the player at horizontal distance 20. -/
def Example.near : Observe ℚ :=
  { Example.observe with
    player := ⟨"laser", ⟨120, 11⟩, ⟨20, 10⟩, ⟨20, 10⟩, 2236 / 100, ⟨0, 0⟩⟩ }

/-- A `jump` action for examples, as `do_pounce` enqueues it. -/
def Example.jump : Act ℚ :=
  Action.mk "jump" (Cat.bound_fn "jump" Part.execute [.info .player, .str "low"])
    (some (Cat.bound_fn "jump" Part.condition [.bool true]))
    (some (Fn.bound (Fn.raw ⟨"jump", Part.update⟩) (some Agent.cat) []))

/-- A cat for examples: in a jump, at the left wall. -/
def Example.stuck : Cat ℚ (Entity ℚ Unit) :=
  { Example.entityCat with observe := Example.atWall, queue := [some Example.jump] }

/-! ## The physics part as `reset()` needs it -/

/-- What `reset()` relies on in the physics of the `Entity` part, which
`src/` does not define: read through `position`, `velocity` and
`acceleration`, each of the three setters stores the vector it is given and
leaves the fields set after it alone. -/
structure Env.StoresPhysics {K W : Type} (env : Env K W)
    (position velocity acceleration : W → Vec K) : Prop where
  position_set : ∀ v w, position (env.set_position v w) = v
  position_velocity : ∀ v w, position (env.set_velocity v w) = position w
  position_acceleration : ∀ v w, position (env.set_acceleration v w) = position w
  velocity_set : ∀ v w, velocity (env.set_velocity v w) = v
  velocity_acceleration : ∀ v w, velocity (env.set_acceleration v w) = velocity w
  acceleration_set : ∀ v w, acceleration (env.set_acceleration v w) = v

/-- A physics part for examples: the sprite state and the three vectors. -/
structure Example.Body where
  state : String
  position : Vec ℚ
  velocity : Vec ℚ
  acceleration : Vec ℚ

/-- An environment for examples over `Example.Body`: the setters store what
they are given, every function held by an action is a stub that returns
`false`, and `look()` leaves the snapshot as it is. -/
def Example.bodyEnv : Env ℚ Example.Body :=
  { sem := fun _ c => .ok false c
    look := fun c => c.observe
    set_state := fun s w => { w with state := s }
    set_position := fun v w => { w with position := v }
    set_velocity := fun v w => { w with velocity := v }
    set_acceleration := fun v w => { w with acceleration := v } }

/-- A cat for examples in the middle of a round: at difficulty 2, with three
actions queued and a full history, moving. -/
def Example.midRound : Cat ℚ Example.Body :=
  { Cat.new Example.config Example.observe ⟨"run-left", ⟨250, 1⟩, ⟨-1 / 10, 0⟩, ⟨0, 0⟩⟩ with
    difficulty := 2
    queue := [some Example.run, some Example.jump, none]
    history := ["jump", "crouch", "run", "attack", "run", "walk", "sit"]
    elapsed := 2500 }

/-! ## World (`src/world.js`) -/

/-- A call `physics(dt)` makes on the player, the cat or the gui. -/
inductive WorldCall (K : Type) where
  | player_integrate (dt : K)
  | cat_integrate (dt : K)
  | process_collision
  | set_health
  | player_resolve_boundary
  | cat_resolve_boundary

/-- What `physics(dt)` calls, as functions of the state `E` of the player, the
cat and the gui together: `integrate` and `resolve_boundary` of both entities,
`process_collision` of the player with the value it returns, and `set_health`
of the gui. The calls are taken to return normally. -/
structure WorldOps (K E : Type) where
  player_integrate : K → E → E
  cat_integrate : K → E → E
  process_collision : E → Bool × E
  set_health : E → E
  player_resolve_boundary : E → E
  cat_resolve_boundary : E → E

/-- The fields of the world that `physics(dt)` touches: `accumulator`,
`timestep`, the state of the entities and the gui, and the calls made on them
so far, the oldest first. -/
structure World (K E : Type) where
  accumulator : K
  timestep : K
  entities : E
  calls : List (WorldCall K)

/-- Whether a call is an `integrate`. -/
def WorldCall.is_integrate {K : Type} : WorldCall K → Bool
  | .player_integrate _ => true
  | .cat_integrate _ => true
  | _ => false

namespace World

variable {K E : Type} [LinearOrderedField K]

/-- The loop `while (this.accumulator >= this.timestep)` of `physics`; `fuel`
bounds the number of passes, and `none` says that it ran out. -/
def physics_loop (ops : WorldOps K E) : ℕ → World K E → Option (World K E)
  | 0, w => if w.accumulator ≥ w.timestep then none else some w
  | fuel + 1, w =>
      if w.accumulator ≥ w.timestep then
        physics_loop ops fuel
          { w with
            entities := ops.cat_integrate w.timestep (ops.player_integrate w.timestep w.entities)
            calls := w.calls ++ [WorldCall.player_integrate w.timestep, WorldCall.cat_integrate w.timestep]
            accumulator := w.accumulator - w.timestep }
      else some w

/-- The statements of `physics` after the loop. -/
def physics_collisions (ops : WorldOps K E) (w : World K E) : World K E :=
  let hit := ops.process_collision w.entities
  let w := { w with entities := hit.2, calls := w.calls ++ [WorldCall.process_collision] }
  let w :=
    if hit.1 then
      { w with entities := ops.set_health w.entities, calls := w.calls ++ [WorldCall.set_health] }
    else w
  let w :=
    { w with
      entities := ops.player_resolve_boundary w.entities
      calls := w.calls ++ [WorldCall.player_resolve_boundary] }
  { w with
    entities := ops.cat_resolve_boundary w.entities
    calls := w.calls ++ [WorldCall.cat_resolve_boundary] }

/-- Method `physics(dt)`; `fuel` bounds the passes of its loop. -/
def physics (ops : WorldOps K E) (fuel : ℕ) (dt : K) (w : World K E) : Option (World K E) :=
  (physics_loop ops fuel { w with accumulator := w.accumulator + dt }).map
    (physics_collisions ops)

end World

/-- The calls for examples: the state counts the integrations of the player
and of the cat, and nothing collides. -/
def Example.worldOps : WorldOps ℚ (ℕ × ℕ) :=
  { player_integrate := fun _ e => (e.1 + 1, e.2)
    cat_integrate := fun _ e => (e.1, e.2 + 1)
    process_collision := fun e => (false, e)
    set_health := fun e => e
    player_resolve_boundary := fun e => e
    cat_resolve_boundary := fun e => e }

/-- A world for examples: 60 frames per second, 5 ms left in the accumulator. -/
def Example.world : World ℚ (ℕ × ℕ) :=
  { accumulator := 5, timestep := 1000 / 60, entities := (0, 0), calls := [] }

/-! ## Bresenham (`src/utilities/bresenham.js`) -/

/-- The two variables the loop of `bresenham` writes besides `points`. -/
structure bresenham.State where
  difference : ℤ
  point : Vec ℤ

/-- One pass of the loop of `bresenham` up to its test for the end point:
`point.add(step)` adds componentwise. -/
def bresenham.pass (delta step_horizontal step_vertical : Vec ℤ) (s : bresenham.State) :
    bresenham.State :=
  let difference_doubled := 2 * s.difference
  let s1 : bresenham.State :=
    if difference_doubled > -delta.y then
      ⟨s.difference - delta.y,
        ⟨s.point.x + step_horizontal.x, s.point.y + step_horizontal.y⟩⟩
    else s
  if difference_doubled < delta.x then
    ⟨s1.difference + delta.x, ⟨s1.point.x + step_vertical.x, s1.point.y + step_vertical.y⟩⟩
  else s1

/-- The loop `while (true)` of `bresenham`; `fuel` bounds the number of
passes, and `none` says that it ran out. -/
def bresenham.loop (delta step_horizontal step_vertical point_b : Vec ℤ) :
    ℕ → bresenham.State → List (Vec ℤ) → Option (List (Vec ℤ))
  | 0, _, _ => none
  | fuel + 1, s, points =>
      let s := bresenham.pass delta step_horizontal step_vertical s
      if s.point.x = point_b.x ∧ s.point.y = point_b.y then some points
      else bresenham.loop delta step_horizontal step_vertical point_b fuel s
        (points ++ [s.point])

/-- Function `bresenham(point_a, point_b)` on points with integer coordinates;
`fuel` bounds the passes of its loop. -/
def bresenham (fuel : ℕ) (point_a point_b : Vec ℤ) : Option (List (Vec ℤ)) :=
  let delta : Vec ℤ := ⟨|point_b.x - point_a.x|, |point_b.y - point_a.y|⟩
  let difference := delta.x - delta.y
  let step_horizontal : Vec ℤ := if point_a.x < point_b.x then ⟨1, 0⟩ else ⟨-1, 0⟩
  let step_vertical : Vec ℤ := if point_a.y < point_b.y then ⟨0, 1⟩ else ⟨0, -1⟩
  bresenham.loop delta step_horizontal step_vertical point_b fuel ⟨difference, point_a⟩ []

/-! ## Two runs of the planner -/

/-- The state of an outcome changed by `f`, the outcome kept. -/
def Res.mapState {σ α : Type} (f : σ → σ) : Res σ α → Res σ α
  | .ok a s => .ok a (f s)
  | .threw e s => .threw e (f s)

/-- The first argument of the call a `Behaviour` stands for. -/
def Behaviour.target : Behaviour → Ref
  | .relax t => t
  | .chase t => t
  | .pounce t _ _ _ => t
  | .trick t _ _ => t
  | .suspense t _ _ => t
  | .attack t => t
  | .sneak t => t
  | .hang t _ => t
  | .bounce t _ => t
  | .climb t => t
  | .aerial t _ _ => t
  | .hops t _ _ _ _ => t

/-- The cat with another `observe.predict`: a snapshot that agrees on `self`,
`player` and `boundary`. -/
def Cat.with_predict {K W : Type} (predict : Target K) (c : Cat K W) : Cat K W :=
  { c with observe := { c.observe with predict := predict } }

/-- A method that runs alike whatever `observe.predict` holds: the outcome is
the same and the states left differ in `observe.predict` only. -/
def Cat.IgnoresPredict {K W : Type} (m : Js (Cat K W) Unit) : Prop :=
  ∀ (predict : Target K) (c : Cat K W),
    m (Cat.with_predict predict c) = (m c).mapState (Cat.with_predict predict)

/-! ## Labels passed to the factory -/

/-- A method that, on a cat holding the registered schemas, returns normally
and changes nothing but the queue, to which it appends at least `lo` actions,
each under a registered label. -/
def Cat.Enqueues {K W : Type} [LinearOrderedField K] (m : Js (Cat K W) Unit) (lo : ℕ) : Prop :=
  ∀ c : Cat K W, c.factory = Cat.register_actions ActionFactory.new →
    ∃ acts : List (Act K), lo ≤ acts.length ∧
      (∀ a ∈ acts, a.label ∈ Cat.registered_labels.map Prod.fst) ∧
      m c = .ok () { c with queue := c.queue ++ acts.map some }

/-- A call that returns normally in every state and leaves the factory and the
queue as they are. -/
def Env.Returns {K W : Type} (env : Env K W) (call : Call Code Agent (Val K)) : Prop :=
  ∀ s : Cat K W, ∃ (b : Bool) (t : Cat K W),
    env.sem call s = .ok b t ∧ t.factory = s.factory ∧ t.queue = s.queue

/-! # Properties -/

/-! ## Property containers -/

section Properties

variable {α : Type}

theorem ownProperty_append (label : String) (xs ys : List (String × α)) :
    ownProperty label (xs ++ ys) =
      match ownProperty label xs with
      | some a => some a
      | none => ownProperty label ys := by
  induction xs with
  | nil => rfl
  | cons p rest ih =>
      obtain ⟨k, v⟩ := p
      by_cases hk : k = label
      · simp [ownProperty, hk]
      · simpa [ownProperty, hk] using ih

theorem readProperty_undefined_iff (props : List (String × α)) (label : String) :
    readProperty props label = Slot.undefined ↔
      ownProperty label props = none ∧ label ∉ objectPrototypeKeys := by
  unfold readProperty
  cases h : ownProperty label props with
  | none => by_cases hp : label ∈ objectPrototypeKeys <;> simp [hp]
  | some a => simp

theorem readProperty_own_iff (props : List (String × α)) (label : String) (a : α) :
    readProperty props label = Slot.own a ↔ ownProperty label props = some a := by
  unfold readProperty
  cases h : ownProperty label props with
  | none => by_cases hp : label ∈ objectPrototypeKeys <;> simp [hp]
  | some b => simp

theorem readProperty_append_new (props : List (String × α)) (label : String) (a : α)
    (h : readProperty props label = Slot.undefined) :
    readProperty (props ++ [(label, a)]) label = Slot.own a := by
  rw [readProperty_undefined_iff] at h
  rw [readProperty_own_iff, ownProperty_append, h.1]
  simp [ownProperty]

theorem ownProperty_delete_self (props : List (String × α)) (label : String) :
    ownProperty label (deleteProperty props label) = none := by
  induction props with
  | nil => rfl
  | cons p rest ih =>
      obtain ⟨k, v⟩ := p
      unfold deleteProperty at ih ⊢
      by_cases hk : k = label
      · simpa [List.filter_cons, hk] using ih
      · simpa [List.filter_cons, hk, ownProperty] using ih

end Properties

/-! ## ActionFactory -/

section Factory

variable {F A V : Type}

theorem ownProperty_delete_some {α : Type} (props : List (String × α)) (label other : String)
    (a : α) (h : ownProperty label (deleteProperty props other) = some a) :
    ownProperty label props = some a := by
  induction props with
  | nil => simp [deleteProperty, ownProperty] at h
  | cons p rest ih =>
      obtain ⟨k, v⟩ := p
      unfold deleteProperty at ih h
      by_cases hk : k = other
      · have h2 : ownProperty label (List.filter (fun p => decide (p.1 ≠ other)) rest) = some a := by
          simpa [List.filter_cons, hk] using h
        have h3 := ih h2
        by_cases hl : k = label
        · subst hk
          subst hl
          have h4 := ownProperty_delete_self rest k
          unfold deleteProperty at h4
          rw [h4] at h2
          cases h2
        · simpa [ownProperty, hl] using h3
      · by_cases hl : k = label
        · subst hl
          simpa [List.filter_cons, hk, ownProperty] using h
        · have h2 : ownProperty label (List.filter (fun p => decide (p.1 ≠ other)) rest) = some a := by
            simpa [List.filter_cons, hk, ownProperty, hl] using h
          simpa [ownProperty, hl] using ih h2

/-- Every schema stored by `register` holds the bound condition in its field
`update`, so `copy()` returns an action with a condition. -/
theorem ActionFactory.Built.update_isSome {f : ActionFactory F A V} (hf : f.Built)
    (label : String) (a : Action F A V) (h : ownProperty label f.schemas = some a) :
    ∃ c, a.update = some c := by
  induction hf generalizing label a with
  | new => simp [ActionFactory.new, ownProperty] at h
  | register self l e c u _ ih =>
      unfold ActionFactory.register at h
      cases hr : readProperty _ l with
      | undefined =>
          rw [hr] at h
          simp only [ownProperty_append] at h
          cases ho : ownProperty label _ with
          | some b =>
              rw [ho] at h
              simp only [Option.some.injEq] at h
              subst h
              exact ih label b ho
          | none =>
              rw [ho] at h
              by_cases hl : l = label
              · simp [ownProperty, hl] at h
                subst h
                exact ⟨_, rfl⟩
              · simp [ownProperty, hl] at h
      | inherited =>
          rw [hr] at h
          exact ih label a h
      | own b =>
          rw [hr] at h
          exact ih label a h
  | deregister l _ ih =>
      exact ih label a (ownProperty_delete_some _ _ _ _ h)

theorem ActionFactory.generate_own (f : ActionFactory F A V) (label : String)
    (schema : Action F A V) (c : Fn F A V)
    (h : ownProperty label f.schemas = some schema) (hu : schema.update = some c)
    (ae ac au : Option (List V)) :
    f.generate label ae ac au = .ok
      { label := schema.label
        execute := match ae with
          | some args => schema.execute.bind none args
          | none => schema.execute
        condition := match ac with
          | some args => some (c.bind none args)
          | none => some c
        update := match au, schema.condition with
          | some args, some u => some (u.bind none args)
          | _, u => u } := by
  unfold ActionFactory.generate
  rw [(readProperty_own_iff _ _ _).2 h]
  cases ae <;> cases ac <;> cases au <;> cases hc : schema.condition <;>
    simp [Action.copy, Action.args_execute, Action.args_condition, Action.args_update, hu, hc]

theorem ActionFactory.generate_missing (f : ActionFactory F A V) (label : String)
    (h : ownProperty label f.schemas = none) (ae ac au : Option (List V)) :
    f.generate label ae ac au = .error JsError.typeError := by
  unfold ActionFactory.generate readProperty
  rw [h]
  by_cases hp : label ∈ objectPrototypeKeys <;> simp [hp]

end Factory

section FactoryClaims

variable {F A V : Type}

/-- C6: re-registration is a no-op. When `L` already has a stored schema,
`register(agent, L, e2, c2, u2)` returns the factory unchanged, so reading any
label yields the same schema as before and `generate` yields, for every label
and arguments, the same action as before the call. -/
theorem ActionFactory.register_existing_noop (f : ActionFactory F A V) (agent : A)
    (L : String) (first : Action F A V) (e2 c2 : Fn F A V) (u2 : Option (Fn F A V))
    (h : readProperty f.schemas L = Slot.own first) :
    f.register agent L e2 c2 u2 = f ∧
    (∀ label, readProperty (f.register agent L e2 c2 u2).schemas label =
      readProperty f.schemas label) ∧
    (∀ label ae ac au, (f.register agent L e2 c2 u2).generate label ae ac au =
      f.generate label ae ac au) := by
  have hf : f.register agent L e2 c2 u2 = f := by
    unfold ActionFactory.register
    simp only [h]
  rw [hf]
  exact ⟨rfl, fun _ => rfl, fun _ _ _ _ => rfl⟩

theorem ActionFactory.register_existing_noop_witness :
    readProperty Example.sitFactory.schemas "sit" =
      Slot.own (Action.mk "sit" (Fn.bound (Fn.raw "sit_execute") (some ()) []) none
        (some (Fn.bound (Fn.raw "sit_condition") (some ()) []))) ∧
    Example.sitFactory.register () "sit" (Fn.raw "other_execute") (Fn.raw "other_condition")
      (some (Fn.raw "other_update")) = Example.sitFactory :=
  ⟨by decide, (ActionFactory.register_existing_noop Example.sitFactory () "sit"
    (Action.mk "sit" (Fn.bound (Fn.raw "sit_execute") (some ()) []) none
      (some (Fn.bound (Fn.raw "sit_condition") (some ()) [])))
    (Fn.raw "other_execute") (Fn.raw "other_condition") (some (Fn.raw "other_update"))
    (by decide)).1⟩

/-- C7: when `L` has no entry yet, `register(agent, L, e, c, u)` followed by
`generate(L, ae, ac, au)` returns an action with label `L` whose execute,
called with any `this` and arguments `xs`, runs `e` with `this = agent` on the
arguments `ae` followed by `xs`, whose condition likewise runs `c` on `agent`
with `ac`, and whose update runs `u` on `agent` with `au`; when `u` is `null`
the update of the action is `null` whatever `au` is. An argument list that is
`null` binds nothing. -/
theorem ActionFactory.generate_registered (f : ActionFactory F A V) (agent : A) (L : String)
    (e c : Fn F A V) (u : Option (Fn F A V)) (ae ac au : Option (List V))
    (h : readProperty f.schemas L = Slot.undefined) :
    ∃ act, (f.register agent L e c u).generate L ae ac au = .ok act ∧
      act.label = L ∧
      (∀ t xs, act.execute.call t xs = e.call (some agent) (ae.getD [] ++ xs)) ∧
      (∃ cond, act.condition = some cond ∧
        ∀ t xs, cond.call t xs = c.call (some agent) (ac.getD [] ++ xs)) ∧
      (∀ uf, u = some uf → ∃ upd, act.update = some upd ∧
        ∀ t xs, upd.call t xs = uf.call (some agent) (au.getD [] ++ xs)) ∧
      (u = none → act.update = none) := by
  have hreg : f.register agent L e c u =
      ⟨f.schemas ++ [(L, Action.mk L (e.bind (some agent) []) (u.map (fun u => u.bind (some agent) []))
        (some (c.bind (some agent) [])))]⟩ := by
    unfold ActionFactory.register
    simp only [h]
  have hown := (readProperty_own_iff _ _ _).1 (readProperty_append_new f.schemas L
    (Action.mk L (e.bind (some agent) []) (u.map (fun u => u.bind (some agent) []))
      (some (c.bind (some agent) []))) h)
  rw [hreg, ActionFactory.generate_own _ L _ (c.bind (some agent) []) hown rfl ae ac au]
  refine ⟨_, rfl, rfl, ?_, ?_, ?_, ?_⟩
  · intro t xs
    cases ae <;> simp [Fn.call, Fn.bind]
  · cases ac with
    | none => exact ⟨_, rfl, fun t xs => by simp [Fn.call, Fn.bind]⟩
    | some args => exact ⟨_, rfl, fun t xs => by simp [Fn.call, Fn.bind]⟩
  · intro uf hu
    subst hu
    cases au with
    | none => exact ⟨_, rfl, fun t xs => by simp [Fn.call, Fn.bind]⟩
    | some args => exact ⟨_, rfl, fun t xs => by simp [Fn.call, Fn.bind]⟩
  · intro hu
    subst hu
    cases au <;> rfl

theorem ActionFactory.generate_registered_witness :
    readProperty (ActionFactory.new : ActionFactory String Unit Nat).schemas "run" =
      Slot.undefined ∧
    ∃ act, ((ActionFactory.new : ActionFactory String Unit Nat).register () "run"
        (Fn.raw "e") (Fn.raw "c") none).generate "run" (some [1]) (some [2, 3]) (some [4])
          = .ok act ∧
      act.label = "run" ∧
      (∀ t xs, act.execute.call t xs = (Fn.raw "e").call (some ()) ((some [1]).getD [] ++ xs)) ∧
      (∃ cond, act.condition = some cond ∧
        ∀ t xs, cond.call t xs = (Fn.raw "c").call (some ()) ((some [2, 3]).getD [] ++ xs)) ∧
      (∀ uf, (none : Option (Fn String Unit Nat)) = some uf → ∃ upd, act.update = some upd ∧
        ∀ t xs, upd.call t xs = uf.call (some ()) ((some [4]).getD [] ++ xs)) ∧
      ((none : Option (Fn String Unit Nat)) = none → act.update = none) :=
  ⟨by decide, ActionFactory.generate_registered ActionFactory.new () "run" (Fn.raw "e")
    (Fn.raw "c") none (some [1]) (some [2, 3]) (some [4]) (by decide)⟩

end FactoryClaims

/-! ## ActionFactory with object identity -/

section StoreClaims

variable {F A V : Type}

theorem Store.getElem?_last {α : Type} (heap : List α) (x : α) :
    (heap ++ [x])[heap.length]? = some x := by
  simp

theorem Store.mutate_last (heap : List (Action F A V)) (x : Action F A V)
    (schemas : List (String × Nat))
    (method : Action F A V → Except JsError (Action F A V)) :
    Store.mutate ⟨heap ++ [x], schemas⟩ heap.length method =
      match method x with
      | .ok b => .ok ⟨heap ++ [b], schemas⟩
      | .error e => .error e := by
  unfold Store.mutate
  cases h : method x <;> simp [List.set_append, h]

theorem Store.view_own (s : Store F A V) (label : String) (addr : Nat)
    (schema : Action F A V) (h : ownProperty label s.schemas = some addr)
    (hs : s.heap[addr]? = some schema) :
    ownProperty label s.view.schemas = some schema := by
  obtain ⟨heap, schemas⟩ := s
  unfold Store.view
  simp only at h hs ⊢
  induction schemas with
  | nil => simp [ownProperty] at h
  | cons p rest ih =>
      obtain ⟨k, v⟩ := p
      by_cases hk : k = label
      · simp only [ownProperty, hk, if_true, Option.some.injEq] at h
        subst h
        simp [List.filterMap_cons, hs, ownProperty, hk]
      · simp only [ownProperty, hk, if_false] at h
        cases hv : heap[v]? with
        | none => simpa [List.filterMap_cons, hv] using ih h
        | some b => simpa [List.filterMap_cons, hv, ownProperty, hk] using ih h

/-- One `generate` on a store: the action `generate` returns by value is put
at the next free address, and nothing else changes. -/
theorem Store.generate_eq (s : Store F A V) (label : String) (addr : Nat)
    (schema : Action F A V) (h : readProperty s.schemas label = Slot.own addr)
    (hs : s.heap[addr]? = some schema) (ae ac au : Option (List V)) :
    s.generate label ae ac au =
      match s.view.generate label ae ac au with
      | .ok act => .ok (⟨s.heap ++ [act], s.schemas⟩, s.heap.length)
      | .error e => .error e := by
  have hv := Store.view_own s label addr schema ((readProperty_own_iff _ _ _).1 h) hs
  unfold Store.generate ActionFactory.generate
  rw [h, (readProperty_own_iff _ _ _).2 hv]
  simp only [hs, Store.alloc]
  cases ae <;> cases ac <;> cases au <;> cases hc : schema.condition <;>
    cases hu : schema.update <;>
    simp [Store.mutate_last, Action.copy, Action.args_execute, Action.args_condition,
      Action.args_update, hc, hu]

theorem Store.generate_ok (s s1 : Store F A V) (label : String) (a1 : Nat)
    (ae ac au : Option (List V)) (h : s.generate label ae ac au = .ok (s1, a1)) :
    ∃ addr schema act, readProperty s.schemas label = Slot.own addr ∧
      s.heap[addr]? = some schema ∧ s.view.generate label ae ac au = .ok act ∧
      s1 = ⟨s.heap ++ [act], s.schemas⟩ ∧ a1 = s.heap.length := by
  cases hr : readProperty s.schemas label with
  | undefined => simp [Store.generate, hr] at h
  | inherited => simp [Store.generate, hr] at h
  | own addr =>
      cases hs : s.heap[addr]? with
      | none => simp [Store.generate, hr, hs] at h
      | some schema =>
          rw [Store.generate_eq s label addr schema hr hs] at h
          cases hg : s.view.generate label ae ac au with
          | error e => simp [hg] at h
          | ok act =>
              simp only [hg, Except.ok.injEq, Prod.mk.injEq] at h
              exact ⟨addr, schema, act, rfl, hs, rfl, h.1.symm, h.2.symm⟩

theorem ActionFactory.generate_congr (f g : ActionFactory F A V) (label : String)
    (h : ownProperty label f.schemas = ownProperty label g.schemas)
    (ae ac au : Option (List V)) :
    f.generate label ae ac au = g.generate label ae ac au := by
  unfold ActionFactory.generate readProperty
  rw [h]

/-- C5: `generate` never mutates the registry. Take two successive calls of
`generate` for one label, with argument lists `ae1, ac1, au1` and then
`ae2, ac2, au2`. The schema container is the same after each call, and every
stored schema object holds the same `execute`, `condition` and `update` as
before. The two actions are distinct objects; each is exactly the action that
`generate` yields by value from the registry as it was before both calls with
its own argument lists, and the first action is still that after the second
call. -/
theorem Store.generate_never_mutates (s s1 s2 : Store F A V) (label : String) (a1 a2 : Nat)
    (ae1 ac1 au1 ae2 ac2 au2 : Option (List V))
    (h1 : s.generate label ae1 ac1 au1 = .ok (s1, a1))
    (h2 : s1.generate label ae2 ac2 au2 = .ok (s2, a2)) :
    (s1.schemas = s.schemas ∧ s2.schemas = s.schemas) ∧
    (∀ l addr schema, readProperty s.schemas l = Slot.own addr → s.heap[addr]? = some schema →
      s1.heap[addr]? = some schema ∧ s2.heap[addr]? = some schema) ∧
    a1 ≠ a2 ∧
    ∃ act1 act2, s.view.generate label ae1 ac1 au1 = .ok act1 ∧
      s.view.generate label ae2 ac2 au2 = .ok act2 ∧
      s1.heap[a1]? = some act1 ∧ s2.heap[a1]? = some act1 ∧ s2.heap[a2]? = some act2 := by
  obtain ⟨addr, schema, act1, hr, hs, hg1, rfl, rfl⟩ := Store.generate_ok s s1 label a1 ae1 ac1 au1 h1
  obtain ⟨addr2, schema2, act2, hr2, hs2, hg2, rfl, rfl⟩ :=
    Store.generate_ok _ s2 label a2 ae2 ac2 au2 h2
  have hlt : addr < s.heap.length := (List.getElem?_eq_some_iff.1 hs).1
  have hview : ownProperty label (Store.view ⟨s.heap ++ [act1], s.schemas⟩).schemas =
      ownProperty label s.view.schemas := by
    rw [Store.view_own s label addr schema ((readProperty_own_iff _ _ _).1 hr) hs]
    exact Store.view_own _ label addr schema ((readProperty_own_iff _ _ _).1 hr)
      (by simp [List.getElem?_append_left hlt, hs])
  rw [ActionFactory.generate_congr _ s.view label hview] at hg2
  refine ⟨⟨rfl, rfl⟩, ?_, ?_, act1, act2, hg1, hg2, ?_, ?_, ?_⟩
  · intro l addr3 schema3 _ hs3
    have hlt3 : addr3 < s.heap.length := (List.getElem?_eq_some_iff.1 hs3).1
    have hlt4 : addr3 < (s.heap ++ [act1]).length := by
      simp only [List.length_append, List.length_singleton]
      omega
    constructor
    · simp [List.getElem?_append_left hlt3, hs3]
    · simp only [List.getElem?_append_left hlt4, List.getElem?_append_left hlt3, hs3]
  · simp
  · simp
  · have hlt5 : s.heap.length < (s.heap ++ [act1]).length := by simp
    simp only [List.getElem?_append_left hlt5]
    simp
  · exact Store.getElem?_last (s.heap ++ [act1]) act2

theorem Store.generate_never_mutates_witness :
    Example.sitStore.generate "sit" (some [1]) (some [2]) none =
      .ok (⟨Example.sitStore.heap ++
        [Action.mk "sit" (Fn.bound (Fn.bound (Fn.raw "sit_execute") (some ()) []) none [1])
          (some (Fn.bound (Fn.bound (Fn.raw "sit_condition") (some ()) []) none [2])) none],
        Example.sitStore.schemas⟩, 1) ∧
    ∃ act1 act2, Example.sitStore.view.generate "sit" (some [1]) (some [2]) none = .ok act1 ∧
      Example.sitStore.view.generate "sit" (some [7]) (some [8]) (some [9]) = .ok act2 ∧
      act1.execute = Fn.bound (Fn.bound (Fn.raw "sit_execute") (some ()) []) none [1] ∧
      act2.execute = Fn.bound (Fn.bound (Fn.raw "sit_execute") (some ()) []) none [7] :=
  ⟨by rfl, by
    obtain ⟨_, _, _, act1, act2, h1, h2, _, _, _⟩ :=
      Store.generate_never_mutates Example.sitStore
        ⟨Example.sitStore.heap ++
          [Action.mk "sit" (Fn.bound (Fn.bound (Fn.raw "sit_execute") (some ()) []) none [1])
            (some (Fn.bound (Fn.bound (Fn.raw "sit_condition") (some ()) []) none [2])) none],
          Example.sitStore.schemas⟩
        ⟨Example.sitStore.heap ++
          [Action.mk "sit" (Fn.bound (Fn.bound (Fn.raw "sit_execute") (some ()) []) none [1])
            (some (Fn.bound (Fn.bound (Fn.raw "sit_condition") (some ()) []) none [2])) none,
           Action.mk "sit" (Fn.bound (Fn.bound (Fn.raw "sit_execute") (some ()) []) none [7])
            (some (Fn.bound (Fn.bound (Fn.raw "sit_condition") (some ()) []) none [8])) none],
          Example.sitStore.schemas⟩
        "sit" 1 2 (some [1]) (some [2]) none (some [7]) (some [8]) (some [9])
        (by rfl) (by rfl)
    refine ⟨act1, act2, h1, h2, ?_, ?_⟩
    · have h1b : Example.sitStore.view.generate "sit" (some [1]) (some [2]) none = .ok
          (Action.mk "sit" (Fn.bound (Fn.bound (Fn.raw "sit_execute") (some ()) []) none [1])
            (some (Fn.bound (Fn.bound (Fn.raw "sit_condition") (some ()) []) none [2])) none) := by rfl
      rw [h1b] at h1
      cases h1
      rfl
    · have h2b : Example.sitStore.view.generate "sit" (some [7]) (some [8]) (some [9]) = .ok
          (Action.mk "sit" (Fn.bound (Fn.bound (Fn.raw "sit_execute") (some ()) []) none [7])
            (some (Fn.bound (Fn.bound (Fn.raw "sit_condition") (some ()) []) none [8])) none) := by rfl
      rw [h2b] at h2
      cases h2
      rfl⟩

end StoreClaims

/-! ## The queue of the cat -/

section Queue

variable {K W : Type} [LinearOrderedField K]

@[simp]
theorem Js.bind_apply {σ α β : Type} (m : Js σ α) (f : α → Js σ β) (s : σ) :
    (m >>= f) s =
      match m s with
      | .ok a t => f a t
      | .threw e t => .threw e t := rfl

@[simp]
theorem Js.pure_apply {σ α : Type} (a : α) (s : σ) : (pure a : Js σ α) s = .ok a s := rfl

omit [LinearOrderedField K] in
theorem Cat.register_schema_new (p : String × Bool)
    (f : ActionFactory Code Agent (Val K)) (h : ownProperty p.1 f.schemas = none)
    (hp : p.1 ∉ objectPrototypeKeys) :
    Cat.register_schema p.1 p.2 f = ⟨f.schemas ++ [Cat.schema_entry K p]⟩ := by
  unfold Cat.register_schema ActionFactory.register
  rw [(readProperty_undefined_iff _ _).2 ⟨h, hp⟩]
  obtain ⟨label, hasUpdate⟩ := p
  cases hasUpdate <;> rfl

omit [LinearOrderedField K] in
theorem Cat.foldl_register_schema (labels : List (String × Bool))
    (f : ActionFactory Code Agent (Val K))
    (hnodup : (labels.map Prod.fst).Nodup)
    (hproto : ∀ p ∈ labels, p.1 ∉ objectPrototypeKeys)
    (hfresh : ∀ p ∈ labels, ownProperty p.1 f.schemas = none) :
    labels.foldl (fun f p => Cat.register_schema p.1 p.2 f) f =
      ⟨f.schemas ++ labels.map (Cat.schema_entry K)⟩ := by
  induction labels generalizing f with
  | nil => simp
  | cons p rest ih =>
      rw [List.foldl_cons, Cat.register_schema_new p f (hfresh p (List.mem_cons_self _ _))
        (hproto p (List.mem_cons_self _ _))]
      rw [ih]
      · simp
      · exact (List.nodup_cons.1 hnodup).2
      · exact fun q hq => hproto q (List.mem_cons_of_mem _ hq)
      · intro q hq
        have hne : p.1 ≠ q.1 := by
          intro he
          apply (List.nodup_cons.1 hnodup).1
          rw [he]
          exact List.mem_map_of_mem _ hq
        rw [ownProperty_append, hfresh q (List.mem_cons_of_mem _ hq)]
        simp [ownProperty, Cat.schema_entry, hne]

omit [LinearOrderedField K] in
theorem Cat.ownProperty_schema_entry (labels : List (String × Bool)) (p : String × Bool)
    (hnodup : (labels.map Prod.fst).Nodup) (hp : p ∈ labels) :
    ownProperty p.1 (labels.map (Cat.schema_entry K)) = some (Cat.schema_entry K p).2 := by
  induction labels with
  | nil => simp at hp
  | cons q rest ih =>
      rcases List.mem_cons.1 hp with h | h
      · subst h
        simp [ownProperty, Cat.schema_entry]
      · have hne : q.1 ≠ p.1 := by
          intro he
          apply (List.nodup_cons.1 hnodup).1
          rw [he]
          exact List.mem_map_of_mem _ h
        have hq : (Cat.schema_entry K q).1 = q.1 := rfl
        simp only [List.map_cons, ownProperty, hq, hne, if_false]
        exact ih (List.nodup_cons.1 hnodup).2 h

omit [LinearOrderedField K] in
theorem Cat.register_actions_new :
    Cat.register_actions (ActionFactory.new : ActionFactory Code Agent (Val K)) =
      ⟨Cat.registered_labels.map (Cat.schema_entry K)⟩ := by
  have hn : (Cat.registered_labels.map Prod.fst).Nodup := by decide
  have hp : ∀ p ∈ Cat.registered_labels, p.1 ∉ objectPrototypeKeys := by decide
  have hfold : Cat.register_actions (ActionFactory.new : ActionFactory Code Agent (Val K)) =
      Cat.registered_labels.foldl (fun f p => Cat.register_schema p.1 p.2 f)
        ActionFactory.new := by
    simp only [Cat.register_actions, Cat.registered_labels, List.foldl_cons, List.foldl_nil]
  rw [hfold, Cat.foldl_register_schema Cat.registered_labels ActionFactory.new hn hp
    (fun _ _ => rfl)]
  simp only [ActionFactory.new, List.nil_append]

omit [LinearOrderedField K] in
theorem Cat.registered_own (p : String × Bool) (hp : p ∈ Cat.registered_labels) :
    ownProperty p.1 (Cat.register_actions (ActionFactory.new :
        ActionFactory Code Agent (Val K))).schemas = some (Cat.schema_entry K p).2 := by
  rw [Cat.register_actions_new]
  exact Cat.ownProperty_schema_entry _ p (by decide) hp

omit [LinearOrderedField K] in
theorem Cat.registered_built :
    (Cat.register_actions (ActionFactory.new : ActionFactory Code Agent (Val K))).Built := by
  unfold Cat.register_actions Cat.register_schema
  repeat apply ActionFactory.Built.register
  exact ActionFactory.Built.new

end Queue

section Behaviours

variable {K W : Type} [LinearOrderedField K]

theorem Cat.enqueue_registered (c : Cat K W)
    (hf : c.factory = Cat.register_actions ActionFactory.new)
    (p : String × Bool) (hp : p ∈ Cat.registered_labels) (ae ac au : Option (List (Val K))) :
    ∃ act, c.factory.generate p.1 ae ac au = .ok act ∧
      Cat.enqueue_action p.1 ae ac au c = .ok () { c with queue := c.queue ++ [some act] } := by
  have hown := @Cat.registered_own K p hp
  rw [← hf] at hown
  have hg := ActionFactory.generate_own c.factory p.1 _ _ hown rfl ae ac au
  exact ⟨_, hg, by simp only [Cat.enqueue_action, hg]⟩

theorem Cat.appends_enqueue (p : String × Bool) (hp : p ∈ Cat.registered_labels)
    (ae ac au : Option (List (Val K))) :
    Cat.Appends (Cat.enqueue_action p.1 ae ac au : Js (Cat K W) Unit) 1 1 := by
  intro c hf
  obtain ⟨act, _, h⟩ := Cat.enqueue_registered c hf p hp ae ac au
  exact ⟨[act], le_refl _, le_refl _, h⟩

theorem Cat.appends_pure : Cat.Appends (Pure.pure () : Js (Cat K W) Unit) 0 0 := by
  intro c _
  exact ⟨[], le_refl _, le_refl _, by simp⟩

theorem Cat.appends_seq {m : Js (Cat K W) Unit} {k : Unit → Js (Cat K W) Unit}
    {lo1 hi1 lo2 hi2 : ℕ} (h1 : Cat.Appends m lo1 hi1) (h2 : ∀ u, Cat.Appends (k u) lo2 hi2) :
    Cat.Appends (m >>= k) (lo1 + lo2) (hi1 + hi2) := by
  intro c hf
  obtain ⟨acts1, hlo1, hhi1, hm⟩ := h1 c hf
  obtain ⟨acts2, hlo2, hhi2, hk⟩ := h2 () { c with queue := c.queue ++ acts1.map some } hf
  refine ⟨acts1 ++ acts2, ?_, ?_, ?_⟩
  · simp only [List.length_append]
    omega
  · simp only [List.length_append]
    omega
  · simp only [Js.bind_apply, hm, hk, List.map_append, List.append_assoc]

theorem Cat.Appends.mono {m : Js (Cat K W) Unit} {lo hi lo2 hi2 : ℕ}
    (h : Cat.Appends m lo hi) (hlo : lo2 ≤ lo) (hhi : hi ≤ hi2) : Cat.Appends m lo2 hi2 := by
  intro c hf
  obtain ⟨acts, h1, h2, h3⟩ := h c hf
  exact ⟨acts, le_trans hlo h1, le_trans h2 hhi, h3⟩

theorem Cat.do_attack_appends (target : Ref) :
    Cat.Appends (Cat.do_attack target : Js (Cat K W) Unit) 2 2 :=
  Cat.appends_seq (Cat.appends_enqueue ("run", true) (by decide) _ _ _)
    (fun _ => Cat.appends_enqueue ("attack", false) (by decide) _ _ _)

theorem Cat.do_relax_appends (target : Ref) :
    Cat.Appends (Cat.do_relax target : Js (Cat K W) Unit) 1 2 := by
  intro c hf
  unfold Cat.do_relax
  split
  · exact (Cat.appends_enqueue ("hang", false) (by decide) _ _ _).mono (le_refl _)
      (by decide) c hf
  · exact (Cat.appends_seq (Cat.appends_enqueue ("sit", false) (by decide) _ _ _)
      (fun _ => Cat.appends_enqueue ("idle", false) (by decide) _ _ _)).mono (by decide)
      (le_refl _) c hf

theorem Cat.do_chase_appends (target : Ref) :
    Cat.Appends (Cat.do_chase target : Js (Cat K W) Unit) 2 2 :=
  Cat.appends_seq (Cat.appends_enqueue ("run", true) (by decide) _ _ _)
    (fun _ => Cat.appends_enqueue ("walk", true) (by decide) _ _ _)

theorem Cat.do_pounce_appends (target : Ref) (skip : Bool) (flag : String) (bool : Bool) :
    Cat.Appends (Cat.do_pounce target skip flag bool : Js (Cat K W) Unit) 2 3 := by
  unfold Cat.do_pounce
  cases skip
  · exact (Cat.appends_seq (Cat.appends_enqueue ("crouch", false) (by decide) _ _ _)
      (fun _ => Cat.appends_seq (Cat.appends_enqueue ("jump", true) (by decide) _ _ _)
        (fun _ => Cat.appends_enqueue ("land", false) (by decide) _ _ _))).mono
      (by decide) (le_refl _)
  · exact (Cat.appends_seq Cat.appends_pure
      (fun _ => Cat.appends_seq (Cat.appends_enqueue ("jump", true) (by decide) _ _ _)
        (fun _ => Cat.appends_enqueue ("land", false) (by decide) _ _ _))).mono
      (le_refl _) (by decide)

theorem Cat.do_trick_appends (r : K) (target : Ref) (flag : String) (bool : Bool) :
    Cat.Appends (Cat.do_trick r target flag bool : Js (Cat K W) Unit) 5 5 :=
  Cat.appends_seq (Cat.appends_enqueue ("crouch", false) (by decide) _ _ _)
    (fun _ => Cat.appends_seq (Cat.appends_enqueue ("wait", true) (by decide) _ _ _)
      (fun _ => Cat.appends_seq (Cat.appends_enqueue ("sit", false) (by decide) _ _ _)
        (fun _ => Cat.appends_seq (Cat.appends_enqueue ("jump", true) (by decide) _ _ _)
          (fun _ => Cat.appends_enqueue ("land", false) (by decide) _ _ _))))

theorem Cat.do_suspense_appends (r : K) (target : Ref) (flag : String) (bool : Bool) :
    Cat.Appends (Cat.do_suspense r target flag bool : Js (Cat K W) Unit) 4 4 :=
  Cat.appends_seq (Cat.appends_enqueue ("crouch", false) (by decide) _ _ _)
    (fun _ => Cat.appends_seq (Cat.appends_enqueue ("wait", true) (by decide) _ _ _)
      (fun _ => Cat.appends_seq (Cat.appends_enqueue ("jump", true) (by decide) _ _ _)
        (fun _ => Cat.appends_enqueue ("land", false) (by decide) _ _ _)))

theorem Cat.do_sneak_appends (target : Ref) :
    Cat.Appends (Cat.do_sneak target : Js (Cat K W) Unit) 1 1 :=
  Cat.appends_enqueue ("sneak", true) (by decide) _ _ _

theorem Cat.do_hang_appends (target : Ref) (flag : String) :
    Cat.Appends (Cat.do_hang target flag : Js (Cat K W) Unit) 4 4 := by
  intro c hf
  unfold Cat.do_hang
  exact Cat.appends_seq (Cat.appends_enqueue ("run-to", false) (by decide) _ _ _)
    (fun _ => Cat.appends_seq (Cat.appends_enqueue ("crouch", false) (by decide) _ _ _)
      (fun _ => Cat.appends_seq (Cat.appends_enqueue ("jump", true) (by decide) _ _ _)
        (fun _ => Cat.appends_enqueue ("land", false) (by decide) _ _ _))) c hf

theorem Cat.do_bounce_appends (target : Ref) (flag : String) :
    Cat.Appends (Cat.do_bounce target flag : Js (Cat K W) Unit) 4 4 := by
  intro c hf
  unfold Cat.do_bounce
  exact Cat.appends_seq (Cat.appends_enqueue ("run-to", false) (by decide) _ _ _)
    (fun _ => Cat.appends_seq (Cat.appends_enqueue ("crouch", false) (by decide) _ _ _)
      (fun _ => Cat.appends_seq (Cat.appends_enqueue ("jump", true) (by decide) _ _ _)
        (fun _ => Cat.appends_enqueue ("land", false) (by decide) _ _ _))) c hf

theorem Cat.do_climb_appends (target : Ref) :
    Cat.Appends (Cat.do_climb target : Js (Cat K W) Unit) 1 1 :=
  Cat.appends_enqueue ("climb", true) (by decide) _ _ _

theorem Cat.do_aerial_appends (target : Ref) (flag : String) (bool : Option Bool) :
    Cat.Appends (Cat.do_aerial target flag bool : Js (Cat K W) Unit) 2 3 := by
  unfold Cat.do_aerial
  by_cases hb : bool = some true
  · rw [if_pos hb]
    exact (Cat.appends_seq (Cat.appends_enqueue ("hang", false) (by decide) _ _ _)
      (fun _ => Cat.appends_seq (Cat.appends_enqueue ("wall-jump", true) (by decide) _ _ _)
        (fun _ => Cat.appends_enqueue ("land", false) (by decide) _ _ _))).mono
      (by decide) (le_refl _)
  · rw [if_neg hb]
    exact (Cat.appends_seq Cat.appends_pure
      (fun _ => Cat.appends_seq (Cat.appends_enqueue ("wall-jump", true) (by decide) _ _ _)
        (fun _ => Cat.appends_enqueue ("land", false) (by decide) _ _ _))).mono
      (le_refl _) (by decide)

theorem Cat.do_hops_appends (target : Ref) (skip : Bool) (flag_0 flag_1 flag_2 : String) :
    Cat.Appends (Cat.do_hops target skip flag_0 flag_1 flag_2 : Js (Cat K W) Unit) 6 9 :=
  Cat.appends_seq (Cat.do_pounce_appends target skip flag_0 false)
    (fun _ => Cat.appends_seq (Cat.do_pounce_appends target false flag_1 false)
      (fun _ => Cat.do_pounce_appends target false flag_2 false))

/-- Every behaviour of the planner, on a cat holding the registered schemas,
returns normally and pushes between one and nine actions. -/
theorem Cat.do_behaviour_appends (r : K) (b : Behaviour) :
    Cat.Appends (Cat.do_behaviour r b : Js (Cat K W) Unit) 1 9 := by
  cases b with
  | relax t => exact (Cat.do_relax_appends t).mono (by decide) (by decide)
  | chase t => exact (Cat.do_chase_appends t).mono (by decide) (by decide)
  | pounce t skip flag bool =>
      exact (Cat.do_pounce_appends t skip flag bool).mono (by decide) (by decide)
  | trick t flag bool => exact (Cat.do_trick_appends r t flag bool).mono (by decide) (by decide)
  | suspense t flag bool =>
      exact (Cat.do_suspense_appends r t flag bool).mono (by decide) (by decide)
  | attack t => exact (Cat.do_attack_appends t).mono (by decide) (by decide)
  | sneak t => exact (Cat.do_sneak_appends t).mono (by decide) (by decide)
  | hang t flag => exact (Cat.do_hang_appends t flag).mono (by decide) (by decide)
  | bounce t flag => exact (Cat.do_bounce_appends t flag).mono (by decide) (by decide)
  | climb t => exact (Cat.do_climb_appends t).mono (by decide) (by decide)
  | aerial t flag bool =>
      exact (Cat.do_aerial_appends t flag bool).mono (by decide) (by decide)
  | hops t skip f0 f1 f2 =>
      exact (Cat.do_hops_appends t skip f0 f1 f2).mono (by decide) (by decide)

/-- On a cat holding the registered schemas `plan()` returns normally; it
changes nothing but the queue, to which it appends at least one action. -/
theorem Cat.plan_appends (chance r : K) :
    Cat.Appends (Cat.plan chance r : Js (Cat K W) Unit) 1 9 := by
  intro c hf
  exact Cat.do_behaviour_appends r (Cat.plan_behaviour chance c) c hf

end Behaviours

/-! ## The runtime of the action queue -/

section Runtime

variable {K W : Type} [LinearOrderedField K]

theorem evict_eq_take (history : List String) : evict history = history.take 7 := by
  induction history using evict.induct with
  | case1 l h ih =>
      rw [evict, if_pos h, ih, List.dropLast_eq_take, List.take_take]
      congr 1
      omega
  | case2 l h =>
      rw [evict, if_neg h, List.take_of_length_le (by omega)]

theorem evict_length_le (history : List String) : (evict history).length ≤ 7 := by
  rw [evict_eq_take, List.length_take]
  omega

theorem Cat.queueOnly_enqueue (label : String) (ae ac au : Option (List (Val K))) :
    Cat.QueueOnly (Cat.enqueue_action label ae ac au : Js (Cat K W) Unit) := by
  intro c
  unfold Cat.enqueue_action
  cases c.factory.generate label ae ac au <;> rfl

theorem Cat.queueOnly_pure {α : Type} (a : α) :
    Cat.QueueOnly (Pure.pure a : Js (Cat K W) α) := by
  intro c
  rfl

theorem Cat.sameButQueue_trans {c t u : Cat K W} (h1 : t = { c with queue := t.queue })
    (h2 : u = { t with queue := u.queue }) : u = { c with queue := u.queue } := by
  obtain ⟨d1, o1, sp1, f1, q1, hi1, e1, oe1, w1⟩ := c
  obtain ⟨d2, o2, sp2, f2, q2, hi2, e2, oe2, w2⟩ := t
  obtain ⟨d3, o3, sp3, f3, q3, hi3, e3, oe3, w3⟩ := u
  simp only [Cat.mk.injEq] at h1 h2 ⊢
  obtain ⟨rfl, rfl, rfl, rfl, -, rfl, rfl, rfl, rfl⟩ := h1
  obtain ⟨rfl, rfl, rfl, rfl, -, rfl, rfl, rfl, rfl⟩ := h2
  simp

theorem Cat.queueOnly_seq {α β : Type} {m : Js (Cat K W) α} {k : α → Js (Cat K W) β}
    (h1 : Cat.QueueOnly m) (h2 : ∀ a, Cat.QueueOnly (k a)) : Cat.QueueOnly (m >>= k) := by
  intro c
  have hm := h1 c
  simp only [Js.bind_apply]
  cases hmc : m c with
  | threw e t =>
      rw [hmc] at hm
      simpa [Res.state] using hm
  | ok a t =>
      rw [hmc] at hm
      simp only [Res.state] at hm
      exact Cat.sameButQueue_trans hm (h2 a t)

theorem Cat.queueOnly_ite {α : Type} {p : Prop} [Decidable p] {a b : Js (Cat K W) α}
    (h1 : Cat.QueueOnly a) (h2 : Cat.QueueOnly b) : Cat.QueueOnly (if p then a else b) := by
  split
  · exact h1
  · exact h2

theorem Cat.do_behaviour_queueOnly (r : K) (b : Behaviour) :
    Cat.QueueOnly (Cat.do_behaviour r b : Js (Cat K W) Unit) := by
  cases b with
  | relax t =>
      intro c
      simp only [Cat.do_behaviour, Cat.do_relax]
      split
      · exact Cat.queueOnly_enqueue _ _ _ _ c
      · exact Cat.queueOnly_seq (Cat.queueOnly_enqueue _ _ _ _)
          (fun _ => Cat.queueOnly_enqueue _ _ _ _) c
  | hang t flag =>
      intro c
      simp only [Cat.do_behaviour, Cat.do_hang]
      exact Cat.queueOnly_seq (Cat.queueOnly_enqueue _ _ _ _)
        (fun _ => Cat.queueOnly_seq (Cat.queueOnly_enqueue _ _ _ _)
          (fun _ => Cat.queueOnly_seq (Cat.queueOnly_enqueue _ _ _ _)
            (fun _ => Cat.queueOnly_enqueue _ _ _ _))) c
  | bounce t flag =>
      intro c
      simp only [Cat.do_behaviour, Cat.do_bounce]
      exact Cat.queueOnly_seq (Cat.queueOnly_enqueue _ _ _ _)
        (fun _ => Cat.queueOnly_seq (Cat.queueOnly_enqueue _ _ _ _)
          (fun _ => Cat.queueOnly_seq (Cat.queueOnly_enqueue _ _ _ _)
            (fun _ => Cat.queueOnly_enqueue _ _ _ _))) c
  | chase t =>
      simp only [Cat.do_behaviour, Cat.do_chase]
      repeat first
        | apply Cat.queueOnly_seq
        | apply Cat.queueOnly_enqueue
        | apply Cat.queueOnly_pure
        | apply Cat.queueOnly_ite
        | intro _
  | pounce t skip flag bool =>
      simp only [Cat.do_behaviour, Cat.do_pounce]
      repeat first
        | apply Cat.queueOnly_seq
        | apply Cat.queueOnly_enqueue
        | apply Cat.queueOnly_pure
        | apply Cat.queueOnly_ite
        | intro _
  | trick t flag bool =>
      simp only [Cat.do_behaviour, Cat.do_trick]
      repeat first
        | apply Cat.queueOnly_seq
        | apply Cat.queueOnly_enqueue
        | apply Cat.queueOnly_pure
        | apply Cat.queueOnly_ite
        | intro _
  | suspense t flag bool =>
      simp only [Cat.do_behaviour, Cat.do_suspense]
      repeat first
        | apply Cat.queueOnly_seq
        | apply Cat.queueOnly_enqueue
        | apply Cat.queueOnly_pure
        | apply Cat.queueOnly_ite
        | intro _
  | attack t =>
      simp only [Cat.do_behaviour, Cat.do_attack]
      repeat first
        | apply Cat.queueOnly_seq
        | apply Cat.queueOnly_enqueue
        | apply Cat.queueOnly_pure
        | apply Cat.queueOnly_ite
        | intro _
  | sneak t =>
      simp only [Cat.do_behaviour, Cat.do_sneak]
      apply Cat.queueOnly_enqueue
  | climb t =>
      simp only [Cat.do_behaviour, Cat.do_climb]
      apply Cat.queueOnly_enqueue
  | aerial t flag bool =>
      simp only [Cat.do_behaviour, Cat.do_aerial]
      repeat first
        | apply Cat.queueOnly_seq
        | apply Cat.queueOnly_enqueue
        | apply Cat.queueOnly_pure
        | apply Cat.queueOnly_ite
        | intro _
  | hops t skip f0 f1 f2 =>
      simp only [Cat.do_behaviour, Cat.do_hops, Cat.do_pounce]
      repeat first
        | apply Cat.queueOnly_seq
        | apply Cat.queueOnly_enqueue
        | apply Cat.queueOnly_pure
        | apply Cat.queueOnly_ite
        | intro _

/-- Whatever the factory holds, `plan()` changes nothing of the cat but its
queue. -/
theorem Cat.plan_queueOnly (chance r : K) :
    Cat.QueueOnly (Cat.plan chance r : Js (Cat K W) Unit) := by
  intro c
  exact Cat.do_behaviour_queueOnly r (Cat.plan_behaviour chance c) c

theorem Cat.invoke_frame (env : Env K W) (f : Fn Code Agent (Val K)) (c : Cat K W) :
    (env.KeepsHistory → (Cat.invoke env f c).state.history = c.history) ∧
    (env.KeepsDifficulty → (Cat.invoke env f c).state.difficulty = c.difficulty) :=
  ⟨fun h => h _ c, fun h => h _ c⟩

theorem Cat.plan_frame (chance r : K) (c : Cat K W) :
    (Cat.plan chance r c).state.history = c.history ∧
    (Cat.plan chance r c).state.difficulty = c.difficulty := by
  have h := Cat.plan_queueOnly chance r c
  constructor
  · rw [h]
  · rw [h]

theorem Cat.plan_execute_frame (env : Env K W) (chance r : K) (c : Cat K W) :
    (env.KeepsHistory → (Cat.plan_execute env chance r c).2.state.history = c.history) ∧
    (env.KeepsDifficulty →
      (Cat.plan_execute env chance r c).2.state.difficulty = c.difficulty) := by
  have hp := Cat.plan_frame chance r c
  unfold Cat.plan_execute
  cases hplan : Cat.plan chance r c with
  | threw e s =>
      rw [hplan] at hp
      exact ⟨fun _ => hp.1, fun _ => hp.2⟩
  | ok u s =>
      rw [hplan] at hp
      simp only [Res.state] at hp
      simp only
      split
      · rename_i first rest hq
        have hi := Cat.invoke_frame env first.execute s
        constructor
        · intro hk
          have := hi.1 hk
          cases hinv : Cat.invoke env first.execute s <;> rw [hinv] at this <;>
            simpa [Res.state, hp.1] using this
        · intro hk
          have := hi.2 hk
          cases hinv : Cat.invoke env first.execute s <;> rw [hinv] at this <;>
            simpa [Res.state, hp.2] using this
      · exact ⟨fun _ => hp.1, fun _ => hp.2⟩

theorem Cat.next_action_frame (c : Cat K W) :
    ((Cat.next_action c).state.history = c.history ∨
      ∃ label, (Cat.next_action c).state.history = evict (label :: c.history)) ∧
    (Cat.next_action c).state.difficulty = c.difficulty := by
  unfold Cat.next_action
  split
  · exact ⟨Or.inl rfl, rfl⟩
  · exact ⟨Or.inl rfl, rfl⟩
  · exact ⟨Or.inr ⟨_, rfl⟩, rfl⟩

theorem Cat.next_action_value (c t : Cat K W) (v : JsRef (Act K))
    (h : Cat.next_action c = .ok v t) : v = Cat.current_action t := by
  unfold Cat.next_action at h
  split at h
  · cases h
  · cases h
  · cases h
    rfl

/-- What one `logic(dt)` can do to the history and to the difficulty, whether
it returns or throws. -/
theorem Cat.logic_frame (env : Env K W) (dt chance r : K) (c : Cat K W) :
    (env.KeepsHistory →
      ((Cat.logic env dt chance r c).2.state.history = c.history ∨
        ∃ label, (Cat.logic env dt chance r c).2.state.history = evict (label :: c.history))) ∧
    (env.KeepsDifficulty → (Cat.logic env dt chance r c).2.state.difficulty = c.difficulty) := by
  have htick : (Cat.tick env dt c).history = c.history ∧
      (Cat.tick env dt c).difficulty = c.difficulty := ⟨rfl, rfl⟩
  unfold Cat.logic
  simp only
  split
  · have hpe := Cat.plan_execute_frame env chance r (Cat.tick env dt c)
    exact ⟨fun hk => Or.inl ((hpe.1 hk).trans htick.1), fun hk => (hpe.2 hk).trans htick.2⟩
  · exact ⟨fun _ => Or.inl htick.1, fun _ => htick.2⟩
  · rename_i action _
    split
    · exact ⟨fun _ => Or.inl htick.1, fun _ => htick.2⟩
    · rename_i condition _
      have hc := Cat.invoke_frame env condition (Cat.tick env dt c)
      split
      · rename_i e s hinv
        rw [hinv] at hc
        exact ⟨fun hk => Or.inl ((hc.1 hk).trans htick.1), fun hk => (hc.2 hk).trans htick.2⟩
      · rename_i s hinv
        rw [hinv] at hc
        simp only [Res.state] at hc
        have hn := Cat.next_action_frame ({ s with elapsed := 0 } : Cat K W)
        have hs1 : env.KeepsHistory → s.history = c.history := fun hk => (hc.1 hk).trans htick.1
        have hs2 : env.KeepsDifficulty → s.difficulty = c.difficulty :=
          fun hk => (hc.2 hk).trans htick.2
        split
        · rename_i e t hnext
          rw [hnext] at hn
          simp only [Res.state] at hn
          refine ⟨fun hk => ?_, fun hk => hn.2.trans (hs2 hk)⟩
          rcases hn.1 with h | ⟨label, h⟩
          · exact Or.inl (h.trans (hs1 hk))
          · exact Or.inr ⟨label, h.trans (by rw [hs1 hk])⟩
        · rename_i t hnext
          rw [hnext] at hn
          simp only [Res.state] at hn
          have hpe := Cat.plan_execute_frame env chance r t
          refine ⟨fun hk => ?_, fun hk => (hpe.2 hk).trans (hn.2.trans (hs2 hk))⟩
          rcases hn.1 with h | ⟨label, h⟩
          · exact Or.inl ((hpe.1 hk).trans (h.trans (hs1 hk)))
          · exact Or.inr ⟨label, (hpe.1 hk).trans (h.trans (by rw [hs1 hk]))⟩
        · rename_i t hnext
          rw [hnext] at hn
          simp only [Res.state] at hn
          refine ⟨fun hk => ?_, fun hk => hn.2.trans (hs2 hk)⟩
          rcases hn.1 with h | ⟨label, h⟩
          · exact Or.inl (h.trans (hs1 hk))
          · exact Or.inr ⟨label, h.trans (by rw [hs1 hk])⟩
        · rename_i next t hnext
          rw [hnext] at hn
          simp only [Res.state] at hn
          have hi := Cat.invoke_frame env next.execute t
          have hst : ∀ x : Res (Cat K W) Bool,
              (match x with
                | .ok _ u => (Res.ok () u : Res (Cat K W) Unit)
                | .threw e u => .threw e u).state = x.state := by
            intro x
            cases x <;> rfl
          simp only [hst]
          refine ⟨fun hk => ?_, fun hk => (hi.2 hk).trans (hn.2.trans (hs2 hk))⟩
          rcases hn.1 with h | ⟨label, h⟩
          · exact Or.inl ((hi.1 hk).trans (h.trans (hs1 hk)))
          · exact Or.inr ⟨label, (hi.1 hk).trans (h.trans (by rw [hs1 hk]))⟩
      · rename_i s hinv
        rw [hinv] at hc
        simp only [Res.state] at hc
        have hs1 : env.KeepsHistory → s.history = c.history := fun hk => (hc.1 hk).trans htick.1
        have hs2 : env.KeepsDifficulty → s.difficulty = c.difficulty :=
          fun hk => (hc.2 hk).trans htick.2
        split
        · rename_i update _
          have hi := Cat.invoke_frame env update s
          have hst : ∀ x : Res (Cat K W) Bool,
              (match x with
                | .ok _ u => (Res.ok () u : Res (Cat K W) Unit)
                | .threw e u => .threw e u).state = x.state := by
            intro x
            cases x <;> rfl
          simp only [hst]
          exact ⟨fun hk => Or.inl ((hi.1 hk).trans (hs1 hk)),
            fun hk => (hi.2 hk).trans (hs2 hk)⟩
        · exact ⟨fun hk => Or.inl (hs1 hk), fun hk => hs2 hk⟩

end Runtime

section RuntimeClaims

variable {K W : Type} [LinearOrderedField K]

/-- C1: the eviction invariant. On a queue whose first slot holds an action,
`next_action()` leaves as history the 7 most recent labels (the shifted label
first), so at most 7 labels; the constructor and `reset()` leave a history of
exactly 1 label; hence, when no function held by an action writes the history,
`history.length <= 7` in every state reached from the constructor by calls of
`logic(dt)`, `next_action()`, `reset()` and `set_difficulty(level)`, whether
they return or throw. -/
theorem Cat.history_length_le_seven (env : Env K W) (config : Config K)
    (hk : env.KeepsHistory) :
    (∀ (c : Cat K W) (a : Act K) (rest : List (Option (Act K))), c.queue = some a :: rest →
      (Cat.next_action c).state.history = (a.label :: c.history).take 7 ∧
      (Cat.next_action c).state.history.length ≤ 7) ∧
    (∀ (observe : Observe K) (world : W),
      (Cat.new config observe world : Cat K W).history.length = 1) ∧
    (∀ c : Cat K W, (Cat.reset env config.INITIAL c).history.length = 1) ∧
    (∀ c : Cat K W, Cat.Reachable env config c → c.history.length ≤ 7) := by
  refine ⟨?_, fun _ _ => rfl, fun _ => rfl, ?_⟩
  · intro c a rest hq
    have h : (Cat.next_action c).state.history = evict (a.label :: c.history) := by
      simp only [Cat.next_action, hq, Res.state]
    rw [h]
    exact ⟨evict_eq_take _, evict_length_le _⟩
  · intro c hc
    induction hc with
    | new observe world => simp [Cat.new]
    | @logic c1 dt chance r _ ih =>
        rcases (Cat.logic_frame env dt chance r c1).1 hk with h | ⟨label, h⟩
        · rw [h]
          exact ih
        · rw [h]
          exact evict_length_le _
    | @next_action c1 _ ih =>
        rcases (Cat.next_action_frame c1).1 with h | ⟨label, h⟩
        · rw [h]
          exact ih
        · rw [h]
          exact evict_length_le _
    | reset _ _ => simp [Cat.reset]
    | set_difficulty level _ ih => exact ih

theorem Cat.history_length_le_seven_witness :
    (Example.env true).KeepsHistory ∧
    (∀ c : Cat ℚ Unit, Cat.Reachable (Example.env true) Example.config c →
      c.history.length ≤ 7) :=
  ⟨fun _ _ => rfl,
    (@Cat.history_length_le_seven ℚ Unit _ (Example.env true) Example.config
      (fun _ _ => rfl)).2.2.2⟩

/-- C9: `set_difficulty(level)` is total and sets the difficulty to
`min(2, max(0, level))`: 0 for `level <= 0`, 2 for `level >= 2`, `level`
itself in between. The constructor and `reset()` set 0. Hence, when no
function held by an action writes the difficulty, in every reachable state
the difficulty is 0, 1 or 2, and a `switch (this.difficulty)` yields the same
whatever its `default` arm is: that arm is never taken. -/
theorem Cat.difficulty_clamped (env : Env K W) (config : Config K)
    (hk : env.KeepsDifficulty) :
    (∀ (level : ℤ) (c : Cat K W),
      (Cat.set_difficulty level c).difficulty = min 2 (max 0 level) ∧
      (level ≤ 0 → (Cat.set_difficulty level c).difficulty = 0) ∧
      (2 ≤ level → (Cat.set_difficulty level c).difficulty = 2) ∧
      (0 ≤ level → level ≤ 2 → (Cat.set_difficulty level c).difficulty = level)) ∧
    (∀ (observe : Observe K) (world : W),
      (Cat.new config observe world : Cat K W).difficulty = 0) ∧
    (∀ c : Cat K W, (Cat.reset env config.INITIAL c).difficulty = 0) ∧
    (∀ c : Cat K W, Cat.Reachable env config c →
      (c.difficulty = 0 ∨ c.difficulty = 1 ∨ c.difficulty = 2) ∧
      ∀ (α : Type) (case_0 case_1 case_2 default_1 default_2 : α),
        switch_difficulty c.difficulty case_0 case_1 case_2 default_1 =
          switch_difficulty c.difficulty case_0 case_1 case_2 default_2) := by
  have hset : ∀ (level : ℤ) (c : Cat K W),
      (Cat.set_difficulty level c).difficulty = min 2 (max 0 level) := fun _ _ => rfl
  have hreach : ∀ c : Cat K W, Cat.Reachable env config c →
      (c.difficulty = 0 ∨ c.difficulty = 1 ∨ c.difficulty = 2) := by
    intro c hc
    induction hc with
    | new observe world => exact Or.inl rfl
    | @logic c1 dt chance r _ ih =>
        rw [(Cat.logic_frame env dt chance r c1).2 hk]
        exact ih
    | @next_action c1 _ ih =>
        rw [(Cat.next_action_frame c1).2]
        exact ih
    | reset _ _ => exact Or.inl rfl
    | set_difficulty level _ _ =>
        rw [hset]
        omega
  refine ⟨fun level c => ⟨hset level c, ?_, ?_, ?_⟩, fun _ _ => rfl, fun _ => rfl, ?_⟩
  · intro h
    rw [hset]
    omega
  · intro h
    rw [hset]
    omega
  · intro h1 h2
    rw [hset]
    omega
  · intro c hc
    refine ⟨hreach c hc, ?_⟩
    intro α a b d x y
    rcases hreach c hc with h | h | h <;> simp [switch_difficulty, h]

theorem Cat.difficulty_clamped_witness :
    (Example.env true).KeepsDifficulty ∧
    (Cat.set_difficulty 5 Example.cat).difficulty = 2 ∧
    (Cat.set_difficulty (-3) Example.cat).difficulty = 0 ∧
    (Cat.set_difficulty 1 Example.cat).difficulty = 1 :=
  ⟨fun _ _ => rfl,
    ((@Cat.difficulty_clamped ℚ Unit _ (Example.env true) Example.config (fun _ _ => rfl)).1 5
      Example.cat).2.2.1 (by decide),
    ((@Cat.difficulty_clamped ℚ Unit _ (Example.env true) Example.config (fun _ _ => rfl)).1 (-3)
      Example.cat).2.1 (by decide),
    ((@Cat.difficulty_clamped ℚ Unit _ (Example.env true) Example.config (fun _ _ => rfl)).1 1
      Example.cat).2.2.2 (by decide) (by decide)⟩

/-- C2: the queue advances. Let the queue be `[A1, A2, ...rest]`, let
`A1.condition()` return true in this tick and let it and `A2.execute` be stubs
(they return normally and leave the queue, history and elapsed time of
`this.actions` alone). Then `logic(dt)` returns, having called exactly
`look()`, `A1.condition()` and `A2.execute()` in this order (so `A2.execute`
once and `plan()` not at all), and leaves `queue = [A2, ...rest]` with `A2`
current, `A1.label` at index 0 of the history, the history being the 7 most
recent labels, and `actions.elapsed = 0`. -/
theorem Cat.logic_advances (env : Env K W) (dt chance r : K) (c : Cat K W) (A1 A2 : Act K)
    (rest : List (Option (Act K))) (cond1 : Fn Code Agent (Val K))
    (hq : c.queue = some A1 :: some A2 :: rest)
    (hc : A1.condition = some cond1)
    (hcond : env.Untouched cond1 (Cat.tick env dt c) true)
    (hexec : ∀ s, ∃ b, env.Untouched A2.execute s b) :
    ∃ s, Cat.logic env dt chance r c =
        ([Ev.look, Ev.condition A1, Ev.execute A2], .ok () s) ∧
      s.queue = some A2 :: rest ∧
      Cat.current_action s = .obj A2 ∧
      s.history = (A1.label :: c.history).take 7 ∧
      s.history.head? = some A1.label ∧
      s.elapsed = 0 := by
  obtain ⟨s1, hinv1, hq1, hh1, -⟩ := hcond
  have htq : (Cat.tick env dt c).queue = some A1 :: some A2 :: rest := hq
  have hth : (Cat.tick env dt c).history = c.history := rfl
  obtain ⟨b, s2, hinv2, hq2, hh2, he2⟩ := hexec
    { s1 with elapsed := 0, queue := some A2 :: rest, history := evict (A1.label :: s1.history) }
  have hcur : Cat.current_action (Cat.tick env dt c) = .obj A1 := by
    simp only [Cat.current_action, htq]
  have hnext : Cat.next_action ({ s1 with elapsed := 0 } : Cat K W) =
      .ok (.obj A2)
        { s1 with elapsed := 0, queue := some A2 :: rest, history := evict (A1.label :: s1.history) } := by
    simp only [Cat.next_action, hq1, htq, Cat.current_action]
  refine ⟨s2, ?_, hq2, ?_, ?_, ?_, he2⟩
  · simp only [Cat.logic, hcur, hc, hinv1, hnext, hinv2]
  · simp only [Cat.current_action, hq2]
  · rw [hh2]
    simp only [hh1, hth, evict_eq_take]
  · rw [hh2]
    simp only [hh1, hth, evict_eq_take]
    rfl

theorem Cat.logic_advances_witness :
    ∃ s, Cat.logic (Example.env true) 16 0 0
        { Example.cat with queue :=
          [some (Action.mk "first" (Fn.raw ⟨"stub", Part.execute⟩)
            (some (Fn.raw ⟨"stub", Part.condition⟩)) none),
           some (Action.mk "second" (Fn.raw ⟨"stub", Part.execute⟩)
            (some (Fn.raw ⟨"stub", Part.condition⟩)) none)] } =
        ([Ev.look,
          Ev.condition (Action.mk "first" (Fn.raw ⟨"stub", Part.execute⟩)
            (some (Fn.raw ⟨"stub", Part.condition⟩)) none),
          Ev.execute (Action.mk "second" (Fn.raw ⟨"stub", Part.execute⟩)
            (some (Fn.raw ⟨"stub", Part.condition⟩)) none)], .ok () s) ∧
      s.queue = [some (Action.mk "second" (Fn.raw ⟨"stub", Part.execute⟩)
        (some (Fn.raw ⟨"stub", Part.condition⟩)) none)] ∧
      s.history = ["first", "sit"] ∧ s.elapsed = 0 := by
  obtain ⟨s, h1, h2, _, h4, _, h6⟩ := Cat.logic_advances (Example.env true) 16 0 0
    { Example.cat with queue :=
      [some (Action.mk "first" (Fn.raw ⟨"stub", Part.execute⟩)
        (some (Fn.raw ⟨"stub", Part.condition⟩)) none),
       some (Action.mk "second" (Fn.raw ⟨"stub", Part.execute⟩)
        (some (Fn.raw ⟨"stub", Part.condition⟩)) none)] }
    (Action.mk "first" (Fn.raw ⟨"stub", Part.execute⟩)
      (some (Fn.raw ⟨"stub", Part.condition⟩)) none)
    (Action.mk "second" (Fn.raw ⟨"stub", Part.execute⟩)
      (some (Fn.raw ⟨"stub", Part.condition⟩)) none)
    [] (Fn.raw ⟨"stub", Part.condition⟩) rfl rfl ⟨_, rfl, rfl, rfl, rfl⟩
    (fun s => ⟨true, s, rfl, rfl, rfl, rfl⟩)
  exact ⟨s, h1, h2, h4, h6⟩

/-- C3: planning on an empty queue. Let the queue be empty and the factory
hold the schemas of `register_actions`. Then `plan()` returns and leaves a
queue that starts with an action `first`; `logic(dt)` has called exactly
`look()`, `plan()` and `first.execute()` in this order, no condition; its
outcome is that of `first.execute()`; `plan()` leaves the history as it was,
and so does the whole tick when no function held by an action writes the
history. -/
theorem Cat.logic_plans_on_empty_queue (env : Env K W) (dt chance r : K) (c : Cat K W)
    (hq : c.queue = []) (hf : c.factory = Cat.register_actions ActionFactory.new) :
    ∃ (first : Act K) (rest : List (Option (Act K))) (s : Cat K W),
      Cat.plan chance r (Cat.tick env dt c) = .ok () s ∧
      s.queue = some first :: rest ∧
      s.history = c.history ∧
      (Cat.logic env dt chance r c).1 = [Ev.look, Ev.plan, Ev.execute first] ∧
      (Cat.logic env dt chance r c).2 =
        (match Cat.invoke env first.execute s with
          | .ok _ t => .ok () t
          | .threw e t => .threw e t) ∧
      (env.KeepsHistory → (Cat.logic env dt chance r c).2.state.history = c.history) := by
  have htq : (Cat.tick env dt c).queue = [] := hq
  obtain ⟨acts, hlo, -, hplan⟩ := Cat.plan_appends chance r (Cat.tick env dt c) hf
  cases acts with
  | nil => simp at hlo
  | cons first more =>
      have hcur : Cat.current_action (Cat.tick env dt c) = .null := by
        simp only [Cat.current_action, htq]
      have hlogic : (Cat.logic env dt chance r c).2 =
          (match Cat.invoke env first.execute
              ({ Cat.tick env dt c with
                queue := (Cat.tick env dt c).queue ++ (first :: more).map some } : Cat K W) with
            | .ok _ t => .ok () t
            | .threw e t => .threw e t) := by
        simp [Cat.logic, hcur, Cat.plan_execute, hplan, htq]
      refine ⟨first, more.map some, _, hplan, ?_, rfl, ?_, hlogic, ?_⟩
      · simp [htq]
      · simp [Cat.logic, hcur, Cat.plan_execute, hplan, htq]
      · intro hk
        rw [hlogic]
        have hi := hk (first.execute.call none [])
          ({ Cat.tick env dt c with
            queue := (Cat.tick env dt c).queue ++ (first :: more).map some } : Cat K W)
        unfold Cat.invoke
        cases hinv : env.sem (first.execute.call none [])
          ({ Cat.tick env dt c with
            queue := (Cat.tick env dt c).queue ++ (first :: more).map some } : Cat K W) with
        | ok v t =>
            rw [hinv] at hi
            exact hi
        | threw e t =>
            rw [hinv] at hi
            exact hi

theorem Cat.logic_plans_on_empty_queue_witness :
    Example.cat.queue = [] ∧
    Example.cat.factory = Cat.register_actions ActionFactory.new ∧
    ∃ (first : Act ℚ) (rest : List (Option (Act ℚ))) (s : Cat ℚ Unit),
      Cat.plan 0 0 (Cat.tick (Example.env true) 16 Example.cat) = .ok () s ∧
      s.queue = some first :: rest ∧
      (Cat.logic (Example.env true) 16 0 0 Example.cat).1 =
        [Ev.look, Ev.plan, Ev.execute first] := by
  refine ⟨rfl, rfl, ?_⟩
  obtain ⟨first, rest, s, h1, h2, _, h4, _, _⟩ :=
    Cat.logic_plans_on_empty_queue (Example.env true) 16 0 0 Example.cat rfl rfl
  exact ⟨first, rest, s, h1, h2, h4⟩

/-- C4: waiting. Let the queue start with an action `A` whose `condition()`
returns false in this tick, and let that call, and the update of `A` if it has
one, leave the queue, history and elapsed time of `this.actions` alone. Then
`logic(dt)` returns, having called exactly `look()`, `A.condition()` and, if
`A` has an update, `A.update()` once (neither `plan()` nor any `execute`); the
queue and the history are unchanged and `actions.elapsed` has grown by `dt`. -/
theorem Cat.logic_waits (env : Env K W) (dt chance r : K) (c : Cat K W) (A : Act K)
    (rest : List (Option (Act K))) (cond : Fn Code Agent (Val K))
    (hq : c.queue = some A :: rest)
    (hc : A.condition = some cond)
    (hcond : env.Untouched cond (Cat.tick env dt c) false)
    (hupd : ∀ u, A.update = some u → ∀ s, ∃ b, env.Untouched u s b) :
    ∃ s, Cat.logic env dt chance r c =
        (Ev.look :: Ev.condition A ::
          (match A.update with
            | some _ => [Ev.update A]
            | none => []), .ok () s) ∧
      s.queue = c.queue ∧
      s.history = c.history ∧
      s.elapsed = c.elapsed + dt := by
  obtain ⟨s1, hinv1, hq1, hh1, he1⟩ := hcond
  have htq : (Cat.tick env dt c).queue = some A :: rest := hq
  have hcur : Cat.current_action (Cat.tick env dt c) = .obj A := by
    simp only [Cat.current_action, htq]
  cases hu : A.update with
  | none =>
      refine ⟨s1, ?_, hq1, hh1, he1⟩
      simp only [Cat.logic, hcur, hc, hinv1, hu]
  | some u =>
      obtain ⟨b, s2, hinv2, hq2, hh2, he2⟩ := hupd u hu s1
      refine ⟨s2, ?_, hq2.trans hq1, hh2.trans hh1, he2.trans he1⟩
      simp only [Cat.logic, hcur, hc, hinv1, hu, hinv2]

theorem Cat.logic_waits_witness :
    ∃ s, Cat.logic (Example.env false) 16 0 0
        { Example.cat with queue :=
          [some (Action.mk "first" (Fn.raw ⟨"stub", Part.execute⟩)
            (some (Fn.raw ⟨"stub", Part.condition⟩)) (some (Fn.raw ⟨"stub", Part.update⟩)))] } =
        ([Ev.look,
          Ev.condition (Action.mk "first" (Fn.raw ⟨"stub", Part.execute⟩)
            (some (Fn.raw ⟨"stub", Part.condition⟩)) (some (Fn.raw ⟨"stub", Part.update⟩))),
          Ev.update (Action.mk "first" (Fn.raw ⟨"stub", Part.execute⟩)
            (some (Fn.raw ⟨"stub", Part.condition⟩)) (some (Fn.raw ⟨"stub", Part.update⟩)))],
          .ok () s) ∧
      s.queue = [some (Action.mk "first" (Fn.raw ⟨"stub", Part.execute⟩)
        (some (Fn.raw ⟨"stub", Part.condition⟩)) (some (Fn.raw ⟨"stub", Part.update⟩)))] ∧
      s.history = ["sit"] ∧ s.elapsed = 0 + 16 :=
  Cat.logic_waits (Example.env false) 16 0 0
    { Example.cat with queue :=
      [some (Action.mk "first" (Fn.raw ⟨"stub", Part.execute⟩)
        (some (Fn.raw ⟨"stub", Part.condition⟩)) (some (Fn.raw ⟨"stub", Part.update⟩)))] }
    (Action.mk "first" (Fn.raw ⟨"stub", Part.execute⟩)
      (some (Fn.raw ⟨"stub", Part.condition⟩)) (some (Fn.raw ⟨"stub", Part.update⟩)))
    [] (Fn.raw ⟨"stub", Part.condition⟩) rfl rfl ⟨_, rfl, rfl, rfl, rfl⟩
    (fun _ _ s => ⟨false, s, rfl, rfl, rfl, rfl⟩)

end RuntimeClaims

/-! ## The planner -/

section PlannerClaims

variable {K W : Type} [LinearOrderedField K]

theorem Cat.enqueue_explicit (p : String × Bool) (hp : p ∈ Cat.registered_labels)
    (ae ac au : Option (List (Val K))) (c : Cat K W)
    (hf : c.factory = Cat.register_actions ActionFactory.new) :
    Cat.enqueue_action p.1 ae ac au c = .ok ()
      { c with queue := c.queue ++ [some
        { label := p.1
          execute := match ae with
            | some args => Cat.bound_fn p.1 Part.execute args
            | none => Fn.bound (Fn.raw ⟨p.1, Part.execute⟩) (some Agent.cat) []
          condition := match ac with
            | some args => some (Cat.bound_fn p.1 Part.condition args)
            | none => some (Fn.bound (Fn.raw ⟨p.1, Part.condition⟩) (some Agent.cat) [])
          update := match au, p.2 with
            | some args, true => some (Cat.bound_fn p.1 Part.update args)
            | none, true => some (Fn.bound (Fn.raw ⟨p.1, Part.update⟩) (some Agent.cat) [])
            | _, false => none }] } := by
  have hown := @Cat.registered_own K p hp
  rw [← hf] at hown
  have hg := ActionFactory.generate_own c.factory p.1 _ _ hown rfl ae ac au
  simp only [Cat.enqueue_action, hg]
  obtain ⟨label, hasUpdate⟩ := p
  cases ae <;> cases ac <;> cases au <;> cases hasUpdate <;> rfl

/-- C10: the easy planner after sitting. Let the cat hold the registered
schemas, its queue be empty, its difficulty 0, its most recent history label
`sit` or `idle`, and `observe.player.rel.y < 20`. If `observe.player.rel.x <
75`, `plan()` leaves exactly the attack behaviour: `queue = [run, attack]`,
both executed on `observe.player`, where the condition of `run` is the
registered condition called on the cat with `(observe.player, 10000, 15)`,
which is true exactly when `elapsed >= 10000` or `observe.player.abs.x <= 15`.
If `observe.player.rel.x >= 75`, it leaves the chase behaviour
`queue = [run, walk]` on `observe.player`. -/
theorem Cat.plan_after_sitting_easy (chance r : K) (c : Cat K W) (label : String)
    (older : List String)
    (hf : c.factory = Cat.register_actions ActionFactory.new)
    (hq : c.queue = [])
    (hd : c.difficulty = 0)
    (hh : c.history = label :: older)
    (hl : label = "sit" ∨ label = "idle")
    (hy : c.observe.player.rel.y < 20) :
    (c.observe.player.rel.x < 75 →
      Cat.plan chance r c = .ok ()
        { c with queue :=
          [some (Action.mk "run" (Cat.bound_fn "run" Part.execute [.info .player])
            (some (Cat.bound_fn "run" Part.condition [.info .player, .num 10000, .num 15]))
            (some (Cat.bound_fn "run" Part.update [.info .player]))),
           some (Action.mk "attack" (Cat.bound_fn "attack" Part.execute [.info .player])
            (some (Fn.bound (Fn.raw ⟨"attack", Part.condition⟩) (some Agent.cat) []))
            none)] } ∧
      ∀ s : Cat K W,
        Cat.schema_sem ((Cat.bound_fn "run" Part.condition
            [.info .player, .num 10000, .num 15]).call none []) s =
          some (.ok (decide (10000 ≤ s.elapsed ∨ s.observe.player.abs.x ≤ 15)) s)) ∧
    (75 ≤ c.observe.player.rel.x →
      Cat.plan chance r c = .ok ()
        { c with queue :=
          [some (Action.mk "run" (Cat.bound_fn "run" Part.execute [.info .player])
            (some (Cat.bound_fn "run" Part.condition [.info .player, .num 6000, .num 30]))
            (some (Cat.bound_fn "run" Part.update [.info .player]))),
           some (Action.mk "walk" (Cat.bound_fn "walk" Part.execute [.info .player])
            (some (Cat.bound_fn "walk" Part.condition
              [.info .player, .num 6000, .num 0, .num 10, .num 30]))
            (some (Cat.bound_fn "walk" Part.update [.info .player])))] }) := by
  have hf2 : ∀ q, ({ c with queue := q } : Cat K W).factory =
      Cat.register_actions ActionFactory.new := fun _ => hf
  have hrecent : Cat.plan_behaviour chance c = Cat.plan_sit_idle chance c := by
    rcases hl with h | h <;> subst h <;> simp [Cat.plan_behaviour, Cat.recent_action, hh]
  constructor
  · intro hx
    have hb : Cat.plan_behaviour chance c = Behaviour.attack Ref.player := by
      rw [hrecent]
      simp [Cat.plan_sit_idle, switch_difficulty, zones, hd, hy, hx]
    refine ⟨?_, ?_⟩
    · simp only [Cat.plan, hb, Cat.do_behaviour, Cat.do_attack, Js.bind_apply]
      rw [Cat.enqueue_explicit ("run", true) (by decide) _ _ _ c hf]
      simp only
      rw [Cat.enqueue_explicit ("attack", false) (by decide) _ _ _ _ (hf2 _)]
      simp [hq]
    · intro s
      simp [Cat.schema_sem, Cat.bound_fn, Fn.call, Cat.run_condition, Observe.abs]
  · intro hx
    have hb : Cat.plan_behaviour chance c = Behaviour.chase Ref.player := by
      rw [hrecent]
      simp [Cat.plan_sit_idle, switch_difficulty, zones, hd, hy, not_lt.2 hx]
    simp only [Cat.plan, hb, Cat.do_behaviour, Cat.do_chase, Js.bind_apply]
    rw [Cat.enqueue_explicit ("run", true) (by decide) _ _ _ c hf]
    simp only
    rw [Cat.enqueue_explicit ("walk", true) (by decide) _ _ _ _ (hf2 _)]
    simp [hq]

theorem Cat.plan_after_sitting_easy_witness :
    Example.cat.history = ["sit"] ∧
    Example.cat.observe.player.rel.x = 40 ∧
    Example.cat.observe.player.rel.y = 10 ∧
    Cat.plan 0 0 Example.cat = .ok ()
      { Example.cat with queue :=
        [some (Action.mk "run" (Cat.bound_fn "run" Part.execute [.info .player])
          (some (Cat.bound_fn "run" Part.condition [.info .player, .num 10000, .num 15]))
          (some (Cat.bound_fn "run" Part.update [.info .player]))),
         some (Action.mk "attack" (Cat.bound_fn "attack" Part.execute [.info .player])
          (some (Fn.bound (Fn.raw ⟨"attack", Part.condition⟩) (some Agent.cat) []))
          none)] } :=
  ⟨rfl, rfl, rfl,
    ((Cat.plan_after_sitting_easy 0 0 Example.cat "sit" [] rfl rfl rfl rfl (Or.inl rfl)
      (show (10 : ℚ) < 20 by norm_num)).1 (show (40 : ℚ) < 75 by norm_num)).1⟩

end PlannerClaims

/-! ## Unknown labels -/

section UnknownLabel

variable {K W : Type} [LinearOrderedField K]

/-- C8: the failure of `generate` found in the code. The factory of the cat
being built by `register` and `deregister` calls, `generate(label, ...)` fails
exactly when `label` has no stored schema; it then returns no action and
throws a `TypeError`, and `enqueue_action` with that label throws it too and
leaves the cat, so the queue, unchanged; a label removed by `deregister` has no
stored schema; for a label with a stored schema `generate` returns an action
and `enqueue_action` pushes it. -/
theorem Cat.generate_fails_iff_unregistered (c : Cat K W) (hb : c.factory.Built)
    (label : String) (ae ac au : Option (List (Val K))) :
    ((∃ e, c.factory.generate label ae ac au = .error e) ↔
      ownProperty label c.factory.schemas = none) ∧
    (ownProperty label c.factory.schemas = none →
      c.factory.generate label ae ac au = .error JsError.typeError ∧
      Cat.enqueue_action label ae ac au c = .threw JsError.typeError c) ∧
    (ownProperty label c.factory.schemas ≠ none →
      ∃ act, c.factory.generate label ae ac au = .ok act ∧
        Cat.enqueue_action label ae ac au c =
          .ok () { c with queue := c.queue ++ [some act] }) ∧
    (c.factory.deregister label).generate label ae ac au = .error JsError.typeError := by
  have hmiss : ownProperty label c.factory.schemas = none →
      c.factory.generate label ae ac au = .error JsError.typeError :=
    fun h => ActionFactory.generate_missing _ _ h _ _ _
  have hown : ownProperty label c.factory.schemas ≠ none →
      ∃ act, c.factory.generate label ae ac au = .ok act := by
    intro h
    cases ho : ownProperty label c.factory.schemas with
    | none => exact absurd ho h
    | some schema =>
        obtain ⟨cond, hcond⟩ := hb.update_isSome label schema ho
        exact ⟨_, ActionFactory.generate_own _ _ schema cond ho hcond ae ac au⟩
  refine ⟨⟨?_, fun h => ⟨_, hmiss h⟩⟩, ?_, ?_, ?_⟩
  · rintro ⟨e, he⟩
    by_contra hne
    obtain ⟨act, hact⟩ := hown hne
    rw [hact] at he
    cases he
  · intro h
    refine ⟨hmiss h, ?_⟩
    simp only [Cat.enqueue_action, hmiss h]
  · intro h
    obtain ⟨act, hact⟩ := hown h
    refine ⟨act, hact, ?_⟩
    simp only [Cat.enqueue_action, hact]
  · exact ActionFactory.generate_missing _ _ (ownProperty_delete_self _ _) _ _ _

theorem Cat.generate_fails_iff_unregistered_witness :
    Example.cat.factory.Built ∧
    Example.cat.factory.generate "purr" none none none = .error JsError.typeError ∧
    Cat.enqueue_action "purr" none none none Example.cat =
      .threw JsError.typeError Example.cat := by
  have hf : Example.cat.factory = Cat.register_actions ActionFactory.new := rfl
  have hb : Example.cat.factory.Built := by
    rw [hf]
    exact Cat.registered_built
  have hp : ownProperty "purr" Example.cat.factory.schemas = none := by
    rw [hf, Cat.register_actions_new]
    simp [Cat.registered_labels, ownProperty, Cat.schema_entry]
  exact ⟨hb, (Cat.generate_fails_iff_unregistered Example.cat hb "purr" none none none).2.1 hp⟩

/-- C8, as stated, fails: `generate` with a label that was never registered
throws the error named `TypeError`, which is not an error named
`UnknownActionLabel`. -/
theorem Cat.generate_unknown_label_throws_TypeError :
    (ActionFactory.new : ActionFactory Code Agent (Val ℚ)).generate "purr" none none none =
      .error ⟨"TypeError"⟩ ∧
    (ActionFactory.new : ActionFactory Code Agent (Val ℚ)).generate "purr" none none none ≠
      .error ⟨"UnknownActionLabel"⟩ := by
  have h : (ActionFactory.new : ActionFactory Code Agent (Val ℚ)).generate "purr" none none none =
      .error ⟨"TypeError"⟩ :=
    ActionFactory.generate_missing ActionFactory.new "purr" rfl none none none
  refine ⟨h, ?_⟩
  rw [h]
  intro hne
  injection hne with hne
  injection hne with hne
  exact absurd hne (by decide)

end UnknownLabel

/-! ## The planner: fallback and sizes of the behaviours -/

section PlannerFallback

variable {K W : Type} [LinearOrderedField K]

theorem Cat.plan_behaviour_fallback (chance : K) (c : Cat K W)
    (h : Cat.recent_action c ∉ ["sit", "idle", "walk", "run", "sneak", "attack", "wait",
      "crouch", "jump", "land", "hang", "climb"]) :
    Cat.plan_behaviour chance c = Behaviour.relax Ref.player := by
  simp only [List.mem_cons, List.mem_singleton, List.not_mem_nil, or_false, not_or] at h
  unfold Cat.plan_behaviour
  split <;> simp_all

/-- C11: the fallback category. Let the cat hold the registered schemas. When
the history is empty, or its most recent label is none of `sit`, `idle`,
`walk`, `run`, `sneak`, `attack`, `wait`, `crouch`, `jump`, `land`, `hang`,
`climb`, then at every difficulty and for every draw `plan()` appends to the
queue exactly the relax behaviour on `observe.player`: a single `hang` when
the snapshot has the left or the right wall hit and not the bottom, otherwise
`sit` followed by `idle`. -/
theorem Cat.plan_fallback_relax (chance r : K) (c : Cat K W)
    (hf : c.factory = Cat.register_actions ActionFactory.new)
    (hh : c.history = [] ∨ ∃ label older, c.history = label :: older ∧
      label ∉ ["sit", "idle", "walk", "run", "sneak", "attack", "wait", "crouch", "jump",
        "land", "hang", "climb"]) :
    Cat.plan chance r c = .ok ()
      { c with queue := c.queue ++
        (if !c.observe.boundary.bottom.hit &&
            (c.observe.boundary.left.hit || c.observe.boundary.right.hit) then
          [some (Action.mk "hang" (Fn.bound (Fn.raw ⟨"hang", Part.execute⟩) (some Agent.cat) [])
            (some (Cat.bound_fn "hang" Part.condition
              [.info .player, .num 1000, .num 0, .num 0])) none)]
        else
          [some (Action.mk "sit" (Cat.bound_fn "sit" Part.execute [.info .player])
            (some (Cat.bound_fn "sit" Part.condition
              [.info .player, .num 1000, .num 500, .num 100])) none),
           some (Action.mk "idle" (Cat.bound_fn "idle" Part.execute [.info .player])
            (some (Cat.bound_fn "idle" Part.condition
              [.info .player, .num 1000, .num 500, .num 100])) none)]) } := by
  have hf2 : ∀ q, ({ c with queue := q } : Cat K W).factory =
      Cat.register_actions ActionFactory.new := fun _ => hf
  have hb : Cat.plan_behaviour chance c = Behaviour.relax Ref.player := by
    apply Cat.plan_behaviour_fallback
    rcases hh with h | ⟨label, older, h, hl⟩
    · simp [Cat.recent_action, h]
    · by_cases he : label = ""
      · simp [Cat.recent_action, h, he]
      · simpa [Cat.recent_action, h, he] using hl
  simp only [Cat.plan, hb, Cat.do_behaviour, Cat.do_relax]
  split
  · rw [Cat.enqueue_explicit ("hang", false) (by decide) _ _ _ c hf]
  · simp only [Js.bind_apply]
    rw [Cat.enqueue_explicit ("sit", false) (by decide) _ _ _ c hf]
    simp only
    rw [Cat.enqueue_explicit ("idle", false) (by decide) _ _ _ _ (hf2 _)]
    simp

theorem Cat.plan_fallback_relax_witness :
    Cat.plan 0 0 ({ Example.cat with history := ["run-to"] } : Cat ℚ Unit) = .ok ()
      { Example.cat with
        history := ["run-to"]
        queue :=
          [some (Action.mk "sit" (Cat.bound_fn "sit" Part.execute [.info .player])
            (some (Cat.bound_fn "sit" Part.condition
              [.info .player, .num 1000, .num 500, .num 100])) none),
           some (Action.mk "idle" (Cat.bound_fn "idle" Part.execute [.info .player])
            (some (Cat.bound_fn "idle" Part.condition
              [.info .player, .num 1000, .num 500, .num 100])) none)] } :=
  Cat.plan_fallback_relax 0 0 ({ Example.cat with history := ["run-to"] } : Cat ℚ Unit) rfl
    (Or.inr ⟨"run-to", [], rfl, by decide⟩)

theorem Cat.do_pounce_appends_exact (target : Ref) (skip : Bool) (flag : String) (bool : Bool) :
    Cat.Appends (Cat.do_pounce target skip flag bool : Js (Cat K W) Unit)
      (if skip then 2 else 3) (if skip then 2 else 3) := by
  unfold Cat.do_pounce
  cases skip
  · exact Cat.appends_seq (Cat.appends_enqueue ("crouch", false) (by decide) _ _ _)
      (fun _ => Cat.appends_seq (Cat.appends_enqueue ("jump", true) (by decide) _ _ _)
        (fun _ => Cat.appends_enqueue ("land", false) (by decide) _ _ _))
  · exact Cat.appends_seq Cat.appends_pure
      (fun _ => Cat.appends_seq (Cat.appends_enqueue ("jump", true) (by decide) _ _ _)
        (fun _ => Cat.appends_enqueue ("land", false) (by decide) _ _ _))

theorem Cat.do_hops_appends_exact (target : Ref) (skip : Bool)
    (flag_0 flag_1 flag_2 : String) :
    Cat.Appends (Cat.do_hops target skip flag_0 flag_1 flag_2 : Js (Cat K W) Unit)
      (if skip then 8 else 9) (if skip then 8 else 9) := by
  have h := Cat.appends_seq (Cat.do_pounce_appends_exact target skip flag_0 false)
    (fun _ => Cat.appends_seq (@Cat.do_pounce_appends_exact K W _ target false flag_1 false)
      (fun _ => Cat.do_pounce_appends_exact target false flag_2 false))
  cases skip <;> exact h

/-- C12: the sizes of the behaviours, as found in the code. On a cat holding
the registered schemas every behaviour returns and appends to the queue:
`do_relax` 1 or 2 actions, `do_chase` 2, `do_attack` 2, `do_pounce` 2 with
`skip` and 3 without, `do_sneak` 1, `do_hang` 4, `do_bounce` 4, `do_climb` 1,
`do_aerial` 2 or 3, `do_trick` 5, `do_suspense` 4, so between 1 and 5 for each
of these; `do_hops` appends 8 actions with `skip` and 9 without. -/
theorem Cat.behaviour_sizes (r : K) :
    (∀ t, Cat.Appends (Cat.do_relax t : Js (Cat K W) Unit) 1 2) ∧
    (∀ t, Cat.Appends (Cat.do_chase t : Js (Cat K W) Unit) 2 2) ∧
    (∀ t, Cat.Appends (Cat.do_attack t : Js (Cat K W) Unit) 2 2) ∧
    (∀ t skip flag bool, Cat.Appends (Cat.do_pounce t skip flag bool : Js (Cat K W) Unit)
      (if skip then 2 else 3) (if skip then 2 else 3)) ∧
    (∀ t, Cat.Appends (Cat.do_sneak t : Js (Cat K W) Unit) 1 1) ∧
    (∀ t flag, Cat.Appends (Cat.do_hang t flag : Js (Cat K W) Unit) 4 4) ∧
    (∀ t flag, Cat.Appends (Cat.do_bounce t flag : Js (Cat K W) Unit) 4 4) ∧
    (∀ t, Cat.Appends (Cat.do_climb t : Js (Cat K W) Unit) 1 1) ∧
    (∀ t flag bool, Cat.Appends (Cat.do_aerial t flag bool : Js (Cat K W) Unit) 2 3) ∧
    (∀ t flag bool, Cat.Appends (Cat.do_trick r t flag bool : Js (Cat K W) Unit) 5 5) ∧
    (∀ t flag bool, Cat.Appends (Cat.do_suspense r t flag bool : Js (Cat K W) Unit) 4 4) ∧
    (∀ t skip f0 f1 f2, Cat.Appends (Cat.do_hops t skip f0 f1 f2 : Js (Cat K W) Unit)
      (if skip then 8 else 9) (if skip then 8 else 9)) :=
  ⟨Cat.do_relax_appends, Cat.do_chase_appends, Cat.do_attack_appends,
    Cat.do_pounce_appends_exact, Cat.do_sneak_appends, Cat.do_hang_appends,
    Cat.do_bounce_appends, Cat.do_climb_appends, Cat.do_aerial_appends,
    Cat.do_trick_appends r, Cat.do_suspense_appends r, Cat.do_hops_appends_exact⟩

/-- C12, as stated, fails: on the cat as constructed `do_hops` without `skip`
appends 9 actions to the empty queue, more than 5. -/
theorem Cat.do_hops_appends_nine :
    (Cat.do_hops Ref.player false "low" "low" "low" Example.cat).state.queue.length = 9 ∧
    ¬ (Cat.do_hops Ref.player false "low" "low" "low" Example.cat).state.queue.length ≤ 5 := by
  obtain ⟨acts, h1, h2, h3⟩ :=
    Cat.do_hops_appends_exact Ref.player false "low" "low" "low" Example.cat rfl
  have hq : Example.cat.queue = [] := rfl
  have hlen : acts.length = 9 := le_antisymm h2 h1
  rw [h3]
  simp [Res.state, hq, hlen]

end PlannerFallback

/-! ## Rectangle -/

section RectangleClaims

variable {K : Type} [LinearOrderedField K]

/-- C20: containment is inclusive. Every rectangle contains itself, and a
rectangle `r` of positive width `w` and height `h` contains the point `p`
exactly when `r.x <= p.x <= r.x + w` and `r.y - h <= p.y <= r.y`; the four
corners of `r` are therefore contained. -/
theorem Rectangle.contains_inclusive (r : Rectangle K) (p : Vec K)
    (hw : 0 < r.dimensions.x) (hh : 0 < r.dimensions.y) :
    r.contains (.rectangle r) = true ∧
    (r.contains (.vector p) = true ↔
      (r.position.x ≤ p.x ∧ p.x ≤ r.position.x + r.dimensions.x) ∧
      (r.position.y - r.dimensions.y ≤ p.y ∧ p.y ≤ r.position.y)) ∧
    r.contains (.vector r.points.a) = true ∧ r.contains (.vector r.points.b) = true ∧
    r.contains (.vector r.points.c) = true ∧ r.contains (.vector r.points.d) = true := by
  have hpoint : ∀ q : Vec K, r.contains (.vector q) = true ↔
      (r.position.x ≤ q.x ∧ q.x ≤ r.position.x + r.dimensions.x) ∧
      (r.position.y - r.dimensions.y ≤ q.y ∧ q.y ≤ r.position.y) := by
    intro q
    have h1 : q.relative r.points.a r.points.b < 0 ↔ q.x < r.position.x := by
      have : q.relative r.points.a r.points.b = r.dimensions.y * (q.x - r.position.x) := by
        simp only [Vec.relative, Rectangle.points]
        ring
      rw [this]
      constructor
      · intro h
        by_contra hc
        have := mul_nonneg hh.le (sub_nonneg.2 (not_lt.1 hc))
        linarith
      · intro h
        exact mul_neg_of_pos_of_neg hh (sub_neg.2 h)
    have h2 : q.relative r.points.b r.points.c < 0 ↔ q.y < r.position.y - r.dimensions.y := by
      have : q.relative r.points.b r.points.c =
          r.dimensions.x * (q.y - (r.position.y - r.dimensions.y)) := by
        simp only [Vec.relative, Rectangle.points]
        ring
      rw [this]
      constructor
      · intro h
        by_contra hc
        have := mul_nonneg hw.le (sub_nonneg.2 (not_lt.1 hc))
        linarith
      · intro h
        exact mul_neg_of_pos_of_neg hw (sub_neg.2 h)
    have h3 : q.relative r.points.c r.points.d < 0 ↔ r.position.x + r.dimensions.x < q.x := by
      have : q.relative r.points.c r.points.d =
          r.dimensions.y * ((r.position.x + r.dimensions.x) - q.x) := by
        simp only [Vec.relative, Rectangle.points]
        ring
      rw [this]
      constructor
      · intro h
        by_contra hc
        have := mul_nonneg hh.le (sub_nonneg.2 (not_lt.1 hc))
        linarith
      · intro h
        exact mul_neg_of_pos_of_neg hh (sub_neg.2 h)
    have h4 : q.relative r.points.d r.points.a < 0 ↔ r.position.y < q.y := by
      have : q.relative r.points.d r.points.a = r.dimensions.x * (r.position.y - q.y) := by
        simp only [Vec.relative, Rectangle.points]
        ring
      rw [this]
      constructor
      · intro h
        by_contra hc
        have := mul_nonneg hw.le (sub_nonneg.2 (not_lt.1 hc))
        linarith
      · intro h
        exact mul_neg_of_pos_of_neg hw (sub_neg.2 h)
    simp only [Rectangle.contains, h1, h2, h3, h4]
    constructor
    · intro h
      split_ifs at h with g1 g2 g3 g4
      exact ⟨⟨not_lt.1 g1, not_lt.1 g3⟩, ⟨not_lt.1 g2, not_lt.1 g4⟩⟩
    · rintro ⟨⟨g1, g3⟩, ⟨g2, g4⟩⟩
      rw [if_neg (not_lt.2 g1), if_neg (not_lt.2 g2), if_neg (not_lt.2 g3),
        if_neg (not_lt.2 g4)]
  refine ⟨?_, hpoint p, (hpoint _).2 ?_, (hpoint _).2 ?_, (hpoint _).2 ?_, (hpoint _).2 ?_⟩
  · simp [Rectangle.contains]
  · simp only [Rectangle.points]
    exact ⟨⟨le_refl _, by linarith⟩, ⟨by linarith, le_refl _⟩⟩
  · simp only [Rectangle.points]
    exact ⟨⟨le_refl _, by linarith⟩, ⟨le_refl _, by linarith⟩⟩
  · simp only [Rectangle.points]
    exact ⟨⟨by linarith, le_refl _⟩, ⟨le_refl _, by linarith⟩⟩
  · simp only [Rectangle.points]
    exact ⟨⟨by linarith, le_refl _⟩, ⟨by linarith, le_refl _⟩⟩

theorem Rectangle.contains_inclusive_witness :
    (0 : ℚ) < 4 ∧ (0 : ℚ) < 2 ∧
    Rectangle.contains (⟨⟨1, 5⟩, ⟨4, 2⟩⟩ : Rectangle ℚ) (.vector ⟨5, 3⟩) = true :=
  ⟨by norm_num, by norm_num,
    ((Rectangle.contains_inclusive (⟨⟨1, 5⟩, ⟨4, 2⟩⟩ : Rectangle ℚ) ⟨5, 3⟩
      (by norm_num) (by norm_num)).2.1).2 (by norm_num)⟩

end RectangleClaims

/-! ## Projectile -/

section ProjectileAbsent

variable {K : Type} [LinearOrderedField K]

/-- C13: the absent value. For every choice of the functions of `Math` and
all `p_0`, `p_t`, `s_max`, `s_min`, `a`, each of `min_launch_velocity` and
`low_launch_velocity` is a total function that returns `null` exactly when
`(d·a + s_max^2)^2 - (a·a)(d·d) < 0` with `d = p_t - p_0`, which is exactly
when `has_solution(p_0, p_t, s_max, a)` is false; so the two variants are
absent on the same inputs. -/
theorem Projectile.absent_iff_no_solution (M : MathOps K) (p_0 p_t : Vec K)
    (s_max s_min : K) (a : Vec K) :
    (Projectile.min_launch_velocity M p_0 p_t s_max s_min a = none ↔
      ((Vec.subtract p_t p_0).dot a + s_max ^ 2) ^ 2 -
        a.dot a * (Vec.subtract p_t p_0).dot (Vec.subtract p_t p_0) < 0) ∧
    (Projectile.low_launch_velocity M p_0 p_t s_max s_min a = none ↔
      ((Vec.subtract p_t p_0).dot a + s_max ^ 2) ^ 2 -
        a.dot a * (Vec.subtract p_t p_0).dot (Vec.subtract p_t p_0) < 0) ∧
    (Projectile.has_solution p_0 p_t s_max a = false ↔
      ((Vec.subtract p_t p_0).dot a + s_max ^ 2) ^ 2 -
        a.dot a * (Vec.subtract p_t p_0).dot (Vec.subtract p_t p_0) < 0) ∧
    (Projectile.min_launch_velocity M p_0 p_t s_max s_min a = none ↔
      Projectile.low_launch_velocity M p_0 p_t s_max s_min a = none) := by
  have hmin : Projectile.min_launch_velocity M p_0 p_t s_max s_min a = none ↔
      ((Vec.subtract p_t p_0).dot a + s_max ^ 2) ^ 2 -
        a.dot a * (Vec.subtract p_t p_0).dot (Vec.subtract p_t p_0) < 0 := by
    simp only [Projectile.min_launch_velocity, sq]
    split_ifs <;> simp_all
  have hlow : Projectile.low_launch_velocity M p_0 p_t s_max s_min a = none ↔
      ((Vec.subtract p_t p_0).dot a + s_max ^ 2) ^ 2 -
        a.dot a * (Vec.subtract p_t p_0).dot (Vec.subtract p_t p_0) < 0 := by
    simp only [Projectile.low_launch_velocity, sq]
    split_ifs <;> simp_all
  refine ⟨hmin, hlow, ?_, hmin.trans hlow.symm⟩
  simp only [Projectile.has_solution, sq]
  split_ifs <;> simp_all

end ProjectileAbsent

section ProjectileReal

/-- C19: the time of flight. In real arithmetic, for `g < 0` and
`vy_0^2 - 2g(py_0 - py_t) >= 0`, the time `t` that `time_of_flight` returns
satisfies `py_0 + vy_0·t + g·t^2/2 = py_t`, and every time that satisfies this
equation is at most `t`: it is the larger root. In particular
`time_of_flight(10, 0, 5, -1) = 5 + sqrt(45)`, a positive time. -/
theorem Projectile.time_of_flight_larger_root (M : MathOps ℝ) (hM : M.IsReal)
    (py_0 py_t vy_0 g : ℝ) (hg : g < 0)
    (hd : 0 ≤ vy_0 ^ 2 - 2 * g * (py_0 - py_t)) :
    py_0 + vy_0 * Projectile.time_of_flight M py_0 py_t vy_0 g +
      g * Projectile.time_of_flight M py_0 py_t vy_0 g ^ 2 / 2 = py_t ∧
    (∀ t : ℝ, py_0 + vy_0 * t + g * t ^ 2 / 2 = py_t →
      t ≤ Projectile.time_of_flight M py_0 py_t vy_0 g) ∧
    Projectile.time_of_flight M 10 0 5 (-1) = 5 + Real.sqrt 45 ∧
    0 < Projectile.time_of_flight M 10 0 5 (-1) := by
  obtain ⟨hs, -, -, -⟩ := hM
  have hval : ∀ a b c e : ℝ, Projectile.time_of_flight M a b c e =
      -(c / e) + -Real.sqrt (c * c - 2 * e * (a - b)) / e := by
    intro a b c e
    simp only [Projectile.time_of_flight, hs]
  have hd2 : 0 ≤ vy_0 * vy_0 - 2 * g * (py_0 - py_t) := by
    have : vy_0 * vy_0 = vy_0 ^ 2 := by ring
    rw [this]
    exact hd
  have hr0 : 0 ≤ Real.sqrt (vy_0 * vy_0 - 2 * g * (py_0 - py_t)) := Real.sqrt_nonneg _
  have hr2 : Real.sqrt (vy_0 * vy_0 - 2 * g * (py_0 - py_t)) ^ 2 =
      vy_0 * vy_0 - 2 * g * (py_0 - py_t) := Real.sq_sqrt hd2
  have hgne : g ≠ 0 := ne_of_lt hg
  have hT : Projectile.time_of_flight M py_0 py_t vy_0 g =
      (-vy_0 - Real.sqrt (vy_0 * vy_0 - 2 * g * (py_0 - py_t))) / g := by
    rw [hval]
    field_simp
    ring
  refine ⟨?_, ?_, ?_, ?_⟩
  · rw [hT]
    field_simp
    nlinarith [hr2]
  · intro t ht
    rw [hT, le_div_iff_of_neg hg]
    have hsq : (g * t + vy_0) ^ 2 =
        Real.sqrt (vy_0 * vy_0 - 2 * g * (py_0 - py_t)) ^ 2 := by
      rw [hr2]
      nlinarith [ht]
    have h1 : -(g * t + vy_0) ≤ Real.sqrt (vy_0 * vy_0 - 2 * g * (py_0 - py_t)) := by
      by_contra hc
      push_neg at hc
      have hpos : 0 ≤ -(g * t + vy_0) := le_trans hr0 hc.le
      nlinarith [hsq]
    linarith
  · rw [hval]
    have h45 : (5 : ℝ) * 5 - 2 * -1 * (10 - 0) = 45 := by norm_num
    rw [h45]
    ring
  · rw [hval]
    have h45 : (5 : ℝ) * 5 - 2 * -1 * (10 - 0) = 45 := by norm_num
    rw [h45]
    have := Real.sqrt_nonneg 45
    have h2 : -((5 : ℝ) / -1) + -Real.sqrt 45 / -1 = 5 + Real.sqrt 45 := by ring
    rw [h2]
    linarith

theorem Projectile.time_of_flight_larger_root_witness :
    MathOps.IsReal ⟨Real.sqrt, fun y x => Complex.arg ⟨x, y⟩, Real.cos, Real.sin⟩ ∧
      (-1 : ℝ) < 0 ∧ (0 : ℝ) ≤ 5 ^ 2 - 2 * (-1) * (10 - 0) ∧
      Projectile.time_of_flight
        ⟨Real.sqrt, fun y x => Complex.arg ⟨x, y⟩, Real.cos, Real.sin⟩ 10 0 5 (-1) =
        5 + Real.sqrt 45 :=
  ⟨⟨rfl, rfl, rfl, rfl⟩, by norm_num, by norm_num,
    (Projectile.time_of_flight_larger_root
      ⟨Real.sqrt, fun y x => Complex.arg ⟨x, y⟩, Real.cos, Real.sin⟩ ⟨rfl, rfl, rfl, rfl⟩
      10 0 5 (-1) (by norm_num) (by norm_num)).2.2.1⟩

end ProjectileReal

section ProjectileLemmas

theorem Vec.eq_of_components {K : Type} (v w : Vec K) (hx : v.x = w.x) (hy : v.y = w.y) :
    v = w := by
  cases v
  cases w
  simp only [Vec.mk.injEq]
  exact ⟨hx, hy⟩

theorem Vec.dot_self_pos (v : Vec ℝ) (hv : v ≠ ⟨0, 0⟩) : 0 < v.dot v := by
  by_contra hc
  push_neg at hc
  simp only [Vec.dot] at hc
  apply hv
  have hx : v.x = 0 := by nlinarith [mul_self_nonneg v.x, mul_self_nonneg v.y]
  have hy : v.y = 0 := by nlinarith [mul_self_nonneg v.x, mul_self_nonneg v.y]
  exact Vec.eq_of_components _ _ hx hy

theorem Vec.subtract_ne_zero (p q : Vec ℝ) (h : p ≠ q) : Vec.subtract p q ≠ ⟨0, 0⟩ := by
  intro hc
  apply h
  simp only [Vec.subtract, Vec.mk.injEq] at hc
  exact Vec.eq_of_components _ _ (by linarith [hc.1]) (by linarith [hc.2])

theorem Vec.dot_sq_le (d a : Vec ℝ) : d.dot a * d.dot a ≤ a.dot a * d.dot d := by
  simp only [Vec.dot]
  nlinarith [sq_nonneg (d.x * a.y - d.y * a.x)]

/-- With a positive speed and a non-negative discriminant, `b` is positive. -/
theorem Projectile.b_pos (A D c s : ℝ) (hs : 0 < s) (hcs : c * c ≤ A * D)
    (hdis : 0 ≤ (c + s * s) * (c + s * s) - A * D) : 0 < c + s * s := by
  have hs2 : 0 < s * s := mul_pos hs hs
  by_contra hb
  push_neg at hb
  nlinarith [mul_self_nonneg s, mul_self_nonneg (s * s)]

/-- The algebra of the quickest flight time: `u = 2(b - sqrt(dscrm))/A` is
positive and is a root of `A u^2/4 - b u + D`. -/
theorem Projectile.min_core (A D c s : ℝ) (hA : 0 < A) (hD : 0 < D) (hs : 0 < s)
    (hcs : c * c ≤ A * D) (hdis : 0 ≤ (c + s * s) * (c + s * s) - A * D) :
    Real.sqrt ((c + s * s) * (c + s * s) - A * D) < c + s * s ∧
    0 < 2 * ((c + s * s) - Real.sqrt ((c + s * s) * (c + s * s) - A * D)) / A ∧
    A * (2 * ((c + s * s) - Real.sqrt ((c + s * s) * (c + s * s) - A * D)) / A) ^ 2 / 4 -
      (c + s * s) * (2 * ((c + s * s) - Real.sqrt ((c + s * s) * (c + s * s) - A * D)) / A)
      + D = 0 := by
  have hb := Projectile.b_pos A D c s hs hcs hdis
  set b := c + s * s with hbdef
  set r := Real.sqrt (b * b - A * D) with hrdef
  have hr0 : 0 ≤ r := Real.sqrt_nonneg _
  have hr2 : r ^ 2 = b * b - A * D := Real.sq_sqrt hdis
  have hAD : 0 < A * D := mul_pos hA hD
  have hrb : r < b := by
    by_contra hc
    push_neg at hc
    nlinarith
  refine ⟨hrb, ?_, ?_⟩
  · apply div_pos _ hA
    linarith
  · field_simp
    nlinarith [hr2]

end ProjectileLemmas

section ProjectileMin

/-- The quickest solution: when the discriminant is not negative, the flight
time of `min_launch_velocity` is positive, its square is the smaller root
`u` of `A u^2/4 - b u + D`, the velocity has speed `s_max` and the trajectory
meets the target at that time. -/
theorem Projectile.min_facts (M : MathOps ℝ) (hM : M.IsReal) (p_0 p_t a : Vec ℝ) (s_max : ℝ)
    (hs : 0 < s_max) (ha : a ≠ ⟨0, 0⟩) (hp : p_t ≠ p_0)
    (hdis : 0 ≤ ((Vec.subtract p_t p_0).dot a + s_max * s_max) *
      ((Vec.subtract p_t p_0).dot a + s_max * s_max) -
      a.dot a * (Vec.subtract p_t p_0).dot (Vec.subtract p_t p_0)) :
    0 < Projectile.min_time M p_0 p_t s_max a ∧
    a.dot a * (Projectile.min_time M p_0 p_t s_max a ^ 2) ^ 2 / 4 -
      ((Vec.subtract p_t p_0).dot a + s_max * s_max) *
        Projectile.min_time M p_0 p_t s_max a ^ 2 +
      (Vec.subtract p_t p_0).dot (Vec.subtract p_t p_0) = 0 ∧
    Projectile.min_time M p_0 p_t s_max a ^ 2 * (a.dot a) / 2 ≤
      (Vec.subtract p_t p_0).dot a + s_max * s_max ∧
    (Projectile.min_velocity M p_0 p_t s_max a).length M = s_max ∧
    Projectile.get_point p_0 (Projectile.min_velocity M p_0 p_t s_max a) a
      (Projectile.min_time M p_0 p_t s_max a) = p_t := by
  obtain ⟨hsq, -, -, -⟩ := hM
  have hA := Vec.dot_self_pos a ha
  have hD := Vec.dot_self_pos _ (Vec.subtract_ne_zero p_t p_0 hp)
  have hcs := Vec.dot_sq_le (Vec.subtract p_t p_0) a
  obtain ⟨hrb, hu, hq⟩ := Projectile.min_core _ _ _ s_max hA hD hs hcs hdis
  have ht : Projectile.min_time M p_0 p_t s_max a = Real.sqrt
      (2 * (((Vec.subtract p_t p_0).dot a + s_max * s_max) -
        Real.sqrt (((Vec.subtract p_t p_0).dot a + s_max * s_max) *
          ((Vec.subtract p_t p_0).dot a + s_max * s_max) -
          a.dot a * (Vec.subtract p_t p_0).dot (Vec.subtract p_t p_0))) / a.dot a) := by
    simp only [Projectile.min_time, hsq]
  have hr0 := Real.sqrt_nonneg (((Vec.subtract p_t p_0).dot a + s_max * s_max) *
          ((Vec.subtract p_t p_0).dot a + s_max * s_max) -
          a.dot a * (Vec.subtract p_t p_0).dot (Vec.subtract p_t p_0))
  set r := Real.sqrt (((Vec.subtract p_t p_0).dot a + s_max * s_max) *
          ((Vec.subtract p_t p_0).dot a + s_max * s_max) -
          a.dot a * (Vec.subtract p_t p_0).dot (Vec.subtract p_t p_0)) with hr
  set u := 2 * (((Vec.subtract p_t p_0).dot a + s_max * s_max) - r) / a.dot a with hudef
  have htpos : 0 < Projectile.min_time M p_0 p_t s_max a := by
    rw [ht]
    exact Real.sqrt_pos.2 hu
  have ht2 : Projectile.min_time M p_0 p_t s_max a ^ 2 = u := by
    rw [ht]
    exact Real.sq_sqrt hu.le
  set t := Projectile.min_time M p_0 p_t s_max a with htdef
  have htne : t ≠ 0 := ne_of_gt htpos
  have hv : Projectile.min_velocity M p_0 p_t s_max a =
      ⟨(p_t.x - p_0.x) / t - a.x * t / 2, (p_t.y - p_0.y) / t - a.y * t / 2⟩ := by
    simp only [Projectile.min_velocity, Vec.subtract, Vec.divide, Vec.multiply, htdef]
  have hdot : (Projectile.min_velocity M p_0 p_t s_max a).dot
      (Projectile.min_velocity M p_0 p_t s_max a) = s_max * s_max := by
    rw [hv]
    simp only [Vec.dot]
    have hq2 : a.dot a * (t ^ 2) ^ 2 / 4 -
        ((Vec.subtract p_t p_0).dot a + s_max * s_max) * t ^ 2 +
        (Vec.subtract p_t p_0).dot (Vec.subtract p_t p_0) = 0 := by
      rw [ht2]
      exact hq
    simp only [Vec.dot, Vec.subtract] at hq2
    have ht2pos : 0 < t ^ 2 := by positivity
    field_simp
    nlinarith [hq2]
  refine ⟨htpos, ?_, ?_, ?_, ?_⟩
  · rw [ht2]
    exact hq
  · rw [ht2, hudef]
    have hAne : a.dot a ≠ 0 := ne_of_gt hA
    field_simp
    linarith
  · simp only [Vec.length, hsq, hdot]
    exact Real.sqrt_mul_self hs.le
  · rw [hv]
    simp only [Projectile.get_point, Vec.add, Vec.multiply, Vec.divide]
    apply Vec.eq_of_components
    · simp only
      field_simp
      ring
    · simp only
      field_simp
      ring

end ProjectileMin

section ProjectileMinClaims

/-- When the discriminant is not negative and `s_min <= s_max`, neither
readjustment of `min_launch_velocity` takes place: it returns the velocity it
computed. -/
theorem Projectile.min_launch_velocity_eq (M : MathOps ℝ) (hM : M.IsReal) (p_0 p_t a : Vec ℝ)
    (s_max s_min : ℝ) (h1 : s_min ≤ s_max) (hs : 0 < s_max) (ha : a ≠ ⟨0, 0⟩) (hp : p_t ≠ p_0)
    (hdis : 0 ≤ ((Vec.subtract p_t p_0).dot a + s_max * s_max) *
      ((Vec.subtract p_t p_0).dot a + s_max * s_max) -
      a.dot a * (Vec.subtract p_t p_0).dot (Vec.subtract p_t p_0)) :
    Projectile.min_launch_velocity M p_0 p_t s_max s_min a =
      some (Projectile.min_velocity M p_0 p_t s_max a) := by
  obtain ⟨-, -, -, hlen, -⟩ := Projectile.min_facts M hM p_0 p_t a s_max hs ha hp hdis
  have hunf : Projectile.min_launch_velocity M p_0 p_t s_max s_min a =
      if ((Vec.subtract p_t p_0).dot a + s_max * s_max) *
        ((Vec.subtract p_t p_0).dot a + s_max * s_max) -
        a.dot a * (Vec.subtract p_t p_0).dot (Vec.subtract p_t p_0) < 0 then none
      else if (Projectile.min_velocity M p_0 p_t s_max a).length M > s_max then
        some ⟨s_max * M.cos (M.atan2 (Projectile.min_velocity M p_0 p_t s_max a).y
          (Projectile.min_velocity M p_0 p_t s_max a).x),
          s_max * M.sin (M.atan2 (Projectile.min_velocity M p_0 p_t s_max a).y
          (Projectile.min_velocity M p_0 p_t s_max a).x)⟩
      else if (Projectile.min_velocity M p_0 p_t s_max a).length M < s_min then
        some ⟨s_min * M.cos (M.atan2 (Projectile.min_velocity M p_0 p_t s_max a).y
          (Projectile.min_velocity M p_0 p_t s_max a).x),
          s_min * M.sin (M.atan2 (Projectile.min_velocity M p_0 p_t s_max a).y
          (Projectile.min_velocity M p_0 p_t s_max a).x)⟩
      else some (Projectile.min_velocity M p_0 p_t s_max a) := rfl
  rw [hunf, if_neg (not_lt.2 hdis), hlen, if_neg (lt_irrefl _), if_neg (not_lt.2 h1)]

/-- A returned velocity means that the discriminant was not negative. -/
theorem Projectile.min_launch_velocity_some (M : MathOps ℝ) (p_0 p_t a : Vec ℝ)
    (s_max s_min : ℝ) (v : Vec ℝ)
    (hv : Projectile.min_launch_velocity M p_0 p_t s_max s_min a = some v) :
    0 ≤ ((Vec.subtract p_t p_0).dot a + s_max * s_max) *
      ((Vec.subtract p_t p_0).dot a + s_max * s_max) -
      a.dot a * (Vec.subtract p_t p_0).dot (Vec.subtract p_t p_0) := by
  by_contra hc
  push_neg at hc
  have hnone : Projectile.min_launch_velocity M p_0 p_t s_max s_min a = none := by
    simp only [Projectile.min_launch_velocity, if_pos hc]
  rw [hnone] at hv
  exact Option.noConfusion hv

/-- C15: the quickest launch passes through the target. In real arithmetic,
for `s_min <= s_max`, `s_max > 0`, `a != 0` and `p_t != p_0`, whenever
`min_launch_velocity(p_0, p_t, s_max, s_min, a)` returns a velocity `v`, both
square roots of its flight time are taken of non-negative numbers with a
non-zero divisor `a·a`, the flight time `t` is positive, and
`get_point(p_0, v, a, t) = p_t`. -/
theorem Projectile.min_launch_hits_target (M : MathOps ℝ) (hM : M.IsReal)
    (p_0 p_t a : Vec ℝ) (s_max s_min : ℝ) (v : Vec ℝ)
    (h1 : s_min ≤ s_max) (hs : 0 < s_max) (ha : a ≠ ⟨0, 0⟩) (hp : p_t ≠ p_0)
    (hv : Projectile.min_launch_velocity M p_0 p_t s_max s_min a = some v) :
    0 ≤ ((Vec.subtract p_t p_0).dot a + s_max * s_max) *
      ((Vec.subtract p_t p_0).dot a + s_max * s_max) -
      a.dot a * (Vec.subtract p_t p_0).dot (Vec.subtract p_t p_0) ∧
    0 < a.dot a ∧
    0 < 2 * (((Vec.subtract p_t p_0).dot a + s_max * s_max) -
      M.sqrt (((Vec.subtract p_t p_0).dot a + s_max * s_max) *
        ((Vec.subtract p_t p_0).dot a + s_max * s_max) -
        a.dot a * (Vec.subtract p_t p_0).dot (Vec.subtract p_t p_0))) / a.dot a ∧
    0 < Projectile.min_time M p_0 p_t s_max a ∧
    Projectile.get_point p_0 v a (Projectile.min_time M p_0 p_t s_max a) = p_t := by
  have hdis := Projectile.min_launch_velocity_some M p_0 p_t a s_max s_min v hv
  obtain ⟨htpos, -, -, -, hget⟩ := Projectile.min_facts M hM p_0 p_t a s_max hs ha hp hdis
  have heq := Projectile.min_launch_velocity_eq M hM p_0 p_t a s_max s_min h1 hs ha hp hdis
  rw [heq] at hv
  have hvv : Projectile.min_velocity M p_0 p_t s_max a = v := Option.some.inj hv
  have hA := Vec.dot_self_pos a ha
  have hD := Vec.dot_self_pos _ (Vec.subtract_ne_zero p_t p_0 hp)
  have hcs := Vec.dot_sq_le (Vec.subtract p_t p_0) a
  obtain ⟨-, hu, -⟩ := Projectile.min_core _ _ _ s_max hA hD hs hcs hdis
  refine ⟨hdis, hA, ?_, htpos, ?_⟩
  · rw [hM.1]
    exact hu
  · rw [← hvv]
    exact hget

theorem Projectile.sqrt_nine : Real.sqrt 9 = 3 := by
  rw [show (9 : ℝ) = 3 * 3 by norm_num]
  exact Real.sqrt_mul_self (by norm_num)

/-- A drop of two units under gravity `(0, -2)` with top speed one: the
flight takes one unit of time. -/
theorem Projectile.min_time_drop (M : MathOps ℝ) (hM : M.IsReal) :
    Projectile.min_time M ⟨0, 0⟩ ⟨0, -2⟩ 1 ⟨0, -2⟩ = 1 := by
  simp only [Projectile.min_time, Vec.subtract, Vec.dot, hM.1]
  norm_num [Projectile.sqrt_nine]

/-- A drop of two units under gravity `(0, -2)` with top speed one: the
quickest launch is straight down at speed one. -/
theorem Projectile.min_launch_velocity_drop (M : MathOps ℝ) (hM : M.IsReal) :
    Projectile.min_launch_velocity M ⟨0, 0⟩ ⟨0, -2⟩ 1 (1 / 2) ⟨0, -2⟩ = some ⟨0, -1⟩ := by
  rw [Projectile.min_launch_velocity_eq M hM _ _ _ _ _ (by norm_num) (by norm_num) (by simp)
    (by simp) (by simp only [Vec.subtract, Vec.dot]; norm_num)]
  simp only [Projectile.min_velocity, Projectile.min_time_drop M hM, Vec.subtract, Vec.divide,
    Vec.multiply]
  norm_num

theorem Projectile.min_launch_hits_target_witness :
    MathOps.IsReal ⟨Real.sqrt, fun y x => Complex.arg ⟨x, y⟩, Real.cos, Real.sin⟩ ∧
      (1 / 2 : ℝ) ≤ 1 ∧ (0 : ℝ) < 1 ∧ (⟨0, -2⟩ : Vec ℝ) ≠ ⟨0, 0⟩ ∧
      (⟨0, -2⟩ : Vec ℝ) ≠ ⟨0, 0⟩ ∧
      Projectile.min_launch_velocity
        ⟨Real.sqrt, fun y x => Complex.arg ⟨x, y⟩, Real.cos, Real.sin⟩
        ⟨0, 0⟩ ⟨0, -2⟩ 1 (1 / 2) ⟨0, -2⟩ = some ⟨0, -1⟩ ∧
      Projectile.get_point ⟨0, 0⟩ (⟨0, -1⟩ : Vec ℝ) ⟨0, -2⟩
        (Projectile.min_time ⟨Real.sqrt, fun y x => Complex.arg ⟨x, y⟩, Real.cos, Real.sin⟩
          ⟨0, 0⟩ ⟨0, -2⟩ 1 ⟨0, -2⟩) = ⟨0, -2⟩ :=
  ⟨⟨rfl, rfl, rfl, rfl⟩, by norm_num, by norm_num, by simp, by simp,
    Projectile.min_launch_velocity_drop _ ⟨rfl, rfl, rfl, rfl⟩,
    (Projectile.min_launch_hits_target
      ⟨Real.sqrt, fun y x => Complex.arg ⟨x, y⟩, Real.cos, Real.sin⟩ ⟨rfl, rfl, rfl, rfl⟩
      ⟨0, 0⟩ ⟨0, -2⟩ ⟨0, -2⟩ 1 (1 / 2) ⟨0, -1⟩ (by norm_num) (by norm_num) (by simp)
      (by simp) (Projectile.min_launch_velocity_drop _ ⟨rfl, rfl, rfl, rfl⟩)).2.2.2.2⟩

end ProjectileMinClaims

section ProjectileMinTime

/-- A trajectory that meets the target at time `t` has
`(w·w) t^2 = D - (d·a) t^2 + (a·a) t^4 / 4`. -/
theorem Projectile.get_point_speed (p_0 p_t a w : Vec ℝ) (t : ℝ)
    (hget : Projectile.get_point p_0 w a t = p_t) :
    w.dot w * t ^ 2 = (Vec.subtract p_t p_0).dot (Vec.subtract p_t p_0) -
      (Vec.subtract p_t p_0).dot a * t ^ 2 + a.dot a * (t ^ 2) ^ 2 / 4 := by
  rw [← hget]
  simp only [Projectile.get_point, Vec.add, Vec.multiply, Vec.divide, Vec.subtract, Vec.dot]
  ring

/-- C17: the quickest launch has the minimum time of flight. In real
arithmetic, for `s_max > 0`, `a != 0` and `p_t != p_0`, when
`min_launch_velocity` returns a velocity, computed with the flight time `t`,
no velocity `w` with `|w| <= s_max` reaches the target at a time `t'` with
`0 < t' < t`. -/
theorem Projectile.min_time_minimal (M : MathOps ℝ) (hM : M.IsReal)
    (p_0 p_t a : Vec ℝ) (s_max s_min : ℝ) (v : Vec ℝ)
    (hs : 0 < s_max) (ha : a ≠ ⟨0, 0⟩) (hp : p_t ≠ p_0)
    (hv : Projectile.min_launch_velocity M p_0 p_t s_max s_min a = some v)
    (w : Vec ℝ) (t' : ℝ) (hw : w.length M ≤ s_max) (ht0 : 0 < t')
    (ht : t' < Projectile.min_time M p_0 p_t s_max a) :
    Projectile.get_point p_0 w a t' ≠ p_t := by
  intro hget
  have hdis := Projectile.min_launch_velocity_some M p_0 p_t a s_max s_min v hv
  obtain ⟨htpos, hq, hle, -, -⟩ := Projectile.min_facts M hM p_0 p_t a s_max hs ha hp hdis
  have hA := Vec.dot_self_pos a ha
  have hsp := Projectile.get_point_speed p_0 p_t a w t' hget
  have hww : w.dot w ≤ s_max * s_max := by
    have h := hw
    simp only [Vec.length, hM.1] at h
    have h2 := (Real.sqrt_le_left hs.le).1 h
    nlinarith [h2]
  set t := Projectile.min_time M p_0 p_t s_max a with htdef
  set A := a.dot a with hAdef
  set D := (Vec.subtract p_t p_0).dot (Vec.subtract p_t p_0) with hDdef
  set c := (Vec.subtract p_t p_0).dot a with hcdef
  have hu' : 0 < t' ^ 2 := by positivity
  have hlt : t' ^ 2 < t ^ 2 := by nlinarith
  have h1 : 0 < (t ^ 2 - t' ^ 2) * ((c + s_max * s_max) - A * (t' ^ 2 + t ^ 2) / 4) := by
    apply mul_pos
    · linarith
    · nlinarith
  have h2 : (w.dot w - s_max * s_max) * t' ^ 2 ≤ 0 := by
    apply mul_nonpos_of_nonpos_of_nonneg
    · linarith
    · exact hu'.le
  nlinarith [h1, h2, hsp, hq]

theorem Projectile.min_time_minimal_witness :
    MathOps.IsReal ⟨Real.sqrt, fun y x => Complex.arg ⟨x, y⟩, Real.cos, Real.sin⟩ ∧
      (0 : ℝ) < 1 ∧ (⟨0, -2⟩ : Vec ℝ) ≠ ⟨0, 0⟩ ∧ (⟨0, -2⟩ : Vec ℝ) ≠ ⟨0, 0⟩ ∧
      Projectile.min_launch_velocity
        ⟨Real.sqrt, fun y x => Complex.arg ⟨x, y⟩, Real.cos, Real.sin⟩
        ⟨0, 0⟩ ⟨0, -2⟩ 1 (1 / 2) ⟨0, -2⟩ = some ⟨0, -1⟩ ∧
      Vec.length ⟨Real.sqrt, fun y x => Complex.arg ⟨x, y⟩, Real.cos, Real.sin⟩ ⟨0, 0⟩ ≤ 1 ∧
      (0 : ℝ) < 1 / 2 ∧
      1 / 2 < Projectile.min_time
        ⟨Real.sqrt, fun y x => Complex.arg ⟨x, y⟩, Real.cos, Real.sin⟩
        ⟨0, 0⟩ ⟨0, -2⟩ 1 ⟨0, -2⟩ ∧
      Projectile.get_point ⟨0, 0⟩ (⟨0, 0⟩ : Vec ℝ) ⟨0, -2⟩ (1 / 2) ≠ ⟨0, -2⟩ :=
  ⟨⟨rfl, rfl, rfl, rfl⟩, by norm_num, by simp, by simp,
    Projectile.min_launch_velocity_drop _ ⟨rfl, rfl, rfl, rfl⟩,
    by simp [Vec.length, Vec.dot],
    by norm_num,
    by rw [Projectile.min_time_drop _ ⟨rfl, rfl, rfl, rfl⟩]; norm_num,
    Projectile.min_time_minimal
      ⟨Real.sqrt, fun y x => Complex.arg ⟨x, y⟩, Real.cos, Real.sin⟩ ⟨rfl, rfl, rfl, rfl⟩
      ⟨0, 0⟩ ⟨0, -2⟩ ⟨0, -2⟩ 1 (1 / 2) ⟨0, -1⟩ (by norm_num) (by simp) (by simp)
      (Projectile.min_launch_velocity_drop _ ⟨rfl, rfl, rfl, rfl⟩)
      ⟨0, 0⟩ (1 / 2) (by simp [Vec.length, Vec.dot]) (by norm_num)
      (by rw [Projectile.min_time_drop _ ⟨rfl, rfl, rfl, rfl⟩]; norm_num)⟩

end ProjectileMinTime

section ProjectileLow

/-- The velocity `d/t - a t/2` takes the projectile from `p_0` to `p_t` in the
time `t`. -/
theorem Projectile.get_point_solution (p_0 p_t a : Vec ℝ) (t : ℝ) (ht : t ≠ 0) :
    Projectile.get_point p_0
      ⟨(p_t.x - p_0.x) / t - a.x * t / 2, (p_t.y - p_0.y) / t - a.y * t / 2⟩ a t = p_t := by
  simp only [Projectile.get_point, Vec.add, Vec.multiply, Vec.divide]
  apply Vec.eq_of_components
  · simp only
    field_simp
    ring
  · simp only
    field_simp
    ring

/-- The minimum-energy solution: its flight time is positive, the square of
the time is `2|d|/|a|`, the square of the speed is `|a||d| - d·a`, and the
trajectory meets the target at that time. -/
theorem Projectile.low_facts (M : MathOps ℝ) (hM : M.IsReal) (p_0 p_t a : Vec ℝ)
    (ha : a ≠ ⟨0, 0⟩) (hp : p_t ≠ p_0) :
    0 < Projectile.low_time M p_0 p_t a ∧
    Projectile.low_time M p_0 p_t a ^ 2 =
      2 * (Vec.subtract p_t p_0).length M / a.length M ∧
    (Projectile.low_velocity M p_0 p_t a).dot (Projectile.low_velocity M p_0 p_t a) =
      a.length M * (Vec.subtract p_t p_0).length M - (Vec.subtract p_t p_0).dot a ∧
    Projectile.get_point p_0 (Projectile.low_velocity M p_0 p_t a) a
      (Projectile.low_time M p_0 p_t a) = p_t := by
  obtain ⟨hsq, -, -, -⟩ := hM
  have hA := Vec.dot_self_pos a ha
  have hD := Vec.dot_self_pos _ (Vec.subtract_ne_zero p_t p_0 hp)
  have hlenA : a.length M = Real.sqrt (a.dot a) := by simp only [Vec.length, hsq]
  have hlenD : (Vec.subtract p_t p_0).length M =
      Real.sqrt ((Vec.subtract p_t p_0).dot (Vec.subtract p_t p_0)) := by
    simp only [Vec.length, hsq]
  have ht : Projectile.low_time M p_0 p_t a = Real.sqrt (Real.sqrt
      (4 * (Vec.subtract p_t p_0).dot (Vec.subtract p_t p_0) / a.dot a)) := by
    simp only [Projectile.low_time, hsq]
  rw [hlenA, hlenD]
  set A := a.dot a with hAdef
  set D := (Vec.subtract p_t p_0).dot (Vec.subtract p_t p_0) with hDdef
  have hsA : 0 < Real.sqrt A := Real.sqrt_pos.2 hA
  have hsD : 0 < Real.sqrt D := Real.sqrt_pos.2 hD
  have hsA2 : Real.sqrt A * Real.sqrt A = A := Real.mul_self_sqrt hA.le
  have hsD2 : Real.sqrt D * Real.sqrt D = D := Real.mul_self_sqrt hD.le
  have hq : 0 < 4 * D / A := by positivity
  have hw : Real.sqrt (4 * D / A) = 2 * Real.sqrt D / Real.sqrt A := by
    rw [Real.sqrt_eq_iff_mul_self_eq hq.le (by positivity)]
    rw [div_mul_div_comm, hsA2]
    have : 2 * Real.sqrt D * (2 * Real.sqrt D) = 4 * D := by nlinarith [hsD2]
    rw [this]
  have hwpos : 0 < 2 * Real.sqrt D / Real.sqrt A := by positivity
  have htpos : 0 < Projectile.low_time M p_0 p_t a := by
    rw [ht, hw]
    exact Real.sqrt_pos.2 hwpos
  have ht2 : Projectile.low_time M p_0 p_t a ^ 2 = 2 * Real.sqrt D / Real.sqrt A := by
    rw [ht, hw]
    exact Real.sq_sqrt hwpos.le
  set t := Projectile.low_time M p_0 p_t a with htdef
  have htne : t ≠ 0 := ne_of_gt htpos
  have hv : Projectile.low_velocity M p_0 p_t a =
      ⟨(p_t.x - p_0.x) / t - a.x * t / 2, (p_t.y - p_0.y) / t - a.y * t / 2⟩ := by
    simp only [Projectile.low_velocity, Vec.subtract, Vec.divide, Vec.multiply, htdef]
  refine ⟨htpos, ht2, ?_, ?_⟩
  · have e1 : (Projectile.low_velocity M p_0 p_t a).dot (Projectile.low_velocity M p_0 p_t a) =
        D / t ^ 2 - (Vec.subtract p_t p_0).dot a + A * t ^ 2 / 4 := by
      rw [hv, hDdef, hAdef]
      simp only [Vec.dot, Vec.subtract]
      field_simp
      ring
    rw [e1, ht2]
    have hsAne : Real.sqrt A ≠ 0 := ne_of_gt hsA
    have hsDne : Real.sqrt D ≠ 0 := ne_of_gt hsD
    have e2 : D / (2 * Real.sqrt D / Real.sqrt A) = Real.sqrt A * Real.sqrt D / 2 := by
      field_simp
      nlinarith [hsD2]
    have e3 : A * (2 * Real.sqrt D / Real.sqrt A) / 4 = Real.sqrt A * Real.sqrt D / 2 := by
      field_simp
      nlinarith [hsA2]
    rw [e2, e3]
    ring
  · rw [hv]
    exact Projectile.get_point_solution p_0 p_t a t htne

end ProjectileLow

section ProjectileLowClaims

/-- The body of `low_launch_velocity` in terms of the velocity it computes. -/
theorem Projectile.low_launch_velocity_cases (M : MathOps ℝ) (p_0 p_t a : Vec ℝ)
    (s_max s_min : ℝ) :
    Projectile.low_launch_velocity M p_0 p_t s_max s_min a =
      if ((Vec.subtract p_t p_0).dot a + s_max * s_max) *
        ((Vec.subtract p_t p_0).dot a + s_max * s_max) -
        a.dot a * (Vec.subtract p_t p_0).dot (Vec.subtract p_t p_0) < 0 then none
      else if (Projectile.low_velocity M p_0 p_t a).length M > s_max then
        some ⟨s_max * M.cos (M.atan2 (Projectile.low_velocity M p_0 p_t a).y
          (Projectile.low_velocity M p_0 p_t a).x),
          s_max * M.sin (M.atan2 (Projectile.low_velocity M p_0 p_t a).y
          (Projectile.low_velocity M p_0 p_t a).x)⟩
      else if (Projectile.low_velocity M p_0 p_t a).length M < s_min then
        some ⟨s_min * M.cos (M.atan2 (Projectile.low_velocity M p_0 p_t a).y
          (Projectile.low_velocity M p_0 p_t a).x),
          s_min * M.sin (M.atan2 (Projectile.low_velocity M p_0 p_t a).y
          (Projectile.low_velocity M p_0 p_t a).x)⟩
      else some (Projectile.low_velocity M p_0 p_t a) := rfl

/-- A returned velocity means that the discriminant was not negative. -/
theorem Projectile.low_launch_velocity_some (M : MathOps ℝ) (p_0 p_t a : Vec ℝ)
    (s_max s_min : ℝ) (v : Vec ℝ)
    (hv : Projectile.low_launch_velocity M p_0 p_t s_max s_min a = some v) :
    0 ≤ ((Vec.subtract p_t p_0).dot a + s_max * s_max) *
      ((Vec.subtract p_t p_0).dot a + s_max * s_max) -
      a.dot a * (Vec.subtract p_t p_0).dot (Vec.subtract p_t p_0) := by
  by_contra hc
  push_neg at hc
  rw [Projectile.low_launch_velocity_cases, if_pos hc] at hv
  exact Option.noConfusion hv

/-- With a non-negative discriminant the minimum-energy speed is at most
`s_max`. -/
theorem Projectile.low_velocity_le_max (M : MathOps ℝ) (hM : M.IsReal) (p_0 p_t a : Vec ℝ)
    (s_max : ℝ) (hs : 0 < s_max) (ha : a ≠ ⟨0, 0⟩) (hp : p_t ≠ p_0)
    (hdis : 0 ≤ ((Vec.subtract p_t p_0).dot a + s_max * s_max) *
      ((Vec.subtract p_t p_0).dot a + s_max * s_max) -
      a.dot a * (Vec.subtract p_t p_0).dot (Vec.subtract p_t p_0)) :
    (Projectile.low_velocity M p_0 p_t a).length M ≤ s_max := by
  obtain ⟨-, -, hdot, -⟩ := Projectile.low_facts M hM p_0 p_t a ha hp
  have hA := Vec.dot_self_pos a ha
  have hD := Vec.dot_self_pos _ (Vec.subtract_ne_zero p_t p_0 hp)
  have hcs := Vec.dot_sq_le (Vec.subtract p_t p_0) a
  have hb := Projectile.b_pos _ _ _ s_max hs hcs hdis
  have hlen : (Projectile.low_velocity M p_0 p_t a).length M = Real.sqrt
      ((Projectile.low_velocity M p_0 p_t a).dot (Projectile.low_velocity M p_0 p_t a)) := by
    simp only [Vec.length, hM.1]
  rw [hlen, hdot]
  simp only [Vec.length, hM.1]
  set A := a.dot a with hAdef
  set D := (Vec.subtract p_t p_0).dot (Vec.subtract p_t p_0) with hDdef
  set c := (Vec.subtract p_t p_0).dot a with hcdef
  have hsA : 0 < Real.sqrt A := Real.sqrt_pos.2 hA
  have hsD : 0 < Real.sqrt D := Real.sqrt_pos.2 hD
  have hsA2 : Real.sqrt A * Real.sqrt A = A := Real.mul_self_sqrt hA.le
  have hsD2 : Real.sqrt D * Real.sqrt D = D := Real.mul_self_sqrt hD.le
  have hAD : (Real.sqrt A * Real.sqrt D) * (Real.sqrt A * Real.sqrt D) = A * D := by
    calc (Real.sqrt A * Real.sqrt D) * (Real.sqrt A * Real.sqrt D)
        = (Real.sqrt A * Real.sqrt A) * (Real.sqrt D * Real.sqrt D) := by ring
      _ = A * D := by rw [hsA2, hsD2]
  have hprod : 0 < Real.sqrt A * Real.sqrt D := mul_pos hsA hsD
  have hle : Real.sqrt A * Real.sqrt D ≤ c + s_max * s_max := by
    by_contra hc
    push_neg at hc
    nlinarith
  have hfin : Real.sqrt A * Real.sqrt D - c ≤ s_max * s_max := by linarith
  calc Real.sqrt (Real.sqrt A * Real.sqrt D - c) ≤ Real.sqrt (s_max * s_max) :=
        Real.sqrt_le_sqrt hfin
    _ = s_max := Real.sqrt_mul_self hs.le

/-- C18: the minimum-energy launch. In real arithmetic, for `a != 0` and
`p_t != p_0`, the time `t` that `low_launch_velocity` computes is
`sqrt(sqrt(4 d·d / a·a))`, a positive number, and the velocity
`v = d/t - a·t/2` it computes reaches the target at that time, has
`|v|^2 = |a||d| - d·a`, and has the smallest magnitude among all velocities `w`
for which some `t' > 0` gives `get_point(p_0, w, a, t') = p_t`. -/
theorem Projectile.low_velocity_min_energy (M : MathOps ℝ) (hM : M.IsReal)
    (p_0 p_t a : Vec ℝ) (ha : a ≠ ⟨0, 0⟩) (hp : p_t ≠ p_0) :
    Projectile.low_time M p_0 p_t a =
      M.sqrt (M.sqrt (4 * (Vec.subtract p_t p_0).dot (Vec.subtract p_t p_0) / a.dot a)) ∧
    0 < Projectile.low_time M p_0 p_t a ∧
    Projectile.low_velocity M p_0 p_t a =
      Vec.subtract (Vec.divide (Vec.subtract p_t p_0) (Projectile.low_time M p_0 p_t a))
        (Vec.divide (Vec.multiply a (Projectile.low_time M p_0 p_t a)) 2) ∧
    Projectile.get_point p_0 (Projectile.low_velocity M p_0 p_t a) a
      (Projectile.low_time M p_0 p_t a) = p_t ∧
    (Projectile.low_velocity M p_0 p_t a).length M ^ 2 =
      a.length M * (Vec.subtract p_t p_0).length M - (Vec.subtract p_t p_0).dot a ∧
    ∀ (w : Vec ℝ) (t' : ℝ), 0 < t' → Projectile.get_point p_0 w a t' = p_t →
      (Projectile.low_velocity M p_0 p_t a).length M ≤ w.length M := by
  obtain ⟨htpos, -, hdot, hget⟩ := Projectile.low_facts M hM p_0 p_t a ha hp
  have hA := Vec.dot_self_pos a ha
  have hD := Vec.dot_self_pos _ (Vec.subtract_ne_zero p_t p_0 hp)
  have hlen : ∀ u : Vec ℝ, u.length M = Real.sqrt (u.dot u) := by
    intro u
    simp only [Vec.length, hM.1]
  have hnn : ∀ u : Vec ℝ, 0 ≤ u.dot u := by
    intro u
    simp only [Vec.dot]
    nlinarith [mul_self_nonneg u.x, mul_self_nonneg u.y]
  refine ⟨rfl, htpos, rfl, hget, ?_, ?_⟩
  · rw [hlen (Projectile.low_velocity M p_0 p_t a), Real.sq_sqrt (hnn _)]
    exact hdot
  · intro w t' ht' hw
    rw [hlen (Projectile.low_velocity M p_0 p_t a), hlen w]
    apply Real.sqrt_le_sqrt
    have hsp := Projectile.get_point_speed p_0 p_t a w t' hw
    rw [hdot, hlen a, hlen (Vec.subtract p_t p_0)]
    set A := a.dot a with hAdef
    set D := (Vec.subtract p_t p_0).dot (Vec.subtract p_t p_0) with hDdef
    set c := (Vec.subtract p_t p_0).dot a with hcdef
    have hsA2 : Real.sqrt A * Real.sqrt A = A := Real.mul_self_sqrt hA.le
    have hsD2 : Real.sqrt D * Real.sqrt D = D := Real.mul_self_sqrt hD.le
    have hu : 0 < t' ^ 2 := by positivity
    have hkey : (Real.sqrt A * Real.sqrt D - c) * t' ^ 2 ≤ w.dot w * t' ^ 2 := by
      rw [hsp]
      nlinarith [sq_nonneg (Real.sqrt D - Real.sqrt A * t' ^ 2 / 2)]
    exact le_of_mul_le_mul_right hkey hu

end ProjectileLowClaims

section ProjectileClamp

/-- The readjusted vector `(s cos θ, s sin θ)` with `θ = atan2(v.y, v.x)` and
`s > 0` has the angle `θ` again. -/
theorem Projectile.atan2_readjusted (x y s : ℝ) (hs : 0 < s) :
    Complex.arg ⟨s * Real.cos (Complex.arg ⟨x, y⟩), s * Real.sin (Complex.arg ⟨x, y⟩)⟩ =
      Complex.arg ⟨x, y⟩ := by
  have h := Complex.arg_mul_cos_add_sin_mul_I hs (Complex.arg_mem_Ioc ⟨x, y⟩)
  have e : (⟨s * Real.cos (Complex.arg ⟨x, y⟩), s * Real.sin (Complex.arg ⟨x, y⟩)⟩ : ℂ) =
      (s : ℂ) * (Complex.cos (Complex.arg ⟨x, y⟩) +
        Complex.sin (Complex.arg ⟨x, y⟩) * Complex.I) := by
    apply Complex.ext
    · simp [← Complex.ofReal_cos, ← Complex.ofReal_sin]
    · simp [← Complex.ofReal_cos, ← Complex.ofReal_sin]
  rw [e]
  exact h

/-- The readjusted vector has the length `s`. -/
theorem Projectile.length_readjusted (θ s : ℝ) (hs : 0 ≤ s) :
    Real.sqrt ((s * Real.cos θ) * (s * Real.cos θ) + (s * Real.sin θ) * (s * Real.sin θ)) =
      s := by
  have e : (s * Real.cos θ) * (s * Real.cos θ) + (s * Real.sin θ) * (s * Real.sin θ) =
      s * s := by
    nlinarith [Real.cos_sq_add_sin_sq θ]
  rw [e]
  exact Real.sqrt_mul_self hs

/-- For a non-zero vector the readjusted vector is the vector scaled by
`s / |v|`. -/
theorem Projectile.readjusted_eq_multiply (v : Vec ℝ) (s : ℝ) (hv : v ≠ ⟨0, 0⟩) :
    (⟨s * Real.cos (Complex.arg ⟨v.x, v.y⟩), s * Real.sin (Complex.arg ⟨v.x, v.y⟩)⟩ : Vec ℝ) =
      Vec.multiply v (s / Real.sqrt (v.dot v)) := by
  have hz : (⟨v.x, v.y⟩ : ℂ) ≠ 0 := by
    intro hc
    apply hv
    have hx := congrArg Complex.re hc
    have hy := congrArg Complex.im hc
    simp only [Complex.zero_re, Complex.zero_im] at hx hy
    exact Vec.eq_of_components _ _ hx hy
  have habs : Complex.abs ⟨v.x, v.y⟩ = Real.sqrt (v.dot v) := by
    rw [Complex.abs_apply, Complex.normSq_mk]
    rfl
  have hc := Complex.cos_arg hz
  have hsn := Complex.sin_arg (⟨v.x, v.y⟩ : ℂ)
  rw [habs] at hc hsn
  simp only at hc hsn
  apply Vec.eq_of_components
  · simp only [Vec.multiply]
    rw [hc]
    ring
  · simp only [Vec.multiply]
    rw [hsn]
    ring

end ProjectileClamp

section ProjectileClampClaims

/-- C14: the returned speed lies in the band and readjusting keeps the
direction. In real arithmetic, for `s_min <= s_max`, `s_max > 0`, `a != 0` and
`p_t != p_0`: a velocity `v` returned by `min_launch_velocity` has
`s_min <= |v| <= s_max` and is the velocity that was computed, never
readjusted; a velocity `v` returned by `low_launch_velocity` has
`s_min <= |v| <= s_max` and is either the velocity `v_0` that was computed or
the readjusted one, of length `s_min`, with the same angle
`atan2(v.y, v.x) = atan2(v_0.y, v_0.x)` and, when `v_0` is not the zero vector,
a positive multiple of `v_0`. -/
theorem Projectile.launch_speed_clamped (M : MathOps ℝ) (hM : M.IsReal)
    (p_0 p_t a : Vec ℝ) (s_max s_min : ℝ) (v : Vec ℝ)
    (h1 : s_min ≤ s_max) (hs : 0 < s_max) (ha : a ≠ ⟨0, 0⟩) (hp : p_t ≠ p_0) :
    (Projectile.min_launch_velocity M p_0 p_t s_max s_min a = some v →
      s_min ≤ v.length M ∧ v.length M ≤ s_max ∧
        v = Projectile.min_velocity M p_0 p_t s_max a) ∧
    (Projectile.low_launch_velocity M p_0 p_t s_max s_min a = some v →
      s_min ≤ v.length M ∧ v.length M ≤ s_max ∧
        (v = Projectile.low_velocity M p_0 p_t a ∨
          (v.length M = s_min ∧
            M.atan2 v.y v.x = M.atan2 (Projectile.low_velocity M p_0 p_t a).y
              (Projectile.low_velocity M p_0 p_t a).x ∧
            (Projectile.low_velocity M p_0 p_t a ≠ ⟨0, 0⟩ →
              ∃ k : ℝ, 0 < k ∧ v = Vec.multiply (Projectile.low_velocity M p_0 p_t a) k)))) := by
  constructor
  · intro hv
    have hdis := Projectile.min_launch_velocity_some M p_0 p_t a s_max s_min v hv
    obtain ⟨-, -, -, hlen, -⟩ := Projectile.min_facts M hM p_0 p_t a s_max hs ha hp hdis
    rw [Projectile.min_launch_velocity_eq M hM p_0 p_t a s_max s_min h1 hs ha hp hdis] at hv
    have hvv : Projectile.min_velocity M p_0 p_t s_max a = v := Option.some.inj hv
    rw [← hvv, hlen]
    exact ⟨h1, le_refl _, rfl⟩
  · intro hv
    have hdis := Projectile.low_launch_velocity_some M p_0 p_t a s_max s_min v hv
    have hle := Projectile.low_velocity_le_max M hM p_0 p_t a s_max hs ha hp hdis
    rw [Projectile.low_launch_velocity_cases, if_neg (not_lt.2 hdis),
      if_neg (not_lt.2 hle)] at hv
    by_cases hlt : (Projectile.low_velocity M p_0 p_t a).length M < s_min
    · rw [if_pos hlt] at hv
      have hvv := Option.some.inj hv
      obtain ⟨hsq, hat, hco, hsi⟩ := hM
      have h0 : 0 ≤ (Projectile.low_velocity M p_0 p_t a).length M := by
        simp only [Vec.length, hsq]
        exact Real.sqrt_nonneg _
      have hpos : 0 < s_min := lt_of_le_of_lt h0 hlt
      have hlen : v.length M = s_min := by
        rw [← hvv]
        simp only [Vec.length, Vec.dot, hsq, hco, hsi]
        exact Projectile.length_readjusted _ s_min hpos.le
      refine ⟨le_of_eq hlen.symm, by rw [hlen]; exact h1, Or.inr ⟨hlen, ?_, ?_⟩⟩
      · rw [← hvv]
        simp only [hat, hco, hsi]
        exact Projectile.atan2_readjusted _ _ s_min hpos
      · intro hne
        have hdpos := Vec.dot_self_pos _ hne
        refine ⟨s_min / Real.sqrt ((Projectile.low_velocity M p_0 p_t a).dot
          (Projectile.low_velocity M p_0 p_t a)), div_pos hpos (Real.sqrt_pos.2 hdpos), ?_⟩
        rw [← hvv]
        simp only [hat, hco, hsi]
        exact Projectile.readjusted_eq_multiply _ s_min hne
    · rw [if_neg hlt] at hv
      have hvv := Option.some.inj hv
      rw [← hvv]
      exact ⟨not_lt.1 hlt, hle, Or.inl rfl⟩

end ProjectileClampClaims

section ProjectileExamples

/-- A drop of one unit under gravity `(0, -2)`: the minimum-energy flight
takes one unit of time. -/
theorem Projectile.low_time_drop (M : MathOps ℝ) (hM : M.IsReal) :
    Projectile.low_time M ⟨0, 0⟩ ⟨0, -1⟩ ⟨0, -2⟩ = 1 := by
  simp only [Projectile.low_time, Vec.subtract, Vec.dot, hM.1]
  norm_num

/-- A drop of one unit under gravity `(0, -2)`: the minimum-energy velocity is
the zero vector. -/
theorem Projectile.low_velocity_drop (M : MathOps ℝ) (hM : M.IsReal) :
    Projectile.low_velocity M ⟨0, 0⟩ ⟨0, -1⟩ ⟨0, -2⟩ = ⟨0, 0⟩ := by
  simp only [Projectile.low_velocity, Projectile.low_time_drop M hM, Vec.subtract, Vec.divide,
    Vec.multiply]
  norm_num

/-- A drop of one unit under gravity `(0, -2)` with speeds between `1/2` and
`1`: the zero velocity is readjusted to the horizontal velocity `(1/2, 0)`. -/
theorem Projectile.low_launch_velocity_drop (M : MathOps ℝ) (hM : M.IsReal) :
    Projectile.low_launch_velocity M ⟨0, 0⟩ ⟨0, -1⟩ 1 (1 / 2) ⟨0, -2⟩ = some ⟨1 / 2, 0⟩ := by
  have hz : (⟨0, 0⟩ : ℂ) = 0 := rfl
  rw [Projectile.low_launch_velocity_cases, Projectile.low_velocity_drop M hM]
  obtain ⟨hsq, hat, hco, hsi⟩ := hM
  simp only [Vec.length, Vec.subtract, Vec.dot, hsq, hat, hco, hsi, hz, Complex.arg_zero,
    Real.cos_zero, Real.sin_zero]
  norm_num

/-- A toss of one unit upwards under gravity `(0, -2)`: the minimum-energy
flight takes one unit of time. -/
theorem Projectile.low_time_toss (M : MathOps ℝ) (hM : M.IsReal) :
    Projectile.low_time M ⟨0, 0⟩ ⟨0, 1⟩ ⟨0, -2⟩ = 1 := by
  simp only [Projectile.low_time, Vec.subtract, Vec.dot, hM.1]
  norm_num

/-- A toss of one unit upwards under gravity `(0, -2)`: the minimum-energy
velocity is `(0, 2)`. -/
theorem Projectile.low_velocity_toss (M : MathOps ℝ) (hM : M.IsReal) :
    Projectile.low_velocity M ⟨0, 0⟩ ⟨0, 1⟩ ⟨0, -2⟩ = ⟨0, 2⟩ := by
  simp only [Projectile.low_velocity, Projectile.low_time_toss M hM, Vec.subtract, Vec.divide,
    Vec.multiply]
  norm_num

theorem Projectile.sqrt_four : Real.sqrt 4 = 2 := by
  rw [show (4 : ℝ) = 2 * 2 by norm_num]
  exact Real.sqrt_mul_self (by norm_num)

/-- A toss of one unit upwards under gravity `(0, -2)`: the minimum-energy
speed is `2`. -/
theorem Projectile.low_speed_toss (M : MathOps ℝ) (hM : M.IsReal) :
    (Projectile.low_velocity M ⟨0, 0⟩ ⟨0, 1⟩ ⟨0, -2⟩).length M = 2 := by
  rw [Projectile.low_velocity_toss M hM]
  simp only [Vec.length, Vec.dot, hM.1]
  norm_num [Projectile.sqrt_four]

/-- A toss of one unit upwards under gravity `(0, -2)` with speeds between `1`
and `2`: the velocity `(0, 2)` is returned as computed. -/
theorem Projectile.low_launch_velocity_toss (M : MathOps ℝ) (hM : M.IsReal) :
    Projectile.low_launch_velocity M ⟨0, 0⟩ ⟨0, 1⟩ 2 1 ⟨0, -2⟩ = some ⟨0, 2⟩ := by
  rw [Projectile.low_launch_velocity_cases, Projectile.low_speed_toss M hM,
    Projectile.low_velocity_toss M hM]
  simp only [Vec.subtract, Vec.dot]
  norm_num

end ProjectileExamples

section ProjectileLowTarget

/-- C16, the claim as stated fails: with `p_0 = (0, 0)`, `p_t = (0, -1)`,
`a = (0, -2)`, `s_max = 1` and `s_min = 1/2` the velocity computed is the zero
vector, which `low_launch_velocity` readjusts to `(1/2, 0)`; the trajectory of
that velocity is `(t/2, -t^2)` and never reaches `(0, -1)`. -/
theorem Projectile.low_launch_misses_target :
    (0 : ℝ) ≤ 1 / 2 ∧ (1 / 2 : ℝ) ≤ 1 ∧ (0 : ℝ) < 1 ∧ (⟨0, -2⟩ : Vec ℝ) ≠ ⟨0, 0⟩ ∧
      (⟨0, -1⟩ : Vec ℝ) ≠ ⟨0, 0⟩ ∧
      Projectile.low_launch_velocity
        ⟨Real.sqrt, fun y x => Complex.arg ⟨x, y⟩, Real.cos, Real.sin⟩
        ⟨0, 0⟩ ⟨0, -1⟩ 1 (1 / 2) ⟨0, -2⟩ = some ⟨1 / 2, 0⟩ ∧
      ¬ ∃ t : ℝ, 0 < t ∧
        Projectile.get_point ⟨0, 0⟩ (⟨1 / 2, 0⟩ : Vec ℝ) ⟨0, -2⟩ t = ⟨0, -1⟩ := by
  refine ⟨by norm_num, by norm_num, by norm_num, by simp, by simp,
    Projectile.low_launch_velocity_drop _ ⟨rfl, rfl, rfl, rfl⟩, ?_⟩
  rintro ⟨t, ht, hget⟩
  simp only [Projectile.get_point, Vec.add, Vec.multiply, Vec.divide, Vec.mk.injEq] at hget
  have hx := hget.1
  have : t = 0 := by linarith
  linarith

/-- C16, amended: the minimum-energy launch passes through the target when
its speed is not raised. In real arithmetic, for `s_max > 0`, `a != 0` and
`p_t != p_0`, whenever `low_launch_velocity(p_0, p_t, s_max, s_min, a)` returns
a velocity `v` and the speed it computed is at least `s_min`, `v` is the
velocity that was computed and there is a time `t > 0`, the flight time it
used, with `get_point(p_0, v, a, t) = p_t`. -/
theorem Projectile.low_launch_hits_target (M : MathOps ℝ) (hM : M.IsReal)
    (p_0 p_t a : Vec ℝ) (s_max s_min : ℝ) (v : Vec ℝ)
    (hs : 0 < s_max) (ha : a ≠ ⟨0, 0⟩) (hp : p_t ≠ p_0)
    (hv : Projectile.low_launch_velocity M p_0 p_t s_max s_min a = some v)
    (hmin : s_min ≤ (Projectile.low_velocity M p_0 p_t a).length M) :
    v = Projectile.low_velocity M p_0 p_t a ∧
    ∃ t : ℝ, 0 < t ∧ t = Projectile.low_time M p_0 p_t a ∧
      Projectile.get_point p_0 v a t = p_t := by
  have hdis := Projectile.low_launch_velocity_some M p_0 p_t a s_max s_min v hv
  have hle := Projectile.low_velocity_le_max M hM p_0 p_t a s_max hs ha hp hdis
  obtain ⟨htpos, -, -, hget⟩ := Projectile.low_facts M hM p_0 p_t a ha hp
  rw [Projectile.low_launch_velocity_cases, if_neg (not_lt.2 hdis),
    if_neg (not_lt.2 hle), if_neg (not_lt.2 hmin)] at hv
  have hvv := Option.some.inj hv
  rw [← hvv]
  exact ⟨rfl, _, htpos, rfl, hget⟩

theorem Projectile.low_launch_hits_target_witness :
    MathOps.IsReal ⟨Real.sqrt, fun y x => Complex.arg ⟨x, y⟩, Real.cos, Real.sin⟩ ∧
      (0 : ℝ) < 2 ∧ (⟨0, -2⟩ : Vec ℝ) ≠ ⟨0, 0⟩ ∧ (⟨0, 1⟩ : Vec ℝ) ≠ ⟨0, 0⟩ ∧
      Projectile.low_launch_velocity
        ⟨Real.sqrt, fun y x => Complex.arg ⟨x, y⟩, Real.cos, Real.sin⟩
        ⟨0, 0⟩ ⟨0, 1⟩ 2 1 ⟨0, -2⟩ = some ⟨0, 2⟩ ∧
      1 ≤ Vec.length ⟨Real.sqrt, fun y x => Complex.arg ⟨x, y⟩, Real.cos, Real.sin⟩
        (Projectile.low_velocity
          ⟨Real.sqrt, fun y x => Complex.arg ⟨x, y⟩, Real.cos, Real.sin⟩
          ⟨0, 0⟩ ⟨0, 1⟩ ⟨0, -2⟩) ∧
      ∃ t : ℝ, 0 < t ∧
        t = Projectile.low_time
          ⟨Real.sqrt, fun y x => Complex.arg ⟨x, y⟩, Real.cos, Real.sin⟩
          ⟨0, 0⟩ ⟨0, 1⟩ ⟨0, -2⟩ ∧
        Projectile.get_point ⟨0, 0⟩ (⟨0, 2⟩ : Vec ℝ) ⟨0, -2⟩ t = ⟨0, 1⟩ :=
  ⟨⟨rfl, rfl, rfl, rfl⟩, by norm_num, by simp, by simp,
    Projectile.low_launch_velocity_toss _ ⟨rfl, rfl, rfl, rfl⟩,
    by rw [Projectile.low_speed_toss _ ⟨rfl, rfl, rfl, rfl⟩]; norm_num,
    (Projectile.low_launch_hits_target
      ⟨Real.sqrt, fun y x => Complex.arg ⟨x, y⟩, Real.cos, Real.sin⟩ ⟨rfl, rfl, rfl, rfl⟩
      ⟨0, 0⟩ ⟨0, 1⟩ ⟨0, -2⟩ 2 1 ⟨0, 2⟩ (by norm_num) (by simp) (by simp)
      (Projectile.low_launch_velocity_toss _ ⟨rfl, rfl, rfl, rfl⟩)
      (by rw [Projectile.low_speed_toss _ ⟨rfl, rfl, rfl, rfl⟩]; norm_num)).2⟩

end ProjectileLowTarget

section ProjectileWitnesses

theorem Projectile.low_velocity_min_energy_witness :
    MathOps.IsReal ⟨Real.sqrt, fun y x => Complex.arg ⟨x, y⟩, Real.cos, Real.sin⟩ ∧
      (⟨0, -2⟩ : Vec ℝ) ≠ ⟨0, 0⟩ ∧ (⟨0, 1⟩ : Vec ℝ) ≠ ⟨0, 0⟩ ∧
      ∀ (w : Vec ℝ) (t : ℝ), 0 < t →
        Projectile.get_point ⟨0, 0⟩ w ⟨0, -2⟩ t = ⟨0, 1⟩ →
        Vec.length ⟨Real.sqrt, fun y x => Complex.arg ⟨x, y⟩, Real.cos, Real.sin⟩
          (Projectile.low_velocity
            ⟨Real.sqrt, fun y x => Complex.arg ⟨x, y⟩, Real.cos, Real.sin⟩
            ⟨0, 0⟩ ⟨0, 1⟩ ⟨0, -2⟩) ≤
          Vec.length ⟨Real.sqrt, fun y x => Complex.arg ⟨x, y⟩, Real.cos, Real.sin⟩ w :=
  ⟨⟨rfl, rfl, rfl, rfl⟩, by simp, by simp,
    (Projectile.low_velocity_min_energy
      ⟨Real.sqrt, fun y x => Complex.arg ⟨x, y⟩, Real.cos, Real.sin⟩ ⟨rfl, rfl, rfl, rfl⟩
      ⟨0, 0⟩ ⟨0, 1⟩ ⟨0, -2⟩ (by simp) (by simp)).2.2.2.2.2⟩

theorem Projectile.launch_speed_clamped_witness :
    MathOps.IsReal ⟨Real.sqrt, fun y x => Complex.arg ⟨x, y⟩, Real.cos, Real.sin⟩ ∧
      (1 / 2 : ℝ) ≤ 1 ∧ (0 : ℝ) < 1 ∧ (⟨0, -2⟩ : Vec ℝ) ≠ ⟨0, 0⟩ ∧
      (⟨0, -1⟩ : Vec ℝ) ≠ ⟨0, 0⟩ ∧
      Projectile.low_launch_velocity
        ⟨Real.sqrt, fun y x => Complex.arg ⟨x, y⟩, Real.cos, Real.sin⟩
        ⟨0, 0⟩ ⟨0, -1⟩ 1 (1 / 2) ⟨0, -2⟩ = some ⟨1 / 2, 0⟩ ∧
      1 / 2 ≤ Vec.length ⟨Real.sqrt, fun y x => Complex.arg ⟨x, y⟩, Real.cos, Real.sin⟩ ⟨1 / 2, 0⟩ ∧
      Vec.length ⟨Real.sqrt, fun y x => Complex.arg ⟨x, y⟩, Real.cos, Real.sin⟩ ⟨1 / 2, 0⟩ ≤ 1 :=
  ⟨⟨rfl, rfl, rfl, rfl⟩, by norm_num, by norm_num, by simp, by simp,
    Projectile.low_launch_velocity_drop _ ⟨rfl, rfl, rfl, rfl⟩,
    ((Projectile.launch_speed_clamped
      ⟨Real.sqrt, fun y x => Complex.arg ⟨x, y⟩, Real.cos, Real.sin⟩ ⟨rfl, rfl, rfl, rfl⟩
      ⟨0, 0⟩ ⟨0, -1⟩ ⟨0, -2⟩ 1 (1 / 2) ⟨1 / 2, 0⟩ (by norm_num) (by norm_num) (by simp)
      (by simp)).2 (Projectile.low_launch_velocity_drop _ ⟨rfl, rfl, rfl, rfl⟩)).1,
    ((Projectile.launch_speed_clamped
      ⟨Real.sqrt, fun y x => Complex.arg ⟨x, y⟩, Real.cos, Real.sin⟩ ⟨rfl, rfl, rfl, rfl⟩
      ⟨0, 0⟩ ⟨0, -1⟩ ⟨0, -2⟩ 1 (1 / 2) ⟨1 / 2, 0⟩ (by norm_num) (by norm_num) (by simp)
      (by simp)).2 (Projectile.low_launch_velocity_drop _ ⟨rfl, rfl, rfl, rfl⟩)).2.1⟩

end ProjectileWitnesses

/-! ## Rectangle: collision, containment and difference -/

section RectangleDifference

variable {K : Type} [LinearOrderedField K]

/-- For a rectangle of positive width and height, `contains` of a point is
the test of the closed box. -/
theorem Rectangle.contains_vector (r : Rectangle K) (q : Vec K)
    (hw : 0 < r.dimensions.x) (hh : 0 < r.dimensions.y) :
    r.contains (.vector q) =
      (decide (r.position.x ≤ q.x) && decide (q.x ≤ r.position.x + r.dimensions.x) &&
        decide (r.position.y - r.dimensions.y ≤ q.y) && decide (q.y ≤ r.position.y)) := by
  have e1 : q.relative r.points.a r.points.b = r.dimensions.y * (q.x - r.position.x) := by
    simp only [Vec.relative, Rectangle.points]
    ring
  have e2 : q.relative r.points.b r.points.c =
      r.dimensions.x * (q.y - (r.position.y - r.dimensions.y)) := by
    simp only [Vec.relative, Rectangle.points]
    ring
  have e3 : q.relative r.points.c r.points.d =
      r.dimensions.y * ((r.position.x + r.dimensions.x) - q.x) := by
    simp only [Vec.relative, Rectangle.points]
    ring
  have e4 : q.relative r.points.d r.points.a = r.dimensions.x * (r.position.y - q.y) := by
    simp only [Vec.relative, Rectangle.points]
    ring
  have pos : ∀ d t : K, 0 < d → (d * t < 0 ↔ t < 0) := by
    intro d t hd
    constructor
    · intro h
      by_contra hc
      have := mul_nonneg hd.le (not_lt.1 hc)
      linarith
    · intro h
      exact mul_neg_of_pos_of_neg hd h
  simp only [Rectangle.contains, e1, e2, e3, e4, pos _ _ hw, pos _ _ hh, sub_neg]
  by_cases g1 : q.x < r.position.x <;> by_cases g2 : q.y < r.position.y - r.dimensions.y <;>
    by_cases g3 : r.position.x + r.dimensions.x < q.x <;>
    by_cases g4 : r.position.y < q.y <;>
    simp [g1, g2, g3, g4, not_le.2, not_lt.1]

end RectangleDifference

section RectangleDifference2

variable {K : Type} [LinearOrderedField K]

/-- The value of `difference`: along each axis, the shift that brings the
nearer edge of `r` onto the edge of `o` it crosses, the left and the upper
edge first. -/
theorem Rectangle.difference_eq (r o : Rectangle K)
    (hw : 0 ≤ r.dimensions.x) (hh : 0 ≤ r.dimensions.y)
    (hW : 0 < o.dimensions.x) (hH : 0 < o.dimensions.y) :
    r.difference o = some
      ⟨if r.position.x < o.position.x then o.position.x - r.position.x
        else if r.position.x + r.dimensions.x > o.position.x + o.dimensions.x then
          o.position.x + o.dimensions.x - (r.position.x + r.dimensions.x)
        else 0,
       if r.position.y > o.position.y then o.position.y - r.position.y
        else if r.position.y - r.dimensions.y < o.position.y - o.dimensions.y then
          o.position.y - o.dimensions.y - (r.position.y - r.dimensions.y)
        else 0⟩ := by
  obtain ⟨⟨x, y⟩, ⟨w, h⟩⟩ := r
  obtain ⟨⟨X, Y⟩, ⟨W, H⟩⟩ := o
  simp only at hw hh hW hH
  simp only [Rectangle.difference, Rectangle.contained,
    Rectangle.contains_vector ⟨⟨X, Y⟩, ⟨W, H⟩⟩ _ hW hH, Rectangle.points, Vec.subtract]
  rcases lt_or_le x X with p1 | p1 <;> rcases lt_or_le (X + W) (x + w) with p4 | p4 <;>
    rcases lt_or_le (X + W) x with p2 | p2 <;> rcases lt_or_le (x + w) X with p3 | p3 <;>
    try (exfalso; linarith)
  all_goals
    rcases lt_or_le Y y with q1 | q1 <;> rcases lt_or_le (y - h) (Y - H) with q4 | q4 <;>
      rcases lt_or_le y (Y - H) with q2 | q2 <;> rcases lt_or_le Y (y - h) with q3 | q3 <;>
      try (exfalso; linarith)
  all_goals simp [p1, p2, p3, p4, q1, q2, q3, q4, not_le.2, not_lt.2]

end RectangleDifference2

section RectangleDifferenceClaims

variable {K : Type} [LinearOrderedField K]

/-- C21: the difference is zero exactly for a contained rectangle. For all
rectangles `r` and `o` with positive dimensions, `r.difference(o)` is the zero
vector if and only if `r.contained(o)` is true. -/
theorem Rectangle.difference_zero_iff_contained (r o : Rectangle K)
    (hw : 0 < r.dimensions.x) (hh : 0 < r.dimensions.y)
    (hW : 0 < o.dimensions.x) (hH : 0 < o.dimensions.y) :
    r.difference o = some ⟨0, 0⟩ ↔ r.contained o = true := by
  rw [Rectangle.difference_eq r o hw.le hh.le hW hH]
  simp only [Option.some.injEq, Vec.mk.injEq, Rectangle.contained, Bool.and_eq_true,
    decide_eq_true_eq, ge_iff_le, gt_iff_lt]
  constructor
  · rintro ⟨hx, hy⟩
    split_ifs at hx with h1 h2
    · exfalso; linarith
    · exfalso; linarith
    · split_ifs at hy with h3 h4
      · exfalso; linarith
      · exfalso; linarith
      · exact ⟨⟨⟨not_lt.1 h1, not_lt.1 h2⟩, not_lt.1 h3⟩, not_lt.1 h4⟩
  · rintro ⟨⟨⟨h1, h2⟩, h3⟩, h4⟩
    rw [if_neg (not_lt.2 h1), if_neg (not_lt.2 h2), if_neg (not_lt.2 h3), if_neg (not_lt.2 h4)]
    exact ⟨rfl, rfl⟩

theorem Rectangle.difference_zero_iff_contained_witness :
    (0 : ℚ) < 2 ∧ (0 : ℚ) < 1 ∧ (0 : ℚ) < 10 ∧ (0 : ℚ) < 8 ∧
    (Rectangle.difference (⟨⟨3, 5⟩, ⟨2, 1⟩⟩ : Rectangle ℚ) ⟨⟨0, 8⟩, ⟨10, 8⟩⟩ = some ⟨0, 0⟩ ↔
      Rectangle.contained (⟨⟨3, 5⟩, ⟨2, 1⟩⟩ : Rectangle ℚ) ⟨⟨0, 8⟩, ⟨10, 8⟩⟩ = true) :=
  ⟨by norm_num, by norm_num, by norm_num, by norm_num,
    Rectangle.difference_zero_iff_contained (⟨⟨3, 5⟩, ⟨2, 1⟩⟩ : Rectangle ℚ)
      ⟨⟨0, 8⟩, ⟨10, 8⟩⟩ (by norm_num) (by norm_num) (by norm_num) (by norm_num)⟩

/-- C22: the difference is the least translation into the other rectangle.
For all rectangles `r` and `o` with positive dimensions and `r` no wider and no
higher than `o`, `r.difference(o)` is a vector `t` (a case of the `switch`
applies), `r` translated by `t` is contained in `o`, and every translation `u`
after which `r` is contained in `o` has `|t.x| <= |u.x|` and
`|t.y| <= |u.y|`. -/
theorem Rectangle.difference_least_translation (r o : Rectangle K)
    (hw : 0 < r.dimensions.x) (hh : 0 < r.dimensions.y)
    (hW : 0 < o.dimensions.x) (hH : 0 < o.dimensions.y)
    (hx : r.dimensions.x ≤ o.dimensions.x) (hy : r.dimensions.y ≤ o.dimensions.y) :
    ∃ t : Vec K, r.difference o = some t ∧ (r.translate t).contained o = true ∧
      ∀ u : Vec K, (r.translate u).contained o = true → |t.x| ≤ |u.x| ∧ |t.y| ≤ |u.y| := by
  refine ⟨_, Rectangle.difference_eq r o hw.le hh.le hW hH, ?_, ?_⟩
  · simp only [Rectangle.contained, Rectangle.translate, Vec.add, Bool.and_eq_true,
      decide_eq_true_eq, ge_iff_le, gt_iff_lt]
    refine ⟨⟨⟨?_, ?_⟩, ?_⟩, ?_⟩
    · split_ifs <;> linarith
    · split_ifs <;> linarith
    · split_ifs <;> linarith
    · split_ifs <;> linarith
  · intro u hu
    simp only [Rectangle.contained, Rectangle.translate, Vec.add, Bool.and_eq_true,
      decide_eq_true_eq, ge_iff_le] at hu
    obtain ⟨⟨⟨h1, h2⟩, h3⟩, h4⟩ := hu
    constructor
    · dsimp only
      split_ifs with g1 g2
      · rw [abs_of_pos (by linarith), abs_of_pos (by linarith)]
        linarith
      · rw [abs_of_neg (by linarith), abs_of_neg (by linarith)]
        linarith
      · rw [abs_zero]
        exact abs_nonneg _
    · dsimp only
      split_ifs with g1 g2
      · rw [abs_of_neg (by linarith), abs_of_neg (by linarith)]
        linarith
      · rw [abs_of_pos (by linarith), abs_of_pos (by linarith)]
        linarith
      · rw [abs_zero]
        exact abs_nonneg _

theorem Rectangle.difference_least_translation_witness :
    (0 : ℚ) < 2 ∧ (0 : ℚ) < 1 ∧ (0 : ℚ) < 10 ∧ (0 : ℚ) < 8 ∧ (2 : ℚ) ≤ 10 ∧ (1 : ℚ) ≤ 8 ∧
    ∃ t : Vec ℚ, Rectangle.difference (⟨⟨-1, 9⟩, ⟨2, 1⟩⟩ : Rectangle ℚ) ⟨⟨0, 8⟩, ⟨10, 8⟩⟩ =
        some t ∧
      Rectangle.contained (Rectangle.translate (⟨⟨-1, 9⟩, ⟨2, 1⟩⟩ : Rectangle ℚ) t)
        ⟨⟨0, 8⟩, ⟨10, 8⟩⟩ = true ∧
      ∀ u : Vec ℚ, Rectangle.contained (Rectangle.translate
          (⟨⟨-1, 9⟩, ⟨2, 1⟩⟩ : Rectangle ℚ) u) ⟨⟨0, 8⟩, ⟨10, 8⟩⟩ = true →
        |t.x| ≤ |u.x| ∧ |t.y| ≤ |u.y| :=
  ⟨by norm_num, by norm_num, by norm_num, by norm_num, by norm_num, by norm_num,
    Rectangle.difference_least_translation (⟨⟨-1, 9⟩, ⟨2, 1⟩⟩ : Rectangle ℚ)
      ⟨⟨0, 8⟩, ⟨10, 8⟩⟩ (by norm_num) (by norm_num) (by norm_num) (by norm_num)
      (by norm_num) (by norm_num)⟩

/-- C23: `collides` is the inclusive overlap test. For rectangles `r0` and
`r1` with non-negative dimensions, `r0.collides(r1)` holds exactly when the
closed intervals of the two rectangles have a common point on the x axis and a
common point on the y axis; `collides` is symmetric; the static
`Rectangle.collides(r0, r1)` has the same value; and `r0` collides with its
copy moved by its width (the two share an edge) and with its copy moved by its
width and its height (the two share a corner). -/
theorem Rectangle.collides_inclusive (r0 r1 : Rectangle K)
    (hw0 : 0 ≤ r0.dimensions.x) (hh0 : 0 ≤ r0.dimensions.y)
    (hw1 : 0 ≤ r1.dimensions.x) (hh1 : 0 ≤ r1.dimensions.y) :
    (r0.collides r1 = true ↔
      (∃ x : K, (r0.position.x ≤ x ∧ x ≤ r0.position.x + r0.dimensions.x) ∧
        (r1.position.x ≤ x ∧ x ≤ r1.position.x + r1.dimensions.x)) ∧
      (∃ y : K, (r0.position.y - r0.dimensions.y ≤ y ∧ y ≤ r0.position.y) ∧
        (r1.position.y - r1.dimensions.y ≤ y ∧ y ≤ r1.position.y))) ∧
    r0.collides r1 = r1.collides r0 ∧
    Rectangle.static.collides r0 r1 = r0.collides r1 ∧
    r0.collides (r0.translate ⟨r0.dimensions.x, 0⟩) = true ∧
    r0.collides (r0.translate ⟨r0.dimensions.x, r0.dimensions.y⟩) = true := by
  have hiff : ∀ a b : Rectangle K, a.collides b = true ↔
      (a.position.x ≤ b.position.x + b.dimensions.x ∧
        b.position.x ≤ a.position.x + a.dimensions.x) ∧
      (b.position.y - b.dimensions.y ≤ a.position.y ∧
        a.position.y - a.dimensions.y ≤ b.position.y) := by
    intro a b
    simp only [Rectangle.collides, Bool.not_eq_true', Bool.or_eq_false_iff,
      decide_eq_false_iff_not, not_lt, gt_iff_lt]
    tauto
  refine ⟨?_, ?_, rfl, ?_, ?_⟩
  · rw [hiff]
    constructor
    · rintro ⟨⟨h1, h2⟩, ⟨h3, h4⟩⟩
      refine ⟨⟨max r0.position.x r1.position.x, ⟨le_max_left _ _, ?_⟩, ⟨le_max_right _ _, ?_⟩⟩,
        ⟨min r0.position.y r1.position.y, ⟨?_, min_le_left _ _⟩, ⟨?_, min_le_right _ _⟩⟩⟩
      · exact max_le (by linarith) h2
      · exact max_le h1 (by linarith)
      · exact le_min (by linarith) h4
      · exact le_min h3 (by linarith)
    · rintro ⟨⟨x, ⟨h1, h2⟩, ⟨h3, h4⟩⟩, ⟨y, ⟨h5, h6⟩, ⟨h7, h8⟩⟩⟩
      exact ⟨⟨by linarith, by linarith⟩, ⟨by linarith, by linarith⟩⟩
  · have h1 := hiff r0 r1
    have h2 := hiff r1 r0
    have h3 : r0.collides r1 = true ↔ r1.collides r0 = true := by
      rw [h1, h2]
      tauto
    cases hc : r0.collides r1 <;> cases hd : r1.collides r0 <;> simp_all
  · rw [hiff]
    simp only [Rectangle.translate, Vec.add]
    exact ⟨⟨by linarith, by linarith⟩, ⟨by linarith, by linarith⟩⟩
  · rw [hiff]
    simp only [Rectangle.translate, Vec.add]
    exact ⟨⟨by linarith, by linarith⟩, ⟨by linarith, by linarith⟩⟩

theorem Rectangle.collides_inclusive_witness :
    (0 : ℚ) ≤ 2 ∧ (0 : ℚ) ≤ 2 ∧ (0 : ℚ) ≤ 1 ∧ (0 : ℚ) ≤ 2 ∧
    Rectangle.collides (⟨⟨0, 2⟩, ⟨2, 2⟩⟩ : Rectangle ℚ) ⟨⟨2, 4⟩, ⟨1, 2⟩⟩ = true :=
  ⟨by norm_num, by norm_num, by norm_num, by norm_num,
    (Rectangle.collides_inclusive (⟨⟨0, 2⟩, ⟨2, 2⟩⟩ : Rectangle ℚ) ⟨⟨2, 4⟩, ⟨1, 2⟩⟩
      (by norm_num) (by norm_num) (by norm_num) (by norm_num)).1.2
      ⟨⟨2, ⟨by norm_num, by norm_num⟩, ⟨by norm_num, by norm_num⟩⟩,
        ⟨2, ⟨by norm_num, by norm_num⟩, ⟨by norm_num, by norm_num⟩⟩⟩⟩

end RectangleDifferenceClaims

/-! ## Observe -/

section ObserveClaims

variable {K W : Type} [LinearOrderedField K]

/-- The method `includes` is the test for a substring. -/
theorem includes_iff (label keyword : String) :
    includes label keyword = true ↔ keyword.data <:+: label.data := by
  simp only [includes, List.any_eq_true, List.mem_tails, List.isPrefixOf_iff_prefix]
  rw [List.infix_iff_prefix_suffix]
  constructor
  · rintro ⟨t, h1, h2⟩
    exact ⟨t, h2, h1⟩
  · rintro ⟨t, h1, h2⟩
    exact ⟨t, h2, h1⟩

theorem includes_eq_decide (keyword : String) :
    (fun label => includes label keyword) =
      (fun label => decide (keyword.data <:+: label.data)) := by
  funext label
  by_cases h : keyword.data <:+: label.data
  · rw [(includes_iff label keyword).2 h, decide_eq_true h]
  · have : includes label keyword = false := by
      cases hi : includes label keyword
      · rfl
      · exact absurd ((includes_iff label keyword).1 hi) h
    rw [this, decide_eq_false h]

/-- In every state reached from the constructor the history holds at most 7
labels, when no function held by an action writes the history. -/
theorem Cat.reachable_history_le (env : Env K W) (config : Config K)
    (hk : env.KeepsHistory) (c : Cat K W) (hc : Cat.Reachable env config c) :
    c.history.length ≤ 7 := by
  induction hc with
  | new observe world => simp [Cat.new]
  | @logic c1 dt chance r _ ih =>
      rcases (Cat.logic_frame env dt chance r c1).1 hk with h | ⟨label, h⟩
      · rw [h]
        exact ih
      · rw [h]
        exact evict_length_le _
  | @next_action c1 _ ih =>
      rcases (Cat.next_action_frame c1).1 with h | ⟨label, h⟩
      · rw [h]
        exact ih
      · rw [h]
        exact evict_length_le _
  | reset _ _ => simp [Cat.reset]
  | set_difficulty level _ ih => exact ih

/-- C24: the counts of `observe.self`. After `look()`, for each of the 12
keywords `observe.self[keyword]` is the number of labels of the history that
have the keyword as a substring; so `run-to` counts towards `run`,
`wall-jump` towards `jump` and `climb-to` towards `climb`. In every state
reached from the constructor, when no function held by an action writes the
history, each count is at most 7 (and at least 0, as a length). -/
theorem Cat.look_counts (M : MathOps K) (sight : W → Sight K) (env : Env K W)
    (config : Config K) (hk : env.KeepsHistory) (c : Cat K W)
    (hc : Cat.Reachable env config c) :
    ((Cat.look M sight c).self.sit =
      (c.history.filter (fun label => decide ("sit".data <:+: label.data))).length ∧
    (Cat.look M sight c).self.idle =
      (c.history.filter (fun label => decide ("idle".data <:+: label.data))).length ∧
    (Cat.look M sight c).self.walk =
      (c.history.filter (fun label => decide ("walk".data <:+: label.data))).length ∧
    (Cat.look M sight c).self.run =
      (c.history.filter (fun label => decide ("run".data <:+: label.data))).length ∧
    (Cat.look M sight c).self.sneak =
      (c.history.filter (fun label => decide ("sneak".data <:+: label.data))).length ∧
    (Cat.look M sight c).self.attack =
      (c.history.filter (fun label => decide ("attack".data <:+: label.data))).length ∧
    (Cat.look M sight c).self.wait =
      (c.history.filter (fun label => decide ("wait".data <:+: label.data))).length ∧
    (Cat.look M sight c).self.crouch =
      (c.history.filter (fun label => decide ("crouch".data <:+: label.data))).length ∧
    (Cat.look M sight c).self.jump =
      (c.history.filter (fun label => decide ("jump".data <:+: label.data))).length ∧
    (Cat.look M sight c).self.land =
      (c.history.filter (fun label => decide ("land".data <:+: label.data))).length ∧
    (Cat.look M sight c).self.hang =
      (c.history.filter (fun label => decide ("hang".data <:+: label.data))).length ∧
    (Cat.look M sight c).self.climb =
      (c.history.filter (fun label => decide ("climb".data <:+: label.data))).length) ∧
    (includes "run-to" "run" = true ∧ includes "wall-jump" "jump" = true ∧
      includes "climb-to" "climb" = true ∧ includes "run-to" "walk" = false) ∧
    ((Cat.look M sight c).self.sit ≤ 7 ∧
    (Cat.look M sight c).self.idle ≤ 7 ∧
    (Cat.look M sight c).self.walk ≤ 7 ∧
    (Cat.look M sight c).self.run ≤ 7 ∧
    (Cat.look M sight c).self.sneak ≤ 7 ∧
    (Cat.look M sight c).self.attack ≤ 7 ∧
    (Cat.look M sight c).self.wait ≤ 7 ∧
    (Cat.look M sight c).self.crouch ≤ 7 ∧
    (Cat.look M sight c).self.jump ≤ 7 ∧
    (Cat.look M sight c).self.land ≤ 7 ∧
    (Cat.look M sight c).self.hang ≤ 7 ∧
    (Cat.look M sight c).self.climb ≤ 7) := by
  have hlen := Cat.reachable_history_le env config hk c hc
  have hle : ∀ p : String → Bool, (c.history.filter p).length ≤ 7 :=
    fun p => le_trans (List.length_filter_le p c.history) hlen
  refine ⟨?_, ⟨by decide, by decide, by decide, by decide⟩, ?_⟩
  · simp only [Cat.look, Observe.look, includes_eq_decide, and_self]
  · simp only [Cat.look, Observe.look]
    exact ⟨hle _, hle _, hle _, hle _, hle _, hle _, hle _, hle _, hle _, hle _, hle _, hle _⟩

theorem Cat.look_counts_witness :
    (Example.env true).KeepsHistory ∧
    Cat.Reachable (Example.env true) Example.config Example.cat ∧
    (Cat.look Example.math (fun _ => Example.sight) Example.cat).self.sit = 1 ∧
    (Cat.look Example.math (fun _ => Example.sight) Example.cat).self.run ≤ 7 :=
  ⟨fun _ _ => rfl, Cat.Reachable.new Example.observe (),
    ((@Cat.look_counts ℚ Unit _ Example.math (fun _ => Example.sight) (Example.env true)
      Example.config (fun _ _ => rfl) Example.cat
      (Cat.Reachable.new Example.observe ())).1.1).trans (by decide),
    (@Cat.look_counts ℚ Unit _ Example.math (fun _ => Example.sight) (Example.env true)
      Example.config (fun _ _ => rfl) Example.cat
      (Cat.Reachable.new Example.observe ())).2.2.2.2.2.1⟩

end ObserveClaims

section ObserveWalls

variable {K : Type} [LinearOrderedField K]

/-- C25, as stated, fails: with the cat's hitbox 25 above the floor line and
the action `run` first in the queue, `look()` leaves
`observe.boundary.bottom.hit` true, not false. -/
theorem Observe.look_bottom_hit_while_running :
    ¬ (Example.sight.hitbox_points.c.y ≤
      (Observe.look Example.math Example.sight [some Example.run] ["sit"]
        Example.observe).boundary.bottom.pos.y) ∧
    includes Example.run.label "run" = true ∧
    (Observe.look Example.math Example.sight [some Example.run] ["sit"]
      Example.observe).boundary.bottom.hit = true ∧
    (Observe.look Example.math Example.sight [some Example.run] ["sit"]
      Example.observe).boundary.bottom.hit ≠ false := by
  refine ⟨?_, by decide, ?_, ?_⟩
  · norm_num [Observe.look, Example.sight, Vec.add, Vec.divide]
  · simp [Observe.look, Example.run, Example.sight, Vec.add, Vec.divide, includes]
  · simp [Observe.look, Example.run, Example.sight, Vec.add, Vec.divide, includes]

/-- C25, amended: the floor flag while running. After `look()`,
`observe.boundary.bottom.hit` is true exactly when corner `c` of the cat's
hitbox is not above the floor line `bottom.pos.y`, or the first slot of the
queue holds an action whose label contains `run`; so whenever the current
queued action's label contains `run` (`run` or `run-to`) the flag is true,
whatever the position of the hitbox. -/
theorem Observe.look_bottom_hit (M : MathOps K) (s : Sight K) (action : Act K)
    (rest : List (Option (Act K))) (history : List String) (o : Observe K)
    (hrun : "run".data <:+: action.label.data) :
    (Observe.look M s (some action :: rest) history o).boundary.bottom.hit = true ∧
    (∀ queue : List (Option (Act K)),
      ((Observe.look M s queue history o).boundary.bottom.hit = true ↔
        (s.hitbox_points.c.y ≤
            (Observe.look M s queue history o).boundary.bottom.pos.y ∨
          ∃ first later, queue = some first :: later ∧
            "run".data <:+: first.label.data))) := by
  constructor
  · simp [Observe.look, (includes_iff action.label "run").2 hrun]
  · intro queue
    simp only [Observe.look, Bool.or_eq_true, decide_eq_true_eq]
    constructor
    · rintro (h | h)
      · exact Or.inl h
      · right
        match queue, h with
        | some first :: later, h =>
            exact ⟨first, later, rfl, (includes_iff _ _).1 h⟩
    · rintro (h | ⟨first, later, rfl, h⟩)
      · exact Or.inl h
      · right
        exact (includes_iff _ _).2 h

theorem Observe.look_bottom_hit_witness :
    "run".data <:+: Example.run.label.data ∧
    (Observe.look Example.math Example.sight [some Example.run] ["sit"]
      Example.observe).boundary.bottom.hit = true :=
  ⟨by decide,
    (Observe.look_bottom_hit Example.math Example.sight Example.run [] ["sit"]
      Example.observe (by decide)).1⟩

/-- C26: the prediction. Let a first `look()` be followed by a second one, of
a world whose boundary has `a.x <= c.x` and `b.y <= d.y`. After the second,
`predict.vel` is the player's current velocity plus the velocity the first
`look()` stored in `player.vel`, which is the player's velocity at that time;
`predict.pos` is the player's midpoint plus `predict.vel` with `x` limited to
`[a.x, c.x]` and `y` to `[b.y, d.y]`; `predict.rel` is `predict.pos` minus
the cat's midpoint; `predict.pos` lies inside the boundary; and it is the
unlimited sum when that lies inside. -/
theorem Observe.look_predict (M : MathOps K) (s1 s2 : Sight K)
    (q1 q2 : List (Option (Act K))) (h1 h2 : List String) (o : Observe K)
    (hx : s2.boundary_points.a.x ≤ s2.boundary_points.c.x)
    (hy : s2.boundary_points.b.y ≤ s2.boundary_points.d.y) :
    (Observe.look M s1 q1 h1 o).player.vel = s1.player_trajectory ∧
    (Observe.look M s2 q2 h2 (Observe.look M s1 q1 h1 o)).predict.vel =
      ⟨s2.player_trajectory.x + s1.player_trajectory.x,
        s2.player_trajectory.y + s1.player_trajectory.y⟩ ∧
    (Observe.look M s2 q2 h2 (Observe.look M s1 q1 h1 o)).predict.pos =
      ⟨min (max (s2.player_midpoint.x +
          (Observe.look M s2 q2 h2 (Observe.look M s1 q1 h1 o)).predict.vel.x)
          s2.boundary_points.a.x) s2.boundary_points.c.x,
        min (max (s2.player_midpoint.y +
          (Observe.look M s2 q2 h2 (Observe.look M s1 q1 h1 o)).predict.vel.y)
          s2.boundary_points.b.y) s2.boundary_points.d.y⟩ ∧
    (Observe.look M s2 q2 h2 (Observe.look M s1 q1 h1 o)).predict.rel =
      ⟨(Observe.look M s2 q2 h2 (Observe.look M s1 q1 h1 o)).predict.pos.x - s2.midpoint.x,
        (Observe.look M s2 q2 h2 (Observe.look M s1 q1 h1 o)).predict.pos.y - s2.midpoint.y⟩ ∧
    ((s2.boundary_points.a.x ≤
        (Observe.look M s2 q2 h2 (Observe.look M s1 q1 h1 o)).predict.pos.x ∧
      (Observe.look M s2 q2 h2 (Observe.look M s1 q1 h1 o)).predict.pos.x ≤
        s2.boundary_points.c.x) ∧
      (s2.boundary_points.b.y ≤
        (Observe.look M s2 q2 h2 (Observe.look M s1 q1 h1 o)).predict.pos.y ∧
      (Observe.look M s2 q2 h2 (Observe.look M s1 q1 h1 o)).predict.pos.y ≤
        s2.boundary_points.d.y)) ∧
    (∀ sum : Vec K, sum = Vec.add s2.player_midpoint
        (Vec.add s2.player_trajectory s1.player_trajectory) →
      (s2.boundary_points.a.x ≤ sum.x ∧ sum.x ≤ s2.boundary_points.c.x) →
      (s2.boundary_points.b.y ≤ sum.y ∧ sum.y ≤ s2.boundary_points.d.y) →
      (Observe.look M s2 q2 h2 (Observe.look M s1 q1 h1 o)).predict.pos = sum) := by
  refine ⟨rfl, rfl, rfl, rfl, ⟨⟨?_, ?_⟩, ⟨?_, ?_⟩⟩, ?_⟩
  · simp only [Observe.look, Vec.limit]
    exact le_min (le_max_right _ _) hx
  · simp only [Observe.look, Vec.limit]
    exact min_le_right _ _
  · simp only [Observe.look, Vec.limit]
    exact le_min (le_max_right _ _) hy
  · simp only [Observe.look, Vec.limit]
    exact min_le_right _ _
  · rintro sum rfl ⟨hx1, hx2⟩ ⟨hy1, hy2⟩
    simp only [Observe.look, Vec.limit, Vec.add] at hx1 hx2 hy1 hy2 ⊢
    rw [max_eq_left hx1, min_eq_left hx2, max_eq_left hy1, min_eq_left hy2]

theorem Observe.look_predict_witness :
    Example.sight.boundary_points.a.x ≤ Example.sight.boundary_points.c.x ∧
    Example.sight.boundary_points.b.y ≤ Example.sight.boundary_points.d.y ∧
    (Observe.look Example.math Example.sight [] ["sit"]
      (Observe.look Example.math Example.sight [] ["sit"] Example.observe)).predict.vel =
      ⟨Example.sight.player_trajectory.x + Example.sight.player_trajectory.x,
        Example.sight.player_trajectory.y + Example.sight.player_trajectory.y⟩ :=
  ⟨by norm_num [Example.sight], by norm_num [Example.sight],
    (Observe.look_predict Example.math Example.sight Example.sight [] [] ["sit"] ["sit"]
      Example.observe (by norm_num [Example.sight]) (by norm_num [Example.sight])).2.1⟩

/-- C27: the walls. After `look()` on a boundary with corners `a`, `b`, `c`,
`d`: `left.pos = (a + b)/2`, `top.pos = (d + a)/2`, `right.pos` is
`(c + d)/2` moved by -1 in `x`, `bottom.pos` is `(b + c)/2` moved by +1 in
`y`; for each wall `rel = pos - midpoint of the cat`, `abs = (|rel.x|,
|rel.y|)` and `dis = sqrt(rel.x^2 + rel.y^2)`; and `top.hit` holds exactly
when `hitbox.a.y >= top.pos.y`, `left.hit` when `hitbox.b.x <= left.pos.x`,
`right.hit` when `hitbox.d.x >= right.pos.x`. -/
theorem Observe.look_walls (M : MathOps K) (s : Sight K) (queue : List (Option (Act K)))
    (history : List String) (o : Observe K) :
    ((Observe.look M s queue history o).boundary.left.pos =
        ⟨(s.boundary_points.a.x + s.boundary_points.b.x) / 2,
          (s.boundary_points.a.y + s.boundary_points.b.y) / 2⟩ ∧
      (Observe.look M s queue history o).boundary.top.pos =
        ⟨(s.boundary_points.d.x + s.boundary_points.a.x) / 2,
          (s.boundary_points.d.y + s.boundary_points.a.y) / 2⟩ ∧
      (Observe.look M s queue history o).boundary.right.pos =
        ⟨(s.boundary_points.c.x + s.boundary_points.d.x) / 2 - 1,
          (s.boundary_points.c.y + s.boundary_points.d.y) / 2⟩ ∧
      (Observe.look M s queue history o).boundary.bottom.pos =
        ⟨(s.boundary_points.b.x + s.boundary_points.c.x) / 2,
          (s.boundary_points.b.y + s.boundary_points.c.y) / 2 + 1⟩) ∧
    (∀ wall : Wall K,
      (wall = (Observe.look M s queue history o).boundary.left ∨
        wall = (Observe.look M s queue history o).boundary.right ∨
        wall = (Observe.look M s queue history o).boundary.top ∨
        wall = (Observe.look M s queue history o).boundary.bottom) →
      wall.rel = ⟨wall.pos.x - s.midpoint.x, wall.pos.y - s.midpoint.y⟩ ∧
      wall.abs = ⟨|wall.rel.x|, |wall.rel.y|⟩ ∧
      wall.dis = M.sqrt (wall.rel.x ^ 2 + wall.rel.y ^ 2)) ∧
    ((Observe.look M s queue history o).boundary.top.hit = true ↔
      s.hitbox_points.a.y ≥ (Observe.look M s queue history o).boundary.top.pos.y) ∧
    ((Observe.look M s queue history o).boundary.left.hit = true ↔
      s.hitbox_points.b.x ≤ (Observe.look M s queue history o).boundary.left.pos.x) ∧
    ((Observe.look M s queue history o).boundary.right.hit = true ↔
      s.hitbox_points.d.x ≥ (Observe.look M s queue history o).boundary.right.pos.x) := by
  refine ⟨⟨rfl, rfl, rfl, rfl⟩, ?_, ?_, ?_, ?_⟩
  · rintro wall (rfl | rfl | rfl | rfl) <;>
      exact ⟨rfl, rfl, congrArg M.sqrt (by rw [sq, sq]; rfl)⟩
  · simp only [Observe.look, decide_eq_true_eq]
  · simp only [Observe.look, decide_eq_true_eq]
  · simp only [Observe.look, decide_eq_true_eq]

end ObserveWalls

/-! ## The schemas -/

section SchemaClaims

variable {K E : Type} [LinearOrderedField K]

/-- On a cat holding the registered schemas `generate` yields the schema of a
registered label with its functions bound to the cat and to the arguments. -/
theorem Cat.generate_explicit {W : Type} (p : String × Bool) (hp : p ∈ Cat.registered_labels)
    (ae ac au : Option (List (Val K))) (c : Cat K W)
    (hf : c.factory = Cat.register_actions ActionFactory.new) :
    c.factory.generate p.1 ae ac au = .ok
      { label := p.1
        execute := match ae with
          | some args => Cat.bound_fn p.1 Part.execute args
          | none => Fn.bound (Fn.raw ⟨p.1, Part.execute⟩) (some Agent.cat) []
        condition := match ac with
          | some args => some (Cat.bound_fn p.1 Part.condition args)
          | none => some (Fn.bound (Fn.raw ⟨p.1, Part.condition⟩) (some Agent.cat) [])
        update := match au, p.2 with
          | some args, true => some (Cat.bound_fn p.1 Part.update args)
          | none, true => some (Fn.bound (Fn.raw ⟨p.1, Part.update⟩) (some Agent.cat) [])
          | _, false => none } := by
  have hown := @Cat.registered_own K p hp
  rw [← hf] at hown
  have hg := ActionFactory.generate_own c.factory p.1 _ _ hown rfl ae ac au
  rw [hg]
  obtain ⟨label, hasUpdate⟩ := p
  cases ae <;> cases ac <;> cases au <;> cases hasUpdate <;> rfl

/-- C30: the condition of `jump`. On a cat holding the registered schemas,
`condition(bool)` decides by the wall flags of the snapshot: with no left,
right or bottom hit it returns false and changes nothing; with a bottom hit
it returns true and changes nothing; with a left or right hit and no bottom
hit it bounces when `bool` is false or `top.abs.y < 20` or
`bottom.abs.y < 20`: it calls `set_velocity` with the x component of the
velocity negated, `switch_state` and `play("land")`, returns false and leaves
the queue as it is; otherwise it sticks: it calls `set_position_components`
with the `x` of the wall hit (the left one first), leaves in the queue the
current action followed by a single `hang` on that wall, and returns true. -/
theorem Cat.jump_condition_cases (ops : EntityOps K E) (bool : Bool) (c : Cat K (Entity K E))
    (hf : c.factory = Cat.register_actions ActionFactory.new) :
    (c.observe.boundary.left.hit = false → c.observe.boundary.right.hit = false →
      c.observe.boundary.bottom.hit = false →
      Cat.jump_condition ops bool c = .ok false c) ∧
    (c.observe.boundary.bottom.hit = true → Cat.jump_condition ops bool c = .ok true c) ∧
    (c.observe.boundary.bottom.hit = false →
      (c.observe.boundary.left.hit = true ∨ c.observe.boundary.right.hit = true) →
      (bool = false ∨ c.observe.boundary.top.abs.y < 20 ∨
        c.observe.boundary.bottom.abs.y < 20) →
      ∃ s, Cat.jump_condition ops bool c = .ok false s ∧ s.queue = c.queue ∧
        s.world.calls = c.world.calls ++
          [.set_velocity ⟨-(ops.velocity c.world.state).x, (ops.velocity c.world.state).y⟩,
            .switch_state ("jump-" ++
              (if -(ops.velocity c.world.state).x < 0 then "left" else "right")),
            .play "land"]) ∧
    (c.observe.boundary.bottom.hit = false →
      (c.observe.boundary.left.hit = true ∨ c.observe.boundary.right.hit = true) →
      bool = true → 20 ≤ c.observe.boundary.top.abs.y →
      20 ≤ c.observe.boundary.bottom.abs.y →
      ∃ s wall, Cat.jump_condition ops bool c = .ok true s ∧
        wall = (if c.observe.boundary.left.hit = true then Ref.left else Ref.right) ∧
        s.queue = [c.queue.head?.join,
          some (Action.mk "hang" (Cat.bound_fn "hang" Part.execute [.info wall])
            (some (Cat.bound_fn "hang" Part.condition [.num 6000, .num 1000, .num 150]))
            none)] ∧
        s.world.calls = c.world.calls ++
          [.set_position_components (c.observe.pos wall).x
            (some ((ops.hitbox c.world.state).position.y -
              (ops.hitbox c.world.state).dimensions.y))]) := by
  refine ⟨?_, ?_, ?_, ?_⟩
  · intro h1 h2 h3
    simp [Cat.jump_condition, h1, h2, h3]
  · intro h3
    simp [Cat.jump_condition, h3]
  · intro h3 h12 hb
    have hcond : (!bool || decide (c.observe.boundary.top.abs.y < 20) ||
        decide (c.observe.boundary.bottom.abs.y < 20)) = true := by
      rcases hb with h | h | h
      · simp [h]
      · simp [h]
      · simp [h]
    have hlr : (c.observe.boundary.left.hit || c.observe.boundary.right.hit) = true := by
      rcases h12 with h | h <;> simp [h]
    have hnone : (!c.observe.boundary.left.hit && !c.observe.boundary.right.hit &&
        !c.observe.boundary.bottom.hit) = false := by
      rcases h12 with h | h <;> simp [h]
    have heq : Cat.jump_condition ops bool c = .ok false
        (Cat.call ops (.play "land")
          (Cat.call ops (.switch_state ("jump-" ++
              (if (Vec.reflect_x (ops.velocity c.world.state)).x < 0 then "left" else "right")))
            (Cat.call ops (.set_velocity (Vec.reflect_x (ops.velocity c.world.state))) c))) := by
      simp only [Cat.jump_condition, hnone, Bool.false_eq_true, if_false]
      simp only [h3, hlr, hcond, if_true, Bool.false_eq_true, if_false]
    refine ⟨_, heq, rfl, ?_⟩
    simp [Cat.call, Vec.reflect_x]
  · intro h3 h12 hb ht hbt
    have hcond : (!bool || decide (c.observe.boundary.top.abs.y < 20) ||
        decide (c.observe.boundary.bottom.abs.y < 20)) = false := by
      simp [hb, not_lt.2 ht, not_lt.2 hbt]
    have hlr : (c.observe.boundary.left.hit || c.observe.boundary.right.hit) = true := by
      rcases h12 with h | h <;> simp [h]
    have hnone : (!c.observe.boundary.left.hit && !c.observe.boundary.right.hit &&
        !c.observe.boundary.bottom.hit) = false := by
      rcases h12 with h | h <;> simp [h]
    have henq := fun w (s : Cat K (Entity K E)) (hs : s.factory = _) =>
      @Cat.enqueue_explicit K (Entity K E) _ ("hang", false) (by decide) (some [.info w])
        (some [.num 6000, .num 1000, .num 150]) none s hs
    have heq := henq (if c.observe.boundary.left.hit = true then Ref.left else Ref.right)
      (Cat.clear_future_actions (Cat.call ops (.set_position_components
        (c.observe.pos (if c.observe.boundary.left.hit = true then Ref.left else Ref.right)).x
        (some (ops.hitbox c.world.state).points.b.y)) c)) hf
    refine ⟨?s, (if c.observe.boundary.left.hit = true then Ref.left else Ref.right),
      ?h1, rfl, ?h2, ?h3⟩
    case h1 =>
      simp only [Cat.jump_condition, hnone, Bool.false_eq_true, if_false]
      simp only [h3, hlr, hcond, if_true, Bool.false_eq_true, if_false]
      rw [heq]
      exact rfl
    case h2 => simp [Cat.clear_future_actions, Cat.call, Cat.bound_fn]
    case h3 => simp [Cat.clear_future_actions, Cat.call, Rectangle.points]

theorem Cat.jump_condition_cases_witness :
    Example.entityCat.factory = Cat.register_actions ActionFactory.new ∧
    Example.entityCat.observe.boundary.bottom.hit = true ∧
    Cat.jump_condition Example.ops true Example.entityCat = .ok true Example.entityCat :=
  ⟨rfl, rfl,
    (Cat.jump_condition_cases Example.ops true Example.entityCat rfl).2.1 rfl⟩

end SchemaClaims

section SchemaJump

variable {K E : Type} [LinearOrderedField K]

/-- A call of a method of the `Entity` part leaves everything of the cat but
its `Entity` part as it is. -/
theorem Cat.call_frame (ops : EntityOps K E) (e : Effect K) (c : Cat K (Entity K E)) :
    (Cat.call ops e c).factory = c.factory ∧ (Cat.call ops e c).queue = c.queue ∧
    (Cat.call ops e c).observe = c.observe ∧ (Cat.call ops e c).speeds = c.speeds ∧
    (Cat.call ops e c).difficulty = c.difficulty ∧
    (Cat.call ops e c).world.calls = c.world.calls ++ [e] :=
  ⟨rfl, rfl, rfl, rfl, rfl, rfl⟩

/-- C28: the fallback of `jump` when the solver fails. Let the cat hold the
registered schemas and let the environment run the execute registered under
`run`. When the launch velocity computed by the execute of `jump` for
`(target, flag)` is `null`, the execute returns, having called on the
`Entity` part `set_state`, `set_repeat(false)` and then, through the execute
of `run` on the same target, `set_state`, `set_velocity_components` and
`set_acceleration_components(0, 0)`: no `jump` of the physics and no `play`
of the audio; it leaves as queue exactly one action, the `run` generated for
`target` with the condition arguments `(target, 6000, 30)`, whatever the queue
held before; and that condition is true exactly when `elapsed >= 6000` or
`target.abs.x <= 30`. -/
theorem Cat.jump_execute_fallback (M : MathOps K) (ops : EntityOps K E)
    (env : Env K (Entity K E)) (target : Ref) (flag : String) (c : Cat K (Entity K E))
    (hf : c.factory = Cat.register_actions ActionFactory.new)
    (hrun : ∀ s, env.sem ⟨⟨"run", Part.execute⟩, some Agent.cat, [.info target]⟩ s =
      (Cat.run_execute ops target s).undefined)
    (hnull : Cat.launch_velocity M ops (Cat.jump_target target c) flag
      (Cat.call ops (.set_repeat false) (Cat.call ops (.set_state ("jump-" ++
        (Cat.direction ops (Cat.jump_target target c) true c).facing)) c)) = none) :
    ∃ (s : Cat K (Entity K E)) (calls : List (Effect K)) (face : Direction K),
      Cat.jump_execute M ops env target flag c = .ok () s ∧
      s.queue = [some (Action.mk "run" (Cat.bound_fn "run" Part.execute [.info target])
        (some (Cat.bound_fn "run" Part.condition [.info target, .num 6000, .num 30]))
        (some (Cat.bound_fn "run" Part.update [.info target])))] ∧
      s.world.calls = c.world.calls ++ calls ∧
      calls = [.set_state ("jump-" ++
          (Cat.direction ops (Cat.jump_target target c) true c).facing),
        .set_repeat false,
        .set_state ("run-" ++ face.facing),
        .set_velocity_components
          (some (face.sign * (c.speeds.run + 3 / 100 * (c.difficulty : K)))) 0,
        .set_acceleration_components 0 0] ∧
      (∀ v, Effect.jump v ∉ calls) ∧ (∀ sound, Effect.play sound ∉ calls) ∧
      (∀ t : Cat K (Entity K E),
        Cat.schema_sem ((Cat.bound_fn "run" Part.condition
            [.info target, .num 6000, .num 30]).call none []) t =
          some (.ok (decide (6000 ≤ t.elapsed ∨ (t.observe.abs target).x ≤ 30)) t)) := by
  have hg := @Cat.generate_explicit K _ (Entity K E) ("run", true) (by decide)
    (some [.info target]) (some [.info target, .num 6000, .num 30]) (some [.info target])
    (Cat.clear_future_actions (Cat.call ops (.set_repeat false)
      (Cat.call ops (.set_state ("jump-" ++
        (Cat.direction ops (Cat.jump_target target c) true c).facing)) c))) hf
  simp only at hg
  have hcall : (Cat.bound_fn "run" Part.execute [Val.info target] :
      Fn Code Agent (Val K)).call none [] =
      ⟨⟨"run", Part.execute⟩, some Agent.cat, [.info target]⟩ := rfl
  refine ⟨?s, _, Cat.direction ops (c.observe.pos target) true
      (Cat.call ops (.set_repeat false) (Cat.call ops (.set_state ("jump-" ++
        (Cat.direction ops (Cat.jump_target target c) true c).facing)) c)),
    ?h1, ?h2, ?h3, rfl, ?h5, ?h6, ?h7⟩
  case h1 =>
    simp only [Cat.jump_execute, hnull, Cat.change_current_action, hg, Cat.invoke, hcall,
      hrun, Cat.run_execute, Res.undefined]
    exact rfl
  case h2 => simp [Cat.call, Cat.clear_future_actions, Cat.set_first]
  case h3 => simp [Cat.call, Cat.clear_future_actions, Cat.direction]
  case h5 => intro v; simp
  case h6 => intro sound; simp
  case h7 =>
    intro t
    simp [Cat.schema_sem, Cat.bound_fn, Fn.call, Cat.run_condition]

end SchemaJump

section SchemaJumpWitness

theorem Cat.launch_velocity_far_wall :
    Cat.launch_velocity Example.math Example.ops (Cat.jump_target Ref.right Example.entityCat)
      "low" (Cat.call Example.ops (.set_repeat false) (Cat.call Example.ops (.set_state
        ("jump-" ++ (Cat.direction Example.ops (Cat.jump_target Ref.right Example.entityCat)
          true Example.entityCat).facing)) Example.entityCat)) = none := by
  simp [Cat.launch_velocity, Cat.jump_target, Cat.call, Example.entityCat, Cat.new,
    Example.observe, Example.wall, Observe.pos, Observe.abs, Example.ops, Example.config,
    Projectile.low_launch_velocity, Vec.subtract, Vec.dot]
  norm_num

theorem Cat.jump_execute_fallback_witness :
    Example.entityCat.factory = Cat.register_actions ActionFactory.new ∧
    (∀ s, Example.entityEnv.sem ⟨⟨"run", Part.execute⟩, some Agent.cat, [.info Ref.right]⟩ s =
      (Cat.run_execute Example.ops Ref.right s).undefined) ∧
    Cat.launch_velocity Example.math Example.ops (Cat.jump_target Ref.right Example.entityCat)
      "low" (Cat.call Example.ops (.set_repeat false) (Cat.call Example.ops (.set_state
        ("jump-" ++ (Cat.direction Example.ops (Cat.jump_target Ref.right Example.entityCat)
          true Example.entityCat).facing)) Example.entityCat)) = none ∧
    ∃ s, Cat.jump_execute Example.math Example.ops Example.entityEnv Ref.right "low"
        Example.entityCat = .ok () s ∧
      s.queue = [some (Action.mk "run" (Cat.bound_fn "run" Part.execute [.info Ref.right])
        (some (Cat.bound_fn "run" Part.condition [.info Ref.right, .num 6000, .num 30]))
        (some (Cat.bound_fn "run" Part.update [.info Ref.right])))] :=
  ⟨rfl, fun _ => rfl, Cat.launch_velocity_far_wall,
    match Cat.jump_execute_fallback Example.math Example.ops Example.entityEnv Ref.right "low"
      Example.entityCat rfl (fun _ => rfl) Cat.launch_velocity_far_wall with
    | ⟨s, _, _, h1, h2, _⟩ => ⟨s, h1, h2⟩⟩

end SchemaJumpWitness

section SchemaSpeeds

variable {K E : Type} [LinearOrderedField K]

/-- With `facing` true, `direction` has sign 1 and faces right when the point
is not to the left of the midpoint, and sign -1 facing left when it is. -/
theorem Cat.direction_facing (ops : EntityOps K E) (point : Vec K) (c : Cat K (Entity K E)) :
    Cat.direction ops point true c =
      if point.x - (ops.midpoint c.world.state).x < 0 then ⟨"left", -1⟩ else ⟨"right", 1⟩ := by
  by_cases h : point.x - (ops.midpoint c.world.state).x < 0
  · simp [Cat.direction, Vec.subtract, h, not_le.2 h]
  · simp [Cat.direction, Vec.subtract, h, not_lt.1 h]

/-- C29: the speeds grow with the difficulty. For every difficulty `d`, the
executes of `walk`, `run` and `sneak` call `set_velocity_components(sign ×
(base + 0.03·d), 0)` and `set_acceleration_components(0, 0)`, with `base` the
speed of the action and `sign` 1 when the target is not to the left of the
cat's midpoint and -1 when it is; `run-to` does so with sign
`Math.sign(x - midpoint.x)`; `climb` and `climb-to` call
`set_velocity_components(0, sign × (speeds.climb + 0.015·d))` with sign
`Math.sign(target.rel.y)` and `Math.sign(y - midpoint.y)`; the launch
velocity of `jump` and `wall-jump` is the solver's value for
`s_max = speeds.jump + 0.002·d` and `s_min = speeds.min`, which the
constructor sets to `speeds.jump / 10`, and it is the velocity passed to
`jump` of the physics; each of the three speeds is strictly increasing in
`d`. -/
theorem Cat.speeds_by_difficulty (M : MathOps K) (ops : EntityOps K E)
    (c : Cat K (Entity K E)) :
    (∀ target : Ref,
      (Cat.walk_execute ops target c).state.world.calls = c.world.calls ++
        [.set_state ("walk-" ++
            (Cat.direction ops (c.observe.pos target) true c).facing),
          .set_velocity_components (some
            ((if (c.observe.pos target).x - (ops.midpoint c.world.state).x < 0 then -1 else 1) *
              (c.speeds.walk + 3 / 100 * (c.difficulty : K)))) 0,
          .set_acceleration_components 0 0] ∧
      (Cat.run_execute ops target c).state.world.calls = c.world.calls ++
        [.set_state ("run-" ++
            (Cat.direction ops (c.observe.pos target) true c).facing),
          .set_velocity_components (some
            ((if (c.observe.pos target).x - (ops.midpoint c.world.state).x < 0 then -1 else 1) *
              (c.speeds.run + 3 / 100 * (c.difficulty : K)))) 0,
          .set_acceleration_components 0 0] ∧
      (Cat.sneak_execute ops target c).state.world.calls = c.world.calls ++
        [.set_state ("sneak-" ++
            (Cat.direction ops (c.observe.pos target) true c).facing),
          .set_velocity_components (some
            ((if (c.observe.pos target).x - (ops.midpoint c.world.state).x < 0 then -1 else 1) *
              (c.speeds.sneak + 3 / 100 * (c.difficulty : K)))) 0,
          .set_acceleration_components 0 0]) ∧
    (∀ x : K,
      (Cat.run_to_execute ops x c).state.world.calls = c.world.calls ++
        [.set_state ("run-" ++
            (if jsSign (x - (ops.midpoint c.world.state).x) ≥ 0 then "right" else "left")),
          .set_velocity_components (some
            (jsSign (x - (ops.midpoint c.world.state).x) *
              (c.speeds.run + 3 / 100 * (c.difficulty : K)))) 0,
          .set_acceleration_components 0 0]) ∧
    (∀ (target : Ref) (y : K) (wall : Option Ref),
      (Cat.climb_execute ops target wall c).state.world.calls = c.world.calls ++
        [.set_state ("climb" ++ "-" ++ c.observe.id (Cat.climb_wall wall c) ++ "-" ++
            (if jsSign (c.observe.rel target).y < 0 then "down" else "up")),
          .set_velocity_components (some 0)
            (jsSign (c.observe.rel target).y *
              (c.speeds.climb + 15 / 1000 * (c.difficulty : K))),
          .set_acceleration_components 0 0] ∧
      (Cat.climb_to_execute ops y wall c).state.world.calls = c.world.calls ++
        [.set_state ("climb" ++ "-" ++ c.observe.id (Cat.climb_wall wall c) ++ "-" ++
            (if jsSign (y - (ops.midpoint c.world.state).y) < 0 then "down" else "up")),
          .set_velocity_components (some 0)
            (jsSign (y - (ops.midpoint c.world.state).y) *
              (c.speeds.climb + 15 / 1000 * (c.difficulty : K))),
          .set_acceleration_components 0 0]) ∧
    (∀ (target_position : Vec K) (flag : String),
      Cat.launch_velocity M ops target_position flag c =
        if flag = "min" then
          Projectile.min_launch_velocity M (ops.midpoint c.world.state) target_position
            (c.speeds.jump + 2 / 1000 * (c.difficulty : K)) c.speeds.min
            (ops.gravity c.world.state)
        else
          Projectile.low_launch_velocity M (ops.midpoint c.world.state) target_position
            (c.speeds.jump + 2 / 1000 * (c.difficulty : K)) c.speeds.min
            (ops.gravity c.world.state)) ∧
    (∀ (env : Env K (Entity K E)) (target : Ref) (flag : String) (v : Vec K),
      (Cat.launch_velocity M ops (Cat.jump_target target c) flag
        (Cat.call ops (.set_repeat false) (Cat.call ops (.set_state ("jump-" ++
          (Cat.direction ops (Cat.jump_target target c) true c).facing)) c)) = some v →
        Effect.jump v ∈ (Cat.jump_execute M ops env target flag c).state.world.calls) ∧
      (Cat.launch_velocity M ops (Cat.wall_jump_target ops target c) flag
        (Cat.call ops (.set_repeat false) (Cat.call ops (.set_state ("jump-" ++
          (Cat.direction ops (Cat.wall_jump_target ops target c) true c).facing)) c)) =
          some v →
        Effect.jump v ∈ (Cat.wall_jump_execute M ops target flag c).state.world.calls)) ∧
    (∀ (config : Config K) (observe : Observe K) (world : Entity K E),
      (Cat.new config observe world).speeds.min =
        (Cat.new config observe world).speeds.jump / 10) ∧
    (∀ (base : K) (d d' : ℤ), d < d' →
      base + 3 / 100 * (d : K) < base + 3 / 100 * (d' : K) ∧
      base + 2 / 1000 * (d : K) < base + 2 / 1000 * (d' : K) ∧
      base + 15 / 1000 * (d : K) < base + 15 / 1000 * (d' : K)) := by
  refine ⟨?_, ?_, ?_, ?_, ?_, fun _ _ _ => rfl, ?_⟩
  · intro target
    have hsign : (Cat.direction ops (c.observe.pos target) true c).sign =
        if (c.observe.pos target).x - (ops.midpoint c.world.state).x < 0 then -1 else 1 := by
      rw [Cat.direction_facing]
      split_ifs <;> rfl
    refine ⟨?_, ?_, ?_⟩
    · simp [Cat.walk_execute, Cat.call, Res.state, hsign]
    · simp [Cat.run_execute, Cat.call, Res.state, hsign]
    · simp [Cat.sneak_execute, Cat.call, Res.state, hsign]
  · intro x
    simp [Cat.run_to_execute, Cat.call, Res.state]
  · intro target y wall
    constructor
    · simp only [Cat.climb_execute, Cat.call, Res.state, List.append_assoc, List.cons_append,
        List.nil_append]
    · simp only [Cat.climb_to_execute, Cat.call, Res.state, List.append_assoc,
        List.cons_append, List.nil_append]
  · intro target_position flag
    by_cases h1 : flag = "min"
    · simp [Cat.launch_velocity, h1]
    · by_cases h2 : flag = "low"
      · simp [Cat.launch_velocity, h2]
      · simp [Cat.launch_velocity, h1, h2]
  · intro env target flag v
    constructor
    · intro hv
      simp only [Cat.jump_execute]
      rw [hv]
      simp [Cat.take_off, Cat.call, Res.state]
    · intro hv
      simp only [Cat.wall_jump_execute]
      rw [hv]
      simp [Cat.take_off, Cat.call, Res.state]
  · intro base d d' hdd
    have h : (d : K) < (d' : K) := Int.cast_lt.2 hdd
    refine ⟨?_, ?_, ?_⟩ <;> linarith

end SchemaSpeeds

/-! ## Slips of the source -/

section SourceSlips

variable {K W : Type} [LinearOrderedField K]

/-- C40, code against claim: the method `contained` is `contains` with the
roles swapped, for all rectangles, but the static `Rectangle.contained` is not
either of them: it compares strictly, so no rectangle is contained in itself
by it, while the method `contained` and `contains` say that
`Rectangle((0, 2), (2, 2))` is contained in itself. -/
theorem Rectangle.static_contained_strict :
    (∀ r0 r1 : Rectangle K, r0.contained r1 = r1.contains (Shape.rectangle r0)) ∧
    (∀ r : Rectangle K, Rectangle.static.contained r r = false ∧ r.contained r = true ∧
      r.contains (Shape.rectangle r) = true) ∧
    Rectangle.static.contained (⟨⟨0, 2⟩, ⟨2, 2⟩⟩ : Rectangle ℚ) ⟨⟨0, 2⟩, ⟨2, 2⟩⟩ ≠
      Rectangle.contained (⟨⟨0, 2⟩, ⟨2, 2⟩⟩ : Rectangle ℚ) ⟨⟨0, 2⟩, ⟨2, 2⟩⟩ := by
  refine ⟨?_, ?_, ?_⟩
  · intro r0 r1
    simp [Rectangle.contained, Rectangle.contains]
  · intro r
    simp [Rectangle.static.contained, Rectangle.contained, Rectangle.contains]
  · simp [Rectangle.static.contained, Rectangle.contained]

/-- C39, code against claim: `reset()` leaves `actions.elapsed` as it was (it
writes the property `elapsed` of the cat itself), and the `logic(dt)` that
follows only adds `dt` to it. On the example cat with `actions.elapsed =
10000`, the `logic(16)` after `reset()` plans `run` with the condition
arguments `(player, 10000, 15)` and leaves `actions.elapsed = 10016`, so that
condition is already true 16 ms after the restart. -/
theorem Cat.reset_keeps_elapsed :
    (∀ (env : Env K W) (initial : Initial K) (c : Cat K W),
      (Cat.reset env initial c).elapsed = c.elapsed ∧
      (Cat.reset env initial c).own_elapsed = some 0 ∧
      ∀ dt, (Cat.tick env dt (Cat.reset env initial c)).elapsed = c.elapsed + dt) ∧
    (Cat.reset (Example.env false) Example.config.INITIAL
      { Example.cat with elapsed := 10000 }).elapsed ≠ 0 ∧
    ∃ s run attack,
      (Cat.logic (Example.env false) 16 0 0 (Cat.reset (Example.env false)
        Example.config.INITIAL { Example.cat with elapsed := 10000 })).2 = .ok () s ∧
      s.queue = [some run, some attack] ∧
      run.condition = some (Cat.bound_fn "run" Part.condition
        [.info .player, .num 10000, .num 15]) ∧
      s.elapsed = 10016 ∧
      Cat.run_condition s .player 10000 15 = true := by
  refine ⟨fun env initial c => ⟨rfl, rfl, fun dt => rfl⟩, ?_, ?_⟩
  · simp [Cat.reset]
  · have hb : ∀ c : Cat ℚ Unit, c.difficulty = 0 → c.history = ["sit"] →
        c.observe = Example.observe → Cat.plan_behaviour 0 c = Behaviour.attack Ref.player := by
      intro c hd hh ho
      simp [Cat.plan_behaviour, Cat.recent_action, hh, Cat.plan_sit_idle, switch_difficulty,
        zones, hd, ho, Example.observe]
      norm_num
    have hplan : ∀ c : Cat ℚ Unit, c.difficulty = 0 → c.history = ["sit"] →
        c.observe = Example.observe → c.queue = [] →
        c.factory = Cat.register_actions ActionFactory.new →
        Cat.plan 0 0 c = .ok ()
          { c with queue :=
            [some (Action.mk "run" (Cat.bound_fn "run" Part.execute [.info .player])
              (some (Cat.bound_fn "run" Part.condition [.info .player, .num 10000, .num 15]))
              (some (Cat.bound_fn "run" Part.update [.info .player]))),
             some (Action.mk "attack" (Cat.bound_fn "attack" Part.execute [.info .player])
              (some (Fn.bound (Fn.raw ⟨"attack", Part.condition⟩) (some Agent.cat) []))
              none)] } := by
      intro c hd hh ho hq hf
      have hf2 : ∀ q, ({ c with queue := q } : Cat ℚ Unit).factory =
          Cat.register_actions ActionFactory.new := fun _ => hf
      simp only [Cat.plan, hb c hd hh ho, Cat.do_behaviour, Cat.do_attack, Js.bind_apply]
      rw [Cat.enqueue_explicit ("run", true) (by decide) _ _ _ c hf]
      simp only
      rw [Cat.enqueue_explicit ("attack", false) (by decide) _ _ _ _ (hf2 _)]
      simp [hq]
    have hp := hplan (Cat.tick (Example.env false) 16 (Cat.reset (Example.env false)
      Example.config.INITIAL { Example.cat with elapsed := 10000 })) rfl rfl rfl rfl rfl
    refine ⟨?s, ?run, ?attack, ?g1, ?g2, ?g3, ?g4, ?g5⟩
    case g1 =>
      simp only [Cat.logic]
      have hcur : Cat.current_action (Cat.tick (Example.env false) 16
          (Cat.reset (Example.env false) Example.config.INITIAL
            { Example.cat with elapsed := 10000 })) = JsRef.null := rfl
      simp only [hcur, Cat.plan_execute, hp]
      exact rfl
    case g2 => exact rfl
    case g3 => exact rfl
    case g4 =>
      simp [Cat.tick, Cat.reset]
      norm_num
    case g5 =>
      simp [Cat.run_condition, Cat.tick, Cat.reset]

/-- C35, code against claim: `do_bounce` compares two NaN, so for every target
and boundary it takes the right wall. On the example cat the target is nearer
to the left wall (`|140 - 0| < |140 - 367|`), and `do_bounce` enqueues `run-to`
with `x = 317 = right.pos.x - 50`, then crouch and jump at the right wall. -/
theorem Cat.do_bounce_always_right :
    (∀ (target : Ref) (flag : String) (c : Cat K W),
      Cat.do_bounce target flag c =
        (do
          Cat.enqueue_action "run-to" (some [.num (c.observe.boundary.right.pos.x - 50)])
            (some [.num (c.observe.boundary.right.pos.x - 50), .num 6000, .num 5]) none
          Cat.enqueue_action "crouch" (some [.info Ref.right]) none none
          Cat.enqueue_action "jump" (some [.info Ref.right, .str flag]) (some [.bool false]) none
          Cat.enqueue_action "land" none none none) c) ∧
    |(Example.cat.observe.pos Ref.player).x - Example.cat.observe.boundary.left.pos.x| <
      |(Example.cat.observe.pos Ref.player).x - Example.cat.observe.boundary.right.pos.x| ∧
    ∃ run_to crouch jump land,
      Cat.do_bounce Ref.player "low" Example.cat =
        .ok () { Example.cat with queue := [some run_to, some crouch, some jump, some land] } ∧
      run_to.execute = Cat.bound_fn "run-to" Part.execute [.num 317] ∧
      crouch.execute = Cat.bound_fn "crouch" Part.execute [.info Ref.right] ∧
      jump.execute = Cat.bound_fn "jump" Part.execute [.info Ref.right, .str "low"] ∧
      Example.cat.observe.boundary.left.pos.x + 50 = 50 := by
  refine ⟨fun target flag c => ?_, ?_, ?_⟩
  · simp [Cat.do_bounce, jsLt, jsAbs, jsSub]
  · simp [Example.cat, Cat.new, Example.observe, Observe.pos, Example.wall]
    norm_num [abs_lt]
  · have hf : Example.cat.factory = Cat.register_actions ActionFactory.new := rfl
    have hf2 : ∀ q, ({ Example.cat with queue := q } : Cat ℚ Unit).factory =
        Cat.register_actions ActionFactory.new := fun _ => hf
    refine ⟨?a, ?b, ?c, ?d, ?h, ?h1, ?h2, ?h3, ?h4⟩
    case h =>
      simp only [Cat.do_bounce, jsLt, jsAbs, jsSub, Bool.false_eq_true, if_false,
        Js.bind_apply]
      rw [Cat.enqueue_explicit ("run-to", false) (by decide) _ _ _ Example.cat hf]
      simp only
      rw [Cat.enqueue_explicit ("crouch", false) (by decide) _ _ _ _ (hf2 _)]
      simp only
      rw [Cat.enqueue_explicit ("jump", true) (by decide) _ _ _ _ (hf2 _)]
      simp only
      rw [Cat.enqueue_explicit ("land", false) (by decide) _ _ _ _ (hf2 _)]
      exact rfl
    case h1 =>
      simp [Example.cat, Cat.new, Example.observe, Example.wall]
      norm_num
    case h2 => rfl
    case h3 => rfl
    case h4 =>
      simp [Example.cat, Cat.new, Example.observe, Example.wall]

/-- C34, code against claim: the conditions of `walk` and `sneak` compare the
`undefined` property `action_elapsed` with `max_t`, which is false for every
`max_t`; what they return does not depend on `max_t`. With `actions.elapsed =
7000` and the player at horizontal distance 20, the walk condition bound to
`(player, 6000, 0, 10, 30)` and the sneak condition bound to `(player, 6000,
4000, 15, 40)` return false, where the run condition with the same maximum
time returns true. -/
theorem Cat.walk_condition_ignores_max_time :
    (∀ (c : Cat K W) (target : Ref) (max_t min_t min_x max_x : K),
      Cat.walk_condition c target max_t min_t min_x max_x =
        (decide ((c.observe.abs target).x ≤ min_x) ||
          (decide (c.elapsed ≥ min_t) && decide ((c.observe.abs target).x ≥ max_x))) ∧
      Cat.sneak_condition c target max_t min_t min_x max_x =
        (decide ((c.observe.abs target).x ≤ min_x) ||
          (decide (c.elapsed ≥ min_t) && decide ((c.observe.abs target).x ≥ max_x)))) ∧
    Cat.schema_more Example.ops Example.entityEnv
      ((Cat.bound_fn "walk" Part.condition
        [.info .player, .num 6000, .num 0, .num 10, .num 30]).call none [])
      { Example.entityCat with observe := Example.near, elapsed := 7000 } =
        some (.ok false { Example.entityCat with observe := Example.near, elapsed := 7000 }) ∧
    Cat.schema_more Example.ops Example.entityEnv
      ((Cat.bound_fn "sneak" Part.condition
        [.info .player, .num 6000, .num 4000, .num 15, .num 40]).call none [])
      { Example.entityCat with observe := Example.near, elapsed := 7000 } =
        some (.ok false { Example.entityCat with observe := Example.near, elapsed := 7000 }) ∧
    Cat.run_condition ({ Example.entityCat with observe := Example.near, elapsed := 7000 } :
      Cat ℚ (Entity ℚ Unit)) .player 6000 5 = true := by
  refine ⟨fun c target max_t min_t min_x max_x => ?_, ?_, ?_, ?_⟩
  · simp [Cat.walk_condition, Cat.sneak_condition, jsGe]
  · simp [Cat.schema_more, Cat.bound_fn, Fn.call, Cat.walk_condition, jsGe, Observe.abs,
      Example.near]
    norm_num
  · simp [Cat.schema_more, Cat.bound_fn, Fn.call, Cat.sneak_condition, jsGe, Observe.abs,
      Example.near]
    norm_num
  · simp [Cat.run_condition]
    norm_num

end SourceSlips

section HangArguments

variable {K E : Type} [LinearOrderedField K]

/-- C37, code against claim: the condition of `hang` bound to the three
arguments `(6000, 1000, 150)` takes 6000 as its target, 1000 as `max_t`, 150
as `min_t` and nothing as `min_d`, so it returns `elapsed >= 1000` in every
state. The example cat, in a jump at the left wall, gets this `hang` from the
jump condition; with `actions.elapsed = 1200` and the wall at `dis = 179` its
condition is true, where the rule of `hang` for `max_t = 6000`, `min_t =
1000`, `min_d = 150` is false. Bound to four arguments, as `do_relax` passes
them, the condition is the rule. -/
theorem Cat.hang_after_stick_drops_distance :
    (∀ (ops : EntityOps K E) (env : Env K (Entity K E)) (t : Cat K (Entity K E)),
      Cat.schema_more ops env ((Cat.bound_fn "hang" Part.condition
        [.num 6000, .num 1000, .num 150]).call none []) t =
          some (.ok (decide (t.elapsed ≥ 1000)) t)) ∧
    (∀ (ops : EntityOps K E) (env : Env K (Entity K E)) (t : Cat K (Entity K E))
      (target : Ref) (max_t min_t min_d : K),
      Cat.schema_more ops env ((Cat.bound_fn "hang" Part.condition
        [.info target, .num max_t, .num min_t, .num min_d]).call none []) t =
          some (.ok (decide (t.elapsed ≥ max_t ∨
            (t.elapsed ≥ min_t ∧ t.observe.dis target ≤ min_d))) t)) ∧
    ∃ s hang condition,
      Cat.jump_condition Example.ops true Example.stuck = .ok true s ∧
      s.queue = [some Example.jump, some hang] ∧
      hang.execute = Cat.bound_fn "hang" Part.execute [.info Ref.left] ∧
      hang.condition = some condition ∧
      condition = Cat.bound_fn "hang" Part.condition [.num 6000, .num 1000, .num 150] ∧
      s.observe.dis Ref.left = 179 ∧
      Cat.schema_more Example.ops Example.entityEnv (condition.call none [])
        { s with elapsed := 1200 } = some (.ok true { s with elapsed := 1200 }) ∧
      Cat.hang_condition { s with elapsed := 1200 } (some (s.observe.dis Ref.left))
        6000 1000 (some 150) = false := by
  refine ⟨fun ops env t => ?_, fun ops env t target max_t min_t min_d => ?_, ?_⟩
  · simp [Cat.schema_more, Cat.bound_fn, Fn.call, Cat.hang_condition, jsLe]
  · simp [Cat.schema_more, Cat.bound_fn, Fn.call, Cat.hang_condition, jsLe]
  · have heq := @Cat.enqueue_explicit ℚ (Entity ℚ Unit) _ ("hang", false) (by decide)
      (some [.info Ref.left]) (some [.num 6000, .num 1000, .num 150]) none
      (Cat.clear_future_actions (Cat.call Example.ops (.set_position_components
        (Example.stuck.observe.pos Ref.left).x
        (some (Example.ops.hitbox Example.stuck.world.state).points.b.y)) Example.stuck)) rfl
    refine ⟨?s, ?hang, ?condition, ?h1, ?h2, ?h3, ?h4, ?h5, ?h6, ?h7, ?h8⟩
    case h1 =>
      have hnone : (!Example.stuck.observe.boundary.left.hit &&
          !Example.stuck.observe.boundary.right.hit &&
          !Example.stuck.observe.boundary.bottom.hit) = false := rfl
      have h3 : Example.stuck.observe.boundary.bottom.hit = false := rfl
      have hl : Example.stuck.observe.boundary.left.hit = true := rfl
      have hcond : (!true || decide (Example.stuck.observe.boundary.top.abs.y < 20) ||
          decide (Example.stuck.observe.boundary.bottom.abs.y < 20)) = false := by
        simp [Example.stuck, Example.atWall, Example.wall]
        norm_num [abs_of_nonneg, abs_of_neg]
      simp only [Cat.jump_condition, hnone, Bool.false_eq_true, if_false]
      simp only [h3, hl, hcond, Bool.true_or, if_true, Bool.false_eq_true, if_false]
      rw [heq]
      exact rfl
    case h2 => exact rfl
    case h3 => exact rfl
    case h4 => exact rfl
    case h5 => exact rfl
    case h6 =>
      simp [Cat.clear_future_actions, Cat.call, Observe.dis, Example.stuck, Example.atWall,
        Example.wall]
      norm_num [abs_of_nonneg, abs_of_neg]
    case h7 =>
      simp [Cat.schema_more, Cat.bound_fn, Fn.call, Cat.hang_condition, jsLe]
      norm_num
    case h8 =>
      simp [Cat.hang_condition, jsLe, Cat.clear_future_actions, Cat.call, Observe.dis,
        Example.stuck, Example.atWall, Example.wall]
      norm_num [abs_of_nonneg, abs_of_neg]

end HangArguments

section Reset

variable {K W : Type} [LinearOrderedField K]

/-- On an empty queue with the registered schemas, `logic(dt)` calls `look()`,
`plan()` and the execute of the first action planned, and nothing else. -/
theorem Cat.logic_empty_events (env : Env K W) (dt chance r : K) (c : Cat K W)
    (hq : c.queue = []) (hf : c.factory = Cat.register_actions ActionFactory.new) :
    ∃ (first : Act K) (rest : List (Option (Act K))) (s : Cat K W),
      Cat.plan chance r (Cat.tick env dt c) = .ok () s ∧
      s.queue = some first :: rest ∧
      (Cat.logic env dt chance r c).1 = [Ev.look, Ev.plan, Ev.execute first] := by
  have htq : (Cat.tick env dt c).queue = [] := hq
  obtain ⟨acts, hlo, -, hplan⟩ := Cat.plan_appends chance r (Cat.tick env dt c) hf
  cases acts with
  | nil => simp at hlo
  | cons first more =>
      have hcur : Cat.current_action (Cat.tick env dt c) = .null := by
        simp only [Cat.current_action, htq]
      refine ⟨first, more.map some, _, hplan, ?_, ?_⟩
      · simp [htq]
      · simp [Cat.logic, hcur, Cat.plan_execute, hplan, htq]

/-- C31: `reset()` is safe in every state. For a cat with any queue, history
and difficulty, after `reset()` the queue is empty, the history is exactly
`[initial.action]` and the difficulty is 0; read through a physics part whose
setters store what they are given, position, velocity and acceleration are the
configured initial vectors. The `logic(dt)` that follows finds no current
action and takes the branch of the empty queue: with the registered schemas,
`plan()` returns with a first action and the calls of that `logic(dt)` are
exactly `look()`, `plan()` and the execute of that action. -/
theorem Cat.reset_safe (env : Env K W) (position velocity acceleration : W → Vec K)
    (initial : Initial K) (dt chance r : K) (c : Cat K W)
    (hphys : env.StoresPhysics position velocity acceleration)
    (hf : c.factory = Cat.register_actions ActionFactory.new) :
    (Cat.reset env initial c).queue = [] ∧
    (Cat.reset env initial c).history = [initial.action] ∧
    (Cat.reset env initial c).difficulty = 0 ∧
    position (Cat.reset env initial c).world = initial.position ∧
    velocity (Cat.reset env initial c).world = initial.velocity ∧
    acceleration (Cat.reset env initial c).world = initial.acceleration ∧
    Cat.current_action (Cat.tick env dt (Cat.reset env initial c)) = .null ∧
    Cat.logic env dt chance r (Cat.reset env initial c) =
      (Ev.look :: (Cat.plan_execute env chance r
          (Cat.tick env dt (Cat.reset env initial c))).1,
        (Cat.plan_execute env chance r (Cat.tick env dt (Cat.reset env initial c))).2) ∧
    ∃ (first : Act K) (rest : List (Option (Act K))) (s : Cat K W),
      Cat.plan chance r (Cat.tick env dt (Cat.reset env initial c)) = .ok () s ∧
      s.queue = some first :: rest ∧
      (Cat.logic env dt chance r (Cat.reset env initial c)).1 =
        [Ev.look, Ev.plan, Ev.execute first] := by
  have hcur : Cat.current_action (Cat.tick env dt (Cat.reset env initial c)) = .null := rfl
  refine ⟨rfl, rfl, rfl, ?_, ?_, ?_, hcur, ?_,
    Cat.logic_empty_events env dt chance r (Cat.reset env initial c) rfl hf⟩
  · simp only [Cat.reset, hphys.position_acceleration, hphys.position_velocity,
      hphys.position_set]
  · simp only [Cat.reset, hphys.velocity_acceleration, hphys.velocity_set]
  · simp only [Cat.reset, hphys.acceleration_set]
  · simp only [Cat.logic, hcur]

theorem Cat.reset_safe_witness :
    Example.midRound.queue.length = 3 ∧ Example.midRound.history.length = 7 ∧
    Example.midRound.difficulty = 2 ∧
    (Cat.reset Example.bodyEnv Example.config.INITIAL Example.midRound).queue = [] ∧
    (Cat.reset Example.bodyEnv Example.config.INITIAL Example.midRound).history = ["sit"] ∧
    (Cat.reset Example.bodyEnv Example.config.INITIAL Example.midRound).difficulty = 0 ∧
    (Cat.reset Example.bodyEnv Example.config.INITIAL Example.midRound).world.position =
      ⟨100, 1⟩ ∧
    (Cat.reset Example.bodyEnv Example.config.INITIAL Example.midRound).world.velocity =
      ⟨0, 0⟩ ∧
    (Cat.reset Example.bodyEnv Example.config.INITIAL Example.midRound).world.acceleration =
      ⟨0, 0⟩ ∧
    ∃ first : Act ℚ,
      (Cat.logic Example.bodyEnv 16 0 0
        (Cat.reset Example.bodyEnv Example.config.INITIAL Example.midRound)).1 =
        [Ev.look, Ev.plan, Ev.execute first] :=
  match Cat.reset_safe Example.bodyEnv Example.Body.position Example.Body.velocity
    Example.Body.acceleration Example.config.INITIAL 16 0 0 Example.midRound
    ⟨fun _ _ => rfl, fun _ _ => rfl, fun _ _ => rfl, fun _ _ => rfl, fun _ _ => rfl,
      fun _ _ => rfl⟩ rfl with
  | ⟨h1, h2, h3, h4, h5, h6, _, _, first, _, _, _, _, h9⟩ =>
      ⟨rfl, rfl, rfl, h1, h2, h3, h4, h5, h6, first, h9⟩

end Reset

section WorldPhysics

variable {K E : Type} [LinearOrderedField K]

/-- With `n` whole timesteps in the accumulator, the loop of `physics` makes
`n` passes whenever it has fuel for them. -/
theorem World.physics_loop_passes (ops : WorldOps K E) (n : ℕ) :
    ∀ (w : World K E) (fuel : ℕ), 0 < w.timestep → (n : K) * w.timestep ≤ w.accumulator →
      w.accumulator < ((n : K) + 1) * w.timestep → n ≤ fuel →
      World.physics_loop ops fuel w = some
        { w with
          entities := (fun e => ops.cat_integrate w.timestep
            (ops.player_integrate w.timestep e))^[n] w.entities
          calls := w.calls ++ (List.replicate n
            [WorldCall.player_integrate w.timestep, WorldCall.cat_integrate w.timestep]).flatten
          accumulator := w.accumulator - (n : K) * w.timestep } := by
  induction n with
  | zero =>
      intro w fuel hts hlo hhi _
      have hlt : ¬ w.accumulator ≥ w.timestep := by
        simp only [Nat.cast_zero, zero_add, one_mul] at hhi
        exact not_le.2 hhi
      cases fuel with
      | zero => simp [World.physics_loop, hlt]
      | succ fuel => simp [World.physics_loop, hlt]
  | succ n ih =>
      intro w fuel hts hlo hhi hfuel
      have hge : w.accumulator ≥ w.timestep := by
        have h1 : (1 : K) ≤ ((n + 1 : ℕ) : K) := by
          exact_mod_cast Nat.succ_le_succ (Nat.zero_le n)
        nlinarith
      cases fuel with
      | zero => omega
      | succ fuel =>
          have hcast : ((n + 1 : ℕ) : K) = (n : K) + 1 := by push_cast; ring
          rw [hcast] at hlo hhi
          have := ih
            { w with
              entities := ops.cat_integrate w.timestep
                (ops.player_integrate w.timestep w.entities)
              calls := w.calls ++
                [WorldCall.player_integrate w.timestep, WorldCall.cat_integrate w.timestep]
              accumulator := w.accumulator - w.timestep }
            fuel hts (by simp only; linarith) (by simp only; linarith) (by omega)
          simp only [World.physics_loop, hge, if_true]
          rw [this]
          simp only [Function.iterate_succ_apply, List.replicate_succ, List.flatten_cons,
            List.append_assoc, hcast]
          congr 2
          ring

/-- C32: the fixed-timestep accumulator. For `timestep > 0`, `dt >= 0` and an
accumulator that is not negative, let `n = floor((accumulator + dt) /
timestep)`. Then `physics(dt)` returns whenever its loop may make `n` passes;
the calls it has made are `n` times `integrate(timestep)` of the player and of
the cat, in turn, and after them calls that are no `integrate`; the entities
are in the state those `n` pairs of integrations leave, passed through the
collision statements; the timestep is as before and the accumulator is `old
accumulator + dt - n * timestep`, which lies in `[0, timestep)`. -/
theorem World.physics_accumulator [FloorSemiring K] (ops : WorldOps K E) (dt : K)
    (w : World K E) (fuel : ℕ)
    (hts : 0 < w.timestep) (hdt : 0 ≤ dt) (hacc : 0 ≤ w.accumulator)
    (hfuel : ⌊(w.accumulator + dt) / w.timestep⌋₊ ≤ fuel) :
    ∃ (after : World K E) (rest : List (WorldCall K)),
      World.physics ops fuel dt w = some after ∧
      after.calls = w.calls ++ (List.replicate ⌊(w.accumulator + dt) / w.timestep⌋₊
        [WorldCall.player_integrate w.timestep, WorldCall.cat_integrate w.timestep]).flatten
        ++ rest ∧
      (∀ e ∈ rest, WorldCall.is_integrate e = false) ∧
      after.entities = (World.physics_collisions ops
        { w with
          entities := (fun e => ops.cat_integrate w.timestep
            (ops.player_integrate w.timestep e))^[⌊(w.accumulator + dt) / w.timestep⌋₊]
              w.entities }).entities ∧
      after.timestep = w.timestep ∧
      after.accumulator = w.accumulator + dt -
        (⌊(w.accumulator + dt) / w.timestep⌋₊ : K) * w.timestep ∧
      0 ≤ after.accumulator ∧ after.accumulator < w.timestep := by
  have hnn : 0 ≤ (w.accumulator + dt) / w.timestep := div_nonneg (by linarith) hts.le
  have hlo : (⌊(w.accumulator + dt) / w.timestep⌋₊ : K) * w.timestep ≤ w.accumulator + dt :=
    (le_div_iff₀ hts).1 (Nat.floor_le hnn)
  have hhi : w.accumulator + dt <
      ((⌊(w.accumulator + dt) / w.timestep⌋₊ : K) + 1) * w.timestep :=
    (div_lt_iff₀ hts).1 (Nat.lt_floor_add_one _)
  have hloop := World.physics_loop_passes ops ⌊(w.accumulator + dt) / w.timestep⌋₊
    { w with accumulator := w.accumulator + dt } fuel hts hlo hhi hfuel
  simp only at hloop
  refine ⟨World.physics_collisions ops
    { w with
      entities := (fun e => ops.cat_integrate w.timestep
        (ops.player_integrate w.timestep e))^[⌊(w.accumulator + dt) / w.timestep⌋₊] w.entities
      calls := w.calls ++ (List.replicate ⌊(w.accumulator + dt) / w.timestep⌋₊
        [WorldCall.player_integrate w.timestep, WorldCall.cat_integrate w.timestep]).flatten
      accumulator := w.accumulator + dt -
        (⌊(w.accumulator + dt) / w.timestep⌋₊ : K) * w.timestep }, (if (ops.process_collision ((fun e => ops.cat_integrate w.timestep
      (ops.player_integrate w.timestep e))^[⌊(w.accumulator + dt) / w.timestep⌋₊]
        w.entities)).1 = true
      then [.process_collision, .set_health, .player_resolve_boundary, .cat_resolve_boundary]
      else [.process_collision, .player_resolve_boundary, .cat_resolve_boundary]),
    ?_, ?_, ?_, ?_, ?_, ?_, ?_, ?_⟩
  · simp only [World.physics, hloop, Option.map_some']
  · simp only [World.physics_collisions]
    split_ifs <;> simp
  · intro e he
    split_ifs at he <;> simp at he <;> casesm* _ ∨ _ <;> subst_vars <;> rfl
  · simp only [World.physics_collisions]
    split_ifs <;> rfl
  · simp only [World.physics_collisions]
    split_ifs <;> rfl
  · simp only [World.physics_collisions]
    split_ifs <;> rfl
  · simp only [World.physics_collisions]
    split_ifs <;> simp only <;> linarith
  · simp only [World.physics_collisions]
    split_ifs <;> simp only <;> linarith

theorem World.physics_accumulator_witness :
    0 < Example.world.timestep ∧ Example.world.accumulator = 5 ∧
    ⌊(Example.world.accumulator + 40) / Example.world.timestep⌋₊ = 2 ∧
    ∃ after, World.physics Example.worldOps 2 40 Example.world = some after ∧
      after.accumulator = 35 / 3 ∧ after.entities = (2, 2) ∧
      0 ≤ after.accumulator ∧ after.accumulator < Example.world.timestep := by
  have hfl : ⌊(Example.world.accumulator + 40) / Example.world.timestep⌋₊ = 2 := by
    rw [Nat.floor_eq_iff (by norm_num [Example.world])]
    norm_num [Example.world]
  obtain ⟨after, rest, h1, h2, h3, h4, h5, h6, h7, h8⟩ :=
    World.physics_accumulator Example.worldOps 40 Example.world 2
      (by norm_num [Example.world]) (by norm_num) (by norm_num [Example.world]) (le_of_eq hfl)
  refine ⟨by norm_num [Example.world], rfl, hfl, after, h1, ?_, ?_, h7, h8⟩
  · rw [h6, hfl]
    norm_num [Example.world]
  · rw [h4, hfl]
    rfl

end WorldPhysics

section Bresenham

/-- The loop of `bresenham` in terms of the iterates of one pass: if the pass
number `n + 1` is the first to end on `point_b`, the loop returns the points
the passes before it end on. -/
theorem bresenham.loop_iterate (delta sh sv b : Vec ℤ) (n : ℕ) :
    ∀ (s : bresenham.State) (points : List (Vec ℤ)) (fuel : ℕ), n + 1 ≤ fuel →
      (∀ k, 1 ≤ k → k ≤ n →
        ¬ (((bresenham.pass delta sh sv)^[k] s).point.x = b.x ∧
          ((bresenham.pass delta sh sv)^[k] s).point.y = b.y)) →
      (((bresenham.pass delta sh sv)^[n + 1] s).point.x = b.x ∧
        ((bresenham.pass delta sh sv)^[n + 1] s).point.y = b.y) →
      bresenham.loop delta sh sv b fuel s points =
        some (points ++ (List.range n).map
          (fun k => ((bresenham.pass delta sh sv)^[k + 1] s).point)) := by
  induction n with
  | zero =>
      intro s points fuel hfuel _ hend
      cases fuel with
      | zero => omega
      | succ fuel =>
          simp only [zero_add, Function.iterate_one] at hend
          simp [bresenham.loop, hend]
  | succ n ih =>
      intro s points fuel hfuel hnot hend
      cases fuel with
      | zero => omega
      | succ fuel =>
          have h1 := hnot 1 le_rfl (by omega)
          simp only [Function.iterate_one] at h1
          have hrec := ih (bresenham.pass delta sh sv s)
            (points ++ [(bresenham.pass delta sh sv s).point]) fuel (by omega)
            (fun k hk1 hkn => by
              have := hnot (k + 1) (by omega) (by omega)
              rwa [Function.iterate_succ_apply] at this)
            (by rwa [Function.iterate_succ_apply] at hend)
          simp only [bresenham.loop, h1, if_false]
          rw [hrec]
          simp only [List.range_succ_eq_map, List.map_cons, List.map_map, List.append_assoc,
            List.singleton_append, zero_add, Function.iterate_one]
          rfl

/-- One pass of `bresenham` on explicit parameters. -/
theorem bresenham.pass_explicit (dx dy sx sy D x y : ℤ) :
    bresenham.pass ⟨dx, dy⟩ ⟨sx, 0⟩ ⟨0, sy⟩ ⟨D, ⟨x, y⟩⟩ =
      ⟨D - (if 2 * D > -dy then dy else 0) + (if 2 * D < dx then dx else 0),
        ⟨x + (if 2 * D > -dy then sx else 0), y + (if 2 * D < dx then sy else 0)⟩⟩ := by
  simp only [bresenham.pass]
  split_ifs <;> simp

/-- A pass moves the point by at most one step in each coordinate. -/
theorem bresenham.pass_step (dx dy sx sy : ℤ) (hsx : |sx| ≤ 1) (hsy : |sy| ≤ 1)
    (s : bresenham.State) :
    |(bresenham.pass ⟨dx, dy⟩ ⟨sx, 0⟩ ⟨0, sy⟩ s).point.x - s.point.x| ≤ 1 ∧
    |(bresenham.pass ⟨dx, dy⟩ ⟨sx, 0⟩ ⟨0, sy⟩ s).point.y - s.point.y| ≤ 1 := by
  obtain ⟨D, x, y⟩ := s
  rw [bresenham.pass_explicit]
  simp only
  split_ifs <;> simp [hsx, hsy]

/-- The invariant of the loop when the line is no steeper than the diagonal:
every pass moves horizontally. -/
theorem bresenham.shallow (dx dy sx sy : ℤ) (a : Vec ℤ) (h0 : 0 ≤ dy) (h1 : dy ≤ dx)
    (h2 : 0 < dx) (k : ℕ) :
    ∃ j : ℤ,
      (bresenham.pass ⟨dx, dy⟩ ⟨sx, 0⟩ ⟨0, sy⟩)^[k] ⟨dx - dy, a⟩ =
        ⟨(j + 1) * dx - (k + 1) * dy, ⟨a.x + k * sx, a.y + j * sy⟩⟩ ∧
      -dy < 2 * ((j + 1) * dx - (k + 1) * dy) ∧
      2 * ((j + 1) * dx - (k + 1) * dy) < 3 * dx - 2 * dy := by
  induction k with
  | zero =>
      refine ⟨0, ?_, ?_, ?_⟩
      · simp
      · push_cast
        linarith
      · push_cast
        linarith
  | succ k ih =>
      obtain ⟨j, hs, hlo, hhi⟩ := ih
      rw [Function.iterate_succ_apply', hs, bresenham.pass_explicit]
      have hh : 2 * ((j + 1) * dx - ((k : ℤ) + 1) * dy) > -dy := hlo
      by_cases hv : 2 * ((j + 1) * dx - ((k : ℤ) + 1) * dy) < dx
      · refine ⟨j + 1, ?_, ?_, ?_⟩
        · simp only [hh, hv, if_true, bresenham.State.mk.injEq, Vec.mk.injEq]
          refine ⟨?_, ?_, ?_⟩ <;> push_cast <;> ring
        · push_cast
          linarith
        · push_cast
          linarith
      · refine ⟨j, ?_, ?_, ?_⟩
        · simp only [hh, hv, if_true, if_false, bresenham.State.mk.injEq, Vec.mk.injEq]
          refine ⟨?_, ?_, ?_⟩ <;> push_cast <;> ring
        · push_cast
          have hne : dy ≠ dx := by
            rintro rfl
            linarith
          have : dy < dx := lt_of_le_of_ne h1 hne
          linarith
        · push_cast
          linarith

/-- The invariant of the loop when the line is steeper than the diagonal:
every pass moves vertically. -/
theorem bresenham.steep (dx dy sx sy : ℤ) (a : Vec ℤ) (h0 : 0 ≤ dx) (h1 : dx < dy) (k : ℕ) :
    ∃ i : ℤ,
      (bresenham.pass ⟨dx, dy⟩ ⟨sx, 0⟩ ⟨0, sy⟩)^[k] ⟨dx - dy, a⟩ =
        ⟨(k + 1) * dx - (i + 1) * dy, ⟨a.x + i * sx, a.y + k * sy⟩⟩ ∧
      2 * dx - 3 * dy < 2 * ((k + 1) * dx - (i + 1) * dy) ∧
      2 * ((k + 1) * dx - (i + 1) * dy) < dx := by
  induction k with
  | zero =>
      refine ⟨0, ?_, ?_, ?_⟩
      · simp
      · push_cast
        linarith
      · push_cast
        linarith
  | succ k ih =>
      obtain ⟨i, hs, hlo, hhi⟩ := ih
      rw [Function.iterate_succ_apply', hs, bresenham.pass_explicit]
      by_cases hh : 2 * (((k : ℤ) + 1) * dx - (i + 1) * dy) > -dy
      · refine ⟨i + 1, ?_, ?_, ?_⟩
        · simp only [hh, hhi, if_true, bresenham.State.mk.injEq, Vec.mk.injEq]
          refine ⟨?_, ?_, ?_⟩ <;> push_cast <;> ring
        · push_cast
          linarith
        · push_cast
          linarith
      · refine ⟨i, ?_, ?_, ?_⟩
        · simp only [hh, hhi, if_true, if_false, bresenham.State.mk.injEq, Vec.mk.injEq]
          refine ⟨?_, ?_, ?_⟩ <;> push_cast <;> ring
        · push_cast
          linarith
        · push_cast
          linarith

/-- The course of the loop of `bresenham` from `a` towards `b = a + (dx * sx,
dy * sy)`, for steps `sx` and `sy` that are 1 or -1 and `a ≠ b`: the pass
number `max dx dy` ends on `b`, no pass before it does, and no pass ends on
`a`. -/
theorem bresenham.trace (dx dy sx sy : ℤ) (a b : Vec ℤ) (hdx : 0 ≤ dx) (hdy : 0 ≤ dy)
    (hsx : sx = 1 ∨ sx = -1) (hsy : sy = 1 ∨ sy = -1)
    (hbx : b.x = a.x + dx * sx) (hby : b.y = a.y + dy * sy) (hne : 0 < max dx dy) :
    ∃ n : ℕ, ((n : ℤ) + 1 = max dx dy) ∧
      (∀ k, 1 ≤ k → k ≤ n →
        ¬ (((bresenham.pass ⟨dx, dy⟩ ⟨sx, 0⟩ ⟨0, sy⟩)^[k] ⟨dx - dy, a⟩).point.x = b.x ∧
          ((bresenham.pass ⟨dx, dy⟩ ⟨sx, 0⟩ ⟨0, sy⟩)^[k] ⟨dx - dy, a⟩).point.y = b.y)) ∧
      (∀ k, 1 ≤ k →
        ((bresenham.pass ⟨dx, dy⟩ ⟨sx, 0⟩ ⟨0, sy⟩)^[k] ⟨dx - dy, a⟩).point ≠ a) ∧
      (((bresenham.pass ⟨dx, dy⟩ ⟨sx, 0⟩ ⟨0, sy⟩)^[n + 1] ⟨dx - dy, a⟩).point.x = b.x ∧
        ((bresenham.pass ⟨dx, dy⟩ ⟨sx, 0⟩ ⟨0, sy⟩)^[n + 1] ⟨dx - dy, a⟩).point.y = b.y) := by
  have hmul : ∀ (s m : ℤ), (s = 1 ∨ s = -1) → m * s = 0 → m = 0 := by
    intro s m hs h
    rcases hs with rfl | rfl <;> linarith
  rcases le_or_lt dy dx with h | h
  · have hmax : max dx dy = dx := max_eq_left h
    rw [hmax] at hne ⊢
    refine ⟨(dx - 1).toNat, ?_, ?_, ?_, ?_⟩
    · rw [Int.toNat_of_nonneg (by linarith)]
      ring
    · intro k hk1 hkn hend
      obtain ⟨j, hs, -, -⟩ := bresenham.shallow dx dy sx sy a hdy h hne k
      rw [hs] at hend
      have hk : (k : ℤ) ≤ dx - 1 := by
        have := Int.toNat_of_nonneg (show 0 ≤ dx - 1 by linarith)
        have h2 : (k : ℤ) ≤ ((dx - 1).toNat : ℤ) := by exact_mod_cast hkn
        linarith
      have h3 := hmul sx ((k : ℤ) - dx) hsx (by
        have := hend.1
        simp only at this
        linarith)
      linarith
    · intro k hk1 heq
      obtain ⟨j, hs, -, -⟩ := bresenham.shallow dx dy sx sy a hdy h hne k
      rw [hs] at heq
      have hx := congrArg Vec.x heq
      simp only at hx
      have h3 := hmul sx (k : ℤ) hsx (by linarith)
      have : (1 : ℤ) ≤ (k : ℤ) := by exact_mod_cast hk1
      linarith
    · obtain ⟨j, hs, hlo, hhi⟩ := bresenham.shallow dx dy sx sy a hdy h hne ((dx - 1).toNat + 1)
      have hcast : (((dx - 1).toNat + 1 : ℕ) : ℤ) = dx := by
        push_cast
        rw [Int.toNat_of_nonneg (by linarith)]
        ring
      rw [hcast] at hs hlo hhi
      rw [hs]
      have hj : j = dy := by
        apply le_antisymm
        · by_contra hcon
          have h5 : 0 ≤ (j - dy - 1) * dx := mul_nonneg (by linarith [not_le.1 hcon]) hne.le
          nlinarith
        · by_contra hcon
          have h5 : 0 ≤ (dy - 1 - j) * dx := mul_nonneg (by linarith [not_le.1 hcon]) hne.le
          nlinarith
      subst hj
      exact ⟨hbx.symm, hby.symm⟩
  · have hmax : max dx dy = dy := max_eq_right h.le
    rw [hmax] at hne ⊢
    refine ⟨(dy - 1).toNat, ?_, ?_, ?_, ?_⟩
    · rw [Int.toNat_of_nonneg (by linarith)]
      ring
    · intro k hk1 hkn hend
      obtain ⟨i, hs, -, -⟩ := bresenham.steep dx dy sx sy a hdx h k
      rw [hs] at hend
      have hk : (k : ℤ) ≤ dy - 1 := by
        have := Int.toNat_of_nonneg (show 0 ≤ dy - 1 by linarith)
        have h2 : (k : ℤ) ≤ ((dy - 1).toNat : ℤ) := by exact_mod_cast hkn
        linarith
      have h3 := hmul sy ((k : ℤ) - dy) hsy (by
        have := hend.2
        simp only at this
        linarith)
      linarith
    · intro k hk1 heq
      obtain ⟨i, hs, -, -⟩ := bresenham.steep dx dy sx sy a hdx h k
      rw [hs] at heq
      have hy := congrArg Vec.y heq
      simp only at hy
      have h3 := hmul sy (k : ℤ) hsy (by linarith)
      have : (1 : ℤ) ≤ (k : ℤ) := by exact_mod_cast hk1
      linarith
    · obtain ⟨i, hs, hlo, hhi⟩ := bresenham.steep dx dy sx sy a hdx h ((dy - 1).toNat + 1)
      have hcast : (((dy - 1).toNat + 1 : ℕ) : ℤ) = dy := by
        push_cast
        rw [Int.toNat_of_nonneg (by linarith)]
        ring
      rw [hcast] at hs hlo hhi
      rw [hs]
      have hi : i = dx := by
        apply le_antisymm
        · by_contra hcon
          have h5 : 0 ≤ (i - dx - 1) * dy := mul_nonneg (by linarith [not_le.1 hcon]) hne.le
          nlinarith
        · by_contra hcon
          have h5 : 0 ≤ (dx - 1 - i) * dy := mul_nonneg (by linarith [not_le.1 hcon]) hne.le
          nlinarith
      subst hi
      exact ⟨hbx.symm, hby.symm⟩

/-- A list that starts with `g 0`, goes on with `g 1`, ..., `g n` and ends
with `g (n + 1)` is a chain for a relation that holds between `g k` and
`g (k + 1)`. -/
theorem bresenham.chain_of_steps {α : Type} (R : α → α → Prop) (g : ℕ → α) (n : ℕ)
    (hstep : ∀ k, R (g k) (g (k + 1))) :
    List.Chain' R (g 0 :: (List.range n).map (fun k => g (k + 1)) ++ [g (n + 1)]) := by
  have hlist : g 0 :: (List.range n).map (fun k => g (k + 1)) ++ [g (n + 1)] =
      (List.range (n + 1 + 1)).map g := by
    rw [List.range_succ_eq_map, List.range_succ]
    simp [Function.comp_def]
  rw [hlist, List.chain'_map, List.chain'_range_succ]
  intro m _
  exact hstep m

/-- C33: `bresenham(a, b)` on points with integer coordinates. There is a
list `points` that the function returns whenever its loop may make
`max(1, |b.x - a.x|, |b.y - a.y|)` passes; it has `max(|b.x - a.x|, |b.y -
a.y|) - 1` points when `a ≠ b` and is empty when `a = b`; it contains neither
`a` nor `b`; and in `a, points..., b` each point differs from the one before
it by at most 1 in each coordinate. -/
theorem bresenham_raster (point_a point_b : Vec ℤ) :
    ∃ points : List (Vec ℤ),
      (∀ fuel : ℕ,
        max 1 (max |point_b.x - point_a.x| |point_b.y - point_a.y|) ≤ (fuel : ℤ) →
        bresenham fuel point_a point_b = some points) ∧
      (point_a ≠ point_b →
        (points.length : ℤ) = max |point_b.x - point_a.x| |point_b.y - point_a.y| - 1) ∧
      (point_a = point_b → points = []) ∧
      point_a ∉ points ∧ point_b ∉ points ∧
      List.Chain' (fun p q : Vec ℤ => |q.x - p.x| ≤ 1 ∧ |q.y - p.y| ≤ 1)
        (point_a :: points ++ [point_b]) := by
  have hsh : (if point_a.x < point_b.x then (⟨1, 0⟩ : Vec ℤ) else ⟨-1, 0⟩) =
      ⟨if point_a.x < point_b.x then 1 else -1, 0⟩ := by split_ifs <;> rfl
  have hsv : (if point_a.y < point_b.y then (⟨0, 1⟩ : Vec ℤ) else ⟨0, -1⟩) =
      ⟨0, if point_a.y < point_b.y then 1 else -1⟩ := by split_ifs <;> rfl
  have hsx : (if point_a.x < point_b.x then (1 : ℤ) else -1) = 1 ∨
      (if point_a.x < point_b.x then (1 : ℤ) else -1) = -1 := by split_ifs <;> simp
  have hsy : (if point_a.y < point_b.y then (1 : ℤ) else -1) = 1 ∨
      (if point_a.y < point_b.y then (1 : ℤ) else -1) = -1 := by split_ifs <;> simp
  have hbx : point_b.x = point_a.x +
      |point_b.x - point_a.x| * (if point_a.x < point_b.x then (1 : ℤ) else -1) := by
    split_ifs with h
    · rw [abs_of_pos (by linarith)]
      ring
    · rw [abs_of_nonpos (by linarith)]
      ring
  have hby : point_b.y = point_a.y +
      |point_b.y - point_a.y| * (if point_a.y < point_b.y then (1 : ℤ) else -1) := by
    split_ifs with h
    · rw [abs_of_pos (by linarith)]
      ring
    · rw [abs_of_nonpos (by linarith)]
      ring
  have hstep := bresenham.pass_step |point_b.x - point_a.x| |point_b.y - point_a.y|
    (if point_a.x < point_b.x then (1 : ℤ) else -1)
    (if point_a.y < point_b.y then (1 : ℤ) else -1)
    (by rcases hsx with h | h <;> rw [h] <;> simp)
    (by rcases hsy with h | h <;> rw [h] <;> simp)
  rcases (le_max_of_le_left (abs_nonneg (point_b.x - point_a.x)) :
      0 ≤ max |point_b.x - point_a.x| |point_b.y - point_a.y|).eq_or_lt with h0 | hpos
  · have hx0 : |point_b.x - point_a.x| = 0 :=
      le_antisymm (h0 ▸ le_max_left _ _) (abs_nonneg _)
    have hy0 : |point_b.y - point_a.y| = 0 :=
      le_antisymm (h0 ▸ le_max_right _ _) (abs_nonneg _)
    have hab : point_a = point_b :=
      Vec.eq_of_components _ _ (by linarith [abs_eq_zero.1 hx0])
        (by linarith [abs_eq_zero.1 hy0])
    refine ⟨[], ?_, ?_, fun _ => rfl, List.not_mem_nil _, List.not_mem_nil _, ?_⟩
    · intro fuel hfuel
      have h1 : 0 + 1 ≤ fuel := by
        have : (1 : ℤ) ≤ (fuel : ℤ) := le_trans (le_max_left _ _) hfuel
        exact_mod_cast this
      have := bresenham.loop_iterate ⟨|point_b.x - point_a.x|, |point_b.y - point_a.y|⟩
        ⟨if point_a.x < point_b.x then 1 else -1, 0⟩
        ⟨0, if point_a.y < point_b.y then 1 else -1⟩ point_b 0
        ⟨|point_b.x - point_a.x| - |point_b.y - point_a.y|, point_a⟩ [] fuel h1
        (fun k hk1 hk0 => by omega)
        (by
          obtain ⟨ax, ay⟩ := point_a
          subst hab
          simp only [zero_add, Function.iterate_one, hx0, hy0, sub_zero]
          rw [bresenham.pass_explicit]
          simp)
      simp only [bresenham, hsh, hsv]
      rw [this]
      rfl
    · intro hne
      exact absurd hab hne
    · subst hab
      simp
  · obtain ⟨n, hn, hnot, hnota, hend⟩ := bresenham.trace |point_b.x - point_a.x|
      |point_b.y - point_a.y| (if point_a.x < point_b.x then (1 : ℤ) else -1)
      (if point_a.y < point_b.y then (1 : ℤ) else -1) point_a point_b (abs_nonneg _)
      (abs_nonneg _) hsx hsy hbx hby hpos
    have hab : point_a ≠ point_b := by
      intro hab
      subst hab
      simp at hpos
    refine ⟨(List.range n).map (fun k =>
      ((bresenham.pass ⟨|point_b.x - point_a.x|, |point_b.y - point_a.y|⟩
        ⟨if point_a.x < point_b.x then 1 else -1, 0⟩
        ⟨0, if point_a.y < point_b.y then 1 else -1⟩)^[k + 1]
          ⟨|point_b.x - point_a.x| - |point_b.y - point_a.y|, point_a⟩).point),
      ?_, ?_, fun h => absurd h hab, ?_, ?_, ?_⟩
    · intro fuel hfuel
      have h1 : n + 1 ≤ fuel := by
        have : ((n : ℤ) + 1) ≤ (fuel : ℤ) := by
          rw [hn]
          exact le_trans (le_max_right _ _) hfuel
        exact_mod_cast this
      have := bresenham.loop_iterate ⟨|point_b.x - point_a.x|, |point_b.y - point_a.y|⟩
        ⟨if point_a.x < point_b.x then 1 else -1, 0⟩
        ⟨0, if point_a.y < point_b.y then 1 else -1⟩ point_b n
        ⟨|point_b.x - point_a.x| - |point_b.y - point_a.y|, point_a⟩ [] fuel h1 hnot hend
      simp only [bresenham, hsh, hsv]
      rw [this]
      rfl
    · intro _
      simp only [List.length_map, List.length_range]
      linarith
    · intro hmem
      obtain ⟨k, -, hk⟩ := List.mem_map.1 hmem
      exact hnota (k + 1) (by omega) hk
    · intro hmem
      obtain ⟨k, hkn, hk⟩ := List.mem_map.1 hmem
      have hkn2 : k < n := List.mem_range.1 hkn
      exact hnot (k + 1) (by omega) (by omega) ⟨congrArg Vec.x hk, congrArg Vec.y hk⟩
    · have hb : ((bresenham.pass ⟨|point_b.x - point_a.x|, |point_b.y - point_a.y|⟩
          ⟨if point_a.x < point_b.x then 1 else -1, 0⟩
          ⟨0, if point_a.y < point_b.y then 1 else -1⟩)^[n + 1]
            ⟨|point_b.x - point_a.x| - |point_b.y - point_a.y|, point_a⟩).point = point_b :=
        Vec.eq_of_components _ _ hend.1 hend.2
      have hchain := bresenham.chain_of_steps
        (fun p q : Vec ℤ => |q.x - p.x| ≤ 1 ∧ |q.y - p.y| ≤ 1)
        (fun k => ((bresenham.pass ⟨|point_b.x - point_a.x|, |point_b.y - point_a.y|⟩
          ⟨if point_a.x < point_b.x then 1 else -1, 0⟩
          ⟨0, if point_a.y < point_b.y then 1 else -1⟩)^[k]
            ⟨|point_b.x - point_a.x| - |point_b.y - point_a.y|, point_a⟩).point) n
        (fun k => by
          simp only [Function.iterate_succ_apply']
          exact hstep _)
      simp only [hb, Function.iterate_zero, id_eq] at hchain
      exact hchain

theorem bresenham_raster_witness :
    bresenham 5 ⟨0, 0⟩ ⟨5, -2⟩ = some [⟨1, 0⟩, ⟨2, -1⟩, ⟨3, -1⟩, ⟨4, -2⟩] ∧
    ∃ points : List (Vec ℤ),
      bresenham 5 ⟨0, 0⟩ ⟨5, -2⟩ = some points ∧ (points.length : ℤ) = 4 ∧
      (⟨0, 0⟩ : Vec ℤ) ∉ points ∧ (⟨5, -2⟩ : Vec ℤ) ∉ points :=
  match bresenham_raster ⟨0, 0⟩ ⟨5, -2⟩ with
  | ⟨points, h1, h2, _, h4, h5, _⟩ =>
      ⟨rfl, points, h1 5 (by decide),
        (h2 (by simp)).trans (by decide), h4, h5⟩

end Bresenham

section Prediction

variable {K W : Type} [LinearOrderedField K]

theorem Cat.ignores_enqueue (label : String) (ae ac au : Option (List (Val K))) :
    Cat.IgnoresPredict (Cat.enqueue_action label ae ac au : Js (Cat K W) Unit) := by
  intro p c
  simp only [Cat.enqueue_action, Cat.with_predict]
  cases c.factory.generate label ae ac au <;> rfl

theorem Cat.ignores_pure : Cat.IgnoresPredict (Pure.pure () : Js (Cat K W) Unit) := by
  intro p c
  rfl

theorem Cat.ignores_seq {m : Js (Cat K W) Unit} {k : Unit → Js (Cat K W) Unit}
    (h1 : Cat.IgnoresPredict m) (h2 : ∀ u, Cat.IgnoresPredict (k u)) :
    Cat.IgnoresPredict (m >>= k) := by
  intro p c
  simp only [Js.bind_apply, h1 p c]
  cases m c with
  | ok a s => simp only [Res.mapState, h2 a p s]
  | threw e s => rfl

/-- A behaviour called on `observe.player` runs alike whatever
`observe.predict` holds. -/
theorem Cat.do_behaviour_ignores (r : K) (b : Behaviour) (hb : b.target = Ref.player) :
    Cat.IgnoresPredict (Cat.do_behaviour r b : Js (Cat K W) Unit) := by
  cases b with
  | relax t =>
      intro p c
      simp only [Cat.do_behaviour, Cat.do_relax]
      have hobs : (Cat.with_predict p c).observe.boundary = c.observe.boundary := rfl
      rw [hobs]
      split
      · exact Cat.ignores_enqueue _ _ _ _ p c
      · exact Cat.ignores_seq (Cat.ignores_enqueue _ _ _ _)
          (fun _ => Cat.ignores_enqueue _ _ _ _) p c
  | chase t =>
      exact Cat.ignores_seq (Cat.ignores_enqueue _ _ _ _)
        (fun _ => Cat.ignores_enqueue _ _ _ _)
  | pounce t skip flag bool =>
      simp only [Cat.do_behaviour, Cat.do_pounce]
      cases skip
      · exact Cat.ignores_seq (Cat.ignores_enqueue _ _ _ _)
          (fun _ => Cat.ignores_seq (Cat.ignores_enqueue _ _ _ _)
            (fun _ => Cat.ignores_enqueue _ _ _ _))
      · exact Cat.ignores_seq Cat.ignores_pure
          (fun _ => Cat.ignores_seq (Cat.ignores_enqueue _ _ _ _)
            (fun _ => Cat.ignores_enqueue _ _ _ _))
  | trick t flag bool =>
      exact Cat.ignores_seq (Cat.ignores_enqueue _ _ _ _)
        (fun _ => Cat.ignores_seq (Cat.ignores_enqueue _ _ _ _)
          (fun _ => Cat.ignores_seq (Cat.ignores_enqueue _ _ _ _)
            (fun _ => Cat.ignores_seq (Cat.ignores_enqueue _ _ _ _)
              (fun _ => Cat.ignores_enqueue _ _ _ _))))
  | suspense t flag bool =>
      exact Cat.ignores_seq (Cat.ignores_enqueue _ _ _ _)
        (fun _ => Cat.ignores_seq (Cat.ignores_enqueue _ _ _ _)
          (fun _ => Cat.ignores_seq (Cat.ignores_enqueue _ _ _ _)
            (fun _ => Cat.ignores_enqueue _ _ _ _)))
  | attack t =>
      exact Cat.ignores_seq (Cat.ignores_enqueue _ _ _ _)
        (fun _ => Cat.ignores_enqueue _ _ _ _)
  | sneak t => exact Cat.ignores_enqueue _ _ _ _
  | hang t flag =>
      intro p c
      simp only [Behaviour.target] at hb
      subst hb
      simp only [Cat.do_behaviour, Cat.do_hang]
      have hobs : (Cat.with_predict p c).observe.boundary = c.observe.boundary := rfl
      have hpos : (Cat.with_predict p c).observe.pos Ref.player = c.observe.pos Ref.player := rfl
      rw [hobs, hpos]
      exact Cat.ignores_seq (Cat.ignores_enqueue _ _ _ _)
        (fun _ => Cat.ignores_seq (Cat.ignores_enqueue _ _ _ _)
          (fun _ => Cat.ignores_seq (Cat.ignores_enqueue _ _ _ _)
            (fun _ => Cat.ignores_enqueue _ _ _ _))) p c
  | bounce t flag =>
      intro p c
      simp only [Behaviour.target] at hb
      subst hb
      simp only [Cat.do_behaviour, Cat.do_bounce]
      have hobs : (Cat.with_predict p c).observe.boundary = c.observe.boundary := rfl
      have hpos : (Cat.with_predict p c).observe.pos Ref.player = c.observe.pos Ref.player := rfl
      rw [hobs, hpos]
      exact Cat.ignores_seq (Cat.ignores_enqueue _ _ _ _)
        (fun _ => Cat.ignores_seq (Cat.ignores_enqueue _ _ _ _)
          (fun _ => Cat.ignores_seq (Cat.ignores_enqueue _ _ _ _)
            (fun _ => Cat.ignores_enqueue _ _ _ _))) p c
  | climb t => exact Cat.ignores_enqueue _ _ _ _
  | aerial t flag bool =>
      simp only [Cat.do_behaviour, Cat.do_aerial]
      by_cases hbool : bool = some true
      · rw [if_pos hbool]
        exact Cat.ignores_seq (Cat.ignores_enqueue _ _ _ _)
          (fun _ => Cat.ignores_seq (Cat.ignores_enqueue _ _ _ _)
            (fun _ => Cat.ignores_enqueue _ _ _ _))
      · rw [if_neg hbool]
        exact Cat.ignores_seq Cat.ignores_pure
          (fun _ => Cat.ignores_seq (Cat.ignores_enqueue _ _ _ _)
            (fun _ => Cat.ignores_enqueue _ _ _ _))
  | hops t skip f0 f1 f2 =>
      have hp : ∀ skip flag, Cat.IgnoresPredict
          (Cat.do_pounce t skip flag false : Js (Cat K W) Unit) := by
        intro skip flag
        simp only [Cat.do_pounce]
        cases skip
        · exact Cat.ignores_seq (Cat.ignores_enqueue _ _ _ _)
            (fun _ => Cat.ignores_seq (Cat.ignores_enqueue _ _ _ _)
              (fun _ => Cat.ignores_enqueue _ _ _ _))
        · exact Cat.ignores_seq Cat.ignores_pure
            (fun _ => Cat.ignores_seq (Cat.ignores_enqueue _ _ _ _)
              (fun _ => Cat.ignores_enqueue _ _ _ _))
      exact Cat.ignores_seq (hp _ _) (fun _ => Cat.ignores_seq (hp _ _) (fun _ => hp _ _))

/-- C38: at difficulty 0 the planner ignores prediction. Let the difficulty be
0 and the most recent label of the history be one of `sit`, `idle`, `walk`,
`run`, `sneak`, `attack`, `jump`, `land`, `hang`, `climb`. Then for every
chance draw and every other value of `observe.predict` (the snapshot agreeing
on `self`, `player` and `boundary`), `plan()` calls the same behaviour with
the same arguments, its target being `observe.player`; the two runs have the
same outcome, leave the same queue, and leave states that differ in
`observe.predict` only. -/
theorem Cat.plan_ignores_predict (chance r : K) (c : Cat K W) (predict : Target K)
    (label : String) (older : List String)
    (hd : c.difficulty = 0) (hh : c.history = label :: older)
    (hl : label ∈ ["sit", "idle", "walk", "run", "sneak", "attack", "jump", "land", "hang",
      "climb"]) :
    Cat.plan_behaviour chance (Cat.with_predict predict c) = Cat.plan_behaviour chance c ∧
    (Cat.plan_behaviour chance c).target = Ref.player ∧
    Cat.plan chance r (Cat.with_predict predict c) =
      (Cat.plan chance r c).mapState (Cat.with_predict predict) ∧
    (Cat.plan chance r (Cat.with_predict predict c)).state.queue =
      (Cat.plan chance r c).state.queue := by
  have hd2 : (Cat.with_predict predict c).difficulty = 0 := hd
  have hh2 : (Cat.with_predict predict c).history = label :: older := hh
  have hpl : (Cat.with_predict predict c).observe.player = c.observe.player := rfl
  have hself : (Cat.with_predict predict c).observe.self = c.observe.self := rfl
  have hsame : Cat.plan_behaviour chance (Cat.with_predict predict c) =
      Cat.plan_behaviour chance c := by
    simp only [List.mem_cons, List.mem_singleton, List.not_mem_nil, or_false] at hl
    rcases hl with h | h | h | h | h | h | h | h | h | h <;> subst h <;>
      simp [Cat.plan_behaviour, Cat.recent_action, hh, hh2, Cat.plan_sit_idle,
        Cat.plan_walk_run, Cat.plan_sneak_attack, Cat.plan_land, Cat.plan_hang,
        Cat.plan_climb, switch_difficulty, hd, hd2, hpl, hself]
  have htarget : (Cat.plan_behaviour chance c).target = Ref.player := by
    simp only [List.mem_cons, List.mem_singleton, List.not_mem_nil, or_false] at hl
    rcases hl with h | h | h | h | h | h | h | h | h | h <;> subst h <;>
      simp only [Cat.plan_behaviour, Cat.recent_action, hh, Cat.plan_sit_idle,
        Cat.plan_walk_run, Cat.plan_sneak_attack, Cat.plan_land, Cat.plan_hang,
        Cat.plan_climb, switch_difficulty, hd, zones] <;>
      simp <;> first | rfl | (split_ifs <;> rfl)
  have hplan : Cat.plan chance r (Cat.with_predict predict c) =
      (Cat.plan chance r c).mapState (Cat.with_predict predict) := by
    simp only [Cat.plan, hsame]
    exact Cat.do_behaviour_ignores r _ htarget predict c
  refine ⟨hsame, htarget, hplan, ?_⟩
  rw [hplan]
  cases Cat.plan chance r c <;> rfl

theorem Cat.plan_ignores_predict_witness :
    Example.cat.difficulty = 0 ∧ Example.cat.history = ["sit"] ∧
    (Cat.plan 0 0 (Cat.with_predict ⟨"laser", ⟨300, 90⟩, ⟨200, 89⟩, ⟨200, 89⟩, 219, ⟨1, 1⟩⟩
      Example.cat)).state.queue = (Cat.plan 0 0 Example.cat).state.queue :=
  ⟨rfl, rfl,
    (Cat.plan_ignores_predict 0 0 Example.cat ⟨"laser", ⟨300, 90⟩, ⟨200, 89⟩, ⟨200, 89⟩, 219,
      ⟨1, 1⟩⟩ "sit" [] rfl rfl (by decide)).2.2.2⟩

end Prediction

section Labels

variable {K W E : Type} [LinearOrderedField K]

theorem Cat.enqueues_enqueue (p : String × Bool) (hp : p ∈ Cat.registered_labels)
    (ae ac au : Option (List (Val K))) :
    Cat.Enqueues (Cat.enqueue_action p.1 ae ac au : Js (Cat K W) Unit) 1 := by
  intro c hf
  refine ⟨[_], le_refl _, ?_, Cat.enqueue_explicit p hp ae ac au c hf⟩
  intro a ha
  rw [List.mem_singleton] at ha
  subst ha
  exact List.mem_map.2 ⟨p, hp, rfl⟩

theorem Cat.enqueues_pure : Cat.Enqueues (Pure.pure () : Js (Cat K W) Unit) 0 := by
  intro c _
  exact ⟨[], le_refl _, fun a ha => absurd ha (List.not_mem_nil a), by simp⟩

theorem Cat.enqueues_seq {m : Js (Cat K W) Unit} {k : Unit → Js (Cat K W) Unit}
    {lo1 lo2 : ℕ} (h1 : Cat.Enqueues m lo1) (h2 : ∀ u, Cat.Enqueues (k u) lo2) :
    Cat.Enqueues (m >>= k) (lo1 + lo2) := by
  intro c hf
  obtain ⟨acts1, hlo1, hl1, hm⟩ := h1 c hf
  obtain ⟨acts2, hlo2, hl2, hk⟩ := h2 () { c with queue := c.queue ++ acts1.map some } hf
  refine ⟨acts1 ++ acts2, ?_, ?_, ?_⟩
  · simp only [List.length_append]
    omega
  · intro a ha
    rcases List.mem_append.1 ha with h | h
    · exact hl1 a h
    · exact hl2 a h
  · simp only [Js.bind_apply, hm, hk, List.map_append, List.append_assoc]

theorem Cat.Enqueues.weaken {m : Js (Cat K W) Unit} {lo lo2 : ℕ}
    (h : Cat.Enqueues m lo) (hlo : lo2 ≤ lo) : Cat.Enqueues m lo2 := by
  intro c hf
  obtain ⟨acts, h1, h2, h3⟩ := h c hf
  exact ⟨acts, le_trans hlo h1, h2, h3⟩

theorem Cat.do_pounce_enqueues (target : Ref) (skip : Bool) (flag : String) (bool : Bool) :
    Cat.Enqueues (Cat.do_pounce target skip flag bool : Js (Cat K W) Unit) 1 := by
  unfold Cat.do_pounce
  cases skip
  · exact (Cat.enqueues_seq (Cat.enqueues_enqueue ("crouch", false) (by decide) _ _ _)
      (fun _ => Cat.enqueues_seq (Cat.enqueues_enqueue ("jump", true) (by decide) _ _ _)
        (fun _ => Cat.enqueues_enqueue ("land", false) (by decide) _ _ _))).weaken
      (by decide)
  · exact (Cat.enqueues_seq Cat.enqueues_pure
      (fun _ => Cat.enqueues_seq (Cat.enqueues_enqueue ("jump", true) (by decide) _ _ _)
        (fun _ => Cat.enqueues_enqueue ("land", false) (by decide) _ _ _))).weaken
      (by decide)

/-- Every behaviour of the planner, on a cat holding the registered schemas,
returns normally and appends at least one action; every label it passes is
registered. -/
theorem Cat.do_behaviour_enqueues (r : K) (b : Behaviour) :
    Cat.Enqueues (Cat.do_behaviour r b : Js (Cat K W) Unit) 1 := by
  cases b with
  | relax t =>
      intro c hf
      simp only [Cat.do_behaviour, Cat.do_relax]
      split
      · exact Cat.enqueues_enqueue ("hang", false) (by decide) _ _ _ c hf
      · exact (Cat.enqueues_seq (Cat.enqueues_enqueue ("sit", false) (by decide) _ _ _)
          (fun _ => Cat.enqueues_enqueue ("idle", false) (by decide) _ _ _)).weaken
          (by decide) c hf
  | chase t =>
      exact (Cat.enqueues_seq (Cat.enqueues_enqueue ("run", true) (by decide) _ _ _)
        (fun _ => Cat.enqueues_enqueue ("walk", true) (by decide) _ _ _)).weaken
        (by decide)
  | pounce t skip flag bool => exact Cat.do_pounce_enqueues t skip flag bool
  | trick t flag bool =>
      exact (Cat.enqueues_seq (Cat.enqueues_enqueue ("crouch", false) (by decide) _ _ _)
        (fun _ => Cat.enqueues_seq (Cat.enqueues_enqueue ("wait", true) (by decide) _ _ _)
          (fun _ => Cat.enqueues_seq (Cat.enqueues_enqueue ("sit", false) (by decide) _ _ _)
            (fun _ => Cat.enqueues_seq (Cat.enqueues_enqueue ("jump", true) (by decide) _ _ _)
              (fun _ => Cat.enqueues_enqueue ("land", false) (by decide) _ _ _))))).weaken
        (by decide)
  | suspense t flag bool =>
      exact (Cat.enqueues_seq (Cat.enqueues_enqueue ("crouch", false) (by decide) _ _ _)
        (fun _ => Cat.enqueues_seq (Cat.enqueues_enqueue ("wait", true) (by decide) _ _ _)
          (fun _ => Cat.enqueues_seq (Cat.enqueues_enqueue ("jump", true) (by decide) _ _ _)
            (fun _ => Cat.enqueues_enqueue ("land", false) (by decide) _ _ _)))).weaken
        (by decide)
  | attack t =>
      exact (Cat.enqueues_seq (Cat.enqueues_enqueue ("run", true) (by decide) _ _ _)
        (fun _ => Cat.enqueues_enqueue ("attack", false) (by decide) _ _ _)).weaken
        (by decide)
  | sneak t => exact Cat.enqueues_enqueue ("sneak", true) (by decide) _ _ _
  | hang t flag =>
      intro c hf
      simp only [Cat.do_behaviour, Cat.do_hang]
      exact (Cat.enqueues_seq (Cat.enqueues_enqueue ("run-to", false) (by decide) _ _ _)
        (fun _ => Cat.enqueues_seq (Cat.enqueues_enqueue ("crouch", false) (by decide) _ _ _)
          (fun _ => Cat.enqueues_seq (Cat.enqueues_enqueue ("jump", true) (by decide) _ _ _)
            (fun _ => Cat.enqueues_enqueue ("land", false) (by decide) _ _ _)))).weaken
        (by decide) c hf
  | bounce t flag =>
      intro c hf
      simp only [Cat.do_behaviour, Cat.do_bounce]
      exact (Cat.enqueues_seq (Cat.enqueues_enqueue ("run-to", false) (by decide) _ _ _)
        (fun _ => Cat.enqueues_seq (Cat.enqueues_enqueue ("crouch", false) (by decide) _ _ _)
          (fun _ => Cat.enqueues_seq (Cat.enqueues_enqueue ("jump", true) (by decide) _ _ _)
            (fun _ => Cat.enqueues_enqueue ("land", false) (by decide) _ _ _)))).weaken
        (by decide) c hf
  | climb t => exact Cat.enqueues_enqueue ("climb", true) (by decide) _ _ _
  | aerial t flag bool =>
      simp only [Cat.do_behaviour, Cat.do_aerial]
      by_cases hb : bool = some true
      · rw [if_pos hb]
        exact (Cat.enqueues_seq (Cat.enqueues_enqueue ("hang", false) (by decide) _ _ _)
          (fun _ => Cat.enqueues_seq
            (Cat.enqueues_enqueue ("wall-jump", true) (by decide) _ _ _)
            (fun _ => Cat.enqueues_enqueue ("land", false) (by decide) _ _ _))).weaken
          (by decide)
      · rw [if_neg hb]
        exact (Cat.enqueues_seq Cat.enqueues_pure
          (fun _ => Cat.enqueues_seq
            (Cat.enqueues_enqueue ("wall-jump", true) (by decide) _ _ _)
            (fun _ => Cat.enqueues_enqueue ("land", false) (by decide) _ _ _))).weaken
          (by decide)
  | hops t skip f0 f1 f2 =>
      exact (Cat.enqueues_seq (Cat.do_pounce_enqueues t skip f0 false)
        (fun _ => Cat.enqueues_seq (Cat.do_pounce_enqueues t false f1 false)
          (fun _ => Cat.do_pounce_enqueues t false f2 false))).weaken (by decide)

theorem Cat.plan_enqueues (chance r : K) :
    Cat.Enqueues (Cat.plan chance r : Js (Cat K W) Unit) 1 := by
  intro c hf
  exact Cat.do_behaviour_enqueues r (Cat.plan_behaviour chance c) c hf

/-- On a cat holding the registered schemas the execute of `attack` returns
normally: either it leaves the queue as it is, or it leaves a `crouch`, a
`jump` and a `land`. -/
theorem Cat.attack_execute_returns (ops : EntityOps K E) (env : Env K (Entity K E))
    (hcrouch : ∀ target,
      env.Returns ⟨⟨"crouch", Part.execute⟩, some Agent.cat, [.info target]⟩)
    (target : Ref) (s : Cat K (Entity K E))
    (hs : s.factory = Cat.register_actions ActionFactory.new) :
    ∃ t, Cat.attack_execute ops env target s = .ok () t ∧
      (t.queue = s.queue ∨ ∃ crouch jump land : Act K,
        t.queue = [some crouch, some jump, some land] ∧ crouch.label = "crouch" ∧
        jump.label = "jump" ∧ land.label = "land") := by
  by_cases hy : (s.observe.abs target).y > 30
  · have hg := @Cat.generate_explicit K _ (Entity K E) ("crouch", false) (by decide)
      (some [.info target]) none none (Cat.clear_future_actions s) hs
    simp only at hg
    have hcall : (Cat.bound_fn "crouch" Part.execute [Val.info target] :
        Fn Code Agent (Val K)).call none [] =
        ⟨⟨"crouch", Part.execute⟩, some Agent.cat, [.info target]⟩ := rfl
    obtain ⟨b, s1, h1, h1f, h1q⟩ := hcrouch target
      { Cat.clear_future_actions s with
        queue := Cat.set_first
          (Action.mk "crouch" (Cat.bound_fn "crouch" Part.execute [.info target])
            (some (Fn.bound (Fn.raw ⟨"crouch", Part.condition⟩) (some Agent.cat) [])) none)
          (Cat.clear_future_actions s).queue }
    have hf1 : s1.factory = Cat.register_actions ActionFactory.new := h1f.trans hs
    have h2 := Cat.enqueue_explicit ("jump", true) (by decide)
      (some [.info target, .str "low"]) (some [.bool true]) none s1 hf1
    have h3 := Cat.enqueue_explicit ("land", false) (by decide) none none none
      ({ s1 with queue := s1.queue ++ [some
        (Action.mk "jump" (Cat.bound_fn "jump" Part.execute [.info target, .str "low"])
          (some (Cat.bound_fn "jump" Part.condition [.bool true]))
          (some (Fn.bound (Fn.raw ⟨"jump", Part.update⟩) (some Agent.cat) [])))] } :
        Cat K (Entity K E)) hf1
    simp only at h2 h3
    refine ⟨?t, ?h, ?q⟩
    case h =>
      simp only [Cat.attack_execute, hy, if_true, Js.bind_apply, Cat.change_current_action,
        hg, Cat.invoke, hcall, h1, h2, h3]
      exact rfl
    case q =>
      refine Or.inr
        ⟨Action.mk "crouch" (Cat.bound_fn "crouch" Part.execute [.info target])
            (some (Fn.bound (Fn.raw ⟨"crouch", Part.condition⟩) (some Agent.cat) [])) none,
          Action.mk "jump" (Cat.bound_fn "jump" Part.execute [.info target, .str "low"])
            (some (Cat.bound_fn "jump" Part.condition [.bool true]))
            (some (Fn.bound (Fn.raw ⟨"jump", Part.update⟩) (some Agent.cat) [])),
          Action.mk "land" (Fn.bound (Fn.raw ⟨"land", Part.execute⟩) (some Agent.cat) [])
            (some (Fn.bound (Fn.raw ⟨"land", Part.condition⟩) (some Agent.cat) [])) none,
          ?_, rfl, rfl, rfl⟩
      simp only [h1q, Cat.clear_future_actions, Cat.set_first, List.cons_append,
        List.nil_append]
  · refine ⟨?t2, ?h2, ?q2⟩
    case h2 =>
      simp only [Cat.attack_execute, hy, if_false]
      exact rfl
    case q2 => exact Or.inl rfl

/-- On a cat holding the registered schemas the execute of `jump` returns
normally: either it leaves the queue as it is, or it leaves a `run`. -/
theorem Cat.jump_execute_returns (M : MathOps K) (ops : EntityOps K E)
    (env : Env K (Entity K E))
    (hrun : ∀ target, env.Returns ⟨⟨"run", Part.execute⟩, some Agent.cat, [.info target]⟩)
    (target : Ref) (flag : String) (s : Cat K (Entity K E))
    (hs : s.factory = Cat.register_actions ActionFactory.new) :
    ∃ t, Cat.jump_execute M ops env target flag s = .ok () t ∧
      (t.queue = s.queue ∨ ∃ run : Act K, t.queue = [some run] ∧ run.label = "run") := by
  cases hv : Cat.launch_velocity M ops (Cat.jump_target target s) flag
      (Cat.call ops (.set_repeat false) (Cat.call ops (.set_state ("jump-" ++
        (Cat.direction ops (Cat.jump_target target s) true s).facing)) s)) with
  | none =>
      have hg := @Cat.generate_explicit K _ (Entity K E) ("run", true) (by decide)
        (some [.info target]) (some [.info target, .num 6000, .num 30]) (some [.info target])
        (Cat.clear_future_actions (Cat.call ops (.set_repeat false)
          (Cat.call ops (.set_state ("jump-" ++
            (Cat.direction ops (Cat.jump_target target s) true s).facing)) s))) hs
      simp only at hg
      have hcall : (Cat.bound_fn "run" Part.execute [Val.info target] :
          Fn Code Agent (Val K)).call none [] =
          ⟨⟨"run", Part.execute⟩, some Agent.cat, [.info target]⟩ := rfl
      obtain ⟨b, s1, h1, -, h1q⟩ := hrun target
        { Cat.clear_future_actions (Cat.call ops (.set_repeat false)
            (Cat.call ops (.set_state ("jump-" ++
              (Cat.direction ops (Cat.jump_target target s) true s).facing)) s)) with
          queue := Cat.set_first
            (Action.mk "run" (Cat.bound_fn "run" Part.execute [.info target])
              (some (Cat.bound_fn "run" Part.condition [.info target, .num 6000, .num 30]))
              (some (Cat.bound_fn "run" Part.update [.info target])))
            (Cat.clear_future_actions (Cat.call ops (.set_repeat false)
              (Cat.call ops (.set_state ("jump-" ++
                (Cat.direction ops (Cat.jump_target target s) true s).facing)) s))).queue }
      refine ⟨?t, ?h, ?q⟩
      case h =>
        simp only [Cat.jump_execute]
        rw [hv]
        simp only [Cat.change_current_action, hg, Cat.invoke, hcall, h1]
        exact rfl
      case q =>
        refine Or.inr
          ⟨Action.mk "run" (Cat.bound_fn "run" Part.execute [.info target])
            (some (Cat.bound_fn "run" Part.condition [.info target, .num 6000, .num 30]))
            (some (Cat.bound_fn "run" Part.update [.info target])), ?_, rfl⟩
        simp only [h1q, Cat.clear_future_actions, Cat.set_first]
  | some velocity =>
      refine ⟨?t2, ?h2, ?q2⟩
      case h2 =>
        simp only [Cat.jump_execute]
        rw [hv]
        exact rfl
      case q2 => exact Or.inl rfl

/-- On a cat holding the registered schemas the condition of `jump` returns
normally: either it leaves the queue as it is, or it leaves the current action
and a `hang`. -/
theorem Cat.jump_condition_returns (ops : EntityOps K E) (bool : Bool)
    (s : Cat K (Entity K E)) (hs : s.factory = Cat.register_actions ActionFactory.new) :
    ∃ b t, Cat.jump_condition ops bool s = .ok b t ∧
      (t.queue = s.queue ∨ ∃ hang : Act K,
        t.queue = [s.queue.head?.join, some hang] ∧ hang.label = "hang") := by
  have henq := fun w (u : Cat K (Entity K E)) (hu : u.factory = _) =>
    @Cat.enqueue_explicit K (Entity K E) _ ("hang", false) (by decide) (some [.info w])
      (some [.num 6000, .num 1000, .num 150]) none u hu
  simp only [Cat.jump_condition]
  split_ifs
  all_goals first
    | exact ⟨_, _, rfl, Or.inl rfl⟩
    | (rw [henq]
       · exact ⟨_, _, rfl, Or.inr ⟨_, rfl, rfl⟩⟩
       · exact hs)

/-- C36: planning never leaves the runtime stuck. Let the cat hold the
registered schemas and its queue be empty, whatever its history, difficulty
and snapshot, and whatever `look()` makes of the snapshot. Then for every
chance draw `plan()` returns and leaves a queue that starts with an action,
every slot of it holding an action under a registered label; the `logic(dt)`
on that cat calls `look()`, `plan()` and the execute of the first action
planned. Every behaviour, on any cat holding the registered schemas, returns
and appends at least one action, all under registered labels. The executes of
`attack` and `jump` and the condition of `jump` return too (the executes of
`crouch` and `run` they call returning and leaving factory and queue alone),
and what they put into the queue is filed under `crouch`, `jump`, `land`,
`run` or `hang`, which are registered: no call of `generate` fails. -/
theorem Cat.plan_never_stuck (M : MathOps K) (ops : EntityOps K E) (env : Env K (Entity K E))
    (dt chance r : K) (c : Cat K (Entity K E))
    (hf : c.factory = Cat.register_actions ActionFactory.new) (hq : c.queue = [])
    (hcrouch : ∀ target,
      env.Returns ⟨⟨"crouch", Part.execute⟩, some Agent.cat, [.info target]⟩)
    (hrun : ∀ target, env.Returns ⟨⟨"run", Part.execute⟩, some Agent.cat, [.info target]⟩) :
    (∃ (first : Act K) (rest : List (Option (Act K))) (s : Cat K (Entity K E)),
      Cat.plan chance r c = .ok () s ∧ s.queue = some first :: rest ∧
      ∀ slot ∈ s.queue, ∃ a, slot = some a ∧ a.label ∈ Cat.registered_labels.map Prod.fst) ∧
    (∃ (first : Act K) (rest : List (Option (Act K))) (s : Cat K (Entity K E)),
      Cat.plan chance r (Cat.tick env dt c) = .ok () s ∧ s.queue = some first :: rest ∧
      (∀ slot ∈ s.queue, ∃ a, slot = some a ∧ a.label ∈ Cat.registered_labels.map Prod.fst) ∧
      (Cat.logic env dt chance r c).1 = [Ev.look, Ev.plan, Ev.execute first]) ∧
    (∀ (b : Behaviour) (r1 : K),
      Cat.Enqueues (Cat.do_behaviour r1 b : Js (Cat K (Entity K E)) Unit) 1) ∧
    (∀ (target : Ref) (s : Cat K (Entity K E)),
      s.factory = Cat.register_actions ActionFactory.new →
      ∃ t, Cat.attack_execute ops env target s = .ok () t ∧
        (t.queue = s.queue ∨ ∃ crouch jump land : Act K,
          t.queue = [some crouch, some jump, some land] ∧ crouch.label = "crouch" ∧
          jump.label = "jump" ∧ land.label = "land")) ∧
    (∀ (target : Ref) (flag : String) (s : Cat K (Entity K E)),
      s.factory = Cat.register_actions ActionFactory.new →
      ∃ t, Cat.jump_execute M ops env target flag s = .ok () t ∧
        (t.queue = s.queue ∨ ∃ run : Act K, t.queue = [some run] ∧ run.label = "run")) ∧
    (∀ (bool : Bool) (s : Cat K (Entity K E)),
      s.factory = Cat.register_actions ActionFactory.new →
      ∃ b t, Cat.jump_condition ops bool s = .ok b t ∧
        (t.queue = s.queue ∨ ∃ hang : Act K,
          t.queue = [s.queue.head?.join, some hang] ∧ hang.label = "hang")) ∧
    (∀ label ∈ ["crouch", "jump", "land", "run", "hang"],
      label ∈ Cat.registered_labels.map Prod.fst) := by
  have hplan : ∀ u : Cat K (Entity K E), u.factory = Cat.register_actions ActionFactory.new →
      u.queue = [] →
      ∃ (first : Act K) (more : List (Act K)),
        Cat.plan chance r u = .ok () { u with queue := (first :: more).map some } ∧
        ∀ slot ∈ (first :: more).map some,
          ∃ a, slot = some a ∧ a.label ∈ Cat.registered_labels.map Prod.fst := by
    intro u hu huq
    obtain ⟨acts, hlo, hl, hp⟩ := Cat.plan_enqueues chance r u hu
    cases acts with
    | nil => simp at hlo
    | cons first more =>
        refine ⟨first, more, ?_, ?_⟩
        · rw [hp, huq]
          rfl
        · intro slot hslot
          obtain ⟨a, ha, rfl⟩ := List.mem_map.1 hslot
          exact ⟨a, rfl, hl a ha⟩
  refine ⟨?_, ?_, fun b r1 => Cat.do_behaviour_enqueues r1 b,
    fun target s hs => Cat.attack_execute_returns ops env hcrouch target s hs,
    fun target flag s hs => Cat.jump_execute_returns M ops env hrun target flag s hs,
    fun bool s hs => Cat.jump_condition_returns ops bool s hs, by decide⟩
  · obtain ⟨first, more, hp, hl⟩ := hplan c hf hq
    exact ⟨first, more.map some, _, hp, rfl, hl⟩
  · obtain ⟨first, more, hp, hl⟩ := hplan (Cat.tick env dt c) hf hq
    have hcur : Cat.current_action (Cat.tick env dt c) = .null := by
      have htq : (Cat.tick env dt c).queue = [] := hq
      simp only [Cat.current_action, htq]
    refine ⟨first, more.map some, _, hp, rfl, hl, ?_⟩
    simp [Cat.logic, hcur, Cat.plan_execute, hp]

theorem Cat.plan_never_stuck_witness :
    Example.entityCat.queue = [] ∧
    (∃ (first : Act ℚ) (rest : List (Option (Act ℚ))) (s : Cat ℚ (Entity ℚ Unit)),
      Cat.plan 0 0 Example.entityCat = .ok () s ∧ s.queue = some first :: rest) ∧
    ∃ first : Act ℚ,
      (Cat.logic Example.entityEnv 16 0 0 Example.entityCat).1 =
        [Ev.look, Ev.plan, Ev.execute first] :=
  match Cat.plan_never_stuck Example.math Example.ops Example.entityEnv 16 0 0
    Example.entityCat rfl rfl (fun _ s => ⟨false, s, rfl, rfl, rfl⟩)
    (fun _ _ => ⟨false, _, rfl, rfl, rfl⟩) with
  | ⟨⟨first, rest, s, h1, h2, _⟩, ⟨first2, _, _, _, _, _, h3⟩, _⟩ =>
      ⟨rfl, ⟨first, rest, s, h1, h2⟩, first2, h3⟩

end Labels

end MinCat
